import Mathlib

/-!
# A 16-bit CPU emulator and its two-pass assembler

Shallow embedding of the assembler (`src/assembler/parserSrc.c`,
`src/assembler/assemblerSrc.c`) and of the emulator
(`src/emulator/emulatorSrc.c`, `src/emulator/memorySrc.c`).

Conventions of the embedding:

* a C string is the list of its characters (no NUL inside);
* `uint8_t`, `uint16_t`, `uint32_t` values are natural numbers, reduced
  modulo `2^8`, `2^16`, `2^32` where the C code truncates;
* a fixed array with a count field (`tokens`/`token_count`,
  `instructions`/`instruction_count`, `labels`/`label_count`) is the list of
  its used slots, the count being the length of the list;
* a function that writes through pointers returns the new values next to its
  return code;
* text printed on `stderr`/`stdout` is not modelled.
-/

namespace CPUEmu

/-! ## Constants of `parserHeader.h` -/

abbrev MAX_LINE_LENGTH : Nat := 256
abbrev MAX_TOKENS : Nat := 32
abbrev MAX_TOKEN_LENGTH : Nat := 64
abbrev MAX_LABELS : Nat := 256
abbrev MAX_INSTRUCTION_COUNT : Nat := 1024

abbrev PARSER_SUCCESS : Nat := 0
abbrev PARSER_ERROR_INVALID_INSTRUCTION : Nat := 1
abbrev PARSER_ERROR_INVALID_OPERAND : Nat := 2
abbrev PARSER_ERROR_INVALID_REGISTER : Nat := 3
abbrev PARSER_ERROR_INVALID_IMMEDIATE : Nat := 4
abbrev PARSER_ERROR_INVALID_MEM_ACCESS : Nat := 5
abbrev PARSER_ERROR_TOO_MANY_OPERANDS : Nat := 6
abbrev PARSER_ERROR_TOO_FEW_OPERANDS : Nat := 7
abbrev PARSER_ERROR_INVALID_FORMAT : Nat := 8
abbrev PARSER_ERROR_LABEL_ALREADY_DEF : Nat := 9
abbrev PARSER_ERROR_LABEL_NOT_FOUND : Nat := 10
abbrev PARSER_ERROR_FILE_NOT_FOUND : Nat := 11
abbrev PARSER_ERROR_LINE_TOO_LONG : Nat := 12
abbrev PARSER_ERROR_TOO_MANY_INSTR : Nat := 13
abbrev PARSER_ERROR_TOO_MANY_LABELS : Nat := 14

inductive TokenType where
  | TOKEN_NONE
  | TOKEN_LABEL
  | TOKEN_INSTRUCTION
  | TOKEN_REGISTER
  | TOKEN_IMMEDIATE
  | TOKEN_LBRACKET
  | TOKEN_RBRACKET
  | TOKEN_COMMA
  | TOKEN_IDENTIFIER
  | TOKEN_EOF
  deriving DecidableEq

open TokenType

abbrev OPC_NOP : Nat := 0x00
abbrev OPC_ADD : Nat := 0x01
abbrev OPC_SUB : Nat := 0x02
abbrev OPC_MUL : Nat := 0x03
abbrev OPC_DIV : Nat := 0x04
abbrev OPC_CMPGE : Nat := 0x05
abbrev OPC_RSHFT : Nat := 0x06
abbrev OPC_LSHFT : Nat := 0x07
abbrev OPC_AND : Nat := 0x08
abbrev OPC_OR : Nat := 0x09
abbrev OPC_XOR : Nat := 0x0A
abbrev OPC_LD : Nat := 0x0B
abbrev OPC_SET_CONST : Nat := 0x0C
abbrev OPC_ST : Nat := 0x0D
abbrev OPC_BNZ : Nat := 0x0E
abbrev OPC_READY : Nat := 0x0F

abbrev FORMAT_F1 : Nat := 0
abbrev FORMAT_F2 : Nat := 1
abbrev FORMAT_F3 : Nat := 2
abbrev FORMAT_F4 : Nat := 3

structure Token where
  type : TokenType
  value : List Char
  line_number : Nat
  position : Nat
  deriving DecidableEq

structure Label where
  name : List Char
  address : Nat
  deriving DecidableEq

structure TokenizationResult where
  tokens : List Token
  deriving DecidableEq

/-- The `token_count` field: the number of used slots of `tokens`. -/
def TokenizationResult.token_count (r : TokenizationResult) : Nat := r.tokens.length

/-- A slot of the zero-initialised `tokens` array that was never written. -/
def Token.zero : Token := ⟨TOKEN_NONE, [], 0, 0⟩

/-- The array read `tokens->tokens[i]`. -/
def TokenizationResult.at (r : TokenizationResult) (i : Nat) : Token :=
  r.tokens.getD i Token.zero

structure Operand where
  reg_num : Nat
  immediate : Nat
  label : List Char
  is_memory_access : Bool
  is_reg_valid : Bool
  is_immediate_valid : Bool
  is_label_valid : Bool
  deriving DecidableEq

/-- The operand after `memset(operand, 0, sizeof(Operand))`. -/
def Operand.zero : Operand := ⟨0, 0, [], false, false, false, false⟩

structure Instruction where
  opcode : Nat
  format : Nat
  operands : List Operand
  address : Nat
  machine_code : Nat
  operand_count : Nat
  deriving DecidableEq

/-- The array read `instruction->operands[i]` (unused slots are zero). -/
def Instruction.operand (instr : Instruction) (i : Nat) : Operand :=
  instr.operands.getD i Operand.zero

structure ParseResult where
  instructions : List Instruction
  labels : List Label
  deriving DecidableEq

def ParseResult.instruction_count (r : ParseResult) : Nat := r.instructions.length

def ParseResult.label_count (r : ParseResult) : Nat := r.labels.length

/-- The result after `ParseResult result = {0}`. -/
def ParseResult.zero : ParseResult := ⟨[], []⟩

/-! ## C library functions used by the parser -/

def isdigit (c : Char) : Bool := decide ('0' ≤ c) && decide (c ≤ '9')

def isalnum (c : Char) : Bool :=
  isdigit c || (decide ('a' ≤ c) && decide (c ≤ 'z')) || (decide ('A' ≤ c) && decide (c ≤ 'Z'))

def isspace (c : Char) : Bool :=
  c == ' ' || c == '\x0c' || c == '\n' || c == '\r' || c == '\t' || c == '\x0b'

/-- Value of a character read as a digit by `strtol` (letters count from 10). -/
def digit_value (c : Char) : Option Nat :=
  if isdigit c then some (c.toNat - 48)
  else if decide ('a' ≤ c) && decide (c ≤ 'z') then some (c.toNat - 87)
  else if decide ('A' ≤ c) && decide (c ≤ 'Z') then some (c.toNat - 55)
  else none

def is_base_digit (base : Nat) (c : Char) : Bool :=
  match digit_value c with
  | some d => decide (d < base)
  | none => false

/-- The digit loop of `strtol`: the accumulated value and the unread rest. -/
def strtol_digits (base : Nat) : List Char → Nat → Nat × List Char
  | [], acc => (acc, [])
  | c :: cs, acc =>
    match digit_value c with
    | some d => if d < base then strtol_digits base cs (acc * base + d) else (acc, c :: cs)
    | none => (acc, c :: cs)

abbrev LONG_MAX : Int := 9223372036854775807
abbrev LONG_MIN : Int := -9223372036854775808

/-- The C library `strtol(nptr, &endptr, base)` for base 10 or 16 with a
64-bit `long`: white space, an optional sign, for base 16 an optional `0x`
before a hexadecimal digit, then the digits. Returns the value (clamped to
the range of `long`) and the text `endptr` points to; without any digit the
value is 0 and `endptr` is `nptr`. -/
def strtol (nptr : List Char) (base : Nat) : Int × List Char :=
  let s1 := nptr.dropWhile isspace
  let signed : Bool × List Char :=
    match s1 with
    | '-' :: r => (true, r)
    | '+' :: r => (false, r)
    | _ => (false, s1)
  let s2 := signed.2
  let s3 :=
    if base = 16 then
      match s2 with
      | z :: x :: h :: r =>
        if z = '0' ∧ (x = 'x' ∨ x = 'X') ∧ is_base_digit 16 h = true then h :: r else s2
      | _ => s2
    else s2
  match s3 with
  | [] => (0, nptr)
  | c :: _ =>
    if is_base_digit base c then
      let r := strtol_digits base s3 0
      let v : Int := if signed.1 then -(r.1 : Int) else (r.1 : Int)
      (max LONG_MIN (min LONG_MAX v), r.2)
    else (0, nptr)

/-! ## Lexer: `tokenize_line` -/

def is_space_or_tab (c : Char) : Bool := c == ' ' || c == '\t'

def is_punctuation (c : Char) : Bool := c == '[' || c == ']' || c == ','

/-- The loop that fills `processed_buffer`: `prev` is `buffer[i-1]` (absent
at `i = 0`), the list is `buffer` from index `i` on. -/
def separate_punctuation : Option Char → List Char → List Char
  | _, [] => []
  | prev, c :: rest =>
    if is_punctuation c then
      (match prev with
        | some p => if !is_space_or_tab p then [' '] else []
        | none => [])
      ++ [c]
      ++ (match rest with
        | n :: _ => if !is_space_or_tab n then [' '] else []
        | [] => [])
      ++ separate_punctuation (some c) rest
    else c :: separate_punctuation (some c) rest

def is_delimiter (c : Char) : Bool := " \t\n\r".toList.contains c

/-- The successive results of `strtok(_, " \t\n\r")`: the maximal runs of
characters that are not delimiters. `cur` is the run being read, reversed. -/
def strtok_all : List Char → List Char → List (List Char)
  | [], cur => if cur.isEmpty then [] else [cur.reverse]
  | c :: cs, cur =>
    if is_delimiter c then
      (if cur.isEmpty then strtok_all cs [] else cur.reverse :: strtok_all cs [])
    else strtok_all cs (c :: cur)

def mnemonics : List (List Char × Nat) :=
  [("nop".toList, OPC_NOP), ("add".toList, OPC_ADD), ("sub".toList, OPC_SUB),
   ("mul".toList, OPC_MUL), ("div".toList, OPC_DIV), ("cmpge".toList, OPC_CMPGE),
   ("rshft".toList, OPC_RSHFT), ("lshft".toList, OPC_LSHFT), ("and".toList, OPC_AND),
   ("or".toList, OPC_OR), ("xor".toList, OPC_XOR), ("ld".toList, OPC_LD),
   ("set_const".toList, OPC_SET_CONST), ("st".toList, OPC_ST), ("bnz".toList, OPC_BNZ),
   ("ready".toList, OPC_READY)]

/-- The chain of `strcmp` tests; `0xFF` for an unknown mnemonic. -/
def get_opcode_from_mnemonic (mnemonic : List Char) : Nat :=
  match mnemonics.find? (fun p => p.1 == mnemonic) with
  | some p => p.2
  | none => 0xFF

def get_format_from_opcode (opcode : Nat) : Nat :=
  if opcode ≤ OPC_LD then FORMAT_F1
  else if opcode = OPC_SET_CONST then FORMAT_F2
  else if opcode = OPC_ST then FORMAT_F3
  else if opcode = OPC_BNZ ∨ opcode = OPC_READY then FORMAT_F4
  else 0xFF

/-- The classification of one lexeme in the loop of `tokenize_line`: the
token type and the text left in `token_str` (a label loses its colon). -/
def classify_token (token_str : List Char) : TokenType × List Char :=
  if token_str.getLast? = some ':' then (TOKEN_LABEL, token_str.dropLast)
  else if token_str.head? = some 'R' ∧ isdigit (token_str.getD 1 '\x00') = true then
    (if (token_str.drop 1).all isdigit then (TOKEN_REGISTER, token_str)
     else (TOKEN_IDENTIFIER, token_str))
  else if isdigit (token_str.getD 0 '\x00') = true
      ∨ (token_str.head? = some '-' ∧ isdigit (token_str.getD 1 '\x00') = true)
      ∨ (token_str.head? = some '0' ∧ token_str.getD 1 '\x00' = 'x') then
    (TOKEN_IMMEDIATE, token_str)
  else if get_opcode_from_mnemonic token_str ≠ 0xFF then (TOKEN_INSTRUCTION, token_str)
  else if token_str.length = 1 then
    (if token_str = ['['] then (TOKEN_LBRACKET, token_str)
     else if token_str = [']'] then (TOKEN_RBRACKET, token_str)
     else if token_str = [','] then (TOKEN_COMMA, token_str)
     else (TOKEN_IDENTIFIER, token_str))
  else (TOKEN_IDENTIFIER, token_str)

/-- The token loop of `tokenize_line` over the lexemes still to come:
`room` is `MAX_TOKENS - token_count`. -/
def make_tokens (line_number : Nat) : List (List Char) → Nat → Nat → List Token
  | [], _, _ => []
  | _ :: _, 0, _ => []
  | token_str :: rest, room + 1, position =>
    let c := classify_token token_str
    ⟨c.1, c.2.take (MAX_TOKEN_LENGTH - 1), line_number, position⟩
      :: make_tokens line_number rest room (position + token_str.length + 1)

def tokenize_line (line : List Char) (line_number : Nat) : TokenizationResult :=
  let buffer := line.take (MAX_LINE_LENGTH - 1)
  let buffer := buffer.takeWhile (fun c => c != ';')
  let processed_buffer := separate_punctuation none buffer
  ⟨make_tokens line_number (strtok_all processed_buffer []) MAX_TOKENS 0⟩

/-! ## Parser: operands -/

def parse_register (token : Token) (operand : Operand) : Nat × Operand :=
  if token.type ≠ TOKEN_REGISTER then (PARSER_ERROR_INVALID_REGISTER, operand)
  else if token.value.head? ≠ some 'R' ∨ token.value.length < 2 then
    (PARSER_ERROR_INVALID_REGISTER, operand)
  else
    let r := strtol (token.value.drop 1) 10
    let reg_num := r.1
    let endptr := r.2
    if endptr ≠ [] ∨ reg_num < 0 ∨ reg_num > 15 then (PARSER_ERROR_INVALID_REGISTER, operand)
    else (PARSER_SUCCESS, { operand with reg_num := reg_num.toNat, is_reg_valid := true })

def parse_immediate (token : Token) (operand : Operand) : Nat × Operand :=
  if token.type ≠ TOKEN_IMMEDIATE ∧ token.type ≠ TOKEN_IDENTIFIER then
    (PARSER_ERROR_INVALID_IMMEDIATE, operand)
  else if token.type = TOKEN_IMMEDIATE then
    let r :=
      if token.value.take 2 = ['0', 'x'] then strtol (token.value.drop 2) 16
      else strtol token.value 10
    let value := r.1
    let endptr := r.2
    if endptr ≠ [] then (PARSER_ERROR_INVALID_IMMEDIATE, operand)
    else if value < -32768 ∨ value > 65535 then (PARSER_ERROR_INVALID_IMMEDIATE, operand)
    else (PARSER_SUCCESS,
      { operand with immediate := (value % 65536).toNat, is_immediate_valid := true })
  else
    (PARSER_SUCCESS,
      { operand with label := token.value.take (MAX_TOKEN_LENGTH - 1), is_label_valid := true })

/-- Index of the first token of type `ty` among the indices `lo ≤ i < hi`
(the search loops of `parse_memory_access`). -/
def find_token (tokens : TokenizationResult) (ty : TokenType) (lo hi : Nat) : Option Nat :=
  (List.range' lo (hi - lo)).find? (fun i => decide ((tokens.at i).type = ty))

/-- The common tail of `parse_memory_access`: both registers are parsed into
fresh operands and copied into `operand`; the cursor goes to `next_idx`. -/
def memory_access_registers (tokens : TokenizationResult) (reg1_idx reg2_idx next_idx : Nat)
    (token_idx : Nat) (operand : Operand) : Nat × Nat × Operand :=
  let r1 := parse_register (tokens.at reg1_idx) Operand.zero
  if r1.1 ≠ PARSER_SUCCESS then (r1.1, token_idx, operand)
  else
    let r2 := parse_register (tokens.at reg2_idx) Operand.zero
    if r2.1 ≠ PARSER_SUCCESS then (r2.1, token_idx, operand)
    else
      (PARSER_SUCCESS, next_idx,
        { operand with
          reg_num := r1.2.reg_num, immediate := r2.2.reg_num, is_reg_valid := true,
          is_immediate_valid := true, is_memory_access := true })

/-- Returns the code, the new `*token_idx` and the new `*operand`. -/
def parse_memory_access (tokens : TokenizationResult) (token_idx : Nat) (operand : Operand) :
    Nat × Nat × Operand :=
  let ty := fun i => (tokens.at i).type
  if token_idx + 4 < tokens.token_count ∧ ty token_idx = TOKEN_LBRACKET
      ∧ ty (token_idx + 1) = TOKEN_REGISTER ∧ ty (token_idx + 2) = TOKEN_COMMA
      ∧ ty (token_idx + 3) = TOKEN_REGISTER ∧ ty (token_idx + 4) = TOKEN_RBRACKET then
    memory_access_registers tokens (token_idx + 1) (token_idx + 3) (token_idx + 4 + 1)
      token_idx operand
  else if token_idx + 3 < tokens.token_count ∧ ty token_idx = TOKEN_LBRACKET
      ∧ ty (token_idx + 1) = TOKEN_REGISTER ∧ ty (token_idx + 2) = TOKEN_REGISTER
      ∧ ty (token_idx + 3) = TOKEN_RBRACKET then
    memory_access_registers tokens (token_idx + 1) (token_idx + 2) (token_idx + 3 + 1)
      token_idx operand
  else if token_idx < tokens.token_count ∧ ty token_idx = TOKEN_LBRACKET then
    match find_token tokens TOKEN_RBRACKET (token_idx + 1) tokens.token_count with
    | none => (PARSER_ERROR_INVALID_MEM_ACCESS, token_idx, operand)
    | some rbracket_idx =>
      match find_token tokens TOKEN_REGISTER (token_idx + 1) rbracket_idx with
      | none => (PARSER_ERROR_INVALID_MEM_ACCESS, token_idx, operand)
      | some reg1_idx =>
        match find_token tokens TOKEN_REGISTER (reg1_idx + 1) rbracket_idx with
        | none => (PARSER_ERROR_INVALID_MEM_ACCESS, token_idx, operand)
        | some reg2_idx =>
          memory_access_registers tokens reg1_idx reg2_idx (rbracket_idx + 1) token_idx operand
  else (PARSER_ERROR_INVALID_MEM_ACCESS, token_idx, operand)

/-- Returns the code, the new `*token_idx` and the new `*operand`. -/
def parse_operand (tokens : TokenizationResult) (token_idx : Nat) (operand : Operand) :
    Nat × Nat × Operand :=
  if token_idx ≥ tokens.token_count then (PARSER_ERROR_INVALID_OPERAND, token_idx, operand)
  else
    let operand := Operand.zero
    if (tokens.at token_idx).type = TOKEN_LBRACKET then
      let m := parse_memory_access tokens token_idx operand
      if m.1 = PARSER_SUCCESS then m
      else if m.1 ≠ PARSER_ERROR_INVALID_MEM_ACCESS then (m.1, m.2.1, m.2.2)
      else (PARSER_ERROR_INVALID_OPERAND, m.2.1, m.2.2)
    else
      let r := parse_register (tokens.at token_idx) operand
      if r.1 = PARSER_SUCCESS then (PARSER_SUCCESS, token_idx + 1, r.2)
      else if (tokens.at token_idx).type = TOKEN_REGISTER then
        (PARSER_ERROR_INVALID_REGISTER, token_idx, r.2)
      else
        let im := parse_immediate (tokens.at token_idx) r.2
        if im.1 = PARSER_SUCCESS then
          if im.2.is_label_valid = true ∧ im.2.label.head? = some 'R' ∧ im.2.label.length ≠ 1 then
            (PARSER_ERROR_INVALID_REGISTER, token_idx, im.2)
          else if im.2.is_label_valid = true
              ∧ ¬ (im.2.label.all (fun c => isalnum c || c == '_') = true) then
            (PARSER_ERROR_INVALID_OPERAND, token_idx, im.2)
          else (PARSER_SUCCESS, token_idx + 1, im.2)
        else (PARSER_ERROR_INVALID_IMMEDIATE, token_idx, im.2)

/-! ## Parser: instructions -/

/-- The macro `PRINT_ERROR_IF(error_code, ...)`: its first argument is
evaluated as an `int` and, when not `PARSER_SUCCESS`, returned. The two
callers pass a comparison, whose value is 1 when it holds. -/
def PRINT_ERROR_IF (condition : Bool) : Nat := if condition then 1 else 0

def max_operands_of (opcode format : Nat) : Nat :=
  if opcode = OPC_NOP ∨ opcode = OPC_READY then 0
  else if format = FORMAT_F1 then 3
  else if format = FORMAT_F2 then 2
  else if format = FORMAT_F3 then 3
  else if format = FORMAT_F4 then 2
  else 0

/-- Stores `operand` in `instr->operands[i]`; `i` is never above the number
of slots written so far. -/
def set_operand (instr : Instruction) (i : Nat) (operand : Operand) : Instruction :=
  { instr with operands := instr.operands.take i ++ [operand] }

/-- The operand loop of `parse_instruction`, from index `i` on with `todo`
iterations left. Returns the code, `*token_idx` and the instruction. -/
def parse_operands (tokens : TokenizationResult) (opcode format max_operands : Nat) :
    Nat → Nat → Nat → Instruction → Nat × Nat × Instruction
  | 0, _, token_idx, instr => (PARSER_SUCCESS, token_idx, instr)
  | todo + 1, i, token_idx, instr =>
    let step : Nat × Nat × Instruction :=
      if format = FORMAT_F2 ∧ i = 0 then
        let immediate_token := tokens.at token_idx
        let instr := set_operand instr i Operand.zero
        if immediate_token.type ≠ TOKEN_IMMEDIATE ∧ immediate_token.type ≠ TOKEN_IDENTIFIER then
          (PARSER_ERROR_INVALID_IMMEDIATE, token_idx, instr)
        else
          let im := parse_immediate immediate_token (instr.operand i)
          let instr := set_operand instr i im.2
          if im.1 = PARSER_SUCCESS then
            let token_idx := token_idx + 1
            if token_idx < tokens.token_count ∧ (tokens.at token_idx).type = TOKEN_COMMA then
              (im.1, token_idx + 1, instr)
            else (im.1, token_idx, instr)
          else (im.1, token_idx, instr)
      else
        let p := parse_operand tokens token_idx (instr.operand i)
        let instr := set_operand instr i p.2.2
        if p.1 = PARSER_SUCCESS ∧ i < max_operands - 1 then
          if p.2.1 < tokens.token_count ∧ (tokens.at p.2.1).type = TOKEN_COMMA then
            (p.1, p.2.1 + 1, instr)
          else (p.1, p.2.1, instr)
        else (p.1, p.2.1, instr)
    if step.1 ≠ PARSER_SUCCESS then
      if i = 0 ∧ (opcode = OPC_NOP ∨ opcode = OPC_READY) then
        (PARSER_SUCCESS, step.2.1, step.2.2)
      else (step.1, step.2.1, step.2.2)
    else
      parse_operands tokens opcode format max_operands todo (i + 1) step.2.1
        { step.2.2 with operand_count := step.2.2.operand_count + 1 }

/-- Returns the code, the new `*result` and the new `*token_idx`. The slot
`result->instructions[instruction_count]` is fresh (all zero) when the
function is entered, and is part of the result only once the count is
incremented. -/
def parse_instruction (result : ParseResult) (tokens : TokenizationResult) (token_idx : Nat)
    (current_address : Nat) : Nat × ParseResult × Nat :=
  if token_idx ≥ tokens.token_count then (PARSER_ERROR_INVALID_INSTRUCTION, result, token_idx)
  else if PRINT_ERROR_IF (decide (result.instruction_count ≥ MAX_INSTRUCTION_COUNT))
      ≠ PARSER_SUCCESS then
    (PRINT_ERROR_IF (decide (result.instruction_count ≥ MAX_INSTRUCTION_COUNT)), result, token_idx)
  else
    let token := tokens.at token_idx
    if token.type ≠ TOKEN_INSTRUCTION then (PARSER_ERROR_INVALID_INSTRUCTION, result, token_idx)
    else
      let opcode := get_opcode_from_mnemonic token.value
      if opcode = 0xFF then (PARSER_ERROR_INVALID_INSTRUCTION, result, token_idx)
      else
        let format := get_format_from_opcode opcode
        if format = 0xFF then (PARSER_ERROR_INVALID_FORMAT, result, token_idx)
        else
          let instr : Instruction :=
            { opcode := opcode, format := format, operands := [], address := current_address,
              machine_code := 0, operand_count := 0 }
          let max_operands := max_operands_of opcode format
          let r := parse_operands tokens opcode format max_operands max_operands 0
            (token_idx + 1) instr
          if r.1 ≠ PARSER_SUCCESS then (r.1, result, r.2.1)
          else (PARSER_SUCCESS, { result with instructions := result.instructions ++ [r.2.2] },
            r.2.1)

/-! ## Labels -/

def add_label (result : ParseResult) (name : List Char) (address : Nat) : Nat × ParseResult :=
  if PRINT_ERROR_IF (decide (result.label_count ≥ MAX_LABELS)) ≠ PARSER_SUCCESS then
    (PRINT_ERROR_IF (decide (result.label_count ≥ MAX_LABELS)), result)
  else if result.labels.any (fun l => l.name == name) then
    (PARSER_ERROR_LABEL_ALREADY_DEF, result)
  else
    (PARSER_SUCCESS,
      { result with
        labels := result.labels ++ [⟨name.take (MAX_TOKEN_LENGTH - 1), address % 65536⟩] })

def get_label_address (result : ParseResult) (name : List Char) : Nat :=
  match result.labels.find? (fun l => l.name == name) with
  | some l => l.address
  | none => 0xFFFF

/-! ## The two passes of `parse_file`

The source file is the list of the strings that the successive calls of
`fgets(line, MAX_LINE_LENGTH, file)` return, one per line of the file. -/

/-- The label scan of pass 1 over the tokens of one line, from `token_idx`
on. Returns the code, the result and `current_address`. -/
def collect_labels : List Token → ParseResult → Nat → Nat × ParseResult × Nat
  | [], result, current_address => (PARSER_SUCCESS, result, current_address)
  | token :: rest, result, current_address =>
    if token.type = TOKEN_LABEL then
      let a := add_label result token.value current_address
      if a.1 ≠ PARSER_SUCCESS then (a.1, a.2, current_address)
      else collect_labels rest a.2 current_address
    else if token.type = TOKEN_INSTRUCTION then
      (PARSER_SUCCESS, result, (current_address + 4) % 65536)
    else collect_labels rest result current_address

/-- Pass 1 over the lines still to read; `line_number` counts the lines
read so far. Returns the code of the diagnostic (0 when none), the result
and `current_address`. -/
def first_pass : List (List Char) → Nat → ParseResult → Nat → Nat × ParseResult × Nat
  | [], _, result, current_address => (PARSER_SUCCESS, result, current_address)
  | line :: rest, line_number, result, current_address =>
    if line.length ≥ MAX_LINE_LENGTH - 1 then
      (PARSER_ERROR_LINE_TOO_LONG, result, current_address)
    else
      let tokens := tokenize_line line (line_number + 1)
      if tokens.token_count = 0 then first_pass rest (line_number + 1) result current_address
      else
        let c := collect_labels tokens.tokens result current_address
        if c.1 ≠ PARSER_SUCCESS then c
        else first_pass rest (line_number + 1) c.2.1 c.2.2

/-- Pass 2 over the lines still to read. -/
def second_pass : List (List Char) → Nat → ParseResult → Nat → Nat × ParseResult
  | [], _, result, _ => (PARSER_SUCCESS, result)
  | line :: rest, line_number, result, current_address =>
    let tokens := tokenize_line line (line_number + 1)
    if tokens.token_count = 0 then second_pass rest (line_number + 1) result current_address
    else
      let token_idx := (tokens.tokens.takeWhile (fun t => decide (t.type = TOKEN_LABEL))).length
      if token_idx < tokens.token_count ∧ (tokens.at token_idx).type = TOKEN_INSTRUCTION then
        let p := parse_instruction result tokens token_idx current_address
        if p.1 ≠ PARSER_SUCCESS then (p.1, p.2.1)
        else second_pass rest (line_number + 1) p.2.1 ((current_address + 4) % 65536)
      else second_pass rest (line_number + 1) result current_address

/-! ## Encoder -/

def generate_machine_code (instruction : Instruction) (parse_result : ParseResult) : Nat :=
  let machine_code := (instruction.opcode <<< 24) % 4294967296
  if instruction.format = FORMAT_F1 ∨ instruction.format = FORMAT_F3 then
    if instruction.operand_count ≥ 3 then
      machine_code ||| ((instruction.operand 0).reg_num <<< 16)
        ||| ((instruction.operand 1).reg_num <<< 8) ||| (instruction.operand 2).reg_num
    else machine_code
  else if instruction.format = FORMAT_F2 then
    if instruction.operand_count ≥ 2 then
      let constant := (instruction.operand 0).immediate
      machine_code ||| ((constant >>> 8) <<< 16) ||| ((constant &&& 0xFF) <<< 8)
        ||| (instruction.operand 1).reg_num
    else machine_code
  else if instruction.format = FORMAT_F4 then
    if instruction.operand_count ≥ 2 then
      let target :=
        if (instruction.operand 0).is_label_valid then
          get_label_address parse_result (instruction.operand 0).label
        else (instruction.operand 0).immediate
      machine_code ||| ((instruction.operand 1).reg_num <<< 16) ||| ((target >>> 8) <<< 8)
        ||| (target &&& 0xFF)
    else machine_code
  else 0

def generate_machine_code_for_all (result : ParseResult) : ParseResult :=
  { result with
    instructions :=
      result.instructions.map
        (fun i => { i with machine_code := generate_machine_code i result }) }

/-- Returns the code of the diagnostic that `parse_file` prints (0 when
none) next to the `ParseResult` it returns. -/
def parse_file_diag (file : List (List Char)) : Nat × ParseResult :=
  let p1 := first_pass file 0 ParseResult.zero 0
  if p1.1 ≠ PARSER_SUCCESS then (p1.1, p1.2.1)
  else
    let p2 := second_pass file 0 p1.2.1 0
    if p2.1 ≠ PARSER_SUCCESS then p2
    else (PARSER_SUCCESS, generate_machine_code_for_all p2.2)

def parse_file (file : List (List Char)) : ParseResult := (parse_file_diag file).2

/-! ## `assemble_file` -/

abbrev ASSEMBLER_SUCCESS : Nat := 0
abbrev ASSEMBLER_ERROR_INVALID_INPUT : Nat := 1
abbrev ASSEMBLER_ERROR_INVALID_OUTPUT : Nat := 2
abbrev ASSEMBLER_ERROR_PARSER_FAILED : Nat := 3
abbrev ASSEMBLER_ERROR_WRITING_FAILED : Nat := 4

/-- The four bytes written for one machine word, in the order written. -/
def word_bytes (machine_code : Nat) : List Nat :=
  [(machine_code >>> 24) &&& 0xFF, (machine_code >>> 16) &&& 0xFF,
   (machine_code >>> 8) &&& 0xFF, machine_code &&& 0xFF]

/-- Returns the code and the content of the output file, `none` when the
output file is never opened. Both file names are present, the input file
exists, and opening and writing the output file succeed. -/
def assemble_file (input_file : List (List Char)) : Nat × Option (List Nat) :=
  let parse_result := parse_file input_file
  if parse_result.instruction_count ≤ 0 then (ASSEMBLER_ERROR_PARSER_FAILED, none)
  else
    let parse_result := generate_machine_code_for_all parse_result
    (ASSEMBLER_SUCCESS,
      some ((parse_result.instructions.map (fun i => word_bytes i.machine_code)).flatten))

/-! ## Memory (`memorySrc.c`) -/

abbrev MEMORY_SUCCESS : Nat := 0
abbrev MEMORY_INVALID_ADDRESS : Nat := 1
abbrev MEMORY_OUT_OF_BOUNDS : Nat := 2
abbrev MEMORY_ALLOCATION_ERROR : Nat := 3
abbrev MEMORY_NOT_INITIALIZED : Nat := 4

abbrev DEFAULT_INSTRUCTION_MEMORY_SIZE : Nat := 1024
abbrev DEFAULT_DATA_MEMORY_SIZE : Nat := 4096

structure Memory where
  instruction_memory : List Nat
  instruction_size : Nat
  data_memory : List Nat
  data_size : Nat
  initialized : Bool
  deriving DecidableEq

/-- The memory after a successful `memory_init`. -/
def memory_init (instruction_size data_size : Nat) : Memory :=
  { instruction_memory := List.replicate instruction_size 0,
    instruction_size := instruction_size,
    data_memory := List.replicate data_size 0,
    data_size := data_size,
    initialized := true }

def memory_init_default : Memory :=
  memory_init DEFAULT_INSTRUCTION_MEMORY_SIZE DEFAULT_DATA_MEMORY_SIZE

def check_memory_initialized (memory : Memory) : Nat :=
  if !memory.initialized then MEMORY_NOT_INITIALIZED else MEMORY_SUCCESS

/-- Returns the code and `*value` (meaningful when the code is
`MEMORY_SUCCESS`). -/
def memory_read_word (memory : Memory) (address : Nat) : Nat × Nat :=
  if check_memory_initialized memory ≠ MEMORY_SUCCESS then (check_memory_initialized memory, 0)
  else if address + 1 ≥ memory.data_size then (MEMORY_OUT_OF_BOUNDS, 0)
  else
    let low_byte := memory.data_memory.getD address 0
    let high_byte := memory.data_memory.getD (address + 1) 0
    (MEMORY_SUCCESS, ((high_byte <<< 8) ||| low_byte) % 65536)

def memory_write_word (memory : Memory) (address : Nat) (value : Nat) : Nat × Memory :=
  if check_memory_initialized memory ≠ MEMORY_SUCCESS then
    (check_memory_initialized memory, memory)
  else if address + 1 ≥ memory.data_size then (MEMORY_OUT_OF_BOUNDS, memory)
  else
    let low_byte := value &&& 0xFF
    let high_byte := (value >>> 8) &&& 0xFF
    (MEMORY_SUCCESS,
      { memory with
        data_memory := (memory.data_memory.set address low_byte).set (address + 1) high_byte })

/-- Returns the code and `*instruction`; `address` is a word index. -/
def memory_read_instruction (memory : Memory) (address : Nat) : Nat × Nat :=
  if check_memory_initialized memory ≠ MEMORY_SUCCESS then (check_memory_initialized memory, 0)
  else
    let byte_address := (address * 4) % 65536
    if byte_address + 3 ≥ memory.instruction_size then (MEMORY_OUT_OF_BOUNDS, 0)
    else
      let byte0 := memory.instruction_memory.getD byte_address 0
      let byte1 := memory.instruction_memory.getD (byte_address + 1) 0
      let byte2 := memory.instruction_memory.getD (byte_address + 2) 0
      let byte3 := memory.instruction_memory.getD (byte_address + 3) 0
      (MEMORY_SUCCESS, (byte0 <<< 24) ||| (byte1 <<< 16) ||| (byte2 <<< 8) ||| byte3)

/-- The program file is the list of its bytes, which `fopen` and `fread`
deliver whole. -/
def memory_load_program (memory : Memory) (file : List Nat) : Nat × Memory :=
  if check_memory_initialized memory ≠ MEMORY_SUCCESS then
    (check_memory_initialized memory, memory)
  else if file.length > memory.instruction_size then (MEMORY_OUT_OF_BOUNDS, memory)
  else
    (MEMORY_SUCCESS,
      { memory with
        instruction_memory := file ++ memory.instruction_memory.drop file.length })

/-! ## Emulator (`emulatorSrc.c`) -/

abbrev NUM_REGISTERS : Nat := 16
abbrev INSTRUCTION_SIZE : Nat := 4

abbrev EMULATOR_SUCCESS : Nat := 0
abbrev EMULATOR_INVALID_INSTRUCTION : Nat := 1
abbrev EMULATOR_MEMORY_ERROR : Nat := 2
abbrev EMULATOR_DIVISION_BY_ZERO : Nat := 3
abbrev EMULATOR_INVALID_REGISTER : Nat := 4
abbrev EMULATOR_HALT : Nat := 5

/-- The CPU; `output_stream` and `debug_mode` only steer what is printed. -/
structure CPU where
  IP : Nat
  RF : List Nat
  memory : Memory
  running : Bool
  deriving DecidableEq

/-- The CPU after a successful `emulator_init`. -/
def emulator_init : CPU :=
  { IP := 0, RF := List.replicate NUM_REGISTERS 0, memory := memory_init_default,
    running := false }

/-- The operands of `>>` and `<<` are promoted to a 32-bit `int`, and C
leaves undefined a shift by 32 or more and a left shift whose result does
not fit an `int`: what the compiled emulator yields in these cases (as a
function of the value and the count) is a parameter of the embedding. A store
`cpu->RF[i] = value` with `i` of 16 or more is undefined as well: LD and
SET_CONST do not check `i`, and the store goes to the bytes that follow the
register file. The struct declares `IP` and `RF` first, then `memory` and
`running`; what these two fields hold after such a store (as a function of
the CPU, the index and the value) is the third parameter. -/
structure Host where
  shift_right_wide : Nat → Nat → Nat
  shift_left_wide : Nat → Nat → Nat
  store_past_registers : CPU → Nat → Nat → Memory × Bool

/-- The value of `x >> n` stored into a `uint16_t`. -/
def shift_right (host : Host) (x n : Nat) : Nat :=
  if n < 32 then (x >>> n) % 65536 else host.shift_right_wide x n % 65536

/-- The value of `x << n` stored into a `uint16_t`. -/
def shift_left (host : Host) (x n : Nat) : Nat :=
  if n < 32 ∧ x <<< n < 2147483648 then (x <<< n) % 65536
  else host.shift_left_wide x n % 65536

/-- The array read `cpu->RF[i]`. -/
def CPU.reg (cpu : CPU) (i : Nat) : Nat := cpu.RF.getD i 0

/-- The array write `cpu->RF[i] = value` of a `uint16_t`. LD and SET_CONST
do not check `i`: a write past the 16 registers leaves `IP` and the registers
and overwrites what follows them in the struct, as the host says. -/
def CPU.set_reg (cpu : CPU) (host : Host) (i : Nat) (value : Nat) : CPU :=
  if i < NUM_REGISTERS then { cpu with RF := cpu.RF.set i (value % 65536) }
  else
    { cpu with
      memory := (host.store_past_registers cpu i (value % 65536)).1,
      running := (host.store_past_registers cpu i (value % 65536)).2 }

/-- The statement `cpu->IP += INSTRUCTION_SIZE; return EMULATOR_SUCCESS;`
that ends `emulator_decode_instruction`. -/
def next_instruction (cpu : CPU) : Nat × CPU :=
  (EMULATOR_SUCCESS, { cpu with IP := (cpu.IP + INSTRUCTION_SIZE) % 65536 })

/-- The `switch (opcode)` of `emulator_decode_instruction`, reached once the
register checks have passed. -/
def execute_opcode (host : Host) (cpu : CPU) (opcode src0 src1_or_const_hi
    dst_or_const_lo_or_src2 : Nat) : Nat × CPU :=
  if opcode = OPC_NOP then next_instruction cpu
  else if opcode = OPC_ADD then
    next_instruction
      (cpu.set_reg host dst_or_const_lo_or_src2 (cpu.reg src0 + cpu.reg src1_or_const_hi))
  else if opcode = OPC_SUB then
    next_instruction
      (cpu.set_reg host dst_or_const_lo_or_src2 (cpu.reg src0 + 65536 - cpu.reg src1_or_const_hi))
  else if opcode = OPC_MUL then
    let result := (cpu.reg src0 * cpu.reg src1_or_const_hi) % 4294967296
    let cpu := cpu.set_reg host dst_or_const_lo_or_src2 (result &&& 0xFFFF)
    let next_reg := if dst_or_const_lo_or_src2 = 15 then 0 else dst_or_const_lo_or_src2 + 1
    next_instruction (cpu.set_reg host next_reg ((result >>> 16) &&& 0xFFFF))
  else if opcode = OPC_DIV then
    if cpu.reg src1_or_const_hi = 0 then (EMULATOR_DIVISION_BY_ZERO, cpu)
    else
      next_instruction
        (cpu.set_reg host dst_or_const_lo_or_src2 (cpu.reg src0 / cpu.reg src1_or_const_hi))
  else if opcode = OPC_CMPGE then
    next_instruction
      (cpu.set_reg host dst_or_const_lo_or_src2
        (if cpu.reg src0 ≥ cpu.reg src1_or_const_hi then 1 else 0))
  else if opcode = OPC_RSHFT then
    next_instruction
      (cpu.set_reg host dst_or_const_lo_or_src2
        (shift_right host (cpu.reg src0) (cpu.reg src1_or_const_hi)))
  else if opcode = OPC_LSHFT then
    next_instruction
      (cpu.set_reg host dst_or_const_lo_or_src2
        (shift_left host (cpu.reg src0) (cpu.reg src1_or_const_hi)))
  else if opcode = OPC_AND then
    next_instruction
      (cpu.set_reg host dst_or_const_lo_or_src2 (cpu.reg src0 &&& cpu.reg src1_or_const_hi))
  else if opcode = OPC_OR then
    next_instruction
      (cpu.set_reg host dst_or_const_lo_or_src2 (cpu.reg src0 ||| cpu.reg src1_or_const_hi))
  else if opcode = OPC_XOR then
    next_instruction
      (cpu.set_reg host dst_or_const_lo_or_src2 (cpu.reg src0 ^^^ cpu.reg src1_or_const_hi))
  else if opcode = OPC_LD then
    let base_reg := src0
    let offset_reg := src1_or_const_hi
    let target_reg := dst_or_const_lo_or_src2
    let addr := (cpu.reg base_reg + cpu.reg offset_reg) % 65536
    let r := memory_read_word cpu.memory addr
    if r.1 ≠ MEMORY_SUCCESS then (EMULATOR_MEMORY_ERROR, cpu)
    else next_instruction (cpu.set_reg host target_reg r.2)
  else if opcode = OPC_SET_CONST then
    let dst_reg := dst_or_const_lo_or_src2
    let constant := ((src0 <<< 8) % 65536) ||| src1_or_const_hi
    next_instruction (cpu.set_reg host dst_reg constant)
  else if opcode = OPC_ST then
    let value_reg := src0
    let base_reg := src1_or_const_hi
    let offset_reg := dst_or_const_lo_or_src2
    let addr := (cpu.reg base_reg + cpu.reg offset_reg) % 65536
    let value := cpu.reg value_reg
    let w := memory_write_word cpu.memory addr value
    if w.1 ≠ MEMORY_SUCCESS then (EMULATOR_MEMORY_ERROR, { cpu with memory := w.2 })
    else next_instruction { cpu with memory := w.2 }
  else if opcode = OPC_BNZ then
    let target := ((src1_or_const_hi <<< 8) % 65536) ||| dst_or_const_lo_or_src2
    if cpu.reg src0 ≠ 0 then (EMULATOR_SUCCESS, { cpu with IP := target })
    else next_instruction cpu
  else if opcode = OPC_READY then
    (EMULATOR_HALT, { cpu with IP := 0, running := false })
  else (EMULATOR_INVALID_INSTRUCTION, cpu)

/-- Returns the code and the CPU after the call. -/
def emulator_decode_instruction (host : Host) (cpu : CPU) (instruction : Nat) : Nat × CPU :=
  let opcode := (instruction >>> 24) &&& 0xFF
  let src0 := (instruction >>> 16) &&& 0xFF
  let src1_or_const_hi := (instruction >>> 8) &&& 0xFF
  let dst_or_const_lo_or_src2 := instruction &&& 0xFF
  if src0 ≥ NUM_REGISTERS ∧ opcode ≠ OPC_SET_CONST ∧ opcode ≠ OPC_READY then
    (EMULATOR_INVALID_REGISTER, cpu)
  else if (opcode ≤ OPC_LD ∨ opcode = OPC_ST) ∧ src1_or_const_hi ≥ NUM_REGISTERS then
    (EMULATOR_INVALID_REGISTER, cpu)
  else if opcode ≤ OPC_XOR ∧ dst_or_const_lo_or_src2 ≥ NUM_REGISTERS then
    (EMULATOR_INVALID_REGISTER, cpu)
  else if opcode = OPC_BNZ ∧ src0 ≥ NUM_REGISTERS then (EMULATOR_INVALID_REGISTER, cpu)
  else if opcode = OPC_ST ∧ dst_or_const_lo_or_src2 ≥ NUM_REGISTERS then
    (EMULATOR_INVALID_REGISTER, cpu)
  else execute_opcode host cpu opcode src0 src1_or_const_hi dst_or_const_lo_or_src2

def emulator_fetch_execute_cycle (host : Host) (cpu : CPU) : Nat × CPU :=
  let instr_index := cpu.IP / INSTRUCTION_SIZE
  if instr_index ≥ cpu.memory.instruction_size / INSTRUCTION_SIZE then
    (EMULATOR_HALT, { cpu with running := false })
  else
    let r := memory_read_instruction cpu.memory instr_index
    if r.1 ≠ MEMORY_SUCCESS then (EMULATOR_MEMORY_ERROR, cpu)
    else emulator_decode_instruction host cpu r.2

/-- The loop `while (cpu->running)` of `emulator_run`, bounded by `fuel`
iterations: `none` when the loop is still running after them. -/
def run_loop (host : Host) : Nat → CPU → Option (Nat × CPU)
  | 0, _ => none
  | fuel + 1, cpu =>
    if cpu.running then
      let r := emulator_fetch_execute_cycle host cpu
      if r.1 ≠ EMULATOR_SUCCESS then
        if r.1 = EMULATOR_HALT then some (EMULATOR_SUCCESS, r.2) else some (r.1, r.2)
      else run_loop host fuel r.2
    else some (EMULATOR_SUCCESS, cpu)

/-- The function `emulator_run`: the code it returns and the CPU it leaves,
`none` when it has not returned within `fuel` iterations of its loop. -/
def emulator_run (host : Host) (fuel : Nat) (cpu : CPU) : Option (Nat × CPU) :=
  run_loop host fuel { cpu with running := true }

/-- Returns the code and the CPU after `emulator_load_program`. -/
def emulator_load_program (cpu : CPU) (file : List Nat) : Nat × CPU :=
  let r := memory_load_program cpu.memory file
  if r.1 ≠ MEMORY_SUCCESS then (EMULATOR_MEMORY_ERROR, { cpu with memory := r.2 })
  else (EMULATOR_SUCCESS, { cpu with memory := r.2, IP := 0 })

/-! ## Operands and source lines used in the statements -/

/-- The operand that a register token `Rd` parses to. -/
def register_operand (d : Nat) : Operand :=
  { Operand.zero with reg_num := d, is_reg_valid := true }

/-- The operand that an immediate literal of value `k` parses to. -/
def immediate_operand (k : Nat) : Operand :=
  { Operand.zero with immediate := k, is_immediate_valid := true }

/-- The operand that an identifier (a label reference) parses to. -/
def label_operand (name : List Char) : Operand :=
  { Operand.zero with label := name, is_label_valid := true }

/-- The token of the register `Rd`, written in decimal. -/
def register_token (d line_number position : Nat) : Token :=
  ⟨TOKEN_REGISTER, 'R' :: Nat.toDigits 10 d, line_number, position⟩

/-- The token of the decimal literal `k`. -/
def immediate_token (k line_number position : Nat) : Token :=
  ⟨TOKEN_IMMEDIATE, Nat.toDigits 10 k, line_number, position⟩

def comma_token (line_number position : Nat) : Token :=
  ⟨TOKEN_COMMA, [','], line_number, position⟩

/-- The mnemonics of the instructions with three register operands, each
with its opcode. -/
def three_register_mnemonics : List (List Char × Nat) :=
  [("add".toList, OPC_ADD), ("sub".toList, OPC_SUB), ("mul".toList, OPC_MUL),
   ("div".toList, OPC_DIV), ("cmpge".toList, OPC_CMPGE), ("rshft".toList, OPC_RSHFT),
   ("lshft".toList, OPC_LSHFT), ("and".toList, OPC_AND), ("or".toList, OPC_OR),
   ("xor".toList, OPC_XOR), ("ld".toList, OPC_LD), ("st".toList, OPC_ST)]

/-- The 32-bit word with the bytes `a, b, c, d`, most significant first. -/
def word_of_bytes (a b c d : Nat) : Nat := a * 16777216 + b * 65536 + c * 256 + d

/-- The instruction that `op Rx, Ry, Rz` parses to (see
`three_register_encoding`). -/
def three_register_instruction (opcode x y z : Nat) : Instruction :=
  ⟨opcode, get_format_from_opcode opcode,
    [register_operand x, register_operand y, register_operand z], 0, 0, 3⟩

/-- The instruction that `set_const k, Rd` parses to (see
`set_const_encoding`). -/
def set_const_instruction (k d : Nat) : Instruction :=
  ⟨OPC_SET_CONST, FORMAT_F2, [immediate_operand k, register_operand d], 0, 0, 2⟩

/-- The register file, the memory and the program counter hold values of
their C types, and the memory is initialised with arrays of the recorded
sizes. -/
def CPU.well_formed (cpu : CPU) : Prop :=
  cpu.RF.length = NUM_REGISTERS ∧ (∀ r ∈ cpu.RF, r < 65536) ∧ cpu.IP < 65536
    ∧ cpu.memory.initialized = true
    ∧ cpu.memory.data_memory.length = cpu.memory.data_size
    ∧ (∀ b ∈ cpu.memory.data_memory, b < 256)
    ∧ cpu.memory.instruction_memory.length = cpu.memory.instruction_size
    ∧ (∀ b ∈ cpu.memory.instruction_memory, b < 256)

instance (cpu : CPU) : Decidable cpu.well_formed := by
  unfold CPU.well_formed; infer_instance

/-- The CPU after `emulator_init` and `emulator_load_program` of `file`. -/
def loaded_cpu (file : List Nat) : CPU := (emulator_load_program emulator_init file).2

/-- The loaded CPU with the given program counter, registers and flag. -/
def cpu_at (file : List Nat) (ip : Nat) (rf : List Nat) (running : Bool) : CPU :=
  { loaded_cpu file with IP := ip, RF := rf, running := running }

/-- The CPU `cpu` with the data bytes `low`, `high` at `address`,
`address + 1`. -/
def with_data_word (cpu : CPU) (address low high : Nat) : CPU :=
  { cpu with
    memory := { cpu.memory with
      data_memory := (cpu.memory.data_memory.set address low).set (address + 1) high } }

/-- The name of the label that leads `line`, when its first token is a
label. -/
def leading_label (line : List Char) : Option (List Char) :=
  match (tokenize_line line 0).tokens with
  | t :: _ => if t.type = TOKEN_LABEL then some t.value else none
  | [] => none

def add_program : List (List Char) :=
  ["set_const 5, R0".toList, "set_const 7, R1".toList, "add R0, R1, R2".toList, "ready".toList]

def add_object : List Nat := [12, 0, 5, 0, 12, 0, 7, 1, 1, 0, 1, 2, 15, 0, 0, 0]

def branch_program : List (List Char) :=
  ["set_const 1, R0".toList, "bnz R0, end".toList, "set_const 99, R1".toList,
   "end: ready".toList]

def branch_object : List Nat := [12, 0, 1, 0, 14, 0, 0, 0, 12, 0, 99, 1, 15, 0, 0, 0]

def branch_program_target_first : List (List Char) :=
  ["set_const 1, R0".toList, "bnz end, R0".toList, "set_const 99, R1".toList,
   "end: ready".toList]

def branch_object_target_first : List Nat :=
  [12, 0, 1, 0, 14, 0, 0, 12, 12, 0, 99, 1, 15, 0, 0, 0]

def store_load_program : List (List Char) :=
  ["set_const 0xBEEF, R0".toList, "set_const 0x10, R1".toList, "set_const 0x00, R2".toList,
   "st R0, R1, R2".toList, "ld R1, R2, R3".toList, "ready".toList]

def store_load_object : List Nat :=
  [12, 190, 239, 0, 12, 0, 16, 1, 12, 0, 0, 2, 13, 0, 1, 2, 11, 1, 2, 3, 15, 0, 0, 0]

def division_program : List (List Char) :=
  ["set_const 5, R0".toList, "set_const 0, R1".toList, "div R0, R1, R2".toList]

def division_object : List Nat := [12, 0, 5, 0, 12, 0, 0, 1, 4, 0, 1, 2]

/-- The source line `Li:`, with `i` in decimal. -/
def label_line (i : Nat) : List Char := 'L' :: Nat.toDigits 10 i ++ [':']

/-- The 256 lines `L0:` to `L255:` followed by a second `L0:`. -/
def full_table_source : List (List Char) :=
  (List.range 256).map label_line ++ ["L0:".toList]

/-- The result of pass 1 once it has read the lines `L0:` to `L(k-1):`. -/
def label_table (k : Nat) : ParseResult :=
  ⟨[], (List.range k).map (fun i => ⟨'L' :: Nat.toDigits 10 i, 0⟩)⟩

/-- A host that, like x86, takes the count of a wide shift modulo 32, and on
which a store past the registers misses `memory` and `running`. -/
def masking_host : Host :=
  ⟨fun x n => x >>> (n % 32), fun x n => x <<< (n % 32), fun cpu _ _ => (cpu.memory, cpu.running)⟩

/-- A small CPU: 16 bytes of instruction memory, 32 bytes of data memory. -/
def small_cpu (ip : Nat) (rf : List Nat) (instructions : List Nat) : CPU :=
  { IP := ip, RF := rf,
    memory :=
      { instruction_memory := instructions ++ List.replicate (16 - instructions.length) 0,
        instruction_size := 16, data_memory := List.replicate 32 0, data_size := 32,
        initialized := true },
    running := true }

/-- The label table of `result` holds `name` (the test of `add_label`). -/
def has_label (result : ParseResult) (name : List Char) : Bool :=
  result.labels.any (fun l => l.name == name)

/-- The text `w` is one lexeme of a line: it is not empty and holds no
delimiter of `strtok`, no punctuation and no `;`. -/
def is_word (w : List Char) : Bool :=
  !w.isEmpty && w.all (fun c => !is_delimiter c && !is_punctuation c && c != ';')

/-- The token that the loop of `tokenize_line` makes of the lexeme `w`. -/
def word_token (w : List Char) (line_number position : Nat) : Token :=
  ⟨(classify_token w).1, (classify_token w).2.take (MAX_TOKEN_LENGTH - 1), line_number, position⟩

/-- The source text `Rd`, with `d` in decimal. -/
def register_text (d : Nat) : List Char := 'R' :: Nat.toDigits 10 d

/-- The source line `m a, b`. -/
def two_operand_line (m a b : List Char) : List Char := m ++ ' ' :: (a ++ ',' :: ' ' :: b)

/-- The source line `m a, b, c`. -/
def three_operand_line (m a b c : List Char) : List Char :=
  m ++ ' ' :: (a ++ ',' :: ' ' :: (b ++ ',' :: ' ' :: c))

/-- The source line `set_const k, Rd`, with `k` and `d` in decimal. -/
def set_const_line (k d : Nat) : List Char :=
  two_operand_line "set_const".toList (Nat.toDigits 10 k) (register_text d)

/-- The source line `m Rx, Ry, Rz`. -/
def three_register_line (m : List Char) (x y z : Nat) : List Char :=
  three_operand_line m (register_text x) (register_text y) (register_text z)

/-- The source line `bnz t, Rs`: the target first, then the register. -/
def bnz_line (t s : Nat) : List Char :=
  two_operand_line "bnz".toList (Nat.toDigits 10 t) (register_text s)

/-- The addresses of the instructions of `result`, in program order. -/
def addresses (result : ParseResult) : List Nat := result.instructions.map (fun i => i.address)

/-- The bytes that the writing loop of `assemble_file` puts into the object
file for `parse_result`: the machine codes are generated, then each is
written as four bytes, in the order of the instructions. -/
def object_bytes (parse_result : ParseResult) : List Nat :=
  ((generate_machine_code_for_all parse_result).instructions.map
    (fun i => word_bytes i.machine_code)).flatten

/-- The machine words of `parse_result` once generated, in program order. -/
def machine_codes (parse_result : ParseResult) : List Nat :=
  (generate_machine_code_for_all parse_result).instructions.map (fun i => i.machine_code)

/-- The fields `reg_num` and `immediate` hold values of their C types
(`uint8_t`, `uint16_t`). -/
def Operand.typed (o : Operand) : Prop := o.reg_num < 256 ∧ o.immediate < 65536

/-- The operands of the instructions and the addresses of the labels hold
values of their C types. -/
def ParseResult.typed (r : ParseResult) : Prop :=
  (∀ i ∈ r.instructions, ∀ o ∈ i.operands, o.typed) ∧ ∀ l ∈ r.labels, l.address < 65536

/-- The CPU after an instruction that writes `value` to `R[c]` and steps to
the next instruction. -/
def alu_state (cpu : CPU) (c value : Nat) : CPU :=
  { cpu with IP := (cpu.IP + 4) % 65536, RF := cpu.RF.set c value }

/-- The mnemonics of ADD, SUB, AND, OR, XOR and CMPGE, each with its opcode. -/
def alu_mnemonics : List (List Char × Nat) :=
  [("add".toList, OPC_ADD), ("sub".toList, OPC_SUB), ("and".toList, OPC_AND),
   ("or".toList, OPC_OR), ("xor".toList, OPC_XOR), ("cmpge".toList, OPC_CMPGE)]

/-- A host whose shifts yield 0 where C leaves them undefined, and on which
a store past the registers misses `memory` and `running`. -/
def clearing_host : Host :=
  ⟨fun _ _ => 0, fun _ _ => 0, fun cpu _ _ => (cpu.memory, cpu.running)⟩

/-- A CPU whose instruction memory holds 6 bytes: one whole word and a half. -/
def odd_size_cpu (ip : Nat) : CPU :=
  { IP := ip, RF := List.replicate 16 0,
    memory :=
      { instruction_memory := [0, 0, 0, 0, 0, 0], instruction_size := 6,
        data_memory := [], data_size := 0, initialized := true },
    running := true }

/-- The number that a string of decimal digits denotes. -/
def decimal_value (ds : List Char) : Nat :=
  ds.foldl (fun acc c => acc * 10 + (c.toNat - '0'.toNat)) 0

/-- A hexadecimal digit of either case. -/
def isxdigit (c : Char) : Bool :=
  isdigit c || (decide ('a' ≤ c) && decide (c ≤ 'f')) || (decide ('A' ≤ c) && decide (c ≤ 'F'))

/-- The value of one hexadecimal digit. -/
def hex_digit_value (c : Char) : Nat :=
  if isdigit c then c.toNat - '0'.toNat
  else if decide ('a' ≤ c) then c.toNat - 'a'.toNat + 10
  else c.toNat - 'A'.toNat + 10

/-- The number that a string of hexadecimal digits denotes. -/
def hex_value (ds : List Char) : Nat :=
  ds.foldl (fun acc c => acc * 16 + hex_digit_value c) 0

/-- The integer that a decimal literal with an optional `-` denotes. -/
def signed_value (negative : Bool) (ds : List Char) : Int :=
  if negative then -(decimal_value ds : Int) else (decimal_value ds : Int)

/-- The lexeme of a decimal literal with an optional `-`. -/
def signed_literal (negative : Bool) (ds : List Char) : List Char :=
  if negative then '-' :: ds else ds

/-- The tail of `parse_memory_access` on the two register tokens it has
chosen: both are parsed, and the operand becomes the pair. -/
def register_pair (t1 t2 : Token) (token_idx next_idx : Nat) (operand : Operand) :
    Nat × Nat × Operand :=
  if (parse_register t1 Operand.zero).1 ≠ PARSER_SUCCESS then
    ((parse_register t1 Operand.zero).1, token_idx, operand)
  else if (parse_register t2 Operand.zero).1 ≠ PARSER_SUCCESS then
    ((parse_register t2 Operand.zero).1, token_idx, operand)
  else
    (PARSER_SUCCESS, next_idx,
      { operand with
        reg_num := (parse_register t1 Operand.zero).2.reg_num,
        immediate := (parse_register t2 Operand.zero).2.reg_num,
        is_reg_valid := true, is_immediate_valid := true, is_memory_access := true })

/-- The Register tokens among the tokens between the brackets. -/
def registers_of (mid : List Token) : List Token :=
  mid.filter (fun t => decide (t.type = TOKEN_REGISTER))

/-- What a bracket with the inner tokens `mid` parses to: the pair of the
first two Register tokens of `mid`, whatever stands around them. -/
def bracket_result (mid : List Token) (token_idx next_idx : Nat) (operand : Operand) :
    Nat × Nat × Operand :=
  match registers_of mid with
  | t1 :: t2 :: _ => register_pair t1 t2 token_idx next_idx operand
  | _ => (PARSER_ERROR_INVALID_MEM_ACCESS, token_idx, operand)

/-- The operand of the memory access `[Ra Rb]`. -/
def memory_operand (operand : Operand) (a b : Nat) : Operand :=
  { operand with
    reg_num := a, immediate := b, is_reg_valid := true, is_immediate_valid := true,
    is_memory_access := true }

/-- One iteration of the operand loop of `parse_instruction`, up to the test
of its error code: the code, `*token_idx` and the instruction. -/
def operand_step (tokens : TokenizationResult) (format max_operands i token_idx : Nat)
    (instr : Instruction) : Nat × Nat × Instruction :=
  if format = FORMAT_F2 ∧ i = 0 then
    let immediate_token := tokens.at token_idx
    let instr := set_operand instr i Operand.zero
    if immediate_token.type ≠ TOKEN_IMMEDIATE ∧ immediate_token.type ≠ TOKEN_IDENTIFIER then
      (PARSER_ERROR_INVALID_IMMEDIATE, token_idx, instr)
    else
      let im := parse_immediate immediate_token (instr.operand i)
      let instr := set_operand instr i im.2
      if im.1 = PARSER_SUCCESS then
        let token_idx := token_idx + 1
        if token_idx < tokens.token_count ∧ (tokens.at token_idx).type = TOKEN_COMMA then
          (im.1, token_idx + 1, instr)
        else (im.1, token_idx, instr)
      else (im.1, token_idx, instr)
  else
    let p := parse_operand tokens token_idx (instr.operand i)
    let instr := set_operand instr i p.2.2
    if p.1 = PARSER_SUCCESS ∧ i < max_operands - 1 then
      if p.2.1 < tokens.token_count ∧ (tokens.at p.2.1).type = TOKEN_COMMA then
        (p.1, p.2.1 + 1, instr)
      else (p.1, p.2.1, instr)
    else (p.1, p.2.1, instr)

/-- The token line without its Comma tokens. -/
def remove_commas (ts : List Token) : List Token :=
  ts.filter (fun t => decide (t.type ≠ TOKEN_COMMA))

/-- The part of `parse_operand` for a token that is not `[`: the code and
the operand, which depend on that token alone. -/
def token_operand (t : Token) : Nat × Operand :=
  let r := parse_register t Operand.zero
  if r.1 = PARSER_SUCCESS then (PARSER_SUCCESS, r.2)
  else if t.type = TOKEN_REGISTER then (PARSER_ERROR_INVALID_REGISTER, r.2)
  else
    let im := parse_immediate t r.2
    if im.1 = PARSER_SUCCESS then
      if im.2.is_label_valid = true ∧ im.2.label.head? = some 'R' ∧ im.2.label.length ≠ 1 then
        (PARSER_ERROR_INVALID_REGISTER, im.2)
      else if im.2.is_label_valid = true
          ∧ ¬ (im.2.label.all (fun c => isalnum c || c == '_') = true) then
        (PARSER_ERROR_INVALID_OPERAND, im.2)
      else (PARSER_SUCCESS, im.2)
    else (PARSER_ERROR_INVALID_IMMEDIATE, im.2)

/-- The cursor after an optional Comma at `k`. -/
def skip_comma (tokens : TokenizationResult) (k : Nat) : Nat :=
  if k < tokens.token_count ∧ (tokens.at k).type = TOKEN_COMMA then k + 1 else k

/-- The suffix of `l2` from `j2` is the suffix of `l1` from `j1` without its
commas: the two cursors stand at the same place of the line. -/
def same_place (l1 l2 : List Token) (j1 j2 : Nat) : Prop :=
  l2.drop j2 = remove_commas (l1.drop j1)

/-- A result whose instruction table is full: 1024 times `nop`. -/
def full_instructions : ParseResult :=
  ⟨List.replicate 1024 ⟨OPC_NOP, FORMAT_F1, [], 0, 0, 0⟩, []⟩

/-- The instruction `opcode target, Rs` of format F4 whose target is the label
`name`. -/
def label_branch (opcode : Nat) (name : List Char) (s : Nat) : Instruction :=
  ⟨opcode, FORMAT_F4, [label_operand name, register_operand s], 0, 0, 2⟩

/-- The instruction that `set_const name, Rd` parses to: the first operand
is the label `name`. -/
def set_const_label (name : List Char) (d : Nat) : Instruction :=
  ⟨OPC_SET_CONST, FORMAT_F2, [label_operand name, register_operand d], 0, 0, 2⟩

/-- The result `r` of an instruction on `cpu` reports success or the halt, or
leaves the CPU as it was. -/
def done_or_unchanged (cpu : CPU) (r : Nat × CPU) : Prop :=
  (r.1 = EMULATOR_SUCCESS ∨ r.1 = EMULATOR_HALT) ∨ r.2 = cpu

/-- The branch target that a BNZ word carries in its two low bytes. -/
def bnz_target (w : Nat) : Nat := ((((w >>> 8) &&& 0xFF) <<< 8) % 65536) ||| (w &&& 0xFF)

/-- Every BNZ word stored in the instruction memory has a target that is a
multiple of 4. -/
def bnz_targets_aligned (memory : Memory) : Prop :=
  ∀ i, i < memory.instruction_size / INSTRUCTION_SIZE →
    ((memory_read_instruction memory i).2 >>> 24) &&& 0xFF = OPC_BNZ →
    bnz_target (memory_read_instruction memory i).2 % 4 = 0

instance (memory : Memory) : Decidable (bnz_targets_aligned memory) := by
  unfold bnz_targets_aligned; infer_instance

/-- The CPU `after` holds the same program as `cpu`: the instruction memory,
its size and the initialisation flag are the same. -/
def same_program (cpu after : CPU) : Prop :=
  after.memory.instruction_memory = cpu.memory.instruction_memory
    ∧ after.memory.instruction_size = cpu.memory.instruction_size
    ∧ after.memory.initialized = cpu.memory.initialized

/-- The result `r` of a step on `cpu` leaves an aligned `IP` and the same
program. -/
def aligned_after (cpu : CPU) (r : Nat × CPU) : Prop :=
  r.2.IP % 4 = 0 ∧ same_program cpu r.2

/-- The CPU after `n` fetch-execute cycles, whatever codes they return. -/
def cycles (host : Host) : Nat → CPU → CPU
  | 0, cpu => cpu
  | n + 1, cpu => cycles host n (emulator_fetch_execute_cycle host cpu).2

/-- The text of a line that `tokenize_line` reads: its first 255 characters,
up to the first `;`. -/
def code_part (line : List Char) : List Char :=
  (line.take (MAX_LINE_LENGTH - 1)).takeWhile (fun c => c != ';')

/-- The lexemes of a line: the successive results of `strtok` on the
processed buffer of `tokenize_line`. -/
def lexemes (line : List Char) : List (List Char) :=
  strtok_all (separate_punctuation none (code_part line)) []

/-- The lexeme is `R` followed by one or more decimal digits and nothing
else. -/
def is_register_lexeme (w : List Char) : Bool :=
  match w with
  | 'R' :: d :: ds => (d :: ds).all isdigit
  | _ => false

/-- The first character is a decimal digit, or the lexeme starts with `-` and
a digit, or with `0x`. -/
def is_immediate_lexeme (w : List Char) : Bool :=
  match w with
  | c :: d :: _ => isdigit c || (c == '-' && isdigit d) || (c == '0' && d == 'x')
  | [c] => isdigit c
  | [] => false

/-- The lexeme is one of the sixteen opcode mnemonics, in lowercase. -/
def is_mnemonic (w : List Char) : Bool :=
  ["nop", "add", "sub", "mul", "div", "cmpge", "rshft", "lshft", "and", "or", "xor", "ld",
    "set_const", "st", "bnz", "ready"].any (fun s => s.toList == w)

/-- The token type of a lexeme by the rules of the lexer, the first matching
rule in their order. -/
def lexeme_kind (w : List Char) : TokenType :=
  if w.getLast? = some ':' then TOKEN_LABEL
  else if is_register_lexeme w then TOKEN_REGISTER
  else if is_immediate_lexeme w then TOKEN_IMMEDIATE
  else if is_mnemonic w then TOKEN_INSTRUCTION
  else if w = ['['] then TOKEN_LBRACKET
  else if w = [']'] then TOKEN_RBRACKET
  else if w = [','] then TOKEN_COMMA
  else TOKEN_IDENTIFIER

/-- The text stored for a lexeme: a label loses its colon. -/
def lexeme_value (w : List Char) : List Char :=
  if w.getLast? = some ':' then w.dropLast else w

/-- The text with a space inserted before and after every `[`, `]` and `,`. -/
def spaced : List Char → List Char
  | [] => []
  | c :: rest => if is_punctuation c then ' ' :: c :: ' ' :: spaced rest else c :: spaced rest

/-- What `strtok` yields when a delimiter ends the run `cur` (reversed). -/
def flush (cur : List Char) : List (List Char) := if cur.isEmpty then [] else [cur.reverse]

/-- The space that `tokenize_line` puts before a punctuation character. -/
def space_before (prev : Option Char) : List Char :=
  match prev with
  | some p => if !is_space_or_tab p then [' '] else []
  | none => []

/-- The space that `tokenize_line` puts after a punctuation character. -/
def space_after (rest : List Char) : List Char :=
  match rest with
  | n :: _ => if !is_space_or_tab n then [' '] else []
  | [] => []

/-- The register number of the operand is one of the 16 registers and its
immediate holds 16 bits. -/
def Operand.in_range (o : Operand) : Prop := o.reg_num < 16 ∧ o.immediate < 65536

/-- The instruction is one that `parse_instruction` builds: an opcode of the
table with its format, and operands in range. -/
def Instruction.encodable (i : Instruction) : Prop :=
  i.opcode ≤ 0x0F ∧ i.format = get_format_from_opcode i.opcode ∧ ∀ o ∈ i.operands, o.in_range

/-- The bytes of the machine word `w` that hold register numbers in the
given format. -/
def register_bytes (format w : Nat) : List Nat :=
  if format = FORMAT_F1 ∨ format = FORMAT_F3 then
    [(w >>> 16) &&& 0xFF, (w >>> 8) &&& 0xFF, w &&& 0xFF]
  else if format = FORMAT_F2 then [w &&& 0xFF]
  else if format = FORMAT_F4 then [(w >>> 16) &&& 0xFF]
  else []

/-- The code is neither InvalidInstruction nor InvalidRegister. -/
def well_formed_code (r : Nat × CPU) : Prop :=
  r.1 ≠ EMULATOR_INVALID_INSTRUCTION ∧ r.1 ≠ EMULATOR_INVALID_REGISTER

/-- Every LD and SET_CONST word stored in the instruction memory names one of
the 16 registers in its destination byte. -/
def destinations_in_range (memory : Memory) : Prop :=
  ∀ i, i < memory.instruction_size / INSTRUCTION_SIZE →
    ((memory_read_instruction memory i).2 >>> 24) &&& 0xFF = OPC_LD
      ∨ ((memory_read_instruction memory i).2 >>> 24) &&& 0xFF = OPC_SET_CONST →
    (memory_read_instruction memory i).2 &&& 0xFF < NUM_REGISTERS

instance (memory : Memory) : Decidable (destinations_in_range memory) := by
  unfold destinations_in_range; infer_instance

/-- A host on which `RF[19]` overlays the pointer `memory.instruction_memory`
(with 8-byte pointers `RF` starts at offset 2 of the `CPU` and `memory` at
offset 40): a store through it makes the CPU read its instructions at another
place, which holds `bytes`. -/
def relocating_host (bytes : List Nat) : Host :=
  ⟨fun x n => x >>> (n % 32), fun x n => x <<< (n % 32),
    fun cpu i _ =>
      if i = 19 then ({ cpu.memory with instruction_memory := bytes }, cpu.running)
      else (cpu.memory, cpu.running)⟩

/-! ## Lemmas: decimal literals and `strtol` -/

theorem digit_value_digitChar (m : Nat) (h : m < 10) :
    digit_value (Nat.digitChar m) = some m := by
  interval_cases m <;> rfl

theorem isdigit_digitChar (m : Nat) (h : m < 10) : isdigit (Nat.digitChar m) = true := by
  interval_cases m <;> rfl

theorem strtol_digits_toDigitsCore (fuel : Nat) :
    ∀ (n : Nat) (ds : List Char), n < fuel →
      ∃ len : Nat, ∀ acc : Nat,
        strtol_digits 10 (Nat.toDigitsCore 10 fuel n ds) acc
          = strtol_digits 10 ds (acc * 10 ^ len + n) := by
  induction fuel with
  | zero => intro n ds h; omega
  | succ fuel ih =>
    intro n ds h
    have hd : digit_value (Nat.digitChar (n % 10)) = some (n % 10) :=
      digit_value_digitChar _ (Nat.mod_lt _ (by decide))
    have hlt : n % 10 < 10 := Nat.mod_lt _ (by decide)
    by_cases h0 : n / 10 = 0
    · refine ⟨1, fun acc => ?_⟩
      have hn : n % 10 = n := by omega
      simp only [Nat.toDigitsCore, h0, if_true, strtol_digits, hd, hlt, pow_one]
      rw [hn]
    · obtain ⟨len, hlen⟩ := ih (n / 10) (Nat.digitChar (n % 10) :: ds) (by omega)
      refine ⟨len + 1, fun acc => ?_⟩
      simp only [Nat.toDigitsCore, h0, if_false, hlen, strtol_digits, hd, hlt, if_true]
      congr 1
      rw [pow_succ]
      have := Nat.div_add_mod n 10
      nlinarith [this]

theorem toDigitsCore_digits (fuel : Nat) :
    ∀ (n : Nat) (ds : List Char), (∀ c ∈ ds, isdigit c = true) →
      ∀ c ∈ Nat.toDigitsCore 10 fuel n ds, isdigit c = true := by
  induction fuel with
  | zero => intro n ds h; simpa [Nat.toDigitsCore] using h
  | succ fuel ih =>
    intro n ds h
    have hd : isdigit (Nat.digitChar (n % 10)) = true :=
      isdigit_digitChar _ (Nat.mod_lt _ (by decide))
    have hcons : ∀ c ∈ Nat.digitChar (n % 10) :: ds, isdigit c = true := by
      intro c hc
      rcases List.mem_cons.mp hc with rfl | hc
      · exact hd
      · exact h c hc
    by_cases h0 : n / 10 = 0
    · simpa [Nat.toDigitsCore, h0] using hcons
    · simpa [Nat.toDigitsCore, h0] using ih (n / 10) _ hcons

theorem toDigitsCore_ne_nil (fuel n : Nat) (ds : List Char) (h : 0 < fuel) :
    Nat.toDigitsCore 10 fuel n ds ≠ [] := by
  induction fuel generalizing n ds with
  | zero => omega
  | succ fuel ih =>
    by_cases h0 : n / 10 = 0
    · simp [Nat.toDigitsCore, h0]
    · simp only [Nat.toDigitsCore, h0, if_false]
      cases fuel with
      | zero => simp [Nat.toDigitsCore]
      | succ f => exact ih _ _ (by omega)

theorem isdigit_cases (c : Char) (h : isdigit c = true) :
    c = '0' ∨ c = '1' ∨ c = '2' ∨ c = '3' ∨ c = '4' ∨ c = '5' ∨ c = '6' ∨ c = '7' ∨ c = '8'
      ∨ c = '9' := by
  have h1 : 48 ≤ c.toNat ∧ c.toNat ≤ 57 := by
    simp only [isdigit, Bool.and_eq_true, decide_eq_true_eq] at h
    exact h
  have h2 : c = Char.ofNat c.toNat := (Char.ofNat_toNat c).symm
  obtain ⟨ha, hb⟩ := h1
  generalize c.toNat = n at h2 ha hb
  subst h2
  interval_cases n <;> decide

theorem strtol_decimal (c : Char) (cs : List Char) (h : isdigit c = true) :
    strtol (c :: cs) 10
      = (max LONG_MIN (min LONG_MAX ((strtol_digits 10 (c :: cs) 0).1 : Int)),
          (strtol_digits 10 (c :: cs) 0).2) := by
  rcases isdigit_cases c h with rfl | rfl | rfl | rfl | rfl | rfl | rfl | rfl | rfl | rfl <;> rfl

theorem toDigits_digits (n : Nat) : ∀ c ∈ Nat.toDigits 10 n, isdigit c = true :=
  toDigitsCore_digits (n + 1) n [] (by simp)

theorem toDigits_ne_nil (n : Nat) : Nat.toDigits 10 n ≠ [] :=
  toDigitsCore_ne_nil (n + 1) n [] (by omega)

theorem strtol_toDigits (n : Nat) (h : n ≤ 9223372036854775807) :
    strtol (Nat.toDigits 10 n) 10 = ((n : Int), []) := by
  have hne := toDigits_ne_nil n
  have hdig := toDigits_digits n
  obtain ⟨len, hlen⟩ := strtol_digits_toDigitsCore (n + 1) n [] (by omega)
  have hval : strtol_digits 10 (Nat.toDigits 10 n) 0 = (n, []) := by
    have := hlen 0
    simpa [Nat.toDigits, strtol_digits] using this
  cases hds : Nat.toDigits 10 n with
  | nil => exact absurd hds hne
  | cons c cs =>
    have hc : isdigit c = true := hdig c (by rw [hds]; exact List.mem_cons_self _ _)
    rw [strtol_decimal c cs hc, ← hds, hval]
    simp only [LONG_MIN, LONG_MAX]
    refine Prod.ext ?_ rfl
    show max (-9223372036854775808 : Int) (min 9223372036854775807 (n : Int)) = (n : Int)
    omega

theorem toDigits_take_two (n : Nat) : (Nat.toDigits 10 n).take 2 ≠ ['0', 'x'] := by
  intro h
  have hdig := toDigits_digits n
  have hx : 'x' ∈ Nat.toDigits 10 n := by
    have : 'x' ∈ (Nat.toDigits 10 n).take 2 := by rw [h]; simp
    exact List.mem_of_mem_take this
  have := hdig _ hx
  revert this
  decide

theorem parse_immediate_decimal (k ln pos : Nat) (operand : Operand) (hk : k ≤ 65535) :
    parse_immediate (immediate_token k ln pos) operand
      = (PARSER_SUCCESS, { operand with immediate := k, is_immediate_valid := true }) := by
  have h1 := strtol_toDigits k (by omega)
  have h2 := toDigits_take_two k
  have h3 : ((k : Int) % 65536).toNat = k := by omega
  simp [parse_immediate, immediate_token, h1, h2, h3]
  omega

theorem parse_register_decimal (d ln pos : Nat) (operand : Operand) (hd : d < 16) :
    parse_register (register_token d ln pos) operand
      = (PARSER_SUCCESS, { operand with reg_num := d, is_reg_valid := true }) := by
  interval_cases d <;> rfl

/-! ## Lemmas: machine words and their bytes -/

theorem and_255 (x : Nat) : x &&& 0xFF = x % 256 :=
  Nat.and_pow_two_sub_one_eq_mod x 8

theorem pack_word (a b c d : Nat) (hb : b < 256) (hc : c < 256) (hd : d < 256) :
    (a <<< 24) ||| (b <<< 16) ||| (c <<< 8) ||| d
      = a * 16777216 + b * 65536 + c * 256 + d := by
  have h1 : (a <<< 24) ||| (b <<< 16) = 2 ^ 24 * a + b * 65536 := by
    rw [Nat.shiftLeft_eq, Nat.shiftLeft_eq, Nat.mul_comm a (2 ^ 24)]
    exact (Nat.mul_add_lt_is_or (by norm_num; omega) a).symm
  have h2 : (2 ^ 24 * a + b * 65536) ||| (c <<< 8) = 2 ^ 16 * (256 * a + b) + c * 256 := by
    rw [Nat.shiftLeft_eq]
    have : 2 ^ 24 * a + b * 65536 = 2 ^ 16 * (256 * a + b) := by norm_num; ring
    rw [this]
    exact (Nat.mul_add_lt_is_or (by norm_num; omega) _).symm
  have h3 : (2 ^ 16 * (256 * a + b) + c * 256) ||| d
      = 2 ^ 8 * (65536 * a + 256 * b + c) + d := by
    have : 2 ^ 16 * (256 * a + b) + c * 256 = 2 ^ 8 * (65536 * a + 256 * b + c) := by
      norm_num; ring
    rw [this]
    exact (Nat.mul_add_lt_is_or (by norm_num; omega) _).symm
  rw [h1, h2, h3]
  norm_num
  ring

theorem opcode_shift (a : Nat) (ha : a < 256) : (a <<< 24) % 4294967296 = a <<< 24 := by
  rw [Nat.shiftLeft_eq]; apply Nat.mod_eq_of_lt; norm_num; omega

theorem word_bytes_sum (a b c d : Nat) (ha : a < 256) (hb : b < 256) (hc : c < 256)
    (hd : d < 256) :
    word_bytes (a * 16777216 + b * 65536 + c * 256 + d) = [a, b, c, d] := by
  simp only [word_bytes, and_255, Nat.shiftRight_eq_div_pow]
  norm_num
  refine ⟨?_, ?_, ?_, ?_⟩ <;> omega

theorem word_bytes_pack (a b c d : Nat) (ha : a < 256) (hb : b < 256) (hc : c < 256)
    (hd : d < 256) :
    word_bytes (((a <<< 24) % 4294967296) ||| (b <<< 16) ||| (c <<< 8) ||| d)
      = [a, b, c, d] := by
  rw [opcode_shift a ha, pack_word a b c d hb hc hd]
  exact word_bytes_sum a b c d ha hb hc hd

/-! ## Lemmas: parsing operands and instructions -/

theorem parse_operand_register (T : TokenizationResult) (idx d ln pos : Nat) (operand : Operand)
    (hidx : idx < T.token_count) (hat : T.at idx = register_token d ln pos) (hd : d < 16) :
    parse_operand T idx operand = (PARSER_SUCCESS, idx + 1, register_operand d) := by
  have hty : (register_token d ln pos).type = TOKEN_REGISTER := rfl
  simp [parse_operand, hat, hty, parse_register_decimal d ln pos _ hd, register_operand,
    Nat.not_le.mpr hidx]

theorem parse_operand_immediate (T : TokenizationResult) (idx k ln pos : Nat) (operand : Operand)
    (hidx : idx < T.token_count) (hat : T.at idx = immediate_token k ln pos) (hk : k ≤ 65535) :
    parse_operand T idx operand = (PARSER_SUCCESS, idx + 1, immediate_operand k) := by
  have hty : (immediate_token k ln pos).type = TOKEN_IMMEDIATE := rfl
  have hreg : parse_register (immediate_token k ln pos) Operand.zero
      = (PARSER_ERROR_INVALID_REGISTER, Operand.zero) := rfl
  simp [parse_operand, hat, hty, hreg, parse_immediate_decimal k ln pos _ hk, immediate_operand,
    Nat.not_le.mpr hidx]
  simp [Operand.zero]

theorem comma_token_type (ln p : Nat) : (comma_token ln p).type = TOKEN_COMMA := rfl

theorem parse_operands_three_registers (T : TokenizationResult) (opcode format x y z ln p1 p2 p3
    p4 p5 : Nat) (instr : Instruction) (hfmt : format ≠ FORMAT_F2) (hops : instr.operands = [])
    (hc : T.token_count = 6)
    (h1 : T.at 1 = register_token x ln p1) (h2 : T.at 2 = comma_token ln p2)
    (h3 : T.at 3 = register_token y ln p3) (h4 : T.at 4 = comma_token ln p4)
    (h5 : T.at 5 = register_token z ln p5) (hx : x < 16) (hy : y < 16) (hz : z < 16) :
    parse_operands T opcode format 3 3 0 1 instr
      = (PARSER_SUCCESS, 6,
          { instr with
            operands := [register_operand x, register_operand y, register_operand z],
            operand_count := instr.operand_count + 3 }) := by
  have hfmt' : ¬ (format = 1) := hfmt
  have e1 := parse_operand_register T 1 x ln p1 (instr.operand 0) (by omega) h1 hx
  simp only [parse_operands, hfmt', false_and, if_false, e1]
  simp [h2, hc, comma_token_type, set_operand, hops, Instruction.operand,
    parse_operand_register T 3 y ln p3 _ (by omega) h3 hy, h4,
    parse_operand_register T 5 z ln p5 _ (by omega) h5 hz]

theorem parse_operands_immediate_register (T : TokenizationResult) (opcode format k d ln p1 p2
    p3 : Nat) (instr : Instruction) (hops : instr.operands = []) (hc : T.token_count = 4)
    (h1 : T.at 1 = immediate_token k ln p1) (h2 : T.at 2 = comma_token ln p2)
    (h3 : T.at 3 = register_token d ln p3) (hk : k ≤ 65535) (hd : d < 16) :
    parse_operands T opcode format 2 2 0 1 instr
      = (PARSER_SUCCESS, 4,
          { instr with
            operands := [immediate_operand k, register_operand d],
            operand_count := instr.operand_count + 2 }) := by
  have hty : (immediate_token k ln p1).type = TOKEN_IMMEDIATE := rfl
  have e1 := parse_operand_immediate T 1 k ln p1 (instr.operand 0) (by omega) h1 hk
  by_cases hfmt : format = 1
  · subst hfmt
    simp [parse_operands, h1, hty, h2, h3, hc, comma_token_type, set_operand, hops,
      Instruction.operand, parse_immediate_decimal k ln p1 _ hk,
      parse_operand_register T 3 d ln p3 _ (by omega) h3 hd, immediate_operand]
  · simp only [parse_operands, hfmt, false_and, if_false, e1]
    simp [h2, hc, comma_token_type, set_operand, hops, Instruction.operand,
      parse_operand_register T 3 d ln p3 _ (by omega) h3 hd]

theorem parse_instruction_of_operands (result : ParseResult) (T : TokenizationResult)
    (m : List Char) (ln p0 addr opcode format n : Nat) (instr : Instruction)
    (hres : result.instruction_count < MAX_INSTRUCTION_COUNT)
    (hc : 0 < T.token_count) (h0 : T.at 0 = ⟨TOKEN_INSTRUCTION, m, ln, p0⟩)
    (hop : get_opcode_from_mnemonic m = opcode) (hop' : opcode ≠ 0xFF)
    (hfmt : get_format_from_opcode opcode = format) (hfmt' : format ≠ 0xFF)
    (hops : parse_operands T opcode format (max_operands_of opcode format)
        (max_operands_of opcode format) 0 1 ⟨opcode, format, [], addr, 0, 0⟩
      = (PARSER_SUCCESS, n, instr)) :
    parse_instruction result T 0 addr
      = (PARSER_SUCCESS, { result with instructions := result.instructions ++ [instr] }, n) := by
  have hres' : ¬ (1024 ≤ result.instruction_count) := by
    simp only [MAX_INSTRUCTION_COUNT] at hres; omega
  have hc' : ¬ (0 ≥ T.token_count) := by omega
  simp only [parse_instruction, h0, hop, hfmt, hops]
  simp [PRINT_ERROR_IF, hres', hc', hop', hfmt']

/-! ## Lemmas: the lexer -/

theorem is_word_ne_nil (w : List Char) (h : is_word w = true) : w ≠ [] := by
  intro e; subst e; simp [is_word] at h

theorem is_word_chars (w : List Char) (h : is_word w = true) :
    ∀ c ∈ w, is_delimiter c = false ∧ is_punctuation c = false ∧ c ≠ ';' := by
  intro c hc
  simp only [is_word, Bool.and_eq_true, List.all_eq_true] at h
  have := h.2 c hc
  simpa [and_assoc] using this

theorem not_space_of_not_delimiter (c : Char) (h : is_delimiter c = false) :
    is_space_or_tab c = false := by
  by_contra hc
  simp only [Bool.not_eq_false, is_space_or_tab, Bool.or_eq_true, beq_iff_eq] at hc
  rcases hc with rfl | rfl <;> revert h <;> decide

theorem separate_punctuation_cons (prev : Option Char) (c : Char) (rest : List Char)
    (h : is_punctuation c = false) :
    separate_punctuation prev (c :: rest) = c :: separate_punctuation (some c) rest := by
  cases rest <;> simp [separate_punctuation, h]

theorem separate_word (w : List Char) (hw : ∀ c ∈ w, is_punctuation c = false) :
    ∀ prev, separate_punctuation prev w = w := by
  induction w with
  | nil => intro prev; rfl
  | cons c cs ih =>
    intro prev
    have hc := hw c (List.mem_cons_self _ _)
    rw [separate_punctuation_cons _ _ _ hc, ih (fun x hx => hw x (List.mem_cons_of_mem _ hx))]

theorem separate_word_space (w rest : List Char) (hw : ∀ c ∈ w, is_punctuation c = false) :
    ∀ prev, separate_punctuation prev (w ++ ' ' :: rest)
      = w ++ ' ' :: separate_punctuation (some ' ') rest := by
  induction w with
  | nil => intro prev; rfl
  | cons c cs ih =>
    intro prev
    have hc := hw c (List.mem_cons_self _ _)
    rw [List.cons_append, separate_punctuation_cons _ _ _ hc,
      ih (fun x hx => hw x (List.mem_cons_of_mem _ hx))]
    rfl

theorem separate_word_comma (w rest : List Char) (hne : w ≠ [])
    (hw : ∀ c ∈ w, is_punctuation c = false ∧ is_space_or_tab c = false) :
    ∀ prev, separate_punctuation prev (w ++ ',' :: ' ' :: rest)
      = w ++ ' ' :: ',' :: ' ' :: separate_punctuation (some ' ') rest := by
  induction w with
  | nil => exact absurd rfl hne
  | cons c cs ih =>
    intro prev
    obtain ⟨hc, hs⟩ := hw c (List.mem_cons_self _ _)
    cases cs with
    | nil =>
      have e1 : is_punctuation ',' = true := rfl
      have e2 : is_space_or_tab ' ' = true := rfl
      have e3 : is_punctuation ' ' = false := rfl
      simp [separate_punctuation, hc, hs, e1, e2, e3]
    | cons c2 cs2 =>
      have := ih (by simp) (fun x hx => hw x (List.mem_cons_of_mem _ hx)) (some c)
      rw [List.cons_append, separate_punctuation_cons _ _ _ hc, this]
      rfl

theorem strtok_word_space (w rest : List Char) (hw : ∀ c ∈ w, is_delimiter c = false) :
    ∀ cur, (cur ≠ [] ∨ w ≠ []) →
      strtok_all (w ++ ' ' :: rest) cur = (cur.reverse ++ w) :: strtok_all rest [] := by
  induction w with
  | nil =>
    intro cur h
    have hcur : cur ≠ [] := by rcases h with h | h; exact h; exact absurd rfl h
    have e : is_delimiter ' ' = true := rfl
    simp [strtok_all, e, hcur]
  | cons c cs ih =>
    intro cur _
    have hc := hw c (List.mem_cons_self _ _)
    rw [List.cons_append, strtok_all, if_neg (by simp [hc]),
      ih (fun x hx => hw x (List.mem_cons_of_mem _ hx)) (c :: cur) (Or.inl (by simp))]
    simp

theorem strtok_word_end (w : List Char) (hw : ∀ c ∈ w, is_delimiter c = false) :
    ∀ cur, (cur ≠ [] ∨ w ≠ []) → strtok_all w cur = [cur.reverse ++ w] := by
  induction w with
  | nil =>
    intro cur h
    have hcur : cur ≠ [] := by rcases h with h | h; exact h; exact absurd rfl h
    simp [strtok_all, hcur]
  | cons c cs ih =>
    intro cur _
    have hc := hw c (List.mem_cons_self _ _)
    rw [strtok_all, if_neg (by simp [hc]),
      ih (fun x hx => hw x (List.mem_cons_of_mem _ hx)) (c :: cur) (Or.inl (by simp))]
    simp

theorem takeWhile_no_comment (l : List Char) (h : ∀ c ∈ l, c ≠ ';') :
    l.takeWhile (fun c => c != ';') = l := by
  rw [List.takeWhile_eq_self_iff]
  intro c hc
  simpa using h c hc

theorem word_token_comma (ln p : Nat) : word_token [','] ln p = comma_token ln p := by
  simp only [word_token, comma_token]
  have : classify_token [','] = (TOKEN_COMMA, [',']) := by decide
  rw [this]; rfl

theorem is_word_comma_free (w : List Char) (h : is_word w = true) :
    (∀ c ∈ w, is_punctuation c = false) ∧ (∀ c ∈ w, is_delimiter c = false)
      ∧ (∀ c ∈ w, is_punctuation c = false ∧ is_space_or_tab c = false) :=
  ⟨fun c hc => (is_word_chars w h c hc).2.1, fun c hc => (is_word_chars w h c hc).1,
    fun c hc => ⟨(is_word_chars w h c hc).2.1,
      not_space_of_not_delimiter c (is_word_chars w h c hc).1⟩⟩

theorem tokenize_two_operands (m a b : List Char) (ln : Nat)
    (hm : is_word m = true) (ha : is_word a = true) (hb : is_word b = true)
    (hlen : m.length + a.length + b.length + 3 ≤ MAX_LINE_LENGTH - 1) :
    tokenize_line (m ++ ' ' :: (a ++ ',' :: ' ' :: b)) ln
      = ⟨[word_token m ln 0, word_token a ln (m.length + 1),
          comma_token ln (m.length + 1 + a.length + 1),
          word_token b ln (m.length + 1 + a.length + 1 + 2)]⟩ := by
  obtain ⟨hm1, hm2, -⟩ := is_word_comma_free m hm
  obtain ⟨-, ha2, ha3⟩ := is_word_comma_free a ha
  obtain ⟨hb1, hb2, -⟩ := is_word_comma_free b hb
  have hcomma : ∀ c ∈ [','], is_delimiter c = false := by decide
  have htake : (m ++ ' ' :: (a ++ ',' :: ' ' :: b)).take (MAX_LINE_LENGTH - 1)
      = m ++ ' ' :: (a ++ ',' :: ' ' :: b) := by
    apply List.take_of_length_le
    simp only [List.length_append, List.length_cons]
    omega
  have hcom : ∀ c ∈ m ++ ' ' :: (a ++ ',' :: ' ' :: b), c ≠ ';' := by
    intro c hc
    simp only [List.mem_append, List.mem_cons] at hc
    rcases hc with h | rfl | h | rfl | rfl | h
    · exact (is_word_chars m hm c h).2.2
    · decide
    · exact (is_word_chars a ha c h).2.2
    · decide
    · decide
    · exact (is_word_chars b hb c h).2.2
  have hsep : separate_punctuation none (m ++ ' ' :: (a ++ ',' :: ' ' :: b))
      = m ++ ' ' :: (a ++ ' ' :: ([','] ++ ' ' :: b)) := by
    rw [separate_word_space m _ hm1, separate_word_comma a _ (is_word_ne_nil a ha) ha3,
      separate_word b hb1]
    rfl
  have htok : strtok_all (m ++ ' ' :: (a ++ ' ' :: ([','] ++ ' ' :: b))) []
      = [m, a, [','], b] := by
    rw [strtok_word_space m _ hm2 [] (Or.inr (is_word_ne_nil m hm)),
      strtok_word_space a _ ha2 [] (Or.inr (is_word_ne_nil a ha)),
      strtok_word_space [','] _ hcomma [] (Or.inr (by simp)),
      strtok_word_end b hb2 [] (Or.inr (is_word_ne_nil b hb))]
    simp
  simp only [tokenize_line]
  rw [htake, takeWhile_no_comment _ hcom, hsep, htok]
  simp only [make_tokens, MAX_TOKENS]
  simp [word_token, ← word_token_comma]

theorem tokenize_three_operands (m a b c : List Char) (ln : Nat)
    (hm : is_word m = true) (ha : is_word a = true) (hb : is_word b = true)
    (hc : is_word c = true)
    (hlen : m.length + a.length + b.length + c.length + 5 ≤ MAX_LINE_LENGTH - 1) :
    tokenize_line (m ++ ' ' :: (a ++ ',' :: ' ' :: (b ++ ',' :: ' ' :: c))) ln
      = ⟨[word_token m ln 0, word_token a ln (m.length + 1),
          comma_token ln (m.length + 1 + a.length + 1),
          word_token b ln (m.length + 1 + a.length + 1 + 2),
          comma_token ln (m.length + 1 + a.length + 1 + 2 + b.length + 1),
          word_token c ln (m.length + 1 + a.length + 1 + 2 + b.length + 1 + 2)]⟩ := by
  obtain ⟨hm1, hm2, -⟩ := is_word_comma_free m hm
  obtain ⟨-, ha2, ha3⟩ := is_word_comma_free a ha
  obtain ⟨-, hb2, hb3⟩ := is_word_comma_free b hb
  obtain ⟨hc1, hc2, -⟩ := is_word_comma_free c hc
  have hcomma : ∀ c ∈ [','], is_delimiter c = false := by decide
  have htake : (m ++ ' ' :: (a ++ ',' :: ' ' :: (b ++ ',' :: ' ' :: c))).take
      (MAX_LINE_LENGTH - 1) = m ++ ' ' :: (a ++ ',' :: ' ' :: (b ++ ',' :: ' ' :: c)) := by
    apply List.take_of_length_le
    simp only [List.length_append, List.length_cons]
    omega
  have hcom : ∀ x ∈ m ++ ' ' :: (a ++ ',' :: ' ' :: (b ++ ',' :: ' ' :: c)), x ≠ ';' := by
    intro x hx
    simp only [List.mem_append, List.mem_cons] at hx
    rcases hx with h | rfl | h | rfl | rfl | h | rfl | rfl | h
    · exact (is_word_chars m hm x h).2.2
    · decide
    · exact (is_word_chars a ha x h).2.2
    · decide
    · decide
    · exact (is_word_chars b hb x h).2.2
    · decide
    · decide
    · exact (is_word_chars c hc x h).2.2
  have hsep : separate_punctuation none
        (m ++ ' ' :: (a ++ ',' :: ' ' :: (b ++ ',' :: ' ' :: c)))
      = m ++ ' ' :: (a ++ ' ' :: ([','] ++ ' ' :: (b ++ ' ' :: ([','] ++ ' ' :: c)))) := by
    rw [separate_word_space m _ hm1, separate_word_comma a _ (is_word_ne_nil a ha) ha3,
      separate_word_comma b _ (is_word_ne_nil b hb) hb3, separate_word c hc1]
    rfl
  have htok : strtok_all
        (m ++ ' ' :: (a ++ ' ' :: ([','] ++ ' ' :: (b ++ ' ' :: ([','] ++ ' ' :: c))))) []
      = [m, a, [','], b, [','], c] := by
    rw [strtok_word_space m _ hm2 [] (Or.inr (is_word_ne_nil m hm)),
      strtok_word_space a _ ha2 [] (Or.inr (is_word_ne_nil a ha)),
      strtok_word_space [','] _ hcomma [] (Or.inr (by simp)),
      strtok_word_space b _ hb2 [] (Or.inr (is_word_ne_nil b hb)),
      strtok_word_space [','] _ hcomma [] (Or.inr (by simp)),
      strtok_word_end c hc2 [] (Or.inr (is_word_ne_nil c hc))]
    simp
  simp only [tokenize_line]
  rw [htake, takeWhile_no_comment _ hcom, hsep, htok]
  simp only [make_tokens, MAX_TOKENS]
  simp [word_token, ← word_token_comma]

theorem toDigitsCore_length (fuel : Nat) :
    ∀ (n m : Nat) (ds : List Char), 0 < m → n < 10 ^ m →
      (Nat.toDigitsCore 10 fuel n ds).length ≤ ds.length + m := by
  induction fuel with
  | zero => intro n m ds _ _; simp [Nat.toDigitsCore]
  | succ f ih =>
    intro n m ds hm hn
    by_cases h0 : n / 10 = 0
    · simp only [Nat.toDigitsCore, h0, if_true, List.length_cons]; omega
    · simp only [Nat.toDigitsCore, h0, if_false]
      obtain ⟨m', rfl⟩ : ∃ m', m = m' + 1 := ⟨m - 1, by omega⟩
      have hm' : 0 < m' := by
        rcases Nat.eq_zero_or_pos m' with h | h
        · subst h; simp at hn; omega
        · exact h
      have hlt : n / 10 < 10 ^ m' := by
        rw [Nat.div_lt_iff_lt_mul (by norm_num)]
        rw [pow_succ] at hn; exact hn
      have := ih (n / 10) m' (Nat.digitChar (n % 10) :: ds) hm' hlt
      simp only [List.length_cons] at this
      omega

theorem toDigits_length (n : Nat) (h : n < 65536) : (Nat.toDigits 10 n).length ≤ 5 := by
  have := toDigitsCore_length (n + 1) n 5 [] (by norm_num) (by norm_num; omega)
  simpa [Nat.toDigits] using this

theorem isdigit_word_char (c : Char) (h : isdigit c = true) :
    (!is_delimiter c && !is_punctuation c && c != ';') = true := by
  rcases isdigit_cases c h with rfl | rfl | rfl | rfl | rfl | rfl | rfl | rfl | rfl | rfl <;> rfl

theorem is_word_toDigits (n : Nat) : is_word (Nat.toDigits 10 n) = true := by
  have hne := toDigits_ne_nil n
  have hall : (Nat.toDigits 10 n).all (fun c => !is_delimiter c && !is_punctuation c && c != ';')
      = true :=
    List.all_eq_true.mpr (fun c hc => isdigit_word_char c (toDigits_digits n c hc))
  cases hds : Nat.toDigits 10 n with
  | nil => exact absurd hds hne
  | cons c cs =>
    rw [hds] at hall
    simp only [is_word, List.isEmpty_cons, Bool.not_false, Bool.true_and]
    exact hall

theorem getLast_digits (l : List Char) (h : ∀ c ∈ l, isdigit c = true) :
    l.getLast? ≠ some ':' := by
  intro e
  have hm : ':' ∈ l := List.mem_of_getLast?_eq_some e
  have := h _ hm
  revert this; decide

theorem classify_digits (l : List Char) (hne : l ≠ []) (h : ∀ c ∈ l, isdigit c = true) :
    classify_token l = (TOKEN_IMMEDIATE, l) := by
  have h1 := getLast_digits l h
  cases l with
  | nil => exact absurd rfl hne
  | cons c cs =>
    have hc : isdigit c = true := h c (List.mem_cons_self _ _)
    have hR : c ≠ 'R' := by rintro rfl; revert hc; decide
    simp [classify_token, h1, hR, hc]

theorem word_token_immediate (k ln p : Nat) (hk : k < 65536) :
    word_token (Nat.toDigits 10 k) ln p = immediate_token k ln p := by
  have hl := toDigits_length k hk
  simp only [word_token, immediate_token,
    classify_digits _ (toDigits_ne_nil k) (toDigits_digits k)]
  rw [List.take_of_length_le (by simp only [MAX_TOKEN_LENGTH]; omega)]

theorem word_token_register (d ln p : Nat) (hd : d < 16) :
    word_token (register_text d) ln p = register_token d ln p := by
  interval_cases d <;> rfl

theorem is_word_register (d : Nat) (hd : d < 16) :
    is_word (register_text d) = true := by
  interval_cases d <;> rfl

theorem register_length (d : Nat) (hd : d < 16) : (register_text d).length ≤ 3 := by
  interval_cases d <;> decide

theorem tokenize_immediate_register (m : List Char) (k d ln : Nat) (hm : is_word m = true)
    (hml : m.length ≤ 16) (hk : k < 65536) (hd : d < 16) :
    (two_operand_line m (Nat.toDigits 10 k) (register_text d)).length < MAX_LINE_LENGTH - 1
    ∧ tokenize_line (two_operand_line m (Nat.toDigits 10 k) (register_text d)) ln
      = ⟨[word_token m ln 0, immediate_token k ln (m.length + 1),
          comma_token ln (m.length + 1 + (Nat.toDigits 10 k).length + 1),
          register_token d ln (m.length + 1 + (Nat.toDigits 10 k).length + 1 + 2)]⟩ := by
  have h1 := toDigits_length k hk
  have h2 := register_length d hd
  constructor
  · simp only [two_operand_line, List.length_append, List.length_cons, MAX_LINE_LENGTH]
    omega
  · rw [two_operand_line, tokenize_two_operands m (Nat.toDigits 10 k) (register_text d) ln hm
      (is_word_toDigits k) (is_word_register d hd) (by simp only [MAX_LINE_LENGTH]; omega),
      word_token_immediate k ln _ hk, word_token_register d ln _ hd]

theorem tokenize_three_registers (m : List Char) (x y z ln : Nat) (hm : is_word m = true)
    (hml : m.length ≤ 16) (hx : x < 16) (hy : y < 16) (hz : z < 16) :
    (three_register_line m x y z).length < MAX_LINE_LENGTH - 1
    ∧ tokenize_line (three_register_line m x y z) ln
      = ⟨[word_token m ln 0, register_token x ln (m.length + 1),
          comma_token ln (m.length + 1 + (register_text x).length + 1),
          register_token y ln (m.length + 1 + (register_text x).length + 1 + 2),
          comma_token ln
            (m.length + 1 + (register_text x).length + 1 + 2 + (register_text y).length + 1),
          register_token z ln
            (m.length + 1 + (register_text x).length + 1 + 2 + (register_text y).length + 1
              + 2)]⟩ := by
  have h1 := register_length x hx
  have h2 := register_length y hy
  have h3 := register_length z hz
  constructor
  · simp only [three_register_line, three_operand_line, List.length_append, List.length_cons,
      MAX_LINE_LENGTH]
    omega
  · rw [three_register_line, three_operand_line,
      tokenize_three_operands m (register_text x) (register_text y) (register_text z) ln hm
        (is_word_register x hx) (is_word_register y hy) (is_word_register z hz)
        (by simp only [MAX_LINE_LENGTH]; omega),
      word_token_register x ln _ hx, word_token_register y ln _ hy,
      word_token_register z ln _ hz]

theorem mnemonic_word (m : List Char) (opc ln p : Nat) (h : (m, opc) ∈ mnemonics) :
    is_word m = true ∧ m.length ≤ 16
      ∧ word_token m ln p = ⟨TOKEN_INSTRUCTION, m, ln, p⟩ := by
  simp only [mnemonics, List.mem_cons, List.mem_singleton, Prod.mk.injEq, List.not_mem_nil,
    or_false] at h
  rcases h with h | h | h | h | h | h | h | h | h | h | h | h | h | h | h | h
  all_goals
    obtain ⟨rfl, -⟩ := h
    exact ⟨rfl, by decide, rfl⟩

/-! ## Lemmas: a source file of one instruction -/

theorem generate_machine_code_code (instr : Instruction) (labels : ParseResult) (w : Nat) :
    generate_machine_code { instr with machine_code := w } labels
      = generate_machine_code instr labels := rfl

theorem assemble_single_instruction (line : List Char) (t : Token) (ts : List Token)
    (instr : Instruction) (n : Nat) (bytes : List Nat)
    (hlen : line.length < MAX_LINE_LENGTH - 1)
    (htok : (tokenize_line line 1).tokens = t :: ts) (hty : t.type = TOKEN_INSTRUCTION)
    (hparse : parse_instruction ParseResult.zero (tokenize_line line 1) 0 0
      = (PARSER_SUCCESS, ⟨[instr], []⟩, n))
    (hbytes : ∀ labels, word_bytes (generate_machine_code instr labels) = bytes) :
    assemble_file [line] = (ASSEMBLER_SUCCESS, some bytes) := by
  have hlen' : ¬ (line.length ≥ MAX_LINE_LENGTH - 1) := by omega
  have hcount : (tokenize_line line 1).token_count ≠ 0 := by
    simp [TokenizationResult.token_count, htok]
  have hlab : t.type ≠ TOKEN_LABEL := by rw [hty]; decide
  have hat : (tokenize_line line 1).at 0 = t := by
    simp [TokenizationResult.at, htok]
  have h1 : first_pass [line] 0 ParseResult.zero 0 = (PARSER_SUCCESS, ParseResult.zero, 4) := by
    simp only [first_pass, if_neg hlen', if_neg hcount, htok, collect_labels, if_neg hlab, hty]
    simp
  have h2 : second_pass [line] 0 ParseResult.zero 0 = (PARSER_SUCCESS, ⟨[instr], []⟩) := by
    have hpos : 0 < (tokenize_line line 1).token_count := Nat.pos_of_ne_zero hcount
    simp only [second_pass, if_neg hcount, htok, List.takeWhile_cons]
    simp [hlab, hty, ← htok, hat, hparse, hpos]
  simp only [assemble_file, parse_file, parse_file_diag, h1, h2]
  simp [generate_machine_code_for_all, ParseResult.instruction_count, generate_machine_code_code,
    hbytes]

theorem immediate_register_line (m : List Char) (o f k d : Nat) (hmem : (m, o) ∈ mnemonics)
    (ho : get_opcode_from_mnemonic m = o) (ho' : o ≠ 0xFF) (hf : get_format_from_opcode o = f)
    (hf' : f ≠ 0xFF) (hmax : max_operands_of o f = 2) (hk : k < 65536) (hd : d < 16) :
    (∀ (r : ParseResult) (n a : Nat), r.instruction_count < MAX_INSTRUCTION_COUNT →
      parse_instruction r
          (tokenize_line (two_operand_line m (Nat.toDigits 10 k) (register_text d)) n) 0 a
        = (PARSER_SUCCESS,
            { r with
              instructions := r.instructions
                ++ [⟨o, f, [immediate_operand k, register_operand d], a, 0, 2⟩] },
            4))
    ∧ ∀ bytes : List Nat,
        (∀ labels, word_bytes (generate_machine_code
          ⟨o, f, [immediate_operand k, register_operand d], 0, 0, 2⟩ labels) = bytes) →
        assemble_file [two_operand_line m (Nat.toDigits 10 k) (register_text d)]
          = (ASSEMBLER_SUCCESS, some bytes) := by
  obtain ⟨hw, hl, -⟩ := mnemonic_word m o 0 0 hmem
  have htok := fun n => tokenize_immediate_register m k d n hw hl hk hd
  have hparse : ∀ (r : ParseResult) (n a : Nat), r.instruction_count < MAX_INSTRUCTION_COUNT →
      parse_instruction r
          (tokenize_line (two_operand_line m (Nat.toDigits 10 k) (register_text d)) n) 0 a
        = (PARSER_SUCCESS,
            { r with
              instructions := r.instructions
                ++ [⟨o, f, [immediate_operand k, register_operand d], a, 0, 2⟩] },
            4) := by
    intro r n a hr
    rw [(htok n).2, (mnemonic_word m o n 0 hmem).2.2]
    refine parse_instruction_of_operands r _ m n 0 a o f 4 _ hr
      (by simp [TokenizationResult.token_count]) rfl ho ho' hf hf' ?_
    rw [hmax]
    exact parse_operands_immediate_register _ o f k d n _ _ _ _ rfl rfl rfl rfl rfl
      (by omega) hd
  refine ⟨hparse, fun bytes hbytes => ?_⟩
  have h1 := (htok 1).2
  rw [(mnemonic_word m o 1 0 hmem).2.2] at h1
  exact assemble_single_instruction _ _ _ _ 4 _ (htok 1).1
    (congrArg TokenizationResult.tokens h1) rfl (hparse ParseResult.zero 1 0 (by decide)) hbytes

theorem three_register_bytes (o f x y z a : Nat) (labels : ParseResult) (ho : o < 256)
    (hf : f = FORMAT_F1 ∨ f = FORMAT_F3) (hx : x < 16) (hy : y < 16) (hz : z < 16) :
    word_bytes (generate_machine_code
        ⟨o, f, [register_operand x, register_operand y, register_operand z], a, 0, 3⟩ labels)
      = [o, x, y, z] := by
  have := word_bytes_pack o x y z ho (by omega) (by omega) (by omega)
  simpa [generate_machine_code, Instruction.operand, register_operand, hf] using this

theorem three_register_line_parse (m : List Char) (o f x y z : Nat) (hmem : (m, o) ∈ mnemonics)
    (ho : get_opcode_from_mnemonic m = o) (ho' : o < 0xFF) (hf : get_format_from_opcode o = f)
    (hf' : f = FORMAT_F1 ∨ f = FORMAT_F3) (hmax : max_operands_of o f = 3)
    (hx : x < 16) (hy : y < 16) (hz : z < 16) :
    (∀ (r : ParseResult) (n a : Nat), r.instruction_count < MAX_INSTRUCTION_COUNT →
      parse_instruction r (tokenize_line (three_register_line m x y z) n) 0 a
        = (PARSER_SUCCESS,
            { r with
              instructions := r.instructions
                ++ [⟨o, f, [register_operand x, register_operand y, register_operand z],
                      a, 0, 3⟩] },
            6))
    ∧ assemble_file [three_register_line m x y z] = (ASSEMBLER_SUCCESS, some [o, x, y, z]) := by
  have hf2 : f ≠ FORMAT_F2 := by rcases hf' with h | h <;> rw [h] <;> decide
  have hf3 : f ≠ 0xFF := by rcases hf' with h | h <;> rw [h] <;> decide
  obtain ⟨hw, hl, -⟩ := mnemonic_word m o 0 0 hmem
  have htok := fun n => tokenize_three_registers m x y z n hw hl hx hy hz
  have hparse : ∀ (r : ParseResult) (n a : Nat), r.instruction_count < MAX_INSTRUCTION_COUNT →
      parse_instruction r (tokenize_line (three_register_line m x y z) n) 0 a
      = (PARSER_SUCCESS,
          { r with
            instructions := r.instructions
              ++ [⟨o, f, [register_operand x, register_operand y, register_operand z],
                    a, 0, 3⟩] },
          6) := by
    intro r n a hr
    rw [(htok n).2, (mnemonic_word m o n 0 hmem).2.2]
    refine parse_instruction_of_operands r _ m n 0 a o f 6 _ hr
      (by simp [TokenizationResult.token_count]) rfl ho (by omega) hf hf3 ?_
    rw [hmax]
    exact parse_operands_three_registers _ o f x y z n _ _ _ _ _ _ hf2 rfl rfl rfl rfl rfl
      rfl rfl hx hy hz
  refine ⟨hparse, ?_⟩
  have h1 := (htok 1).2
  rw [(mnemonic_word m o 1 0 hmem).2.2] at h1
  exact assemble_single_instruction _ _ _ _ 6 _ (htok 1).1
    (congrArg TokenizationResult.tokens h1) rfl (hparse ParseResult.zero 1 0 (by decide))
    (fun l => three_register_bytes o f x y z 0 l (by omega) hf' hx hy hz)

/-! ## Encoding of single instructions -/

/-- C1. For `k < 2^16` and `d < 16` the source line `set_const k, Rd` (both
numbers in decimal) is tokenized and parsed to one SET_CONST instruction,
`generate_machine_code` encodes it as the word whose bytes, most significant
first, are `0x0C, k >> 8, k & 0xFF, d`, and these four bytes are the object
file of the line; the source line `set_const 0xABCD, R3` assembles to
`0C AB CD 03`. -/
theorem set_const_encoding (k d ln addr : Nat) (result labels : ParseResult)
    (hk : k < 65536) (hd : d < 16) (hres : result.instruction_count < MAX_INSTRUCTION_COUNT) :
    parse_instruction result (tokenize_line (set_const_line k d) ln) 0 addr
      = (PARSER_SUCCESS,
          { result with
            instructions := result.instructions
              ++ [⟨OPC_SET_CONST, FORMAT_F2, [immediate_operand k, register_operand d],
                    addr, 0, 2⟩] },
          4)
    ∧ word_bytes (generate_machine_code
          ⟨OPC_SET_CONST, FORMAT_F2, [immediate_operand k, register_operand d], addr, 0, 2⟩
          labels)
        = [0x0C, k >>> 8, k &&& 0xFF, d]
    ∧ assemble_file [set_const_line k d]
        = (ASSEMBLER_SUCCESS, some [0x0C, k >>> 8, k &&& 0xFF, d])
    ∧ assemble_file ["set_const 0xABCD, R3".toList]
        = (ASSEMBLER_SUCCESS, some [0x0C, 0xAB, 0xCD, 0x03]) := by
  obtain ⟨hparse, hfile⟩ := immediate_register_line "set_const".toList OPC_SET_CONST FORMAT_F2
    k d (by decide) rfl (by decide) rfl (by decide) rfl hk hd
  have hbytes : ∀ (a : Nat) (l : ParseResult), word_bytes (generate_machine_code
        ⟨OPC_SET_CONST, FORMAT_F2, [immediate_operand k, register_operand d], a, 0, 2⟩ l)
      = [0x0C, k >>> 8, k &&& 0xFF, d] := by
    intro a l
    have h1 : k >>> 8 < 256 := by rw [Nat.shiftRight_eq_div_pow]; norm_num; omega
    have h2 : k &&& 0xFF < 256 := by rw [and_255]; omega
    have := word_bytes_pack 0x0C (k >>> 8) (k &&& 0xFF) d (by norm_num) h1 h2 (by omega)
    simpa [generate_machine_code, Instruction.operand, immediate_operand, register_operand]
      using this
  exact ⟨hparse result ln addr hres, hbytes addr labels, hfile _ (hbytes 0), by decide⟩

theorem set_const_encoding_witness :
    ((4660 < 65536 ∧ 2 < 16) ∧ ParseResult.zero.instruction_count < MAX_INSTRUCTION_COUNT)
    ∧ set_const_line 4660 2 = "set_const 4660, R2".toList
    ∧ assemble_file [set_const_line 4660 2]
        = (ASSEMBLER_SUCCESS, some [0x0C, 4660 >>> 8, 4660 &&& 0xFF, 2]) :=
  ⟨⟨⟨by decide, by decide⟩, by decide⟩, by decide,
    (set_const_encoding 4660 2 1 0 ParseResult.zero ParseResult.zero (by decide)
      (by decide) (by decide)).2.2.1⟩

/-- C2. For each of the twelve three-register mnemonics and `x, y, z < 16`,
the source line `op Rx, Ry, Rz` is tokenized and parsed to one instruction
whose machine word has the bytes `opcode, x, y, z`, most significant first:
the four bytes extracted from the word are the opcode and the three operand
fields, and they are the object file of the line. -/
theorem three_register_encoding (m : List Char) (opc x y z ln addr : Nat)
    (result labels : ParseResult) (hm : (m, opc) ∈ three_register_mnemonics)
    (hx : x < 16) (hy : y < 16) (hz : z < 16)
    (hres : result.instruction_count < MAX_INSTRUCTION_COUNT) :
    parse_instruction result (tokenize_line (three_register_line m x y z) ln) 0 addr
      = (PARSER_SUCCESS,
          { result with
            instructions := result.instructions
              ++ [⟨opc, get_format_from_opcode opc,
                    [register_operand x, register_operand y, register_operand z], addr, 0, 3⟩] },
          6)
    ∧ word_bytes (generate_machine_code
          ⟨opc, get_format_from_opcode opc,
            [register_operand x, register_operand y, register_operand z], addr, 0, 3⟩ labels)
        = [opc, x, y, z]
    ∧ assemble_file [three_register_line m x y z] = (ASSEMBLER_SUCCESS, some [opc, x, y, z]) := by
  have key := fun (o f : Nat) h1 h2 h3 h4 h5 h6 =>
    three_register_line_parse m o f x y z h1 h2 h3 h4 h5 h6 hx hy hz
  simp only [three_register_mnemonics, List.mem_cons, List.mem_singleton, Prod.mk.injEq,
    List.not_mem_nil, or_false] at hm
  rcases hm with h | h | h | h | h | h | h | h | h | h | h | h
  all_goals
    obtain ⟨rfl, rfl⟩ := h
    obtain ⟨h1, h2⟩ := key _ _ (by decide) rfl (by decide) rfl (by decide) rfl
    exact ⟨h1 result ln addr hres,
      three_register_bytes _ _ x y z addr labels (by decide) (by decide) hx hy hz, h2⟩

theorem three_register_encoding_witness :
    ((("st".toList, OPC_ST) ∈ three_register_mnemonics ∧ 0 < 16 ∧ 3 < 16 ∧ 4 < 16)
      ∧ ParseResult.zero.instruction_count < MAX_INSTRUCTION_COUNT)
    ∧ three_register_line "st".toList 0 3 4 = "st R0, R3, R4".toList
    ∧ assemble_file [three_register_line "st".toList 0 3 4]
        = (ASSEMBLER_SUCCESS, some [OPC_ST, 0, 3, 4]) :=
  ⟨⟨⟨by decide, by decide, by decide, by decide⟩, by decide⟩, by decide,
    (three_register_encoding "st".toList OPC_ST 0 3 4 1 0 ParseResult.zero
      ParseResult.zero (by decide) (by decide) (by decide) (by decide) (by decide)).2.2⟩

/-- C3, as stated, fails: the source line `bnz R1, 12` (register first, then
the target) assembles to the bytes `0E 00 00 00`, not to `0E 01 00 0C`. -/
theorem bnz_register_first_counterexample :
    assemble_file ["bnz R1, 12".toList] = (ASSEMBLER_SUCCESS, some [0x0E, 0x00, 0x00, 0x00])
    ∧ assemble_file ["bnz R1, 12".toList]
        ≠ (ASSEMBLER_SUCCESS, some [0x0E, 1, 12 >>> 8, 12 &&& 0xFF]) := by
  decide

/-- C3, amended. The parser takes the operands of `bnz` target first: for
`s < 16` and a decimal target `t < 2^16` the source line `bnz t, Rs` is
tokenized and parsed to one BNZ instruction whose machine word has the bytes
`0x0E, s, t >> 8, t & 0xFF`, most significant first, and these four bytes
are the object file of the line. -/
theorem bnz_target_first_encoding (s t ln addr : Nat) (result labels : ParseResult)
    (hs : s < 16) (ht : t < 65536) (hres : result.instruction_count < MAX_INSTRUCTION_COUNT) :
    parse_instruction result (tokenize_line (bnz_line t s) ln) 0 addr
      = (PARSER_SUCCESS,
          { result with
            instructions := result.instructions
              ++ [⟨OPC_BNZ, FORMAT_F4, [immediate_operand t, register_operand s], addr, 0, 2⟩] },
          4)
    ∧ word_bytes (generate_machine_code
          ⟨OPC_BNZ, FORMAT_F4, [immediate_operand t, register_operand s], addr, 0, 2⟩ labels)
        = [0x0E, s, t >>> 8, t &&& 0xFF]
    ∧ assemble_file [bnz_line t s]
        = (ASSEMBLER_SUCCESS, some [0x0E, s, t >>> 8, t &&& 0xFF]) := by
  obtain ⟨hparse, hfile⟩ := immediate_register_line "bnz".toList OPC_BNZ FORMAT_F4
    t s (by decide) rfl (by decide) rfl (by decide) rfl ht hs
  have hbytes : ∀ (a : Nat) (l : ParseResult), word_bytes (generate_machine_code
        ⟨OPC_BNZ, FORMAT_F4, [immediate_operand t, register_operand s], a, 0, 2⟩ l)
      = [0x0E, s, t >>> 8, t &&& 0xFF] := by
    intro a l
    have h1 : t >>> 8 < 256 := by rw [Nat.shiftRight_eq_div_pow]; norm_num; omega
    have h2 : t &&& 0xFF < 256 := by rw [and_255]; omega
    have := word_bytes_pack 0x0E s (t >>> 8) (t &&& 0xFF) (by norm_num) (by omega) h1 h2
    simpa [generate_machine_code, Instruction.operand, immediate_operand, register_operand]
      using this
  exact ⟨hparse result ln addr hres, hbytes addr labels, hfile _ (hbytes 0)⟩

theorem bnz_target_first_encoding_witness :
    ((1 < 16 ∧ 12 < 65536) ∧ ParseResult.zero.instruction_count < MAX_INSTRUCTION_COUNT)
    ∧ bnz_line 12 1 = "bnz 12, R1".toList
    ∧ assemble_file [bnz_line 12 1]
        = (ASSEMBLER_SUCCESS, some [0x0E, 1, 12 >>> 8, 12 &&& 0xFF]) :=
  ⟨⟨⟨by decide, by decide⟩, by decide⟩, by decide,
    (bnz_target_first_encoding 1 12 1 0 ParseResult.zero ParseResult.zero (by decide)
      (by decide) (by decide)).2.2⟩

/-! ## Lemmas: fetching and decoding -/

theorem decode_word_of_bytes (host : Host) (cpu : CPU) (a b c d : Nat) (ha : a < 256)
    (hb : b < 256) (hc : c < 256) (hd : d < 256) :
    emulator_decode_instruction host cpu (word_of_bytes a b c d)
      = if b ≥ NUM_REGISTERS ∧ a ≠ OPC_SET_CONST ∧ a ≠ OPC_READY then
          (EMULATOR_INVALID_REGISTER, cpu)
        else if (a ≤ OPC_LD ∨ a = OPC_ST) ∧ c ≥ NUM_REGISTERS then (EMULATOR_INVALID_REGISTER, cpu)
        else if a ≤ OPC_XOR ∧ d ≥ NUM_REGISTERS then (EMULATOR_INVALID_REGISTER, cpu)
        else if a = OPC_BNZ ∧ b ≥ NUM_REGISTERS then (EMULATOR_INVALID_REGISTER, cpu)
        else if a = OPC_ST ∧ d ≥ NUM_REGISTERS then (EMULATOR_INVALID_REGISTER, cpu)
        else execute_opcode host cpu a b c d := by
  have h := word_bytes_sum a b c d ha hb hc hd
  simp only [word_bytes, List.cons.injEq, and_true] at h
  obtain ⟨h1, h2, h3, h4⟩ := h
  simp only [emulator_decode_instruction, word_of_bytes, h1, h2, h3, h4]

theorem read_instruction_bytes (memory : Memory) (a b c d : Nat) (rest : List Nat)
    (hb : b < 256) (hc : c < 256) (hd : d < 256)
    (hinit : memory.initialized = true) (hsize : 4 ≤ memory.instruction_size)
    (hmem : memory.instruction_memory = a :: b :: c :: d :: rest) :
    memory_read_instruction memory 0 = (MEMORY_SUCCESS, word_of_bytes a b c d) := by
  have : ¬ (memory.instruction_size ≤ 3) := by omega
  simp [memory_read_instruction, check_memory_initialized, hinit, hmem, this, word_of_bytes,
    pack_word a b c d hb hc hd]

theorem generate_three_registers (opc x y z : Nat) (labels : ParseResult)
    (hfmt : get_format_from_opcode opc = FORMAT_F1 ∨ get_format_from_opcode opc = FORMAT_F3)
    (ho : opc < 256) (hx : x < 256) (hy : y < 256) (hz : z < 256) :
    generate_machine_code (three_register_instruction opc x y z) labels
      = word_of_bytes opc x y z := by
  simp only [generate_machine_code, three_register_instruction, hfmt, if_true,
    Instruction.operand, register_operand, List.getD_cons_zero, List.getD_cons_succ, ge_iff_le,
    le_refl, opcode_shift opc ho, pack_word opc x y z hx hy hz, word_of_bytes]

theorem generate_set_const (k d : Nat) (labels : ParseResult) (hk : k < 65536) (hd : d < 256) :
    generate_machine_code (set_const_instruction k d) labels
      = word_of_bytes 0x0C (k >>> 8) (k &&& 0xFF) d := by
  have h1 : k >>> 8 < 256 := by rw [Nat.shiftRight_eq_div_pow]; norm_num; omega
  have h2 : k &&& 0xFF < 256 := by rw [and_255]; omega
  have := pack_word 0x0C (k >>> 8) (k &&& 0xFF) d h1 h2 hd
  simpa [generate_machine_code, set_const_instruction, Instruction.operand, register_operand,
    immediate_operand, word_of_bytes] using this

theorem constant_of_bytes (k : Nat) (hk : k < 65536) :
    (((k >>> 8) <<< 8) % 65536) ||| (k &&& 0xFF) = k := by
  rw [and_255, Nat.shiftRight_eq_div_pow, Nat.shiftLeft_eq]
  have h1 : k / 2 ^ 8 * 2 ^ 8 % 65536 = 2 ^ 8 * (k / 2 ^ 8) := by norm_num; omega
  rw [h1, ← Nat.mul_add_lt_is_or (by norm_num; omega)]
  norm_num; omega

/-! ## Lemmas: registers, data words and the run loop -/

theorem set_reg_lt (host : Host) (cpu : CPU) (i v : Nat) (h : i < NUM_REGISTERS) :
    cpu.set_reg host i v = { cpu with RF := cpu.RF.set i (v % 65536) } := by
  simp only [CPU.set_reg, if_pos h]

theorem reg_set_reg (host : Host) (cpu : CPU) (i j v : Nat) (hi : i < cpu.RF.length)
    (hreg : i < NUM_REGISTERS) :
    (cpu.set_reg host i v).reg j = if j = i then v % 65536 else cpu.reg j := by
  simp only [CPU.reg, CPU.set_reg, if_pos hreg, List.getD_eq_getElem?_getD, List.getElem?_set]
  by_cases h : i = j
  · subst h; simp [hi]
  · have h' : ¬ (j = i) := fun e => h e.symm
    simp [h, h']

theorem reg_lt (cpu : CPU) (i : Nat) (h : ∀ r ∈ cpu.RF, r < 65536) : cpu.reg i < 65536 := by
  simp only [CPU.reg, List.getD_eq_getElem?_getD]
  by_cases hi : i < cpu.RF.length
  · rw [List.getElem?_eq_getElem hi]
    exact h _ (List.getElem_mem hi)
  · rw [List.getElem?_eq_none (by omega)]
    simp

theorem word_of_halves (x : Nat) (hx : x < 65536) :
    ((((x >>> 8) &&& 0xFF) <<< 8) ||| (x &&& 0xFF)) % 65536 = x := by
  rw [and_255, and_255, Nat.shiftRight_eq_div_pow, Nat.shiftLeft_eq]
  have h1 : x / 2 ^ 8 % 256 * 2 ^ 8 = 2 ^ 8 * (x / 2 ^ 8) := by norm_num; omega
  rw [h1, ← Nat.mul_add_lt_is_or (by norm_num; omega)]
  norm_num; omega

theorem run_loop_step (host : Host) (fuel : Nat) (cpu next : CPU) (hr : cpu.running = true)
    (h : emulator_fetch_execute_cycle host cpu = (EMULATOR_SUCCESS, next)) :
    run_loop host (fuel + 1) cpu = run_loop host fuel next := by
  simp [run_loop, hr, h]

theorem run_loop_halt (host : Host) (fuel : Nat) (cpu next : CPU) (hr : cpu.running = true)
    (h : emulator_fetch_execute_cycle host cpu = (EMULATOR_HALT, next)) :
    run_loop host (fuel + 1) cpu = some (EMULATOR_SUCCESS, next) := by
  simp [run_loop, hr, h]

theorem run_loop_error (host : Host) (fuel code : Nat) (cpu next : CPU) (hr : cpu.running = true)
    (h : emulator_fetch_execute_cycle host cpu = (code, next))
    (h0 : code ≠ EMULATOR_SUCCESS) (h5 : code ≠ EMULATOR_HALT) :
    run_loop host (fuel + 1) cpu = some (code, next) := by
  simp [run_loop, hr, h, h0, h5]

theorem decode_store (host : Host) (cpu : CPU) (v p q : Nat) (hv : v < 16) (hp : p < 16)
    (hq : q < 16) (hinit : cpu.memory.initialized = true)
    (haddr : (cpu.reg p + cpu.reg q) % 65536 + 1 < cpu.memory.data_size) :
    emulator_decode_instruction host cpu (word_of_bytes OPC_ST v p q)
      = (EMULATOR_SUCCESS,
          { cpu with
            IP := (cpu.IP + 4) % 65536,
            memory := { cpu.memory with
              data_memory :=
                (cpu.memory.data_memory.set ((cpu.reg p + cpu.reg q) % 65536)
                  (cpu.reg v &&& 0xFF)).set
                  ((cpu.reg p + cpu.reg q) % 65536 + 1) ((cpu.reg v >>> 8) &&& 0xFF) } }) := by
  rw [decode_word_of_bytes host cpu OPC_ST v p q (by decide) (by omega) (by omega) (by omega)]
  have e1 : ¬ (16 ≤ v) := by omega
  have e2 : ¬ (16 ≤ p) := by omega
  have e3 : ¬ (16 ≤ q) := by omega
  have hb : ¬ (cpu.memory.data_size ≤ (cpu.reg p + cpu.reg q) % 65536 + 1) := by omega
  simp [execute_opcode, e1, e2, e3, memory_write_word, check_memory_initialized, hinit,
    hb, next_instruction, OPC_ST, OPC_LD, OPC_XOR, NUM_REGISTERS, OPC_SET_CONST,
    OPC_READY, OPC_BNZ]

theorem decode_load (host : Host) (cpu : CPU) (p q d : Nat) (hp : p < 16)
    (hq : q < 16) (hd : d < 16) (hinit : cpu.memory.initialized = true)
    (haddr : (cpu.reg p + cpu.reg q) % 65536 + 1 < cpu.memory.data_size) :
    emulator_decode_instruction host cpu (word_of_bytes OPC_LD p q d)
      = next_instruction
          (cpu.set_reg host d
            (((cpu.memory.data_memory.getD ((cpu.reg p + cpu.reg q) % 65536 + 1) 0 <<< 8)
              ||| cpu.memory.data_memory.getD ((cpu.reg p + cpu.reg q) % 65536) 0) % 65536)) := by
  rw [decode_word_of_bytes host cpu OPC_LD p q d (by decide) (by omega) (by omega) (by omega)]
  have e2 : ¬ (16 ≤ p) := by omega
  have e3 : ¬ (16 ≤ q) := by omega
  have hb : ¬ (cpu.memory.data_size ≤ (cpu.reg p + cpu.reg q) % 65536 + 1) := by omega
  simp [execute_opcode, e2, e3, memory_read_word, check_memory_initialized, hinit,
    hb, OPC_ST, OPC_LD, OPC_XOR, NUM_REGISTERS, OPC_SET_CONST, OPC_READY, OPC_BNZ]

theorem decode_div (host : Host) (cpu : CPU) (a b c : Nat) (ha : a < 16) (hb : b < 16)
    (hc : c < 16) :
    emulator_decode_instruction host cpu (word_of_bytes OPC_DIV a b c)
      = if cpu.reg b = 0 then (EMULATOR_DIVISION_BY_ZERO, cpu)
        else next_instruction (cpu.set_reg host c (cpu.reg a / cpu.reg b)) := by
  rw [decode_word_of_bytes host cpu OPC_DIV a b c (by decide) (by omega) (by omega) (by omega)]
  have e1 : ¬ (16 ≤ a) := by omega
  have e2 : ¬ (16 ≤ b) := by omega
  have e3 : ¬ (16 ≤ c) := by omega
  simp [execute_opcode, e1, e2, e3, OPC_DIV, OPC_ST, OPC_LD, OPC_XOR, NUM_REGISTERS,
    OPC_SET_CONST, OPC_READY, OPC_BNZ]

theorem branch_program_loops (host : Host) (fuel : Nat) :
    run_loop host fuel
        (cpu_at branch_object 4 [1, 0, 0, 0, 0, 0, 0, 0, 0, 0, 0, 0, 0, 0, 0, 0] true) = none
    ∧ run_loop host fuel
        (cpu_at branch_object 0 [1, 0, 0, 0, 0, 0, 0, 0, 0, 0, 0, 0, 0, 0, 0, 0] true) = none := by
  induction fuel with
  | zero => exact ⟨rfl, rfl⟩
  | succ f ih =>
    have s1 : emulator_fetch_execute_cycle host
          (cpu_at branch_object 4 [1, 0, 0, 0, 0, 0, 0, 0, 0, 0, 0, 0, 0, 0, 0, 0] true)
        = (EMULATOR_SUCCESS,
            cpu_at branch_object 0 [1, 0, 0, 0, 0, 0, 0, 0, 0, 0, 0, 0, 0, 0, 0, 0] true) := rfl
    have s2 : emulator_fetch_execute_cycle host
          (cpu_at branch_object 0 [1, 0, 0, 0, 0, 0, 0, 0, 0, 0, 0, 0, 0, 0, 0, 0] true)
        = (EMULATOR_SUCCESS,
            cpu_at branch_object 4 [1, 0, 0, 0, 0, 0, 0, 0, 0, 0, 0, 0, 0, 0, 0, 0] true) := rfl
    rw [run_loop_step host f _ _ rfl s1, run_loop_step host f _ _ rfl s2]
    exact ⟨ih.2, ih.1⟩

/-! ## Execution of assembled programs -/

/-- C4. The source line `set_const k, Rd` (`k < 2^16`, `d < 16`, in decimal)
assembles to the four bytes of its machine word. From the reset registers
and `IP = 0`, on an initialised instruction memory that begins with these
bytes, one fetch-execute cycle returns success, sets `R[d]` to `k`, leaves
every other register 0, sets `IP` to 4 and leaves the running flag (and the
memory) as it was; `set_const 0x1234, R2` assembles to `0C 12 34 02` and the
cycle leaves `R2 = 0x1234`. -/
theorem set_const_cycle (host : Host) (cpu : CPU) (k d : Nat) (rest : List Nat)
    (labels : ParseResult) (hk : k < 65536) (hd : d < 16)
    (hip : cpu.IP = 0) (hrf : cpu.RF = List.replicate NUM_REGISTERS 0)
    (hinit : cpu.memory.initialized = true) (hsize : 4 ≤ cpu.memory.instruction_size)
    (hmem : cpu.memory.instruction_memory
      = word_bytes (generate_machine_code (set_const_instruction k d) labels) ++ rest) :
    assemble_file [set_const_line k d]
        = (ASSEMBLER_SUCCESS,
            some (word_bytes (generate_machine_code (set_const_instruction k d) labels)))
    ∧ emulator_fetch_execute_cycle host cpu
        = (EMULATOR_SUCCESS, { cpu with IP := 4, RF := (List.replicate NUM_REGISTERS 0).set d k })
    ∧ (emulator_fetch_execute_cycle host cpu).2.reg d = k
    ∧ (∀ j, j ≠ d → (emulator_fetch_execute_cycle host cpu).2.reg j = 0)
    ∧ (emulator_fetch_execute_cycle host cpu).2.running = cpu.running
    ∧ assemble_file ["set_const 0x1234, R2".toList]
        = (ASSEMBLER_SUCCESS, some [0x0C, 0x12, 0x34, 0x02])
    ∧ emulator_fetch_execute_cycle host (loaded_cpu [0x0C, 0x12, 0x34, 0x02])
        = (EMULATOR_SUCCESS,
            cpu_at [0x0C, 0x12, 0x34, 0x02] 4
              [0, 0, 0x1234, 0, 0, 0, 0, 0, 0, 0, 0, 0, 0, 0, 0, 0] false) := by
  have h1 : k >>> 8 < 256 := by rw [Nat.shiftRight_eq_div_pow]; norm_num; omega
  have h2 : k &&& 0xFF < 256 := by rw [and_255]; omega
  have hgen := generate_set_const k d labels hk (by omega)
  have hwb : word_bytes (generate_machine_code (set_const_instruction k d) labels)
      = [0x0C, k >>> 8, k &&& 0xFF, d] := by
    rw [hgen]; exact word_bytes_sum _ _ _ _ (by norm_num) h1 h2 (by omega)
  have hfile : assemble_file [set_const_line k d]
      = (ASSEMBLER_SUCCESS,
          some (word_bytes (generate_machine_code (set_const_instruction k d) labels))) := by
    refine (immediate_register_line "set_const".toList OPC_SET_CONST FORMAT_F2 k d (by decide)
      rfl (by decide) rfl (by decide) rfl hk hd).2 _ (fun l => ?_)
    show word_bytes (generate_machine_code (set_const_instruction k d) l) = _
    rw [generate_set_const k d l hk (by omega), hgen]
  refine ⟨hfile, ?_⟩
  rw [hwb] at hmem
  have hread := read_instruction_bytes cpu.memory 0x0C (k >>> 8) (k &&& 0xFF) d rest h1 h2
    (by omega) hinit hsize hmem
  have hdec := decode_word_of_bytes host cpu 0x0C (k >>> 8) (k &&& 0xFF) d (by norm_num) h1 h2
    (by omega)
  have hcycle : emulator_fetch_execute_cycle host cpu
      = (EMULATOR_SUCCESS,
          { cpu with IP := 4, RF := (List.replicate NUM_REGISTERS 0).set d k }) := by
    have hs : ¬ (cpu.memory.instruction_size / 4 ≤ 0) := by omega
    have hkk : k % 65536 = k := Nat.mod_eq_of_lt hk
    simp [emulator_fetch_execute_cycle, hip, hread, hdec, hs, execute_opcode,
      constant_of_bytes k hk, next_instruction, CPU.set_reg, hrf, hkk, hd, OPC_LD, OPC_XOR,
      INSTRUCTION_SIZE]
  rw [hcycle]
  refine ⟨rfl, ?_, ?_, rfl, by decide, rfl⟩
  · simp [CPU.reg, List.getD_eq_getElem?_getD, List.getElem?_set, hd]
  · intro j hj
    have hj' : ¬ (d = j) := fun e => hj e.symm
    simp [CPU.reg, List.getD_eq_getElem?_getD, List.getElem?_set, hj']

theorem set_const_cycle_witness :
    (((0x1234 < 65536 ∧ 2 < 16) ∧ (small_cpu 0 (List.replicate 16 0) [12, 18, 52, 2]).IP = 0)
      ∧ 4 ≤ (small_cpu 0 (List.replicate 16 0) [12, 18, 52, 2]).memory.instruction_size)
    ∧ (emulator_fetch_execute_cycle masking_host
        (small_cpu 0 (List.replicate 16 0) [12, 18, 52, 2])).2.reg 2 = 0x1234 :=
  ⟨⟨⟨⟨by decide, by decide⟩, rfl⟩, by decide⟩,
    (set_const_cycle masking_host (small_cpu 0 (List.replicate 16 0) [12, 18, 52, 2]) 0x1234 2
      (List.replicate 12 0) ParseResult.zero (by decide) (by decide) rfl rfl rfl (by decide)
      (by decide)).2.2.1⟩

/-- C5. The four lines `set_const 5, R0`, `set_const 7, R1`,
`add R0, R1, R2`, `ready` assemble to exactly 16 object bytes; loading them
into a freshly initialised CPU succeeds, and `emulator_run` returns (within
four iterations of its loop, for any larger bound too) reporting success
with `R2 = 12`, the running flag cleared and `IP = 0`. -/
theorem add_program_run (host : Host) (f : Nat) :
    assemble_file add_program = (ASSEMBLER_SUCCESS, some add_object)
    ∧ add_object.length = 16
    ∧ (emulator_load_program emulator_init add_object).1 = EMULATOR_SUCCESS
    ∧ emulator_run host (f + 4) (loaded_cpu add_object)
        = some (EMULATOR_SUCCESS,
            cpu_at add_object 0 [5, 7, 12, 0, 0, 0, 0, 0, 0, 0, 0, 0, 0, 0, 0, 0] false)
    ∧ (cpu_at add_object 0 [5, 7, 12, 0, 0, 0, 0, 0, 0, 0, 0, 0, 0, 0, 0, 0] false).reg 2 = 12
    ∧ (cpu_at add_object 0 [5, 7, 12, 0, 0, 0, 0, 0, 0, 0, 0, 0, 0, 0, 0, 0] false).running
        = false
    ∧ (cpu_at add_object 0 [5, 7, 12, 0, 0, 0, 0, 0, 0, 0, 0, 0, 0, 0, 0, 0] false).IP = 0 := by
  refine ⟨by decide, rfl, rfl, ?_, rfl, rfl, rfl⟩
  have s1 : emulator_fetch_execute_cycle host
        (cpu_at add_object 0 [0, 0, 0, 0, 0, 0, 0, 0, 0, 0, 0, 0, 0, 0, 0, 0] true)
      = (EMULATOR_SUCCESS,
          cpu_at add_object 4 [5, 0, 0, 0, 0, 0, 0, 0, 0, 0, 0, 0, 0, 0, 0, 0] true) := rfl
  have s2 : emulator_fetch_execute_cycle host
        (cpu_at add_object 4 [5, 0, 0, 0, 0, 0, 0, 0, 0, 0, 0, 0, 0, 0, 0, 0] true)
      = (EMULATOR_SUCCESS,
          cpu_at add_object 8 [5, 7, 0, 0, 0, 0, 0, 0, 0, 0, 0, 0, 0, 0, 0, 0] true) := rfl
  have s3 : emulator_fetch_execute_cycle host
        (cpu_at add_object 8 [5, 7, 0, 0, 0, 0, 0, 0, 0, 0, 0, 0, 0, 0, 0, 0] true)
      = (EMULATOR_SUCCESS,
          cpu_at add_object 12 [5, 7, 12, 0, 0, 0, 0, 0, 0, 0, 0, 0, 0, 0, 0, 0] true) := rfl
  have s4 : emulator_fetch_execute_cycle host
        (cpu_at add_object 12 [5, 7, 12, 0, 0, 0, 0, 0, 0, 0, 0, 0, 0, 0, 0, 0] true)
      = (EMULATOR_HALT,
          cpu_at add_object 0 [5, 7, 12, 0, 0, 0, 0, 0, 0, 0, 0, 0, 0, 0, 0, 0] false) := rfl
  have e0 : emulator_run host (f + 4) (loaded_cpu add_object)
      = run_loop host (f + 4)
          (cpu_at add_object 0 [0, 0, 0, 0, 0, 0, 0, 0, 0, 0, 0, 0, 0, 0, 0, 0] true) := rfl
  rw [e0, run_loop_step host (f + 3) _ _ rfl s1, run_loop_step host (f + 2) _ _ rfl s2,
    run_loop_step host (f + 1) _ _ rfl s3, run_loop_halt host f _ _ rfl s4]

/-- C6, as stated, fails: the source with `bnz R0, end` records `end` at
address 12, but its BNZ is encoded as `0E 00 00 00` (target 0, not 12), and
the object never halts: `emulator_run` has not returned after any number of
iterations. -/
theorem branch_program_counterexample :
    assemble_file branch_program = (ASSEMBLER_SUCCESS, some branch_object)
    ∧ (parse_file branch_program).labels = [⟨"end".toList, 12⟩]
    ∧ ((parse_file branch_program).instructions.map (fun i => i.machine_code)).getD 1 0
        = word_of_bytes 0x0E 0 0 0
    ∧ ((parse_file branch_program).instructions.map (fun i => i.machine_code)).getD 1 0
        ≠ word_of_bytes 0x0E 0 0 12
    ∧ ∀ (host : Host) (fuel : Nat), emulator_run host fuel (loaded_cpu branch_object) = none := by
  refine ⟨by decide, by decide, by decide, by decide, ?_⟩
  intro host fuel
  cases fuel with
  | zero => rfl
  | succ f =>
    have e0 : emulator_run host (f + 1) (loaded_cpu branch_object)
        = run_loop host (f + 1)
            (cpu_at branch_object 0 [0, 0, 0, 0, 0, 0, 0, 0, 0, 0, 0, 0, 0, 0, 0, 0] true) := rfl
    have s0 : emulator_fetch_execute_cycle host
          (cpu_at branch_object 0 [0, 0, 0, 0, 0, 0, 0, 0, 0, 0, 0, 0, 0, 0, 0, 0] true)
        = (EMULATOR_SUCCESS,
            cpu_at branch_object 4 [1, 0, 0, 0, 0, 0, 0, 0, 0, 0, 0, 0, 0, 0, 0, 0] true) := rfl
    rw [e0, run_loop_step host f _ _ rfl s0]
    exact (branch_program_loops host f).1

/-- C6, amended. With the branch written target first, `set_const 1, R0`,
`bnz end, R0`, `set_const 99, R1`, `end: ready` records the forward label
`end` at address 12 and encodes the BNZ with source register 0 and target 12
(`0E 00 00 0C`); from reset the second cycle takes the branch to `IP = 12`,
skipping `set_const 99, R1`, and `emulator_run` returns success, halted,
with `R1 = 0`. -/
theorem branch_program_target_first_run (host : Host) (f : Nat) :
    assemble_file branch_program_target_first
        = (ASSEMBLER_SUCCESS, some branch_object_target_first)
    ∧ (parse_file branch_program_target_first).labels = [⟨"end".toList, 12⟩]
    ∧ ((parse_file branch_program_target_first).instructions.map
          (fun i => i.machine_code)).getD 1 0 = word_of_bytes 0x0E 0 0 12
    ∧ emulator_fetch_execute_cycle host
          (cpu_at branch_object_target_first 4 [1, 0, 0, 0, 0, 0, 0, 0, 0, 0, 0, 0, 0, 0, 0, 0]
            true)
        = (EMULATOR_SUCCESS,
            cpu_at branch_object_target_first 12
              [1, 0, 0, 0, 0, 0, 0, 0, 0, 0, 0, 0, 0, 0, 0, 0] true)
    ∧ emulator_run host (f + 3) (loaded_cpu branch_object_target_first)
        = some (EMULATOR_SUCCESS,
            cpu_at branch_object_target_first 0
              [1, 0, 0, 0, 0, 0, 0, 0, 0, 0, 0, 0, 0, 0, 0, 0] false)
    ∧ (cpu_at branch_object_target_first 0
          [1, 0, 0, 0, 0, 0, 0, 0, 0, 0, 0, 0, 0, 0, 0, 0] false).reg 1 = 0 := by
  have s1 : emulator_fetch_execute_cycle host
        (cpu_at branch_object_target_first 0 [0, 0, 0, 0, 0, 0, 0, 0, 0, 0, 0, 0, 0, 0, 0, 0]
          true)
      = (EMULATOR_SUCCESS,
          cpu_at branch_object_target_first 4
            [1, 0, 0, 0, 0, 0, 0, 0, 0, 0, 0, 0, 0, 0, 0, 0] true) := rfl
  have s2 : emulator_fetch_execute_cycle host
        (cpu_at branch_object_target_first 4 [1, 0, 0, 0, 0, 0, 0, 0, 0, 0, 0, 0, 0, 0, 0, 0]
          true)
      = (EMULATOR_SUCCESS,
          cpu_at branch_object_target_first 12
            [1, 0, 0, 0, 0, 0, 0, 0, 0, 0, 0, 0, 0, 0, 0, 0] true) := rfl
  have s3 : emulator_fetch_execute_cycle host
        (cpu_at branch_object_target_first 12
          [1, 0, 0, 0, 0, 0, 0, 0, 0, 0, 0, 0, 0, 0, 0, 0] true)
      = (EMULATOR_HALT,
          cpu_at branch_object_target_first 0
            [1, 0, 0, 0, 0, 0, 0, 0, 0, 0, 0, 0, 0, 0, 0, 0] false) := rfl
  have e0 : emulator_run host (f + 3) (loaded_cpu branch_object_target_first)
      = run_loop host (f + 3)
          (cpu_at branch_object_target_first 0
            [0, 0, 0, 0, 0, 0, 0, 0, 0, 0, 0, 0, 0, 0, 0, 0] true) := rfl
  refine ⟨by decide, by decide, by decide, s2, ?_, rfl⟩
  rw [e0, run_loop_step host (f + 2) _ _ rfl s1, run_loop_step host (f + 1) _ _ rfl s2,
    run_loop_halt host f _ _ rfl s3]

/-- C7. For `v, p, q, d < 16` the source lines `st Rv, Rp, Rq` and
`ld Rp, Rq, Rd` assemble to the bytes of their machine words. In a
well-formed CPU state with `addr = (R[p] + R[q]) mod 2^16` and
`addr + 1 < data_size`: executing the word of `st Rv, Rp, Rq` succeeds,
writes `R[v] & 0xFF` to data byte `addr` and `R[v] >> 8` to data byte
`addr + 1` and changes no register; executing the word of `ld Rp, Rq, Rd`
right after succeeds and sets `R[d]` to the value `R[v]` had before the
store. The program of the specification
assembles, runs to a halt, and leaves `EF BE` at data address `0x10` and
`R3 = 0xBEEF`. -/
theorem store_load_round_trip (host : Host) (cpu : CPU) (v p q d f : Nat) (labels : ParseResult)
    (hwf : cpu.well_formed) (hv : v < 16) (hp : p < 16) (hq : q < 16) (hd : d < 16)
    (haddr : (cpu.reg p + cpu.reg q) % 65536 + 1 < cpu.memory.data_size) :
    (assemble_file [three_register_line "st".toList v p q]
        = (ASSEMBLER_SUCCESS,
            some (word_bytes (generate_machine_code (three_register_instruction OPC_ST v p q)
              labels)))
      ∧ assemble_file [three_register_line "ld".toList p q d]
        = (ASSEMBLER_SUCCESS,
            some (word_bytes (generate_machine_code (three_register_instruction OPC_LD p q d)
              labels))))
    ∧ (emulator_decode_instruction host cpu
        (generate_machine_code (three_register_instruction OPC_ST v p q) labels)).1
      = EMULATOR_SUCCESS
    ∧ (emulator_decode_instruction host cpu
        (generate_machine_code (three_register_instruction OPC_ST v p q) labels)).2.RF = cpu.RF
    ∧ (emulator_decode_instruction host cpu
        (generate_machine_code (three_register_instruction OPC_ST v p q)
          labels)).2.memory.data_memory.getD ((cpu.reg p + cpu.reg q) % 65536) 0
      = cpu.reg v &&& 0xFF
    ∧ (emulator_decode_instruction host cpu
        (generate_machine_code (three_register_instruction OPC_ST v p q)
          labels)).2.memory.data_memory.getD ((cpu.reg p + cpu.reg q) % 65536 + 1) 0
      = cpu.reg v >>> 8
    ∧ (emulator_decode_instruction host
        (emulator_decode_instruction host cpu
          (generate_machine_code (three_register_instruction OPC_ST v p q) labels)).2
        (generate_machine_code (three_register_instruction OPC_LD p q d) labels)).1
      = EMULATOR_SUCCESS
    ∧ (emulator_decode_instruction host
        (emulator_decode_instruction host cpu
          (generate_machine_code (three_register_instruction OPC_ST v p q) labels)).2
        (generate_machine_code (three_register_instruction OPC_LD p q d) labels)).2.reg d
      = cpu.reg v
    ∧ assemble_file store_load_program = (ASSEMBLER_SUCCESS, some store_load_object)
    ∧ emulator_run host (f + 6) (loaded_cpu store_load_object)
        = some (EMULATOR_SUCCESS,
            with_data_word
              (cpu_at store_load_object 0
                [0xBEEF, 0x10, 0, 0xBEEF, 0, 0, 0, 0, 0, 0, 0, 0, 0, 0, 0, 0] false)
              0x10 0xEF 0xBE)
    ∧ (with_data_word
          (cpu_at store_load_object 0
            [0xBEEF, 0x10, 0, 0xBEEF, 0, 0, 0, 0, 0, 0, 0, 0, 0, 0, 0, 0] false)
          0x10 0xEF 0xBE).memory.data_memory.getD 0x10 0 = 0xEF
    ∧ (with_data_word
          (cpu_at store_load_object 0
            [0xBEEF, 0x10, 0, 0xBEEF, 0, 0, 0, 0, 0, 0, 0, 0, 0, 0, 0, 0] false)
          0x10 0xEF 0xBE).memory.data_memory.getD 0x11 0 = 0xBE
    ∧ (with_data_word
          (cpu_at store_load_object 0
            [0xBEEF, 0x10, 0, 0xBEEF, 0, 0, 0, 0, 0, 0, 0, 0, 0, 0, 0, 0] false)
          0x10 0xEF 0xBE).reg 3 = 0xBEEF := by
  obtain ⟨hlen, hregs, _, hinit, hdlen, _, _, _⟩ := hwf
  have hfile : assemble_file [three_register_line "st".toList v p q]
        = (ASSEMBLER_SUCCESS,
            some (word_bytes (generate_machine_code (three_register_instruction OPC_ST v p q)
              labels)))
      ∧ assemble_file [three_register_line "ld".toList p q d]
        = (ASSEMBLER_SUCCESS,
            some (word_bytes (generate_machine_code (three_register_instruction OPC_LD p q d)
              labels))) := by
    rw [three_register_instruction, three_register_instruction,
      three_register_bytes _ _ v p q 0 labels (by decide) (by decide) hv hp hq,
      three_register_bytes _ _ p q d 0 labels (by decide) (by decide) hp hq hd]
    exact ⟨(three_register_line_parse "st".toList OPC_ST FORMAT_F3 v p q (by decide) rfl
        (by decide) rfl (by decide) rfl hv hp hq).2,
      (three_register_line_parse "ld".toList OPC_LD FORMAT_F1 p q d (by decide) rfl
        (by decide) rfl (by decide) rfl hp hq hd).2⟩
  refine ⟨hfile, ?_⟩
  have hst := generate_three_registers OPC_ST v p q labels (Or.inr rfl) (by decide) (by omega)
    (by omega) (by omega)
  have hld := generate_three_registers OPC_LD p q d labels (Or.inl rfl) (by decide) (by omega)
    (by omega) (by omega)
  have hval := reg_lt cpu v hregs
  have hhi : (cpu.reg v >>> 8) &&& 0xFF = cpu.reg v >>> 8 := by
    rw [and_255, Nat.shiftRight_eq_div_pow]; norm_num; omega
  rw [hst, hld, decode_store host cpu v p q hv hp hq hinit haddr, hhi]
  generalize hs : ({ cpu with
            IP := (cpu.IP + 4) % 65536,
            memory := { cpu.memory with
              data_memory :=
                (cpu.memory.data_memory.set ((cpu.reg p + cpu.reg q) % 65536)
                  (cpu.reg v &&& 0xFF)).set
                  ((cpu.reg p + cpu.reg q) % 65536 + 1) (cpu.reg v >>> 8) } } : CPU) = s
  have hsrf : s.RF = cpu.RF := by subst hs; rfl
  have hsreg : ∀ i, s.reg i = cpu.reg i := by intro i; subst hs; rfl
  have hsinit : s.memory.initialized = true := by subst hs; exact hinit
  have hssize : s.memory.data_size = cpu.memory.data_size := by subst hs; rfl
  have hget1 : s.memory.data_memory.getD ((cpu.reg p + cpu.reg q) % 65536) 0
      = cpu.reg v &&& 0xFF := by
    subst hs
    have : (cpu.reg p + cpu.reg q) % 65536 < cpu.memory.data_memory.length := by omega
    simp [List.getD_eq_getElem?_getD, List.getElem?_set, this]
  have hget2 : s.memory.data_memory.getD ((cpu.reg p + cpu.reg q) % 65536 + 1) 0
      = cpu.reg v >>> 8 := by
    subst hs
    have : (cpu.reg p + cpu.reg q) % 65536 + 1 < cpu.memory.data_memory.length := by omega
    simp [List.getD_eq_getElem?_getD, List.getElem?_set, this]
  have hsaddr : (s.reg p + s.reg q) % 65536 + 1 < s.memory.data_size := by
    rw [hsreg, hsreg, hssize]; exact haddr
  refine ⟨rfl, hsrf, hget1, hget2, ?_⟩
  rw [decode_load host s p q d hp hq hd hsinit hsaddr, hsreg, hsreg, hget1, hget2]
  have hw := word_of_halves (cpu.reg v) hval
  rw [hhi] at hw
  have hslen : d < s.RF.length := by rw [hsrf, hlen]; exact hd
  refine ⟨rfl, ?_, by decide, ?_, rfl, rfl, rfl⟩
  · show ((s.set_reg host d _).reg d) = _
    rw [reg_set_reg host s d d _ hslen hd, hw]
    simp [Nat.mod_eq_of_lt hval]
  · have s1 : emulator_fetch_execute_cycle host
          (cpu_at store_load_object 0 [0, 0, 0, 0, 0, 0, 0, 0, 0, 0, 0, 0, 0, 0, 0, 0] true)
        = (EMULATOR_SUCCESS,
            cpu_at store_load_object 4 [0xBEEF, 0, 0, 0, 0, 0, 0, 0, 0, 0, 0, 0, 0, 0, 0, 0]
              true) := rfl
    have s2 : emulator_fetch_execute_cycle host
          (cpu_at store_load_object 4 [0xBEEF, 0, 0, 0, 0, 0, 0, 0, 0, 0, 0, 0, 0, 0, 0, 0] true)
        = (EMULATOR_SUCCESS,
            cpu_at store_load_object 8 [0xBEEF, 0x10, 0, 0, 0, 0, 0, 0, 0, 0, 0, 0, 0, 0, 0, 0]
              true) := rfl
    have s3 : emulator_fetch_execute_cycle host
          (cpu_at store_load_object 8 [0xBEEF, 0x10, 0, 0, 0, 0, 0, 0, 0, 0, 0, 0, 0, 0, 0, 0]
            true)
        = (EMULATOR_SUCCESS,
            cpu_at store_load_object 12 [0xBEEF, 0x10, 0, 0, 0, 0, 0, 0, 0, 0, 0, 0, 0, 0, 0, 0]
              true) := rfl
    have s4 : emulator_fetch_execute_cycle host
          (cpu_at store_load_object 12 [0xBEEF, 0x10, 0, 0, 0, 0, 0, 0, 0, 0, 0, 0, 0, 0, 0, 0]
            true)
        = (EMULATOR_SUCCESS,
            with_data_word
              (cpu_at store_load_object 16
                [0xBEEF, 0x10, 0, 0, 0, 0, 0, 0, 0, 0, 0, 0, 0, 0, 0, 0] true)
              0x10 0xEF 0xBE) := rfl
    have s5 : emulator_fetch_execute_cycle host
          (with_data_word
              (cpu_at store_load_object 16
                [0xBEEF, 0x10, 0, 0, 0, 0, 0, 0, 0, 0, 0, 0, 0, 0, 0, 0] true)
              0x10 0xEF 0xBE)
        = (EMULATOR_SUCCESS,
            with_data_word
              (cpu_at store_load_object 20
                [0xBEEF, 0x10, 0, 0xBEEF, 0, 0, 0, 0, 0, 0, 0, 0, 0, 0, 0, 0] true)
              0x10 0xEF 0xBE) := rfl
    have s6 : emulator_fetch_execute_cycle host
          (with_data_word
              (cpu_at store_load_object 20
                [0xBEEF, 0x10, 0, 0xBEEF, 0, 0, 0, 0, 0, 0, 0, 0, 0, 0, 0, 0] true)
              0x10 0xEF 0xBE)
        = (EMULATOR_HALT,
            with_data_word
              (cpu_at store_load_object 0
                [0xBEEF, 0x10, 0, 0xBEEF, 0, 0, 0, 0, 0, 0, 0, 0, 0, 0, 0, 0] false)
              0x10 0xEF 0xBE) := rfl
    have e0 : emulator_run host (f + 6) (loaded_cpu store_load_object)
        = run_loop host (f + 6)
            (cpu_at store_load_object 0 [0, 0, 0, 0, 0, 0, 0, 0, 0, 0, 0, 0, 0, 0, 0, 0] true) :=
      rfl
    rw [e0, run_loop_step host (f + 5) _ _ rfl s1, run_loop_step host (f + 4) _ _ rfl s2,
      run_loop_step host (f + 3) _ _ rfl s3, run_loop_step host (f + 2) _ _ rfl s4,
      run_loop_step host (f + 1) _ _ rfl s5, run_loop_halt host f _ _ rfl s6]

theorem store_load_round_trip_witness :
    ((small_cpu 12 [0xBEEF, 0x10, 0, 0, 0, 0, 0, 0, 0, 0, 0, 0, 0, 0, 0, 0] []).well_formed
      ∧ (0 < 16 ∧ 1 < 16 ∧ 2 < 16 ∧ 3 < 16)
      ∧ ((small_cpu 12 [0xBEEF, 0x10, 0, 0, 0, 0, 0, 0, 0, 0, 0, 0, 0, 0, 0, 0] []).reg 1
          + (small_cpu 12 [0xBEEF, 0x10, 0, 0, 0, 0, 0, 0, 0, 0, 0, 0, 0, 0, 0, 0] []).reg 2)
            % 65536 + 1
          < (small_cpu 12 [0xBEEF, 0x10, 0, 0, 0, 0, 0, 0, 0, 0, 0, 0, 0, 0, 0, 0]
              []).memory.data_size)
    ∧ (emulator_decode_instruction masking_host
        (emulator_decode_instruction masking_host
          (small_cpu 12 [0xBEEF, 0x10, 0, 0, 0, 0, 0, 0, 0, 0, 0, 0, 0, 0, 0, 0] [])
          (generate_machine_code (three_register_instruction OPC_ST 0 1 2) ParseResult.zero)).2
        (generate_machine_code (three_register_instruction OPC_LD 1 2 3)
          ParseResult.zero)).2.reg 3
      = (small_cpu 12 [0xBEEF, 0x10, 0, 0, 0, 0, 0, 0, 0, 0, 0, 0, 0, 0, 0, 0] []).reg 0 :=
  ⟨⟨by decide, ⟨by decide, by decide, by decide, by decide⟩, by decide⟩,
    (store_load_round_trip masking_host
      (small_cpu 12 [0xBEEF, 0x10, 0, 0, 0, 0, 0, 0, 0, 0, 0, 0, 0, 0, 0, 0] []) 0 1 2 3 0
      ParseResult.zero (by decide) (by decide) (by decide) (by decide) (by decide)
      (by decide)).2.2.2.2.2.2.1⟩

/-- C8. For `a, b, c < 16` the source line `div Ra, Rb, Rc` assembles to
the bytes of its machine word. In a well-formed CPU state, executing this
word returns DivisionByZero exactly when `R[b] = 0`. In that case
the CPU is returned unchanged (registers, data memory, `IP`), and
`emulator_run`, when the instruction it fetches is this word, returns
DivisionByZero from its first iteration, leaving the CPU as it was (with the
running flag set by `emulator_run`). Otherwise `R[c]` becomes the quotient
`R[a] / R[b]` and `IP` advances by 4. The program of the specification stops
with DivisionByZero at its third instruction. -/
theorem div_by_zero (host : Host) (cpu : CPU) (a b c f : Nat) (labels : ParseResult)
    (hwf : cpu.well_formed) (ha : a < 16) (hb : b < 16) (hc : c < 16) :
    assemble_file [three_register_line "div".toList a b c]
        = (ASSEMBLER_SUCCESS,
            some (word_bytes (generate_machine_code (three_register_instruction OPC_DIV a b c)
              labels)))
    ∧ ((emulator_decode_instruction host cpu
          (generate_machine_code (three_register_instruction OPC_DIV a b c) labels)).1
        = EMULATOR_DIVISION_BY_ZERO ↔ cpu.reg b = 0)
    ∧ (cpu.reg b = 0 →
        emulator_decode_instruction host cpu
            (generate_machine_code (three_register_instruction OPC_DIV a b c) labels)
          = (EMULATOR_DIVISION_BY_ZERO, cpu)
        ∧ ∀ fuel : Nat,
            cpu.IP / INSTRUCTION_SIZE < cpu.memory.instruction_size / INSTRUCTION_SIZE →
            memory_read_instruction cpu.memory (cpu.IP / INSTRUCTION_SIZE)
              = (MEMORY_SUCCESS,
                  generate_machine_code (three_register_instruction OPC_DIV a b c) labels) →
            emulator_run host (fuel + 1) cpu
              = some (EMULATOR_DIVISION_BY_ZERO, { cpu with running := true }))
    ∧ (cpu.reg b ≠ 0 →
        emulator_decode_instruction host cpu
            (generate_machine_code (three_register_instruction OPC_DIV a b c) labels)
          = (EMULATOR_SUCCESS,
              { cpu with
                IP := (cpu.IP + 4) % 65536, RF := cpu.RF.set c (cpu.reg a / cpu.reg b) })
        ∧ (emulator_decode_instruction host cpu
            (generate_machine_code (three_register_instruction OPC_DIV a b c) labels)).2.reg c
          = cpu.reg a / cpu.reg b)
    ∧ assemble_file division_program = (ASSEMBLER_SUCCESS, some division_object)
    ∧ emulator_run host (f + 3) (loaded_cpu division_object)
        = some (EMULATOR_DIVISION_BY_ZERO,
            cpu_at division_object 8 [5, 0, 0, 0, 0, 0, 0, 0, 0, 0, 0, 0, 0, 0, 0, 0] true) := by
  obtain ⟨hlen, hregs, _, hinit, hdlen, _, _, _⟩ := hwf
  have hfile : assemble_file [three_register_line "div".toList a b c]
      = (ASSEMBLER_SUCCESS,
          some (word_bytes (generate_machine_code (three_register_instruction OPC_DIV a b c)
            labels))) := by
    rw [three_register_instruction,
      three_register_bytes _ _ a b c 0 labels (by decide) (by decide) ha hb hc]
    exact (three_register_line_parse "div".toList OPC_DIV FORMAT_F1 a b c (by decide) rfl
      (by decide) rfl (by decide) rfl ha hb hc).2
  refine ⟨hfile, ?_⟩
  have hgen := generate_three_registers OPC_DIV a b c labels (Or.inl rfl) (by decide) (by omega)
    (by omega) (by omega)
  have hdec := decode_div host cpu a b c ha hb hc
  rw [hgen, hdec]
  have hq : cpu.reg a / cpu.reg b % 65536 = cpu.reg a / cpu.reg b := by
    apply Nat.mod_eq_of_lt
    exact lt_of_le_of_lt (Nat.div_le_self _ _) (reg_lt cpu a hregs)
  refine ⟨?_, ?_, ?_, by decide, ?_⟩
  · by_cases h0 : cpu.reg b = 0
    · simp [h0]
    · simp [h0, next_instruction]
  · intro h0
    refine ⟨by simp [h0], ?_⟩
    intro fuel hidx hfetch
    have hidx' : ¬ (cpu.memory.instruction_size / INSTRUCTION_SIZE
        ≤ cpu.IP / INSTRUCTION_SIZE) := by omega
    have hcycle : emulator_fetch_execute_cycle host { cpu with running := true }
        = (EMULATOR_DIVISION_BY_ZERO, { cpu with running := true }) := by
      have hdec' := decode_div host { cpu with running := true } a b c ha hb hc
      have hreg : CPU.reg { cpu with running := true } b = 0 := h0
      rw [hreg] at hdec'
      simp only [emulator_fetch_execute_cycle, ge_iff_le, hidx', if_false, hfetch, hgen, hdec']
      simp
    exact run_loop_error host fuel _ _ _ rfl hcycle (by decide) (by decide)
  · intro h0
    have hget : (cpu.RF.set c (cpu.reg a / cpu.reg b)).getD c 0 = cpu.reg a / cpu.reg b := by
      have : c < cpu.RF.length := by rw [hlen]; exact hc
      simp [List.getD_eq_getElem?_getD, List.getElem?_set, this]
    rw [if_neg h0, set_reg_lt host cpu c _ hc]
    simp only [next_instruction, hq]
    exact ⟨trivial, hget⟩
  · have s1 : emulator_fetch_execute_cycle host
          (cpu_at division_object 0 [0, 0, 0, 0, 0, 0, 0, 0, 0, 0, 0, 0, 0, 0, 0, 0] true)
        = (EMULATOR_SUCCESS,
            cpu_at division_object 4 [5, 0, 0, 0, 0, 0, 0, 0, 0, 0, 0, 0, 0, 0, 0, 0] true) := rfl
    have s2 : emulator_fetch_execute_cycle host
          (cpu_at division_object 4 [5, 0, 0, 0, 0, 0, 0, 0, 0, 0, 0, 0, 0, 0, 0, 0] true)
        = (EMULATOR_SUCCESS,
            cpu_at division_object 8 [5, 0, 0, 0, 0, 0, 0, 0, 0, 0, 0, 0, 0, 0, 0, 0] true) := rfl
    have s3 : emulator_fetch_execute_cycle host
          (cpu_at division_object 8 [5, 0, 0, 0, 0, 0, 0, 0, 0, 0, 0, 0, 0, 0, 0, 0] true)
        = (EMULATOR_DIVISION_BY_ZERO,
            cpu_at division_object 8 [5, 0, 0, 0, 0, 0, 0, 0, 0, 0, 0, 0, 0, 0, 0, 0] true) := rfl
    have e0 : emulator_run host (f + 3) (loaded_cpu division_object)
        = run_loop host (f + 3)
            (cpu_at division_object 0 [0, 0, 0, 0, 0, 0, 0, 0, 0, 0, 0, 0, 0, 0, 0, 0] true) := rfl
    rw [e0, run_loop_step host (f + 2) _ _ rfl s1, run_loop_step host (f + 1) _ _ rfl s2,
      run_loop_error host f _ _ _ rfl s3 (by decide) (by decide)]

theorem div_by_zero_witness :
    ((small_cpu 0 [5, 0, 0, 0, 0, 0, 0, 0, 0, 0, 0, 0, 0, 0, 0, 0] [4, 0, 1, 2]).well_formed
      ∧ 0 < 16 ∧ 1 < 16 ∧ 2 < 16)
    ∧ ((emulator_decode_instruction masking_host
          (small_cpu 0 [5, 0, 0, 0, 0, 0, 0, 0, 0, 0, 0, 0, 0, 0, 0, 0] [4, 0, 1, 2])
          (generate_machine_code (three_register_instruction OPC_DIV 0 1 2) ParseResult.zero)).1
        = EMULATOR_DIVISION_BY_ZERO
      ↔ (small_cpu 0 [5, 0, 0, 0, 0, 0, 0, 0, 0, 0, 0, 0, 0, 0, 0, 0] [4, 0, 1, 2]).reg 1 = 0)
    ∧ emulator_run masking_host 1
        (small_cpu 0 [5, 0, 0, 0, 0, 0, 0, 0, 0, 0, 0, 0, 0, 0, 0, 0] [4, 0, 1, 2])
      = some (EMULATOR_DIVISION_BY_ZERO,
          small_cpu 0 [5, 0, 0, 0, 0, 0, 0, 0, 0, 0, 0, 0, 0, 0, 0, 0] [4, 0, 1, 2])
    ∧ ((small_cpu 0 [7, 2, 0, 0, 0, 0, 0, 0, 0, 0, 0, 0, 0, 0, 0, 0] [4, 0, 1, 2]).well_formed
      ∧ (small_cpu 0 [7, 2, 0, 0, 0, 0, 0, 0, 0, 0, 0, 0, 0, 0, 0, 0] [4, 0, 1, 2]).reg 1 ≠ 0)
    ∧ (emulator_decode_instruction masking_host
          (small_cpu 0 [7, 2, 0, 0, 0, 0, 0, 0, 0, 0, 0, 0, 0, 0, 0, 0] [4, 0, 1, 2])
          (generate_machine_code (three_register_instruction OPC_DIV 0 1 2)
            ParseResult.zero)).2.reg 2
        = 7 / 2 :=
  ⟨⟨by decide, by decide, by decide, by decide⟩,
    (div_by_zero masking_host
      (small_cpu 0 [5, 0, 0, 0, 0, 0, 0, 0, 0, 0, 0, 0, 0, 0, 0, 0] [4, 0, 1, 2]) 0 1 2 0
      ParseResult.zero (by decide) (by decide) (by decide) (by decide)).2.1,
    ((div_by_zero masking_host
      (small_cpu 0 [5, 0, 0, 0, 0, 0, 0, 0, 0, 0, 0, 0, 0, 0, 0, 0] [4, 0, 1, 2]) 0 1 2 0
      ParseResult.zero (by decide) (by decide) (by decide) (by decide)).2.2.1 (by decide)).2 0
      (by decide) (by decide),
    ⟨by decide, by decide⟩,
    ((div_by_zero masking_host
      (small_cpu 0 [7, 2, 0, 0, 0, 0, 0, 0, 0, 0, 0, 0, 0, 0, 0, 0] [4, 0, 1, 2]) 0 1 2 0
      ParseResult.zero (by decide) (by decide) (by decide) (by decide)).2.2.2.1 (by decide)).2⟩

/-! ## Lemmas: pass 1 and the label table -/

theorem leading_label_tokens (line name : List Char) (ln : Nat)
    (h : leading_label line = some name) :
    ∃ ts, (tokenize_line line ln).tokens = ⟨TOKEN_LABEL, name, ln, 0⟩ :: ts
      ∧ name.length ≤ 63 := by
  simp only [leading_label, tokenize_line] at h ⊢
  generalize strtok_all (separate_punctuation none
    (List.takeWhile (fun c => c != ';') (List.take (MAX_LINE_LENGTH - 1) line))) [] = L at h ⊢
  cases L with
  | nil => simp [make_tokens] at h
  | cons x xs =>
    simp only [MAX_TOKENS, make_tokens] at h ⊢
    by_cases hty : (classify_token x).1 = TOKEN_LABEL
    · simp only [hty, if_true, Option.some.injEq] at h
      refine ⟨make_tokens ln xs 31 (0 + x.length + 1), ?_, ?_⟩
      · rw [hty, h]
      · rw [← h]; simp [List.length_take]
    · simp [hty] at h

theorem add_label_instructions (r : ParseResult) (n : List Char) (a : Nat) :
    (add_label r n a).2.instructions = r.instructions := by
  unfold add_label
  split_ifs <;> rfl

theorem add_label_has_label (r : ParseResult) (n : List Char) (a : Nat)
    (h : has_label r n = true) :
    (add_label r n a).1 ≠ PARSER_SUCCESS ∧ (add_label r n a).2 = r
      ∧ (r.label_count < MAX_LABELS → add_label r n a = (PARSER_ERROR_LABEL_ALREADY_DEF, r)) := by
  unfold has_label at h
  unfold add_label
  by_cases hfull : r.label_count ≥ MAX_LABELS
  · have hc : PRINT_ERROR_IF (decide (r.label_count ≥ MAX_LABELS)) = 1 := by
      simp [PRINT_ERROR_IF, hfull]
    simp only [hc]
    refine ⟨by simp, by simp, fun hlt => absurd hfull (by omega)⟩
  · have hc : PRINT_ERROR_IF (decide (r.label_count ≥ MAX_LABELS)) = 0 := by
      simp [PRINT_ERROR_IF, hfull]
    simp only [hc, h]
    simp

theorem add_label_mono (r : ParseResult) (n m : List Char) (a : Nat)
    (h : has_label r m = true) : has_label (add_label r n a).2 m = true := by
  unfold has_label at h ⊢
  unfold add_label
  split_ifs
  · exact h
  · exact h
  · simp only [List.any_append, h, Bool.true_or]

theorem add_label_success (r : ParseResult) (n : List Char) (a : Nat) (hn : n.length ≤ 63)
    (h : (add_label r n a).1 = PARSER_SUCCESS) : has_label (add_label r n a).2 n = true := by
  unfold has_label
  unfold add_label at h ⊢
  split_ifs at h ⊢ with h1 h2
  · exact absurd h h1
  · have : List.take (MAX_TOKEN_LENGTH - 1) n = n := List.take_of_length_le (by simpa using hn)
    simp only [List.any_append, this]
    simp

theorem collect_labels_instructions (ts : List Token) :
    ∀ (r : ParseResult) (a : Nat), (collect_labels ts r a).2.1.instructions = r.instructions := by
  induction ts with
  | nil => intro r a; rfl
  | cons t ts ih =>
    intro r a
    simp only [collect_labels]
    split_ifs
    · exact add_label_instructions r _ a
    · rw [ih]; exact add_label_instructions r _ a
    · rfl
    · exact ih r a

theorem collect_labels_mono (ts : List Token) (m : List Char) :
    ∀ (r : ParseResult) (a : Nat), has_label r m = true →
      has_label (collect_labels ts r a).2.1 m = true := by
  induction ts with
  | nil => intro r a h; exact h
  | cons t ts ih =>
    intro r a h
    simp only [collect_labels]
    split_ifs
    · exact add_label_mono r _ m a h
    · exact ih _ _ (add_label_mono r _ m a h)
    · exact h
    · exact ih r a h

theorem first_pass_instructions (lines : List (List Char)) :
    ∀ (ln : Nat) (r : ParseResult) (a : Nat),
      (first_pass lines ln r a).2.1.instructions = r.instructions := by
  induction lines with
  | nil => intro ln r a; rfl
  | cons l ls ih =>
    intro ln r a
    simp only [first_pass]
    split_ifs
    · rfl
    · exact ih _ _ _
    · exact collect_labels_instructions _ _ _
    · rw [ih]; exact collect_labels_instructions _ _ _

theorem first_pass_mono (lines : List (List Char)) (m : List Char) :
    ∀ (ln : Nat) (r : ParseResult) (a : Nat), has_label r m = true →
      has_label (first_pass lines ln r a).2.1 m = true := by
  induction lines with
  | nil => intro ln r a h; exact h
  | cons l ls ih =>
    intro ln r a h
    simp only [first_pass]
    split_ifs
    · exact h
    · exact ih _ _ _ h
    · exact collect_labels_mono _ m _ _ h
    · exact ih _ _ _ (collect_labels_mono _ m _ _ h)

theorem first_pass_append (pre rest : List (List Char)) :
    ∀ (ln : Nat) (r : ParseResult) (a : Nat),
      first_pass (pre ++ rest) ln r a
        = if (first_pass pre ln r a).1 ≠ PARSER_SUCCESS then first_pass pre ln r a
          else first_pass rest (ln + pre.length) (first_pass pre ln r a).2.1
            (first_pass pre ln r a).2.2 := by
  induction pre with
  | nil => intro ln r a; simp [first_pass]
  | cons l ls ih =>
    intro ln r a
    have e : ln + (l :: ls).length = ln + 1 + ls.length := by simp; omega
    simp only [List.cons_append, first_pass, e]
    split_ifs <;> simp_all


theorem first_pass_leading_label (l1 n : List Char) (pre2 : List (List Char))
    (h1 : leading_label l1 = some n) (ln : Nat) (r : ParseResult) (a : Nat)
    (hs : (first_pass (l1 :: pre2) ln r a).1 = PARSER_SUCCESS) :
    has_label (first_pass (l1 :: pre2) ln r a).2.1 n = true := by
  obtain ⟨ts, hts, hlen⟩ := leading_label_tokens l1 n (ln + 1) h1
  have hcount : (tokenize_line l1 (ln + 1)).token_count ≠ 0 := by
    simp [TokenizationResult.token_count, hts]
  simp only [first_pass, hts, hcount, if_false, collect_labels, if_true] at hs ⊢
  split_ifs at hs ⊢ with hlong hadd hcoll
  · exact absurd hs hadd
  · exact absurd hs hcoll
  · have hadd' : (add_label r n a).1 = PARSER_SUCCESS := by simpa using hadd
    exact first_pass_mono _ n _ _ _
      (collect_labels_mono _ n _ _ (add_label_success r n a hlen hadd'))

theorem first_pass_duplicate (l2 n : List Char) (post : List (List Char))
    (h2 : leading_label l2 = some n) (ln : Nat) (r : ParseResult) (a : Nat)
    (hr : has_label r n = true) :
    (first_pass (l2 :: post) ln r a).1 ≠ PARSER_SUCCESS
    ∧ (r.label_count < MAX_LABELS → l2.length < MAX_LINE_LENGTH - 1 →
        first_pass (l2 :: post) ln r a = (PARSER_ERROR_LABEL_ALREADY_DEF, r, a)) := by
  obtain ⟨ts, hts, hlen⟩ := leading_label_tokens l2 n (ln + 1) h2
  have hcount : (tokenize_line l2 (ln + 1)).token_count ≠ 0 := by
    simp [TokenizationResult.token_count, hts]
  obtain ⟨hfail, hsame, hdup⟩ := add_label_has_label r n a hr
  simp only [first_pass, hts, hcount, if_false, collect_labels, if_true, hfail, ne_eq,
    not_false_eq_true]
  refine ⟨?_, ?_⟩
  · split_ifs
    · simp
    · exact hfail
  · intro hcap hshort
    have : ¬ (l2.length ≥ MAX_LINE_LENGTH - 1) := by omega
    simp only [this, if_false, hdup hcap]

theorem toDigits_injective (i j : Nat) (hi : i < 256) (hj : j < 256)
    (h : Nat.toDigits 10 i = Nat.toDigits 10 j) : i = j := by
  have h1 := strtol_toDigits i (by omega)
  have h2 := strtol_toDigits j (by omega)
  rw [h, h2] at h1
  have := congrArg Prod.fst h1
  simp at this
  omega

set_option maxRecDepth 100000 in
theorem label_line_tokens :
    ∀ i < 256, (label_line i).length < 255 ∧ ('L' :: Nat.toDigits 10 i).length ≤ 63
      ∧ (tokenize_line (label_line i) (i + 1)).tokens
          = [⟨TOKEN_LABEL, 'L' :: Nat.toDigits 10 i, i + 1, 0⟩] := by
  decide!

theorem label_table_fresh (k i : Nat) (hk : k ≤ i) (hi : i < 256) :
    has_label (label_table k) ('L' :: Nat.toDigits 10 i) = false := by
  simp only [has_label, label_table, List.any_map, List.any_eq_false, List.mem_range,
    Function.comp, beq_iff_eq, List.cons.injEq, true_and]
  intro x hx heq
  obtain ⟨j, hj, rfl⟩ := List.mem_map.mp hx
  have hj' : j < k := List.mem_range.mp hj
  have h2 : Nat.toDigits 10 j = Nat.toDigits 10 i := (List.cons.inj heq).2
  have := toDigits_injective j i (by omega) hi h2
  omega

theorem first_pass_label_lines (k : Nat) (hk : k ≤ 256) :
    first_pass ((List.range k).map label_line) 0 ParseResult.zero 0
      = (PARSER_SUCCESS, label_table k, 0) := by
  induction k with
  | zero => rfl
  | succ k ih =>
    obtain ⟨hlen, hname, htok⟩ := label_line_tokens k (by omega)
    have hfresh := label_table_fresh k k (le_refl k) (by omega)
    have hcap : ¬ ((label_table k).label_count ≥ MAX_LABELS) := by
      simp [ParseResult.label_count, label_table, MAX_LABELS]; omega
    have hadd : add_label (label_table k) ('L' :: Nat.toDigits 10 k) 0
        = (PARSER_SUCCESS, label_table (k + 1)) := by
      unfold has_label at hfresh
      have htake : List.take (MAX_TOKEN_LENGTH - 1) ('L' :: Nat.toDigits 10 k)
          = 'L' :: Nat.toDigits 10 k := List.take_of_length_le (by simpa using hname)
      simp only [add_label, PRINT_ERROR_IF, hcap, decide_False, hfresh, htake]
      simp [label_table, List.range_succ]
    have hlong : ¬ ((label_line k).length ≥ MAX_LINE_LENGTH - 1) := by
      simp only [MAX_LINE_LENGTH]; omega
    rw [List.range_succ, List.map_append, first_pass_append, ih (by omega)]
    simp only [ne_eq, not_true_eq_false, if_false, List.length_map, List.length_range,
      Nat.zero_add, List.map_cons, List.map_nil, first_pass, hlong,
      TokenizationResult.token_count, htok, List.length_singleton, collect_labels, hadd,
      if_true]
    simp


theorem add_label_full (r : ParseResult) (n : List Char) (a : Nat)
    (h : r.label_count ≥ MAX_LABELS) : add_label r n a = (1, r) := by
  simp [add_label, PRINT_ERROR_IF, h]

theorem first_pass_label_full (line name : List Char) (rest : List (List Char))
    (ln a : Nat) (r : ParseResult) (ts : List Token)
    (hlen : line.length < MAX_LINE_LENGTH - 1)
    (htok : (tokenize_line line (ln + 1)).tokens = ⟨TOKEN_LABEL, name, ln + 1, 0⟩ :: ts)
    (hfull : r.label_count ≥ MAX_LABELS) :
    first_pass (line :: rest) ln r a = (1, r, a) := by
  have hlong : ¬ (line.length ≥ MAX_LINE_LENGTH - 1) := by omega
  have hadd := add_label_full r name a hfull
  simp only [first_pass, hlong, if_false, htok, TokenizationResult.token_count,
    List.length_cons, collect_labels, if_true, hadd]
  simp

/-! ## Failures of the assembler -/

/-- C9, as stated, fails: in the source `L0:`, ..., `L255:`, `L0:` the label
`L0` leads line 1 and line 257, but at the second definition the table
holds 256 labels, so that `add_label` returns code 1 and leaves the table
unchanged: pass 1 fails there with that code, not with
LabelAlreadyDefined. -/
theorem full_table_counterexample :
    leading_label (full_table_source.getD 0 []) = some "L0".toList
    ∧ leading_label (full_table_source.getD 256 []) = some "L0".toList
    ∧ parse_file_diag full_table_source = (1, label_table 256)
    ∧ (parse_file_diag full_table_source).1 ≠ PARSER_ERROR_LABEL_ALREADY_DEF
    ∧ (label_table 256).label_count = 256
    ∧ add_label (label_table 256) "L0".toList 0 = (1, label_table 256) := by
  have hcount : (label_table 256).label_count = 256 := by
    simp [ParseResult.label_count, label_table]
  have hfull : (label_table 256).label_count ≥ MAX_LABELS := by rw [hcount]
  have hfp : first_pass full_table_source 0 ParseResult.zero 0 = (1, label_table 256, 0) := by
    unfold full_table_source
    have hlen256 : ((List.range 256).map label_line).length = 256 := by simp
    rw [first_pass_append, first_pass_label_lines 256 (le_refl _), hlen256,
      if_neg (not_not.mpr rfl)]
    exact first_pass_label_full "L0:".toList "L0".toList [] (0 + 256) 0 (label_table 256) []
      (by decide) (by decide) hfull
  have hdiag : parse_file_diag full_table_source = (1, label_table 256) := by
    unfold parse_file_diag
    rw [hfp]
    rfl
  refine ⟨by decide, by decide, hdiag, ?_, hcount, add_label_full _ _ _ hfull⟩
  rw [hdiag]
  decide

/-- C9, amended. In every source in which two distinct lines are led by a
label of the same name, pass 1 of `parse_file` fails, no instruction is
produced and `assemble_file` returns ParserFailed without opening the
output file. When pass 1 reads the lines before the second definition
without error, leaving fewer than 256 labels, and the line of the second
definition is shorter than 255 characters, `add_label` returns
LabelAlreadyDefined there and leaves the table unchanged, and `parse_file`
fails with that code. -/
theorem duplicate_label_fails (pre1 pre2 post : List (List Char)) (l1 l2 n : List Char)
    (h1 : leading_label l1 = some n) (h2 : leading_label l2 = some n) :
    (parse_file_diag (pre1 ++ l1 :: pre2 ++ l2 :: post)).1 ≠ PARSER_SUCCESS
    ∧ (parse_file (pre1 ++ l1 :: pre2 ++ l2 :: post)).instruction_count = 0
    ∧ assemble_file (pre1 ++ l1 :: pre2 ++ l2 :: post) = (ASSEMBLER_ERROR_PARSER_FAILED, none)
    ∧ ∀ (r : ParseResult) (a : Nat),
        first_pass (pre1 ++ l1 :: pre2) 0 ParseResult.zero 0 = (PARSER_SUCCESS, r, a) →
        r.label_count < MAX_LABELS → l2.length < MAX_LINE_LENGTH - 1 →
        add_label r n a = (PARSER_ERROR_LABEL_ALREADY_DEF, r)
        ∧ parse_file_diag (pre1 ++ l1 :: pre2 ++ l2 :: post)
            = (PARSER_ERROR_LABEL_ALREADY_DEF, r)
        ∧ r.instructions = [] := by
  have happ : pre1 ++ l1 :: pre2 ++ l2 :: post = (pre1 ++ l1 :: pre2) ++ (l2 :: post) := by simp
  have hpre : ∀ (r : ParseResult) (a : Nat),
      first_pass (pre1 ++ l1 :: pre2) 0 ParseResult.zero 0 = (PARSER_SUCCESS, r, a) →
      has_label r n = true := by
    intro r a hfp
    rw [first_pass_append] at hfp
    split_ifs at hfp with hp1
    · rw [hfp] at hp1; exact absurd rfl hp1
    · have := first_pass_leading_label l1 n pre2 h1 _ _ _ (by rw [hfp])
      rw [hfp] at this
      exact this
  have hfail : (first_pass (pre1 ++ l1 :: pre2 ++ l2 :: post) 0 ParseResult.zero 0).1
      ≠ PARSER_SUCCESS := by
    rw [happ, first_pass_append]
    split_ifs with hp
    · exact hp
    · have hp' : (first_pass (pre1 ++ l1 :: pre2) 0 ParseResult.zero 0).1 = PARSER_SUCCESS := by
        simpa using hp
      exact (first_pass_duplicate l2 n post h2 _ _ _ (hpre _ _ (Prod.ext hp' rfl))).1
  have hinstr : (first_pass (pre1 ++ l1 :: pre2 ++ l2 :: post) 0 ParseResult.zero 0).2.1.instructions
      = [] := first_pass_instructions _ _ _ _
  have hdiag : parse_file_diag (pre1 ++ l1 :: pre2 ++ l2 :: post)
      = ((first_pass (pre1 ++ l1 :: pre2 ++ l2 :: post) 0 ParseResult.zero 0).1,
          (first_pass (pre1 ++ l1 :: pre2 ++ l2 :: post) 0 ParseResult.zero 0).2.1) := by
    simp only [parse_file_diag]
    rw [if_pos hfail]
  have hcount : (parse_file (pre1 ++ l1 :: pre2 ++ l2 :: post)).instruction_count = 0 := by
    simp only [parse_file, hdiag, ParseResult.instruction_count, hinstr, List.length_nil]
  refine ⟨by rw [hdiag]; exact hfail, hcount, ?_, ?_⟩
  · simp only [assemble_file, hcount, le_refl, if_true]
  · intro r a hfp hcap hshort
    have hr := hpre r a hfp
    have hi : r.instructions = [] := by
      have := first_pass_instructions (pre1 ++ l1 :: pre2) 0 ParseResult.zero 0
      rw [hfp] at this
      exact this
    refine ⟨(add_label_has_label r n a hr).2.2 hcap, ?_, hi⟩
    have hfp2 : first_pass (pre1 ++ l1 :: pre2 ++ l2 :: post) 0 ParseResult.zero 0
        = (PARSER_ERROR_LABEL_ALREADY_DEF, r, a) := by
      rw [happ, first_pass_append, hfp]
      simp only [ne_eq, not_true_eq_false, if_false]
      exact (first_pass_duplicate l2 n post h2 _ r a hr).2 hcap hshort
    rw [hdiag, hfp2]

theorem duplicate_label_fails_witness :
    (leading_label "foo:".toList = some "foo".toList
      ∧ leading_label "foo: nop".toList = some "foo".toList)
    ∧ assemble_file ([] ++ "foo:".toList :: ["nop".toList] ++ "foo: nop".toList :: [])
        = (ASSEMBLER_ERROR_PARSER_FAILED, none)
    ∧ (first_pass ([] ++ "foo:".toList :: ["nop".toList]) 0 ParseResult.zero 0
        = (PARSER_SUCCESS, ⟨[], [⟨"foo".toList, 0⟩]⟩, 4)
      ∧ (⟨[], [⟨"foo".toList, 0⟩]⟩ : ParseResult).label_count < MAX_LABELS
      ∧ "foo: nop".toList.length < MAX_LINE_LENGTH - 1)
    ∧ parse_file_diag ([] ++ "foo:".toList :: ["nop".toList] ++ "foo: nop".toList :: [])
        = (PARSER_ERROR_LABEL_ALREADY_DEF, ⟨[], [⟨"foo".toList, 0⟩]⟩) :=
  ⟨⟨by decide, by decide⟩,
    (duplicate_label_fails [] ["nop".toList] [] "foo:".toList "foo: nop".toList "foo".toList
      (by decide) (by decide)).2.2.1,
    ⟨by decide, by decide, by decide⟩,
    ((duplicate_label_fails [] ["nop".toList] [] "foo:".toList "foo: nop".toList "foo".toList
      (by decide) (by decide)).2.2.2 ⟨[], [⟨"foo".toList, 0⟩]⟩ 4 (by decide) (by decide)
      (by decide)).2.1⟩

/-- C10 fails on the code: in the source `nop`, `add R0` the second line
does not parse (InvalidOperand), `parse_file` returns the one instruction
parsed before it, and `assemble_file` returns success and writes the four
bytes of `nop`. -/
theorem partial_object_after_parse_error :
    (parse_instruction (parse_file ["nop".toList]) (tokenize_line "add R0".toList 2) 0 4).1
      = PARSER_ERROR_INVALID_OPERAND
    ∧ (parse_file_diag ["nop".toList, "add R0".toList]).1 = PARSER_ERROR_INVALID_OPERAND
    ∧ (parse_file ["nop".toList, "add R0".toList]).instruction_count = 1
    ∧ assemble_file ["nop".toList, "add R0".toList] = (ASSEMBLER_SUCCESS, some [0, 0, 0, 0]) := by
  decide

/-! ## Invariants of the parser -/

theorem parse_operands_address (tokens : TokenizationResult) (opcode format max_operands : Nat) :
    ∀ (todo i token_idx : Nat) (instr : Instruction),
      (parse_operands tokens opcode format max_operands todo i token_idx instr).2.2.address
        = instr.address := by
  intro todo
  induction todo with
  | zero => intro i token_idx instr; rfl
  | succ n ih =>
    intro i token_idx instr
    simp only [parse_operands]
    split_ifs <;> simp only [ih, set_operand]

theorem parse_instruction_cases (result : ParseResult) (tokens : TokenizationResult)
    (token_idx addr : Nat) :
    ((parse_instruction result tokens token_idx addr).1 ≠ PARSER_SUCCESS
      ∧ (parse_instruction result tokens token_idx addr).2.1 = result)
    ∨ ((parse_instruction result tokens token_idx addr).1 = PARSER_SUCCESS
      ∧ result.instruction_count < MAX_INSTRUCTION_COUNT
      ∧ ∃ instr : Instruction, instr.address = addr
          ∧ (parse_instruction result tokens token_idx addr).2.1
            = { result with instructions := result.instructions ++ [instr] }) := by
  simp only [parse_instruction]
  split_ifs with h1 h2 h3 h4 h5 h6
  · exact Or.inl ⟨by simp, rfl⟩
  · exact Or.inl ⟨h2, rfl⟩
  · exact Or.inl ⟨by simp, rfl⟩
  · exact Or.inl ⟨by simp, rfl⟩
  · exact Or.inl ⟨by simp, rfl⟩
  · exact Or.inl ⟨h6, rfl⟩
  · refine Or.inr ⟨rfl, ?_, _, parse_operands_address _ _ _ _ _ _ _ _, rfl⟩
    by_contra hc
    apply h2
    have : result.instruction_count ≥ MAX_INSTRUCTION_COUNT := by omega
    simp [PRINT_ERROR_IF, this]

theorem range_succ_map (n : Nat) :
    (List.range (n + 1)).map (fun k => 4 * k) = (List.range n).map (fun k => 4 * k) ++ [4 * n] := by
  rw [List.range_succ, List.map_append]; rfl

theorem second_pass_addresses (lines : List (List Char)) :
    ∀ (ln : Nat) (r : ParseResult) (a : Nat),
      addresses r = (List.range r.instruction_count).map (fun k => 4 * k) →
      a = 4 * r.instruction_count → r.instruction_count ≤ MAX_INSTRUCTION_COUNT →
      addresses (second_pass lines ln r a).2
        = (List.range (second_pass lines ln r a).2.instruction_count).map (fun k => 4 * k) := by
  induction lines with
  | nil => intro ln r a h _ _; exact h
  | cons l ls ih =>
    intro ln r a h ha hn
    simp only [second_pass]
    split_ifs with h1 h2 h3
    · exact ih _ _ _ h ha hn
    · rcases parse_instruction_cases r (tokenize_line l (ln + 1))
        ((tokenize_line l (ln + 1)).tokens.takeWhile
          (fun t => decide (t.type = TOKEN_LABEL))).length a with ⟨_, e⟩ | ⟨e, _⟩
      · rw [e]; exact h
      · exact absurd e h3
    · rcases parse_instruction_cases r (tokenize_line l (ln + 1))
        ((tokenize_line l (ln + 1)).tokens.takeWhile
          (fun t => decide (t.type = TOKEN_LABEL))).length a with ⟨e, _⟩ | ⟨_, hlt, instr, hia, e⟩
      · exact absurd (not_not.mp h3) e
      · rw [e]
        simp only [MAX_INSTRUCTION_COUNT, ParseResult.instruction_count] at hlt hn ha
        apply ih
        · simp only [addresses, ParseResult.instruction_count, List.map_append, List.length_append,
            List.length_singleton, List.map_cons, List.map_nil, range_succ_map]
          simp only [addresses, ParseResult.instruction_count] at h
          rw [h, hia, ha]
        · simp only [ParseResult.instruction_count, List.length_append, List.length_singleton]
          omega
        · simp only [ParseResult.instruction_count, List.length_append, List.length_singleton,
            MAX_INSTRUCTION_COUNT]
          omega
    · exact ih _ _ _ h ha hn

theorem generate_all_addresses (r : ParseResult) :
    addresses (generate_machine_code_for_all r) = addresses r
      ∧ (generate_machine_code_for_all r).instruction_count = r.instruction_count := by
  simp [addresses, generate_machine_code_for_all, ParseResult.instruction_count,
    Function.comp_def]

theorem parse_file_addresses (file : List (List Char)) :
    addresses (parse_file file)
      = (List.range (parse_file file).instruction_count).map (fun k => 4 * k) := by
  have h1 : (first_pass file 0 ParseResult.zero 0).2.1.instructions = [] :=
    first_pass_instructions file 0 ParseResult.zero 0
  have hz : (first_pass file 0 ParseResult.zero 0).2.1.instruction_count = 0 := by
    simp [ParseResult.instruction_count, h1]
  have h0 : addresses (first_pass file 0 ParseResult.zero 0).2.1
      = (List.range (first_pass file 0 ParseResult.zero 0).2.1.instruction_count).map
          (fun k => 4 * k) := by
    rw [hz]; simp [addresses, h1]
  have h2 := second_pass_addresses file 0 (first_pass file 0 ParseResult.zero 0).2.1 0 h0
    (by rw [hz]) (by rw [hz]; decide)
  simp only [parse_file, parse_file_diag]
  split_ifs
  · exact h0
  · exact h2
  · rw [(generate_all_addresses _).1, (generate_all_addresses _).2]; exact h2

/-- C11. For every source, the instruction of index `k` in the result of
`parse_file` has the address `4 * k`: every address is a multiple of 4 and
the addresses increase strictly, by 4 from one instruction to the next, in
program order. This holds for the partial result of a failed parse too. -/
theorem instruction_addresses (file : List (List Char)) :
    addresses (parse_file file)
        = (List.range (parse_file file).instruction_count).map (fun k => 4 * k)
    ∧ (∀ k, k < (parse_file file).instruction_count →
        (addresses (parse_file file)).getD k 0 = 4 * k)
    ∧ (∀ a ∈ addresses (parse_file file), a % 4 = 0)
    ∧ List.Pairwise (fun a b => a < b) (addresses (parse_file file))
    ∧ (∀ k, k + 1 < (parse_file file).instruction_count →
        (addresses (parse_file file)).getD (k + 1) 0
          = (addresses (parse_file file)).getD k 0 + 4)
    ∧ addresses (parse_file add_program) = [0, 4, 8, 12]
    ∧ addresses (parse_file ["nop".toList, "x: nop".toList, "add R0".toList]) = [0, 4] := by
  have h := parse_file_addresses file
  have hget : ∀ k, k < (parse_file file).instruction_count →
      (addresses (parse_file file)).getD k 0 = 4 * k := by
    intro k hk
    rw [h]
    simp [List.getD_eq_getElem?_getD, List.getElem?_map, List.getElem?_range, hk]
  refine ⟨h, hget, ?_, ?_, ?_, by decide, by decide⟩
  · intro a ha
    rw [h] at ha
    simp only [List.mem_map, List.mem_range] at ha
    obtain ⟨k, _, rfl⟩ := ha
    omega
  · rw [h, List.pairwise_map]
    exact (List.pairwise_lt_range _).imp (fun hab => by omega)
  · intro k hk
    rw [hget k (by omega), hget (k + 1) hk]
    omega

/-! ## Label addresses -/

/-- C12 fails on the code: in the source `x nop`, `end: ready` pass 1 finds the
instruction token of line 1 behind the identifier `x` and advances the
address to 4, so that `end` is recorded at 4, while pass 2, which wants the
instruction right after the leading labels, emits nothing from line 1: the
parse reports no error, `ready` is the first instruction and has address 0,
not 4. With `end: bnz end, R0` as second line the branch is encoded with
target 4, past the only instruction of the object. -/
theorem label_address_drift :
    first_pass ["x nop".toList] 0 ParseResult.zero 0 = (PARSER_SUCCESS, ParseResult.zero, 4)
    ∧ second_pass ["x nop".toList] 0 ParseResult.zero 0 = (PARSER_SUCCESS, ParseResult.zero)
    ∧ parse_file_diag ["x nop".toList, "end: ready".toList]
        = (PARSER_SUCCESS,
            ⟨[⟨OPC_READY, FORMAT_F4, [], 0, 0x0F000000, 0⟩], [⟨"end".toList, 4⟩]⟩)
    ∧ get_label_address (parse_file ["x nop".toList, "end: ready".toList]) "end".toList = 4
    ∧ (parse_file ["x nop".toList, "end: ready".toList]).instructions.map (fun i => i.address)
        = [0]
    ∧ assemble_file ["x nop".toList, "end: bnz end, R0".toList]
        = (ASSEMBLER_SUCCESS, some [0x0E, 0, 0, 4]) := by
  decide

/-! ## Lemmas: arithmetic and branch instructions -/

theorem decode_mul (host : Host) (cpu : CPU) (a b c : Nat) (ha : a < 16) (hb : b < 16)
    (hc : c < 16) :
    emulator_decode_instruction host cpu (word_of_bytes OPC_MUL a b c)
      = next_instruction
          ((cpu.set_reg host c (((cpu.reg a * cpu.reg b) % 4294967296) &&& 0xFFFF)).set_reg
            host (if c = 15 then 0 else c + 1)
            ((((cpu.reg a * cpu.reg b) % 4294967296) >>> 16) &&& 0xFFFF)) := by
  rw [decode_word_of_bytes host cpu OPC_MUL a b c (by decide) (by omega) (by omega) (by omega)]
  have e1 : ¬ (16 ≤ a) := by omega
  have e2 : ¬ (16 ≤ b) := by omega
  have e3 : ¬ (16 ≤ c) := by omega
  simp [execute_opcode, e1, e2, e3, OPC_MUL, OPC_ST, OPC_LD, OPC_XOR, NUM_REGISTERS,
    OPC_SET_CONST, OPC_READY, OPC_BNZ]

theorem and_65535 (x : Nat) : x &&& 0xFFFF = x % 65536 :=
  Nat.and_pow_two_sub_one_eq_mod x 16

theorem set_reg_length (host : Host) (cpu : CPU) (i v : Nat) :
    (cpu.set_reg host i v).RF.length = cpu.RF.length := by
  simp only [CPU.set_reg]
  split_ifs <;> simp

/-- C13. For `a, b, c < 16` the source line `mul Ra, Rb, Rc` assembles to the
bytes of its machine word. In a well-formed CPU state, executing this word
succeeds and leaves the 32-bit product of the operands in the register pair:
`R'[c] + 2^16 * R'[(c+1) mod 16] = R[a] * R[b]`, the low half in `R[c]` and
the high half in `R[(c+1) mod 16]`, which is `R0` when `c = 15`. No other
register changes, `IP` advances by 4, the memory and the running flag are
untouched. -/
theorem mul_product (host : Host) (cpu : CPU) (a b c : Nat) (labels : ParseResult)
    (hwf : cpu.well_formed) (ha : a < 16) (hb : b < 16) (hc : c < 16) :
    assemble_file [three_register_line "mul".toList a b c]
        = (ASSEMBLER_SUCCESS,
            some (word_bytes (generate_machine_code (three_register_instruction OPC_MUL a b c)
              labels)))
    ∧ (emulator_decode_instruction host cpu
        (generate_machine_code (three_register_instruction OPC_MUL a b c) labels)).1
      = EMULATOR_SUCCESS
    ∧ (emulator_decode_instruction host cpu
          (generate_machine_code (three_register_instruction OPC_MUL a b c) labels)).2.reg c
        + 65536 * (emulator_decode_instruction host cpu
          (generate_machine_code (three_register_instruction OPC_MUL a b c)
            labels)).2.reg ((c + 1) % 16)
      = cpu.reg a * cpu.reg b
    ∧ (emulator_decode_instruction host cpu
          (generate_machine_code (three_register_instruction OPC_MUL a b c) labels)).2.reg c
      = (cpu.reg a * cpu.reg b) % 65536
    ∧ (emulator_decode_instruction host cpu
          (generate_machine_code (three_register_instruction OPC_MUL a b c)
            labels)).2.reg ((c + 1) % 16)
      = (cpu.reg a * cpu.reg b) / 65536
    ∧ (c = 15 →
        (emulator_decode_instruction host cpu
          (generate_machine_code (three_register_instruction OPC_MUL a b c) labels)).2.reg 0
        = (cpu.reg a * cpu.reg b) / 65536)
    ∧ (∀ j, j ≠ c → j ≠ (c + 1) % 16 →
        (emulator_decode_instruction host cpu
          (generate_machine_code (three_register_instruction OPC_MUL a b c) labels)).2.reg j
        = cpu.reg j)
    ∧ (emulator_decode_instruction host cpu
          (generate_machine_code (three_register_instruction OPC_MUL a b c) labels)).2.IP
      = (cpu.IP + 4) % 65536
    ∧ (emulator_decode_instruction host cpu
          (generate_machine_code (three_register_instruction OPC_MUL a b c) labels)).2.memory
      = cpu.memory
    ∧ (emulator_decode_instruction host cpu
          (generate_machine_code (three_register_instruction OPC_MUL a b c) labels)).2.running
      = cpu.running := by
  obtain ⟨hlen, hregs, _, _, _, _, _, _⟩ := hwf
  have hfile : assemble_file [three_register_line "mul".toList a b c]
      = (ASSEMBLER_SUCCESS,
          some (word_bytes (generate_machine_code (three_register_instruction OPC_MUL a b c)
            labels))) := by
    rw [three_register_instruction,
      three_register_bytes _ _ a b c 0 labels (by decide) (by decide) ha hb hc]
    exact (three_register_line_parse "mul".toList OPC_MUL FORMAT_F1 a b c (by decide) rfl
      (by decide) rfl (by decide) rfl ha hb hc).2
  refine ⟨hfile, ?_⟩
  have hgen := generate_three_registers OPC_MUL a b c labels (Or.inl rfl) (by decide) (by omega)
    (by omega) (by omega)
  rw [hgen, decode_mul host cpu a b c ha hb hc]
  have hA := reg_lt cpu a hregs
  have hB := reg_lt cpu b hregs
  have hP : cpu.reg a * cpu.reg b < 4294967296 := by
    calc cpu.reg a * cpu.reg b < 65536 * 65536 := Nat.mul_lt_mul'' hA hB
      _ = 4294967296 := by norm_num
  generalize cpu.reg a * cpu.reg b = P at hP ⊢
  have hnext : (if c = 15 then 0 else c + 1) = (c + 1) % 16 := by
    split_ifs with h
    · subst h; rfl
    · rw [Nat.mod_eq_of_lt (by omega)]
  rw [hnext]
  have hn : (c + 1) % 16 < 16 := Nat.mod_lt _ (by norm_num)
  have hne : c ≠ (c + 1) % 16 := by omega
  have hlo : (P % 4294967296) &&& 0xFFFF = P % 65536 := by
    rw [and_65535, Nat.mod_eq_of_lt hP]
  have hhi : ((P % 4294967296) >>> 16) &&& 0xFFFF = P / 65536 := by
    rw [and_65535, Nat.mod_eq_of_lt hP, Nat.shiftRight_eq_div_pow]
    norm_num; omega
  rw [hlo, hhi]
  have hl1 : c < cpu.RF.length := by rw [hlen]; exact hc
  have hl2 : (c + 1) % 16 < (cpu.set_reg host c (P % 65536)).RF.length := by
    rw [set_reg_length, hlen]; exact hn
  have hrc : ((cpu.set_reg host c (P % 65536)).set_reg host ((c + 1) % 16) (P / 65536)).reg c
      = P % 65536 := by
    rw [reg_set_reg host _ _ _ _ hl2 hn, if_neg hne, reg_set_reg host _ _ _ _ hl1 hc, if_pos rfl]
    omega
  have hrn : ((cpu.set_reg host c (P % 65536)).set_reg host ((c + 1) % 16) (P / 65536)).reg
      ((c + 1) % 16) = P / 65536 := by
    rw [reg_set_reg host _ _ _ _ hl2 hn, if_pos rfl]
    omega
  have hro : ∀ j, j ≠ c → j ≠ (c + 1) % 16 →
      ((cpu.set_reg host c (P % 65536)).set_reg host ((c + 1) % 16) (P / 65536)).reg j
        = cpu.reg j := by
    intro j h1 h2
    rw [reg_set_reg host _ _ _ _ hl2 hn, if_neg h2, reg_set_reg host _ _ _ _ hl1 hc, if_neg h1]
  refine ⟨rfl, ?_, hrc, hrn, ?_, hro, ?_, ?_, ?_⟩
  · show ((cpu.set_reg host c (P % 65536)).set_reg host ((c + 1) % 16) (P / 65536)).reg c
      + 65536 * ((cpu.set_reg host c (P % 65536)).set_reg host ((c + 1) % 16) (P / 65536)).reg
          ((c + 1) % 16) = P
    rw [hrc, hrn]; omega
  · intro h15
    subst h15
    exact hrn
  all_goals
    rw [set_reg_lt host _ _ _ hn, set_reg_lt host _ _ _ hc]
    rfl

theorem mul_product_witness :
    ((small_cpu 0 [0xFFFF, 0xFFFF, 0, 0, 0, 0, 0, 0, 0, 0, 0, 0, 0, 0, 0, 7]
          [3, 0, 1, 15]).well_formed
      ∧ 0 < 16 ∧ 1 < 16 ∧ 15 < 16)
    ∧ (emulator_decode_instruction masking_host
          (small_cpu 0 [0xFFFF, 0xFFFF, 0, 0, 0, 0, 0, 0, 0, 0, 0, 0, 0, 0, 0, 7] [3, 0, 1, 15])
          (generate_machine_code (three_register_instruction OPC_MUL 0 1 15)
            ParseResult.zero)).2.reg 15
        + 65536 * (emulator_decode_instruction masking_host
          (small_cpu 0 [0xFFFF, 0xFFFF, 0, 0, 0, 0, 0, 0, 0, 0, 0, 0, 0, 0, 0, 7] [3, 0, 1, 15])
          (generate_machine_code (three_register_instruction OPC_MUL 0 1 15)
            ParseResult.zero)).2.reg ((15 + 1) % 16)
      = (small_cpu 0 [0xFFFF, 0xFFFF, 0, 0, 0, 0, 0, 0, 0, 0, 0, 0, 0, 0, 0, 7]
            [3, 0, 1, 15]).reg 0
          * (small_cpu 0 [0xFFFF, 0xFFFF, 0, 0, 0, 0, 0, 0, 0, 0, 0, 0, 0, 0, 0, 7]
            [3, 0, 1, 15]).reg 1 :=
  ⟨⟨by decide, by decide, by decide, by decide⟩,
    (mul_product masking_host
      (small_cpu 0 [0xFFFF, 0xFFFF, 0, 0, 0, 0, 0, 0, 0, 0, 0, 0, 0, 0, 0, 7] [3, 0, 1, 15])
      0 1 15 ParseResult.zero (by decide) (by decide) (by decide) (by decide)).2.2.1⟩

theorem decode_bnz (host : Host) (cpu : CPU) (a b c : Nat) (ha : a < 16) (hb : b < 256)
    (hc : c < 256) :
    emulator_decode_instruction host cpu (word_of_bytes OPC_BNZ a b c)
      = if cpu.reg a ≠ 0 then (EMULATOR_SUCCESS, { cpu with IP := (b <<< 8) ||| c })
        else next_instruction cpu := by
  rw [decode_word_of_bytes host cpu OPC_BNZ a b c (by decide) (by omega) hb hc]
  have e1 : ¬ (16 ≤ a) := by omega
  have hsh : (b <<< 8) % 65536 = b <<< 8 := by
    rw [Nat.shiftLeft_eq]; apply Nat.mod_eq_of_lt; norm_num; omega
  simp [execute_opcode, e1, hsh, OPC_ST, OPC_LD, OPC_XOR, NUM_REGISTERS,
    OPC_SET_CONST, OPC_READY, OPC_BNZ]

theorem target_of_bytes (b c : Nat) (hc : c < 256) : (b <<< 8) ||| c = 256 * b + c := by
  rw [Nat.shiftLeft_eq, mul_comm, ← Nat.mul_add_lt_is_or (by norm_num; omega)]

theorem generate_bnz (t s : Nat) (labels : ParseResult) (ht : t < 65536) (hs : s < 256) :
    generate_machine_code
        ⟨OPC_BNZ, FORMAT_F4, [immediate_operand t, register_operand s], 0, 0, 2⟩ labels
      = word_of_bytes OPC_BNZ s (t >>> 8) (t &&& 0xFF) := by
  have h1 : t >>> 8 < 256 := by rw [Nat.shiftRight_eq_div_pow]; norm_num; omega
  have h2 : t &&& 0xFF < 256 := by rw [and_255]; omega
  have := pack_word 0x0E s (t >>> 8) (t &&& 0xFF) hs h1 h2
  simpa [generate_machine_code, Instruction.operand, register_operand,
    immediate_operand, word_of_bytes] using this

/-- C14. For `a < 16` and bytes `b`, `c`, executing the BNZ word with the
bytes `0x0E, a, b, c` returns success, leaves `IP = (b << 8) | c` (that is
`256 * b + c`, without adding 4) when `R[a] ≠ 0` and
`IP = (IP + 4) mod 2^16` when `R[a] = 0`, and changes no register, no memory
byte and not the running flag. The source line `bnz t, Ra` assembles to the
word whose two low bytes make up `t`. -/
theorem bnz_branch (host : Host) (cpu : CPU) (a b c : Nat) (ha : a < 16) (hb : b < 256)
    (hc : c < 256) :
    (emulator_decode_instruction host cpu (word_of_bytes OPC_BNZ a b c)).1 = EMULATOR_SUCCESS
    ∧ (cpu.reg a ≠ 0 →
        (emulator_decode_instruction host cpu (word_of_bytes OPC_BNZ a b c)).2.IP
          = (b <<< 8) ||| c)
    ∧ (cpu.reg a = 0 →
        (emulator_decode_instruction host cpu (word_of_bytes OPC_BNZ a b c)).2.IP
          = (cpu.IP + 4) % 65536)
    ∧ (emulator_decode_instruction host cpu (word_of_bytes OPC_BNZ a b c)).2.RF = cpu.RF
    ∧ (emulator_decode_instruction host cpu (word_of_bytes OPC_BNZ a b c)).2.memory
      = cpu.memory
    ∧ (emulator_decode_instruction host cpu (word_of_bytes OPC_BNZ a b c)).2.running
      = cpu.running
    ∧ (b <<< 8) ||| c = 256 * b + c
    ∧ ∀ t, t < 65536 →
        assemble_file [bnz_line t a]
            = (ASSEMBLER_SUCCESS,
                some (word_bytes (word_of_bytes OPC_BNZ a (t >>> 8) (t &&& 0xFF))))
        ∧ ((t >>> 8) <<< 8) ||| (t &&& 0xFF) = t := by
  rw [decode_bnz host cpu a b c ha hb hc]
  refine ⟨?_, ?_, ?_, ?_, ?_, ?_, target_of_bytes b c hc, ?_⟩
  · split_ifs <;> rfl
  · intro h; rw [if_pos h]
  · intro h; rw [if_neg (not_not.mpr h)]; rfl
  · split_ifs <;> rfl
  · split_ifs <;> rfl
  · split_ifs <;> rfl
  · intro t ht
    have h1 : t >>> 8 < 256 := by rw [Nat.shiftRight_eq_div_pow]; norm_num; omega
    constructor
    · refine (immediate_register_line "bnz".toList OPC_BNZ FORMAT_F4 t a (by decide) rfl
        (by decide) rfl (by decide) rfl ht ha).2 _ (fun l => ?_)
      rw [generate_bnz t a l ht (by omega)]
    · have := constant_of_bytes t ht
      rwa [Nat.mod_eq_of_lt] at this
      rw [Nat.shiftLeft_eq]; norm_num; omega

theorem bnz_branch_witness :
    (1 < 16 ∧ 0x12 < 256 ∧ 0x34 < 256)
    ∧ (emulator_decode_instruction masking_host
          (small_cpu 8 [0, 5, 0, 0, 0, 0, 0, 0, 0, 0, 0, 0, 0, 0, 0, 0] [])
          (word_of_bytes OPC_BNZ 1 0x12 0x34)).2.IP = 0x1234
    ∧ (emulator_decode_instruction masking_host
          (small_cpu 8 [0, 5, 0, 0, 0, 0, 0, 0, 0, 0, 0, 0, 0, 0, 0, 0] [])
          (word_of_bytes OPC_BNZ 0 0x12 0x34)).2.IP = 12 :=
  ⟨⟨by decide, by decide, by decide⟩,
    (bnz_branch masking_host (small_cpu 8 [0, 5, 0, 0, 0, 0, 0, 0, 0, 0, 0, 0, 0, 0, 0, 0] [])
      1 0x12 0x34 (by decide) (by decide) (by decide)).2.1 (by decide),
    (bnz_branch masking_host (small_cpu 8 [0, 5, 0, 0, 0, 0, 0, 0, 0, 0, 0, 0, 0, 0, 0, 0] [])
      0 0x12 0x34 (by decide) (by decide) (by decide)).2.2.1 (by decide)⟩

theorem decode_ready (host : Host) (cpu : CPU) (a b c : Nat) (ha : a < 256) (hb : b < 256)
    (hc : c < 256) :
    emulator_decode_instruction host cpu (word_of_bytes OPC_READY a b c)
      = (EMULATOR_HALT, { cpu with IP := 0, running := false }) := by
  rw [decode_word_of_bytes host cpu OPC_READY a b c (by decide) ha hb hc]
  simp [execute_opcode, OPC_ST, OPC_LD, OPC_XOR, NUM_REGISTERS, OPC_SET_CONST, OPC_READY,
    OPC_BNZ]

/-- C15. In every CPU state, executing a READY word (opcode byte `0x0F`, the
three other bytes arbitrary) returns the Halt signal and leaves the CPU with
`IP = 0` and the running flag cleared, registers and memory unchanged; when
the instruction that `emulator_run` fetches is such a word, `emulator_run`
returns success from that iteration with this CPU. The source line `ready`
assembles to `0F 00 00 00`, and running it halts with success. -/
theorem ready_halts (host : Host) (cpu : CPU) (a b c f : Nat) (ha : a < 256) (hb : b < 256)
    (hc : c < 256) :
    emulator_decode_instruction host cpu (word_of_bytes OPC_READY a b c)
        = (EMULATOR_HALT, { cpu with IP := 0, running := false })
    ∧ (cpu.IP / INSTRUCTION_SIZE < cpu.memory.instruction_size / INSTRUCTION_SIZE →
        memory_read_instruction cpu.memory (cpu.IP / INSTRUCTION_SIZE)
          = (MEMORY_SUCCESS, word_of_bytes OPC_READY a b c) →
        emulator_run host (f + 1) cpu
          = some (EMULATOR_SUCCESS, { cpu with IP := 0, running := false }))
    ∧ assemble_file ["ready".toList] = (ASSEMBLER_SUCCESS, some [0x0F, 0, 0, 0])
    ∧ emulator_run host (f + 1) (loaded_cpu [0x0F, 0, 0, 0])
        = some (EMULATOR_SUCCESS,
            cpu_at [0x0F, 0, 0, 0] 0 [0, 0, 0, 0, 0, 0, 0, 0, 0, 0, 0, 0, 0, 0, 0, 0] false) := by
  refine ⟨decode_ready host cpu a b c ha hb hc, ?_, by decide, ?_⟩
  · intro hidx hfetch
    have hidx' : ¬ (cpu.memory.instruction_size / INSTRUCTION_SIZE
        ≤ cpu.IP / INSTRUCTION_SIZE) := by omega
    have hcycle : emulator_fetch_execute_cycle host { cpu with running := true }
        = (EMULATOR_HALT, { cpu with IP := 0, running := false }) := by
      have hdec := decode_ready host { cpu with running := true } a b c ha hb hc
      simp only [emulator_fetch_execute_cycle, ge_iff_le, hidx', if_false, hfetch, hdec]
      simp
    exact run_loop_halt host f _ _ rfl hcycle
  · have s1 : emulator_fetch_execute_cycle host
          (cpu_at [0x0F, 0, 0, 0] 0 [0, 0, 0, 0, 0, 0, 0, 0, 0, 0, 0, 0, 0, 0, 0, 0] true)
        = (EMULATOR_HALT,
            cpu_at [0x0F, 0, 0, 0] 0 [0, 0, 0, 0, 0, 0, 0, 0, 0, 0, 0, 0, 0, 0, 0, 0] false) :=
      rfl
    have e0 : emulator_run host (f + 1) (loaded_cpu [0x0F, 0, 0, 0])
        = run_loop host (f + 1)
            (cpu_at [0x0F, 0, 0, 0] 0 [0, 0, 0, 0, 0, 0, 0, 0, 0, 0, 0, 0, 0, 0, 0, 0] true) :=
      rfl
    rw [e0, run_loop_halt host f _ _ rfl s1]

theorem ready_halts_witness :
    (0xAB < 256 ∧ 0xCD < 256 ∧ 0xEF < 256)
    ∧ emulator_decode_instruction masking_host
          (small_cpu 4 [1, 2, 3, 0, 0, 0, 0, 0, 0, 0, 0, 0, 0, 0, 0, 0] [0, 0, 0, 0, 15, 1, 2, 3])
          (word_of_bytes OPC_READY 0xAB 0xCD 0xEF)
        = (EMULATOR_HALT,
            { small_cpu 4 [1, 2, 3, 0, 0, 0, 0, 0, 0, 0, 0, 0, 0, 0, 0, 0]
                [0, 0, 0, 0, 15, 1, 2, 3] with IP := 0, running := false })
    ∧ emulator_run masking_host 1
          (small_cpu 4 [1, 2, 3, 0, 0, 0, 0, 0, 0, 0, 0, 0, 0, 0, 0, 0] [0, 0, 0, 0, 15, 1, 2, 3])
        = some (EMULATOR_SUCCESS,
            { small_cpu 4 [1, 2, 3, 0, 0, 0, 0, 0, 0, 0, 0, 0, 0, 0, 0, 0]
                [0, 0, 0, 0, 15, 1, 2, 3] with IP := 0, running := false }) :=
  ⟨⟨by decide, by decide, by decide⟩,
    (ready_halts masking_host
      (small_cpu 4 [1, 2, 3, 0, 0, 0, 0, 0, 0, 0, 0, 0, 0, 0, 0, 0] [0, 0, 0, 0, 15, 1, 2, 3])
      0xAB 0xCD 0xEF 0 (by decide) (by decide) (by decide)).1,
    (ready_halts masking_host
      (small_cpu 4 [1, 2, 3, 0, 0, 0, 0, 0, 0, 0, 0, 0, 0, 0, 0, 0] [0, 0, 0, 0, 15, 1, 2, 3])
      1 2 3 0 (by decide) (by decide) (by decide)).2.1 (by decide) (by decide)⟩

/-! ## Data memory and the object file -/

/-- C16. In an initialised memory, for a 16-bit value `v` and an address `A`
(even or odd) with `A + 1 < data_size`, `memory_write_word` succeeds, stores
`v & 0xFF` at data byte `A` and `v >> 8` at data byte `A + 1`, changes no
other data byte and no instruction byte, and `memory_read_word` at `A` then
returns `v`. Writing `0xABCD` to address 0 of the default memory yields the
bytes `CD AB`. -/
theorem data_word_round_trip (memory : Memory) (A v : Nat)
    (hinit : memory.initialized = true) (hlen : memory.data_memory.length = memory.data_size)
    (hv : v < 65536) (hA : A + 1 < memory.data_size) :
    (memory_write_word memory A v).1 = MEMORY_SUCCESS
    ∧ (memory_write_word memory A v).2.data_memory.getD A 0 = v &&& 0xFF
    ∧ (memory_write_word memory A v).2.data_memory.getD (A + 1) 0 = v >>> 8
    ∧ (∀ j, j ≠ A → j ≠ A + 1 →
        (memory_write_word memory A v).2.data_memory.getD j 0 = memory.data_memory.getD j 0)
    ∧ (memory_write_word memory A v).2.data_memory.length = memory.data_memory.length
    ∧ (memory_write_word memory A v).2.instruction_memory = memory.instruction_memory
    ∧ (memory_write_word memory A v).2.data_size = memory.data_size
    ∧ memory_read_word (memory_write_word memory A v).2 A = (MEMORY_SUCCESS, v)
    ∧ (memory_write_word memory_init_default 0 0xABCD).2.data_memory.take 2 = [0xCD, 0xAB]
    ∧ memory_read_word (memory_write_word memory_init_default 0 0xABCD).2 0
        = (MEMORY_SUCCESS, 0xABCD) := by
  have hb : ¬ (memory.data_size ≤ A + 1) := by omega
  have hw : memory_write_word memory A v
      = (MEMORY_SUCCESS,
          { memory with
            data_memory := (memory.data_memory.set A (v &&& 0xFF)).set (A + 1)
              ((v >>> 8) &&& 0xFF) }) := by
    simp [memory_write_word, check_memory_initialized, hinit, hb]
  have hhi : (v >>> 8) &&& 0xFF = v >>> 8 := by
    rw [and_255, Nat.shiftRight_eq_div_pow]; norm_num; omega
  rw [hw, hhi]
  have h1 : A < memory.data_memory.length := by omega
  have h2 : A + 1 < memory.data_memory.length := by omega
  have g1 : ((memory.data_memory.set A (v &&& 0xFF)).set (A + 1) (v >>> 8)).getD A 0
      = v &&& 0xFF := by
    simp [List.getD_eq_getElem?_getD, List.getElem?_set, h1]
  have g2 : ((memory.data_memory.set A (v &&& 0xFF)).set (A + 1) (v >>> 8)).getD (A + 1) 0
      = v >>> 8 := by
    simp [List.getD_eq_getElem?_getD, List.getElem?_set, h2]
  refine ⟨rfl, g1, g2, ?_, by simp, rfl, rfl, ?_, by decide, by decide⟩
  · intro j hj1 hj2
    have e1 : ¬ (A + 1 = j) := fun e => hj2 e.symm
    have e2 : ¬ (A = j) := fun e => hj1 e.symm
    simp [List.getD_eq_getElem?_getD, List.getElem?_set, e1, e2]
  · have hw2 := word_of_halves v hv
    rw [hhi] at hw2
    simp only [memory_read_word, check_memory_initialized, hinit, Bool.not_true,
      Bool.false_eq_true, if_false, ne_eq, not_true_eq_false, ge_iff_le, hb, g1, g2, hw2]

theorem data_word_round_trip_witness :
    (((small_cpu 0 (List.replicate 16 0) []).memory.initialized = true
        ∧ (small_cpu 0 (List.replicate 16 0) []).memory.data_memory.length
            = (small_cpu 0 (List.replicate 16 0) []).memory.data_size)
      ∧ 0xBEEF < 65536 ∧ 3 + 1 < (small_cpu 0 (List.replicate 16 0) []).memory.data_size)
    ∧ memory_read_word
        (memory_write_word (small_cpu 0 (List.replicate 16 0) []).memory 3 0xBEEF).2 3
      = (MEMORY_SUCCESS, 0xBEEF) :=
  ⟨⟨⟨rfl, by decide⟩, by decide, by decide⟩,
    (data_word_round_trip (small_cpu 0 (List.replicate 16 0) []).memory 3 0xBEEF rfl
      (by decide) (by decide) (by decide)).2.2.2.2.2.2.2.1⟩

theorem word_of_word_bytes (w : Nat) (hw : w < 4294967296) :
    (((w >>> 24) &&& 0xFF) <<< 24) ||| (((w >>> 16) &&& 0xFF) <<< 16)
        ||| (((w >>> 8) &&& 0xFF) <<< 8) ||| (w &&& 0xFF) = w := by
  rw [pack_word _ _ _ _ (by rw [and_255]; omega) (by rw [and_255]; omega)
    (by rw [and_255]; omega)]
  simp only [and_255, Nat.shiftRight_eq_div_pow]
  norm_num
  omega

theorem word_bytes_length (w : Nat) : (word_bytes w).length = 4 := rfl

theorem flatten_word_bytes_length (ws : List Nat) :
    ((ws.map word_bytes).flatten).length = 4 * ws.length := by
  induction ws with
  | nil => rfl
  | cons w ws ih =>
    simp only [List.map_cons, List.flatten_cons, List.length_append, word_bytes_length, ih,
      List.length_cons]
    omega

theorem flatten_word_bytes_getD (ws : List Nat) :
    ∀ k j, k < ws.length → j < 4 →
      ((ws.map word_bytes).flatten).getD (4 * k + j) 0 = (word_bytes (ws.getD k 0)).getD j 0 := by
  induction ws with
  | nil => intro k j hk; simp at hk
  | cons w ws ih =>
    intro k j hk hj
    simp only [List.map_cons, List.flatten_cons]
    cases k with
    | zero =>
      simp only [Nat.mul_zero, Nat.zero_add, List.getD_cons_zero]
      rw [List.getD_eq_getElem?_getD, List.getD_eq_getElem?_getD,
        List.getElem?_append_left (by rw [word_bytes_length]; exact hj)]
    | succ k =>
      have hk' : k < ws.length := by simpa using hk
      have := ih k j hk' hj
      rw [List.getD_eq_getElem?_getD] at this ⊢
      rw [List.getElem?_append_right (by rw [word_bytes_length]; omega), word_bytes_length]
      have e : 4 * (k + 1) + j - 4 = 4 * k + j := by omega
      rw [e, this]
      simp

theorem operand_typed (instr : Instruction) (i : Nat) (h : ∀ o ∈ instr.operands, o.typed) :
    (instr.operand i).typed := by
  simp only [Instruction.operand, List.getD_eq_getElem?_getD]
  by_cases hi : i < instr.operands.length
  · rw [List.getElem?_eq_getElem hi]
    exact h _ (List.getElem_mem hi)
  · rw [List.getElem?_eq_none (by omega)]
    exact ⟨by decide, by decide⟩

theorem get_label_address_lt (r : ParseResult) (name : List Char)
    (h : ∀ l ∈ r.labels, l.address < 65536) : get_label_address r name < 65536 := by
  simp only [get_label_address]
  cases hf : r.labels.find? (fun l => l.name == name) with
  | none => simp
  | some l => exact h l (List.mem_of_find?_eq_some hf)

theorem shift_or_lt (a b c d : Nat) (ha : a < 4294967296) (hb : b < 256) (hc : c < 256)
    (hd : d < 256) : a ||| (b <<< 16) ||| (c <<< 8) ||| d < 4294967296 := by
  have h1 : b <<< 16 < 2 ^ 32 := by rw [Nat.shiftLeft_eq]; norm_num; omega
  have h2 : c <<< 8 < 2 ^ 32 := by rw [Nat.shiftLeft_eq]; norm_num; omega
  have h3 : d < 2 ^ 32 := by norm_num; omega
  have h0 : a < 2 ^ 32 := by norm_num; omega
  exact Nat.or_lt_two_pow (Nat.or_lt_two_pow (Nat.or_lt_two_pow h0 h1) h2) h3

theorem generate_machine_code_lt (instr : Instruction) (r : ParseResult)
    (hi : ∀ o ∈ instr.operands, o.typed) (hl : ∀ l ∈ r.labels, l.address < 65536) :
    generate_machine_code instr r < 4294967296 := by
  have h0 : (instr.opcode <<< 24) % 4294967296 < 4294967296 := Nat.mod_lt _ (by norm_num)
  have t0 := operand_typed instr 0 hi
  have t1 := operand_typed instr 1 hi
  have t2 := operand_typed instr 2 hi
  simp only [generate_machine_code]
  split_ifs with h1 h2 h3 h4 h5 h6 h7
  · exact shift_or_lt _ _ _ _ h0 t0.1 t1.1 t2.1
  · exact h0
  · have c1 : (instr.operand 0).immediate >>> 8 < 256 := by
      rw [Nat.shiftRight_eq_div_pow]; have := t0.2; norm_num; omega
    have c2 : (instr.operand 0).immediate &&& 0xFF < 256 := by rw [and_255]; omega
    exact shift_or_lt _ _ _ _ h0 c1 c2 t1.1
  · exact h0
  · have ht := get_label_address_lt r (instr.operand 0).label hl
    have c1 : get_label_address r (instr.operand 0).label >>> 8 < 256 := by
      rw [Nat.shiftRight_eq_div_pow]; norm_num; omega
    have c2 : get_label_address r (instr.operand 0).label &&& 0xFF < 256 := by
      rw [and_255]; omega
    exact shift_or_lt _ _ _ _ h0 t1.1 c1 c2
  · have c1 : (instr.operand 0).immediate >>> 8 < 256 := by
      rw [Nat.shiftRight_eq_div_pow]; have := t0.2; norm_num; omega
    have c2 : (instr.operand 0).immediate &&& 0xFF < 256 := by rw [and_255]; omega
    exact shift_or_lt _ _ _ _ h0 t1.1 c1 c2
  · exact h0
  · norm_num

theorem machine_codes_lt (r : ParseResult) (h : r.typed) :
    ∀ w ∈ machine_codes r, w < 4294967296 := by
  intro w hw
  simp only [machine_codes, generate_machine_code_for_all, List.map_map, List.mem_map,
    Function.comp] at hw
  obtain ⟨i, hi, rfl⟩ := hw
  exact generate_machine_code_lt i r (h.1 i hi) h.2

theorem object_bytes_eq (r : ParseResult) :
    object_bytes r = ((machine_codes r).map word_bytes).flatten := by
  simp [object_bytes, machine_codes, List.map_map, Function.comp_def]

theorem machine_codes_length (r : ParseResult) :
    (machine_codes r).length = r.instruction_count := by
  simp [machine_codes, generate_machine_code_for_all, ParseResult.instruction_count]

theorem tail_getD (zs : List Nat) (hz : ∀ b ∈ zs, b = 0) (m i : Nat) :
    (zs.drop m).getD i 0 = 0 := by
  rw [List.getD_eq_getElem?_getD]
  cases h : (zs.drop m)[i]? with
  | none => rfl
  | some x =>
    have hx : x ∈ zs.drop m := List.getElem?_mem h
    simp [hz x (List.mem_of_mem_drop hx)]

theorem load_object (memory : Memory) (file : List Nat) (hinit : memory.initialized = true)
    (h : file.length ≤ memory.instruction_size) :
    memory_load_program memory file
      = (MEMORY_SUCCESS,
          { memory with
            instruction_memory := file ++ memory.instruction_memory.drop file.length }) := by
  have h' : ¬ (memory.instruction_size < file.length) := by omega
  simp [memory_load_program, check_memory_initialized, hinit, h']

theorem loaded_getD (file zs : List Nat) (hz : ∀ b ∈ zs, b = 0) (i : Nat) :
    (file ++ zs.drop file.length).getD i 0 = file.getD i 0 := by
  by_cases hi : i < file.length
  · rw [List.getD_eq_getElem?_getD, List.getD_eq_getElem?_getD, List.getElem?_append_left hi]
  · rw [List.getD_eq_getElem?_getD, List.getElem?_append_right (by omega),
      ← List.getD_eq_getElem?_getD, tail_getD zs hz, List.getD_eq_getElem?_getD,
      List.getElem?_eq_none (by omega)]
    rfl

theorem read_loaded (memory : Memory) (file : List Nat) (k : Nat)
    (hinit : memory.initialized = true) (hz : ∀ b ∈ memory.instruction_memory, b = 0)
    (h : file.length ≤ memory.instruction_size) (hk : 4 * k + 3 < memory.instruction_size)
    (hk' : k < 16384) :
    memory_read_instruction (memory_load_program memory file).2 k
      = (MEMORY_SUCCESS,
          (file.getD (4 * k) 0 <<< 24) ||| (file.getD (4 * k + 1) 0 <<< 16)
            ||| (file.getD (4 * k + 2) 0 <<< 8) ||| file.getD (4 * k + 3) 0) := by
  rw [load_object memory file hinit h]
  have e : k * 4 % 65536 = 4 * k := by omega
  have hb : ¬ (memory.instruction_size ≤ 4 * k + 3) := by omega
  have g := fun i => loaded_getD file memory.instruction_memory hz i
  simp only [List.getD_eq_getElem?_getD] at g
  simp [memory_read_instruction, check_memory_initialized, hinit, e, hb, g]

theorem memory_init_default_zero :
    memory_init_default.initialized = true ∧ memory_init_default.instruction_size = 1024
      ∧ ∀ b ∈ memory_init_default.instruction_memory, b = 0 := by
  refine ⟨rfl, rfl, ?_⟩
  intro b hb
  have e : memory_init_default.instruction_memory = List.replicate 1024 0 := rfl
  rw [e] at hb
  exact (List.mem_replicate.mp hb).2

theorem zero_typed : Operand.zero.typed := ⟨by decide, by decide⟩

theorem parse_register_typed (token : Token) (operand : Operand) (h : operand.typed) :
    (parse_register token operand).2.typed := by
  simp only [parse_register]
  split_ifs with h1 h2 h3
  · exact h
  · exact h
  · exact h
  · refine ⟨?_, h.2⟩
    show (strtol (token.value.drop 1) 10).1.toNat < 256
    omega

theorem parse_immediate_typed (token : Token) (operand : Operand) (h : operand.typed) :
    (parse_immediate token operand).2.typed := by
  simp only [parse_immediate]
  split_ifs
  all_goals first
    | exact h
    | exact ⟨h.1, by
        show (_ % 65536 : Int).toNat < 65536
        omega⟩

theorem memory_access_registers_typed (tokens : TokenizationResult) (i j n idx : Nat)
    (operand : Operand) (h : operand.typed) :
    (memory_access_registers tokens i j n idx operand).2.2.typed := by
  have h1 := (parse_register_typed (tokens.at i) Operand.zero zero_typed).1
  have h2 := (parse_register_typed (tokens.at j) Operand.zero zero_typed).1
  simp only [memory_access_registers]
  split_ifs
  · exact h
  · exact h
  · exact ⟨h1, by show (parse_register (tokens.at j) Operand.zero).2.reg_num < 65536; omega⟩

theorem parse_memory_access_typed (tokens : TokenizationResult) (idx : Nat)
    (operand : Operand) (h : operand.typed) :
    (parse_memory_access tokens idx operand).2.2.typed := by
  simp only [parse_memory_access]
  split_ifs
  · exact memory_access_registers_typed _ _ _ _ _ _ h
  · exact memory_access_registers_typed _ _ _ _ _ _ h
  · split
    · exact h
    · split
      · exact h
      · split
        · exact h
        · exact memory_access_registers_typed _ _ _ _ _ _ h
  · exact h

theorem parse_operand_typed (tokens : TokenizationResult) (idx : Nat)
    (operand : Operand) (h : operand.typed) :
    (parse_operand tokens idx operand).2.2.typed := by
  have hm := parse_memory_access_typed tokens idx Operand.zero zero_typed
  have hr := parse_register_typed (tokens.at idx) Operand.zero zero_typed
  have hi := parse_immediate_typed (tokens.at idx) _ hr
  simp only [parse_operand]
  split_ifs <;> first | exact h | exact hm | exact hr | exact hi

theorem set_operand_typed (instr : Instruction) (i : Nat) (operand : Operand)
    (h : ∀ o ∈ instr.operands, o.typed) (ho : operand.typed) :
    ∀ o ∈ (set_operand instr i operand).operands, o.typed := by
  intro o hm
  simp only [set_operand, List.mem_append, List.mem_singleton] at hm
  rcases hm with hm | rfl
  · exact h o (List.mem_of_mem_take hm)
  · exact ho

theorem parse_operands_typed (tokens : TokenizationResult) (opcode format max_operands : Nat) :
    ∀ (todo i token_idx : Nat) (instr : Instruction),
      (∀ o ∈ instr.operands, o.typed) →
      ∀ o ∈ (parse_operands tokens opcode format max_operands todo i token_idx
        instr).2.2.operands, o.typed := by
  intro todo
  induction todo with
  | zero => intro i token_idx instr h; exact h
  | succ n ih =>
    intro i token_idx instr h
    have hz := set_operand_typed instr i Operand.zero h zero_typed
    have him := set_operand_typed (set_operand instr i Operand.zero) i _ hz
      (parse_immediate_typed (tokens.at token_idx)
        ((set_operand instr i Operand.zero).operand i) (operand_typed _ i hz))
    have hop := set_operand_typed instr i _ h
      (parse_operand_typed tokens token_idx (instr.operand i) (operand_typed _ i h))
    simp only [parse_operands]
    split_ifs
    all_goals first
      | exact hz
      | exact him
      | exact hop
      | exact ih _ _ _ hz
      | exact ih _ _ _ him
      | exact ih _ _ _ hop

theorem parse_instruction_typed (result : ParseResult) (tokens : TokenizationResult)
    (token_idx addr : Nat) (h : result.typed) :
    (parse_instruction result tokens token_idx addr).2.1.typed := by
  simp only [parse_instruction]
  split_ifs
  all_goals first
    | exact h
    | refine ⟨?_, h.2⟩
      intro i hi
      simp only [List.mem_append, List.mem_singleton] at hi
      rcases hi with hi | rfl
      · exact h.1 i hi
      · exact parse_operands_typed _ _ _ _ _ _ _ _ (by intro o ho; simp at ho)

theorem second_pass_typed (lines : List (List Char)) :
    ∀ (ln : Nat) (r : ParseResult) (a : Nat), r.typed → (second_pass lines ln r a).2.typed := by
  induction lines with
  | nil => intro ln r a h; exact h
  | cons l ls ih =>
    intro ln r a h
    simp only [second_pass]
    split_ifs
    · exact ih _ _ _ h
    · exact parse_instruction_typed _ _ _ _ h
    · exact ih _ _ _ (parse_instruction_typed _ _ _ _ h)
    · exact ih _ _ _ h

theorem add_label_typed (r : ParseResult) (n : List Char) (a : Nat) (h : r.typed) :
    (add_label r n a).2.typed := by
  simp only [add_label]
  split_ifs
  · exact h
  · exact h
  · refine ⟨h.1, ?_⟩
    intro l hl
    simp only [List.mem_append, List.mem_singleton] at hl
    rcases hl with hl | rfl
    · exact h.2 l hl
    · exact Nat.mod_lt _ (by norm_num)

theorem collect_labels_typed (ts : List Token) :
    ∀ (r : ParseResult) (a : Nat), r.typed → (collect_labels ts r a).2.1.typed := by
  induction ts with
  | nil => intro r a h; exact h
  | cons t ts ih =>
    intro r a h
    simp only [collect_labels]
    split_ifs
    · exact add_label_typed r _ a h
    · exact ih _ _ (add_label_typed r _ a h)
    · exact h
    · exact ih r a h

theorem first_pass_typed (lines : List (List Char)) :
    ∀ (ln : Nat) (r : ParseResult) (a : Nat), r.typed → (first_pass lines ln r a).2.1.typed := by
  induction lines with
  | nil => intro ln r a h; exact h
  | cons l ls ih =>
    intro ln r a h
    simp only [first_pass]
    split_ifs
    · exact h
    · exact ih _ _ _ h
    · exact collect_labels_typed _ _ _ h
    · exact ih _ _ _ (collect_labels_typed _ _ _ h)

theorem generate_all_typed (r : ParseResult) (h : r.typed) :
    (generate_machine_code_for_all r).typed := by
  refine ⟨?_, h.2⟩
  intro i hi
  simp only [generate_machine_code_for_all, List.mem_map] at hi
  obtain ⟨j, hj, rfl⟩ := hi
  exact h.1 j hj

theorem parse_file_typed (file : List (List Char)) : (parse_file file).typed := by
  have hz : ParseResult.zero.typed :=
    ⟨by intro i hi; simp [ParseResult.zero] at hi, by intro l hl; simp [ParseResult.zero] at hl⟩
  have h1 := first_pass_typed file 0 ParseResult.zero 0 hz
  have h2 := second_pass_typed file 0 _ 0 h1
  simp only [parse_file, parse_file_diag]
  split_ifs
  · exact h1
  · exact h2
  · exact generate_all_typed _ h2

/-- C17. For every parse result with `n ≤ 256` instructions, whose fields
hold values of their C types: the bytes that `assemble_file` writes are
`4 * n` bytes, the concatenation in program order of the machine words, each
most significant byte first. Loading them into the default (zeroed, 1024
bytes) instruction memory succeeds and copies them to offset 0;
`memory_read_instruction` then returns the machine word of instruction `k`
for `k < n` and 0 for `n ≤ k < 256`. The result of `parse_file` has typed
fields for every source, and `assemble_file` writes its `object_bytes`. -/
theorem object_round_trip (r : ParseResult) (htyped : r.typed)
    (hn : r.instruction_count ≤ 256) :
    (object_bytes r).length = 4 * r.instruction_count
    ∧ object_bytes r = ((machine_codes r).map word_bytes).flatten
    ∧ (machine_codes r).length = r.instruction_count
    ∧ (∀ w, w < 4294967296 →
        word_bytes w = [w / 16777216, w / 65536 % 256, w / 256 % 256, w % 256])
    ∧ (memory_load_program memory_init_default (object_bytes r)).1 = MEMORY_SUCCESS
    ∧ (memory_load_program memory_init_default (object_bytes r)).2.instruction_memory
        = object_bytes r
          ++ memory_init_default.instruction_memory.drop (object_bytes r).length
    ∧ (∀ k, k < r.instruction_count →
        memory_read_instruction
            (memory_load_program memory_init_default (object_bytes r)).2 k
          = (MEMORY_SUCCESS, (machine_codes r).getD k 0))
    ∧ (∀ k, r.instruction_count ≤ k → k < 256 →
        memory_read_instruction
            (memory_load_program memory_init_default (object_bytes r)).2 k
          = (MEMORY_SUCCESS, 0))
    ∧ ∀ file : List (List Char),
        (parse_file file).typed
        ∧ assemble_file file
          = if (parse_file file).instruction_count ≤ 0 then (ASSEMBLER_ERROR_PARSER_FAILED, none)
            else (ASSEMBLER_SUCCESS, some (object_bytes (parse_file file))) := by
  obtain ⟨hinit, hsize, hzero⟩ := memory_init_default_zero
  have hobj := object_bytes_eq r
  have hcl := machine_codes_length r
  have hlen : (object_bytes r).length = 4 * r.instruction_count := by
    rw [hobj, flatten_word_bytes_length, hcl]
  have hfit : (object_bytes r).length ≤ memory_init_default.instruction_size := by
    rw [hlen, hsize]; omega
  have hload := load_object memory_init_default (object_bytes r) hinit hfit
  refine ⟨hlen, hobj, hcl, ?_, by rw [hload], by rw [hload], ?_, ?_, ?_⟩
  · intro w hw
    simp only [word_bytes, and_255, Nat.shiftRight_eq_div_pow]
    norm_num
    omega
  · intro k hk
    rw [read_loaded memory_init_default (object_bytes r) k hinit hzero hfit
      (by rw [hsize]; omega) (by omega)]
    have hk' : k < (machine_codes r).length := by rw [hcl]; exact hk
    have g := fun j hj => flatten_word_bytes_getD (machine_codes r) k j hk' hj
    have g0 := g 0 (by norm_num)
    rw [Nat.add_zero] at g0
    rw [hobj, g0, g 1 (by norm_num), g 2 (by norm_num), g 3 (by norm_num)]
    have hw : (machine_codes r).getD k 0 < 4294967296 := by
      rw [List.getD_eq_getElem?_getD, List.getElem?_eq_getElem hk']
      exact machine_codes_lt r htyped _ (List.getElem_mem hk')
    refine Prod.ext rfl ?_
    exact word_of_word_bytes _ hw
  · intro k hk1 hk2
    rw [read_loaded memory_init_default (object_bytes r) k hinit hzero hfit
      (by rw [hsize]; omega) (by omega)]
    have g : ∀ j, (object_bytes r).getD (4 * k + j) 0 = 0 := by
      intro j
      rw [List.getD_eq_getElem?_getD, List.getElem?_eq_none (by rw [hlen]; omega)]
      rfl
    have g0 := g 0
    rw [Nat.add_zero] at g0
    rw [g0, g 1, g 2, g 3]
    rfl
  · intro file
    exact ⟨parse_file_typed file, rfl⟩

theorem object_round_trip_witness :
    ((parse_file add_program).typed ∧ (parse_file add_program).instruction_count ≤ 256)
    ∧ object_bytes (parse_file add_program) = add_object
    ∧ memory_read_instruction
        (memory_load_program memory_init_default (object_bytes (parse_file add_program))).2 2
      = (MEMORY_SUCCESS, (machine_codes (parse_file add_program)).getD 2 0)
    ∧ (machine_codes (parse_file add_program)).getD 2 0 = 0x01000102 :=
  ⟨⟨parse_file_typed add_program, by decide⟩, by decide,
    (object_round_trip (parse_file add_program) (parse_file_typed add_program)
      (by decide)).2.2.2.2.2.2.1 2 (by decide),
    by decide⟩

/-! ## Arithmetic and logic instructions -/

theorem decode_alu (host : Host) (cpu : CPU) (a b c : Nat) (ha : a < 16) (hb : b < 16)
    (hc : c < 16) :
    emulator_decode_instruction host cpu (word_of_bytes OPC_ADD a b c)
        = (EMULATOR_SUCCESS, alu_state cpu c ((cpu.reg a + cpu.reg b) % 65536))
    ∧ emulator_decode_instruction host cpu (word_of_bytes OPC_SUB a b c)
        = (EMULATOR_SUCCESS, alu_state cpu c ((cpu.reg a + 65536 - cpu.reg b) % 65536))
    ∧ emulator_decode_instruction host cpu (word_of_bytes OPC_AND a b c)
        = (EMULATOR_SUCCESS, alu_state cpu c ((cpu.reg a &&& cpu.reg b) % 65536))
    ∧ emulator_decode_instruction host cpu (word_of_bytes OPC_OR a b c)
        = (EMULATOR_SUCCESS, alu_state cpu c ((cpu.reg a ||| cpu.reg b) % 65536))
    ∧ emulator_decode_instruction host cpu (word_of_bytes OPC_XOR a b c)
        = (EMULATOR_SUCCESS, alu_state cpu c ((cpu.reg a ^^^ cpu.reg b) % 65536))
    ∧ emulator_decode_instruction host cpu (word_of_bytes OPC_CMPGE a b c)
        = (EMULATOR_SUCCESS,
            alu_state cpu c ((if cpu.reg a ≥ cpu.reg b then 1 else 0) % 65536)) := by
  have e1 : ¬ (16 ≤ a) := by omega
  have e2 : ¬ (16 ≤ b) := by omega
  have e3 : ¬ (16 ≤ c) := by omega
  refine ⟨?_, ?_, ?_, ?_, ?_, ?_⟩
  · rw [decode_word_of_bytes host cpu OPC_ADD a b c (by decide) (by omega) (by omega) (by omega)]
    simp [execute_opcode, e1, e2, e3, OPC_ADD, OPC_ST, OPC_LD, OPC_XOR, NUM_REGISTERS,
      OPC_SET_CONST, OPC_READY, OPC_BNZ, next_instruction, CPU.set_reg, alu_state, hc]
  · rw [decode_word_of_bytes host cpu OPC_SUB a b c (by decide) (by omega) (by omega) (by omega)]
    simp [execute_opcode, e1, e2, e3, OPC_SUB, OPC_ST, OPC_LD, OPC_XOR, NUM_REGISTERS,
      OPC_SET_CONST, OPC_READY, OPC_BNZ, next_instruction, CPU.set_reg, alu_state, hc]
  · rw [decode_word_of_bytes host cpu OPC_AND a b c (by decide) (by omega) (by omega) (by omega)]
    simp [execute_opcode, e1, e2, e3, OPC_AND, OPC_ST, OPC_LD, OPC_XOR, NUM_REGISTERS,
      OPC_SET_CONST, OPC_READY, OPC_BNZ, next_instruction, CPU.set_reg, alu_state, hc]
  · rw [decode_word_of_bytes host cpu OPC_OR a b c (by decide) (by omega) (by omega) (by omega)]
    simp [execute_opcode, e1, e2, e3, OPC_OR, OPC_ST, OPC_LD, OPC_XOR, NUM_REGISTERS,
      OPC_SET_CONST, OPC_READY, OPC_BNZ, next_instruction, CPU.set_reg, alu_state, hc]
  · rw [decode_word_of_bytes host cpu OPC_XOR a b c (by decide) (by omega) (by omega) (by omega)]
    simp [execute_opcode, e1, e2, e3, OPC_ST, OPC_LD, OPC_XOR, NUM_REGISTERS,
      OPC_SET_CONST, OPC_READY, OPC_BNZ, next_instruction, CPU.set_reg, alu_state, hc]
  · rw [decode_word_of_bytes host cpu OPC_CMPGE a b c (by decide) (by omega) (by omega)
      (by omega)]
    simp [execute_opcode, e1, e2, e3, OPC_CMPGE, OPC_ST, OPC_LD, OPC_XOR, NUM_REGISTERS,
      OPC_SET_CONST, OPC_READY, OPC_BNZ, next_instruction, CPU.set_reg, alu_state, hc]

theorem alu_state_reg (cpu : CPU) (c value j : Nat) (hc : c < cpu.RF.length) :
    (alu_state cpu c value).reg j = if j = c then value else cpu.reg j := by
  simp only [CPU.reg, alu_state, List.getD_eq_getElem?_getD, List.getElem?_set]
  by_cases h : c = j
  · subst h; simp [hc]
  · have h' : ¬ (j = c) := fun e => h e.symm
    simp [h, h']

theorem assemble_three_register_word (m : List Char) (opc a b c : Nat) (labels : ParseResult)
    (hm : (m, opc) ∈ three_register_mnemonics) (ha : a < 16) (hb : b < 16) (hc : c < 16) :
    assemble_file [three_register_line m a b c]
      = (ASSEMBLER_SUCCESS,
          some (word_bytes (generate_machine_code (three_register_instruction opc a b c)
            labels))) := by
  have key := fun (o f : Nat) h1 h2 h3 h4 h5 h6 =>
    three_register_line_parse m o f a b c h1 h2 h3 h4 h5 h6 ha hb hc
  simp only [three_register_mnemonics, List.mem_cons, List.mem_singleton, Prod.mk.injEq,
    List.not_mem_nil, or_false] at hm
  rcases hm with h | h | h | h | h | h | h | h | h | h | h | h
  all_goals
    obtain ⟨rfl, rfl⟩ := h
    rw [three_register_instruction,
      three_register_bytes _ _ a b c 0 labels (by decide) (by decide) ha hb hc]
    exact (key _ _ (by decide) rfl (by decide) rfl (by decide) rfl).2

/-- C18. For `a, b, c < 16` the six source lines `op Ra, Rb, Rc` assemble to
the bytes of their machine words. In a well-formed CPU state, executing the
word of ADD, SUB, AND, OR, XOR or CMPGE succeeds and writes to `R[c]`,
respectively, `(R[a] + R[b]) mod 2^16`, `(R[a] - R[b]) mod 2^16`, the
bitwise and, or, xor of `R[a]` and `R[b]`, or 1 when `R[a] ≥ R[b]` and 0
otherwise (the operands being those of the state before, also when `c` is
`a` or `b`); `IP` advances by 4; no other register, no memory byte and not
the running flag changes. -/
theorem alu_operations (host : Host) (cpu : CPU) (a b c : Nat) (labels : ParseResult)
    (hwf : cpu.well_formed) (ha : a < 16) (hb : b < 16) (hc : c < 16) :
    (∀ p ∈ alu_mnemonics,
      assemble_file [three_register_line p.1 a b c]
        = (ASSEMBLER_SUCCESS,
            some (word_bytes (generate_machine_code (three_register_instruction p.2 a b c)
              labels))))
    ∧ emulator_decode_instruction host cpu
          (generate_machine_code (three_register_instruction OPC_ADD a b c) labels)
        = (EMULATOR_SUCCESS, alu_state cpu c ((cpu.reg a + cpu.reg b) % 65536))
    ∧ emulator_decode_instruction host cpu
          (generate_machine_code (three_register_instruction OPC_SUB a b c) labels)
        = (EMULATOR_SUCCESS,
            alu_state cpu c ((((cpu.reg a : Int) - (cpu.reg b : Int)) % 65536).toNat))
    ∧ emulator_decode_instruction host cpu
          (generate_machine_code (three_register_instruction OPC_AND a b c) labels)
        = (EMULATOR_SUCCESS, alu_state cpu c (cpu.reg a &&& cpu.reg b))
    ∧ emulator_decode_instruction host cpu
          (generate_machine_code (three_register_instruction OPC_OR a b c) labels)
        = (EMULATOR_SUCCESS, alu_state cpu c (cpu.reg a ||| cpu.reg b))
    ∧ emulator_decode_instruction host cpu
          (generate_machine_code (three_register_instruction OPC_XOR a b c) labels)
        = (EMULATOR_SUCCESS, alu_state cpu c (cpu.reg a ^^^ cpu.reg b))
    ∧ emulator_decode_instruction host cpu
          (generate_machine_code (three_register_instruction OPC_CMPGE a b c) labels)
        = (EMULATOR_SUCCESS, alu_state cpu c (if cpu.reg a ≥ cpu.reg b then 1 else 0))
    ∧ (∀ value j : Nat, (alu_state cpu c value).reg j = if j = c then value else cpu.reg j)
    ∧ (∀ value : Nat, (alu_state cpu c value).IP = (cpu.IP + 4) % 65536
        ∧ (alu_state cpu c value).memory = cpu.memory
        ∧ (alu_state cpu c value).running = cpu.running) := by
  obtain ⟨hlen, hregs, _, _, _, _, _, _⟩ := hwf
  have hA := reg_lt cpu a hregs
  have hB := reg_lt cpu b hregs
  have hgen : ∀ opc, opc ≤ OPC_LD →
      generate_machine_code (three_register_instruction opc a b c) labels
        = word_of_bytes opc a b c := by
    intro opc ho
    have hf : get_format_from_opcode opc = FORMAT_F1 := by
      simp [get_format_from_opcode, ho]
    exact generate_three_registers opc a b c labels (Or.inl hf)
      (by simp only [OPC_LD] at ho; omega) (by omega) (by omega) (by omega)
  obtain ⟨d1, d2, d3, d4, d5, d6⟩ := decode_alu host cpu a b c ha hb hc
  have hsub : (cpu.reg a + 65536 - cpu.reg b) % 65536
      = (((cpu.reg a : Int) - (cpu.reg b : Int)) % 65536).toNat := by omega
  have hand : (cpu.reg a &&& cpu.reg b) % 65536 = cpu.reg a &&& cpu.reg b :=
    Nat.mod_eq_of_lt (lt_of_le_of_lt Nat.and_le_left hA)
  have hor : (cpu.reg a ||| cpu.reg b) % 65536 = cpu.reg a ||| cpu.reg b :=
    Nat.mod_eq_of_lt (Nat.or_lt_two_pow (n := 16) hA hB)
  have hxor : (cpu.reg a ^^^ cpu.reg b) % 65536 = cpu.reg a ^^^ cpu.reg b :=
    Nat.mod_eq_of_lt (Nat.xor_lt_two_pow (n := 16) hA hB)
  have hcmp : (if cpu.reg a ≥ cpu.reg b then 1 else 0) % 65536
      = if cpu.reg a ≥ cpu.reg b then 1 else 0 := by
    split_ifs <;> rfl
  rw [hgen OPC_ADD (by decide), hgen OPC_SUB (by decide), hgen OPC_AND (by decide),
    hgen OPC_OR (by decide), hgen OPC_XOR (by decide), hgen OPC_CMPGE (by decide),
    d1, d2, d3, d4, d5, d6, hsub, hand, hor, hxor, hcmp]
  refine ⟨?_, rfl, rfl, rfl, rfl, rfl, rfl, ?_, fun _ => ⟨rfl, rfl, rfl⟩⟩
  · intro p hp
    simp only [alu_mnemonics, List.mem_cons, List.mem_singleton, List.not_mem_nil,
      or_false] at hp
    rcases hp with h | h | h | h | h | h
    all_goals
      subst h
      exact assemble_three_register_word _ _ a b c labels (by decide) ha hb hc
  · intro value j
    exact alu_state_reg cpu c value j (by rw [hlen]; exact hc)

theorem alu_operations_witness :
    ((small_cpu 0 [0xFFFF, 2, 0, 0, 0, 0, 0, 0, 0, 0, 0, 0, 0, 0, 0, 0] []).well_formed
      ∧ 0 < 16 ∧ 1 < 16 ∧ 0 < 16)
    ∧ emulator_decode_instruction masking_host
          (small_cpu 0 [0xFFFF, 2, 0, 0, 0, 0, 0, 0, 0, 0, 0, 0, 0, 0, 0, 0] [])
          (generate_machine_code (three_register_instruction OPC_ADD 0 1 0) ParseResult.zero)
        = (EMULATOR_SUCCESS,
            alu_state (small_cpu 0 [0xFFFF, 2, 0, 0, 0, 0, 0, 0, 0, 0, 0, 0, 0, 0, 0, 0] []) 0
              (((small_cpu 0 [0xFFFF, 2, 0, 0, 0, 0, 0, 0, 0, 0, 0, 0, 0, 0, 0, 0] []).reg 0
                + (small_cpu 0 [0xFFFF, 2, 0, 0, 0, 0, 0, 0, 0, 0, 0, 0, 0, 0, 0, 0] []).reg 1)
                % 65536))
    ∧ (alu_state (small_cpu 0 [0xFFFF, 2, 0, 0, 0, 0, 0, 0, 0, 0, 0, 0, 0, 0, 0, 0] []) 0
        ((0xFFFF + 2) % 65536)).reg 0 = 1 :=
  ⟨⟨by decide, by decide, by decide, by decide⟩,
    (alu_operations masking_host
      (small_cpu 0 [0xFFFF, 2, 0, 0, 0, 0, 0, 0, 0, 0, 0, 0, 0, 0, 0, 0] []) 0 1 0
      ParseResult.zero (by decide) (by decide) (by decide) (by decide)).2.1,
    by decide⟩

/-! ## Shifts and register checks -/

theorem decode_shift (host : Host) (cpu : CPU) (a b c : Nat) (ha : a < 16) (hb : b < 16)
    (hc : c < 16) :
    emulator_decode_instruction host cpu (word_of_bytes OPC_RSHFT a b c)
        = next_instruction (cpu.set_reg host c (shift_right host (cpu.reg a) (cpu.reg b)))
    ∧ emulator_decode_instruction host cpu (word_of_bytes OPC_LSHFT a b c)
        = next_instruction (cpu.set_reg host c (shift_left host (cpu.reg a) (cpu.reg b))) := by
  have e1 : ¬ (16 ≤ a) := by omega
  have e2 : ¬ (16 ≤ b) := by omega
  have e3 : ¬ (16 ≤ c) := by omega
  constructor
  · rw [decode_word_of_bytes host cpu OPC_RSHFT a b c (by decide) (by omega) (by omega)
      (by omega)]
    simp [execute_opcode, e1, e2, e3, OPC_RSHFT, OPC_ST, OPC_LD, OPC_XOR, NUM_REGISTERS,
      OPC_SET_CONST, OPC_READY, OPC_BNZ]
  · rw [decode_word_of_bytes host cpu OPC_LSHFT a b c (by decide) (by omega) (by omega)
      (by omega)]
    simp [execute_opcode, e1, e2, e3, OPC_LSHFT, OPC_ST, OPC_LD, OPC_XOR, NUM_REGISTERS,
      OPC_SET_CONST, OPC_READY, OPC_BNZ]

theorem shift_defined (host : Host) (x n : Nat) (hx : x < 65536) :
    (n < 32 → shift_right host x n = x >>> n)
    ∧ (16 ≤ n → n < 32 → shift_right host x n = 0)
    ∧ (n < 16 → shift_left host x n = (x <<< n) % 65536) := by
  refine ⟨?_, ?_, ?_⟩
  · intro hn
    have : x >>> n ≤ x := by rw [Nat.shiftRight_eq_div_pow]; exact Nat.div_le_self _ _
    simp only [shift_right, hn, if_true]
    exact Nat.mod_eq_of_lt (by omega)
  · intro h16 hn
    have h0 : x >>> n = 0 := by
      rw [Nat.shiftRight_eq_div_pow]
      apply Nat.div_eq_of_lt
      calc x < 2 ^ 16 := hx
        _ ≤ 2 ^ n := Nat.pow_le_pow_right (by norm_num) h16
    simp [shift_right, hn, h0]
  · intro hn
    have hlt : x <<< n < 2147483648 := by
      rw [Nat.shiftLeft_eq]
      calc x * 2 ^ n < 65536 * 2 ^ n := Nat.mul_lt_mul_of_pos_right hx (by positivity)
        _ ≤ 65536 * 2 ^ 15 := Nat.mul_le_mul_left _ (Nat.pow_le_pow_right (by norm_num) (by omega))
        _ = 2147483648 := by norm_num
    have hn' : n < 32 := by omega
    simp [shift_left, hn', hlt]

/-- C19 fails on the code: RSHFT and LSHFT apply the operators `>>` and `<<`
of C to the promoted operands, which leaves a count of 32 or more undefined.
With `R0 = 0x1234` and the count `R1 = 32`, a host that takes the count
modulo 32 (as x86 does) writes `0x1234` to `R2` for both shifts, not 0,
while a host that clears the result writes 0; with the count `0xFFE4` the
masking host shifts by 4. -/
theorem shift_count_undefined :
    assemble_file ["rshft R0, R1, R2".toList, "lshft R0, R1, R2".toList]
        = (ASSEMBLER_SUCCESS, some [6, 0, 1, 2, 7, 0, 1, 2])
    ∧ (emulator_decode_instruction masking_host
          (small_cpu 0 [0x1234, 32, 0, 0, 0, 0, 0, 0, 0, 0, 0, 0, 0, 0, 0, 0] [6, 0, 1, 2])
          (word_of_bytes OPC_RSHFT 0 1 2)).2.reg 2 = 0x1234
    ∧ (emulator_decode_instruction clearing_host
          (small_cpu 0 [0x1234, 32, 0, 0, 0, 0, 0, 0, 0, 0, 0, 0, 0, 0, 0, 0] [6, 0, 1, 2])
          (word_of_bytes OPC_RSHFT 0 1 2)).2.reg 2 = 0
    ∧ (emulator_decode_instruction masking_host
          (small_cpu 0 [0x1234, 32, 0, 0, 0, 0, 0, 0, 0, 0, 0, 0, 0, 0, 0, 0] [7, 0, 1, 2])
          (word_of_bytes OPC_LSHFT 0 1 2)).2.reg 2 = 0x1234
    ∧ (emulator_decode_instruction clearing_host
          (small_cpu 0 [0x1234, 32, 0, 0, 0, 0, 0, 0, 0, 0, 0, 0, 0, 0, 0, 0] [7, 0, 1, 2])
          (word_of_bytes OPC_LSHFT 0 1 2)).2.reg 2 = 0
    ∧ (emulator_decode_instruction masking_host
          (small_cpu 0 [0x1234, 0xFFE4, 0, 0, 0, 0, 0, 0, 0, 0, 0, 0, 0, 0, 0, 0] [6, 0, 1, 2])
          (word_of_bytes OPC_RSHFT 0 1 2)).2.reg 2 = 0x0123
    ∧ (emulator_decode_instruction masking_host
          (small_cpu 0 [0x1234, 0xFFE4, 0, 0, 0, 0, 0, 0, 0, 0, 0, 0, 0, 0, 0, 0] [7, 0, 1, 2])
          (word_of_bytes OPC_LSHFT 0 1 2)).2.reg 2 = 0x2340 := by
  decide

theorem register_checks (host : Host) (cpu : CPU) (opc a b c : Nat) (ho : opc < 256)
    (ha : a < 256) (hb : b < 256) (hc : c < 256) :
    ((opc ≤ OPC_XOR ∨ opc = OPC_ST) → (a ≥ 16 ∨ b ≥ 16 ∨ c ≥ 16) →
      emulator_decode_instruction host cpu (word_of_bytes opc a b c)
        = (EMULATOR_INVALID_REGISTER, cpu))
    ∧ (opc = OPC_LD → (a ≥ 16 ∨ b ≥ 16) →
      emulator_decode_instruction host cpu (word_of_bytes opc a b c)
        = (EMULATOR_INVALID_REGISTER, cpu)) := by
  rw [decode_word_of_bytes host cpu opc a b c ho ha hb hc]
  simp only [NUM_REGISTERS, OPC_XOR, OPC_ST, OPC_LD, OPC_SET_CONST, OPC_READY, OPC_BNZ]
  constructor
  · intro h1 h2
    split_ifs <;> first | rfl | omega
  · intro h1 h2
    subst h1
    split_ifs <;> first | rfl | omega

/-- C20 fails on the code: the destination byte of SET_CONST and of LD is not
checked. In every CPU state the SET_CONST word `0C 12 34 10` (destination
16) returns success and advances `IP`; the LD words `0B 00 01 10` and
`0B 00 01 FF` return success. The words of ADD, ST and NOP with a third
byte of 16, and of LD with a second byte of 16, are rejected with
InvalidRegister and leave the CPU unchanged. -/
theorem unchecked_destination (host : Host) (cpu : CPU) :
    ((emulator_decode_instruction host cpu (word_of_bytes OPC_SET_CONST 0x12 0x34 16)).1
        = EMULATOR_SUCCESS
      ∧ (emulator_decode_instruction host cpu (word_of_bytes OPC_SET_CONST 0x12 0x34 16)).2.IP
        = (cpu.IP + 4) % 65536)
    ∧ ((emulator_decode_instruction host (small_cpu 8 (List.replicate 16 0) [])
          (word_of_bytes OPC_LD 0 1 16)).1 = EMULATOR_SUCCESS
      ∧ (emulator_decode_instruction host (small_cpu 8 (List.replicate 16 0) [])
          (word_of_bytes OPC_LD 0 1 16)).2.IP = 12)
    ∧ (emulator_decode_instruction host (small_cpu 8 (List.replicate 16 0) [])
          (word_of_bytes OPC_LD 0 1 255)).1 = EMULATOR_SUCCESS
    ∧ emulator_decode_instruction host cpu (word_of_bytes OPC_ADD 0 1 16)
        = (EMULATOR_INVALID_REGISTER, cpu)
    ∧ emulator_decode_instruction host cpu (word_of_bytes OPC_ST 0 1 16)
        = (EMULATOR_INVALID_REGISTER, cpu)
    ∧ emulator_decode_instruction host cpu (word_of_bytes OPC_LD 0 16 2)
        = (EMULATOR_INVALID_REGISTER, cpu)
    ∧ emulator_decode_instruction host cpu (word_of_bytes OPC_NOP 0 0 16)
        = (EMULATOR_INVALID_REGISTER, cpu) := by
  refine ⟨⟨rfl, rfl⟩, ⟨rfl, rfl⟩, rfl, rfl, rfl, rfl, rfl⟩

/-! ## Checks of the emulator and bounds of the memory -/

theorem decode_bnz_invalid (host : Host) (cpu : CPU) (a b c : Nat) (ha : 16 ≤ a)
    (ha' : a < 256) (hb : b < 256) (hc : c < 256) :
    emulator_decode_instruction host cpu (word_of_bytes OPC_BNZ a b c)
      = (EMULATOR_INVALID_REGISTER, cpu) := by
  rw [decode_word_of_bytes host cpu OPC_BNZ a b c (by decide) ha' hb hc]
  simp [ha, OPC_ST, OPC_LD, OPC_XOR, NUM_REGISTERS, OPC_SET_CONST, OPC_READY, OPC_BNZ]

/-- C21, as stated, fails for READY: the READY word `0F 10 00 00`, whose
byte `a` is 16, is not rejected; it halts the CPU. -/
theorem ready_unchecked_counterexample :
    emulator_decode_instruction masking_host
        (small_cpu 4 [1, 2, 3, 0, 0, 0, 0, 0, 0, 0, 0, 0, 0, 0, 0, 0] [])
        (word_of_bytes OPC_READY 16 0 0)
      = (EMULATOR_HALT,
          { small_cpu 4 [1, 2, 3, 0, 0, 0, 0, 0, 0, 0, 0, 0, 0, 0, 0, 0] [] with
            IP := 0, running := false })
    ∧ (emulator_decode_instruction masking_host
        (small_cpu 4 [1, 2, 3, 0, 0, 0, 0, 0, 0, 0, 0, 0, 0, 0, 0, 0] [])
        (word_of_bytes OPC_READY 16 0 0)).1 ≠ EMULATOR_INVALID_REGISTER := by
  decide

/-- C21, amended. In every CPU state, a BNZ word whose byte `a` is 16 or more
is rejected with InvalidRegister and leaves the CPU unchanged, whatever the
bytes `b` and `c` are; a READY word is exempt from the check of `a` and
halts; with `a < 16` a BNZ word succeeds for all bytes `b`, `c`, which are
not range-checked. -/
theorem bnz_register_check (host : Host) (cpu : CPU) (a b c : Nat) (ha : 16 ≤ a)
    (ha' : a < 256) (hb : b < 256) (hc : c < 256) :
    emulator_decode_instruction host cpu (word_of_bytes OPC_BNZ a b c)
        = (EMULATOR_INVALID_REGISTER, cpu)
    ∧ emulator_decode_instruction host cpu (word_of_bytes OPC_READY a b c)
        = (EMULATOR_HALT, { cpu with IP := 0, running := false })
    ∧ ∀ s, s < 16 →
        (emulator_decode_instruction host cpu (word_of_bytes OPC_BNZ s b c)).1
          = EMULATOR_SUCCESS := by
  refine ⟨decode_bnz_invalid host cpu a b c ha ha' hb hc,
    decode_ready host cpu a b c ha' hb hc, ?_⟩
  intro s hs
  rw [decode_bnz host cpu s b c hs hb hc]
  split_ifs <;> rfl

theorem bnz_register_check_witness :
    (16 ≤ 16 ∧ 16 < 256 ∧ 0xFF < 256 ∧ 0xFF < 256)
    ∧ emulator_decode_instruction masking_host
          (small_cpu 4 [1, 2, 3, 0, 0, 0, 0, 0, 0, 0, 0, 0, 0, 0, 0, 0] [])
          (word_of_bytes OPC_BNZ 16 0xFF 0xFF)
        = (EMULATOR_INVALID_REGISTER,
            small_cpu 4 [1, 2, 3, 0, 0, 0, 0, 0, 0, 0, 0, 0, 0, 0, 0, 0] [])
    ∧ (emulator_decode_instruction masking_host
          (small_cpu 4 [1, 2, 3, 0, 0, 0, 0, 0, 0, 0, 0, 0, 0, 0, 0, 0] [])
          (word_of_bytes OPC_BNZ 0 0xFF 0xFF)).1 = EMULATOR_SUCCESS :=
  ⟨⟨by decide, by decide, by decide, by decide⟩,
    (bnz_register_check masking_host
      (small_cpu 4 [1, 2, 3, 0, 0, 0, 0, 0, 0, 0, 0, 0, 0, 0, 0, 0] []) 16 0xFF 0xFF
      (by decide) (by decide) (by decide) (by decide)).1,
    (bnz_register_check masking_host
      (small_cpu 4 [1, 2, 3, 0, 0, 0, 0, 0, 0, 0, 0, 0, 0, 0, 0, 0] []) 16 0xFF 0xFF
      (by decide) (by decide) (by decide) (by decide)).2.2 0 (by decide)⟩

/-- C22. On initialised memory, `memory_read_word` and `memory_write_word`
succeed exactly when `A + 1 < data_size` and return OutOfBounds otherwise,
the write then leaving the memory unchanged; an odd `A` is no error: the
read combines the bytes at `A` and `A + 1`, the write stores to them. With
the default 4096 bytes, `A = 4094` succeeds and `A = 4095` fails. -/
theorem data_word_bounds (memory : Memory) (A v : Nat) (hinit : memory.initialized = true) :
    ((memory_read_word memory A).1 = MEMORY_SUCCESS ↔ A + 1 < memory.data_size)
    ∧ ((memory_write_word memory A v).1 = MEMORY_SUCCESS ↔ A + 1 < memory.data_size)
    ∧ (¬ (A + 1 < memory.data_size) →
        memory_read_word memory A = (MEMORY_OUT_OF_BOUNDS, 0)
        ∧ memory_write_word memory A v = (MEMORY_OUT_OF_BOUNDS, memory))
    ∧ (A + 1 < memory.data_size →
        memory_read_word memory A
          = (MEMORY_SUCCESS,
              ((memory.data_memory.getD (A + 1) 0 <<< 8) ||| memory.data_memory.getD A 0)
                % 65536)
        ∧ memory_write_word memory A v
          = (MEMORY_SUCCESS,
              { memory with
                data_memory := (memory.data_memory.set A (v &&& 0xFF)).set (A + 1)
                  ((v >>> 8) &&& 0xFF) }))
    ∧ (memory_read_word memory_init_default 4094).1 = MEMORY_SUCCESS
    ∧ (memory_read_word memory_init_default 4095).1 = MEMORY_OUT_OF_BOUNDS
    ∧ (memory_write_word memory_init_default 4094 0xABCD).1 = MEMORY_SUCCESS
    ∧ (memory_write_word memory_init_default 4095 0xABCD).1 = MEMORY_OUT_OF_BOUNDS
    ∧ (memory_write_word memory_init_default 4093 0xABCD).1 = MEMORY_SUCCESS := by
  have hin : ¬ (4 = 0) := by decide
  by_cases h : A + 1 < memory.data_size
  · have hb : ¬ (memory.data_size ≤ A + 1) := by omega
    refine ⟨?_, ?_, fun hn => absurd h hn, fun _ => ⟨?_, ?_⟩, rfl, rfl, rfl, rfl, rfl⟩
    · simp [memory_read_word, check_memory_initialized, hinit, hb, h]
    · simp [memory_write_word, check_memory_initialized, hinit, hb, h]
    · simp [memory_read_word, check_memory_initialized, hinit, hb]
    · simp [memory_write_word, check_memory_initialized, hinit, hb]
  · have hb : memory.data_size ≤ A + 1 := by omega
    refine ⟨?_, ?_, fun _ => ⟨?_, ?_⟩, fun hn => absurd hn h, rfl, rfl, rfl, rfl, rfl⟩
    · simp [memory_read_word, check_memory_initialized, hinit, hb, h]
    · simp [memory_write_word, check_memory_initialized, hinit, hb, h]
    · simp [memory_read_word, check_memory_initialized, hinit, hb]
    · simp [memory_write_word, check_memory_initialized, hinit, hb]

theorem data_word_bounds_witness :
    (small_cpu 0 (List.replicate 16 0) []).memory.initialized = true
    ∧ ((memory_read_word (small_cpu 0 (List.replicate 16 0) []).memory 29).1 = MEMORY_SUCCESS
        ↔ 29 + 1 < (small_cpu 0 (List.replicate 16 0) []).memory.data_size)
    ∧ memory_write_word (small_cpu 0 (List.replicate 16 0) []).memory 31 7
        = (MEMORY_OUT_OF_BOUNDS, (small_cpu 0 (List.replicate 16 0) []).memory) :=
  ⟨rfl,
    (data_word_bounds (small_cpu 0 (List.replicate 16 0) []).memory 29 7 rfl).1,
    ((data_word_bounds (small_cpu 0 (List.replicate 16 0) []).memory 31 7 rfl).2.2.1
      (by decide)).2⟩

/-- C23 fails on the code for indices of 16384 and more: the byte address `address * 4`
is kept in 16 bits, so word index `i + 16384` reads the same bytes as index
`i`: index 16384 of the default 1024-byte memory, which is out of range
(`4 * 16384 + 3 >= 1024`), is read with success as word 0 instead of
failing with OutOfBounds. For `i < 16384` on initialised memory the function
is as claimed: the big-endian word of bytes `4i .. 4i+3` when
`4i + 3 < instruction_size`, OutOfBounds otherwise. -/
theorem instruction_index_wraps (memory : Memory) :
    memory_read_instruction memory_init_default 16384 = (MEMORY_SUCCESS, 0)
    ∧ memory_read_instruction
        (memory_load_program memory_init_default [0x0C, 0x12, 0x34, 0x02]).2 16384
      = (MEMORY_SUCCESS, 0x0C123402)
    ∧ (∀ i, i < 49152 →
        memory_read_instruction memory (i + 16384) = memory_read_instruction memory i)
    ∧ (memory.initialized = true → ∀ i, i < 16384 →
        memory_read_instruction memory i
          = if 4 * i + 3 < memory.instruction_size then
              (MEMORY_SUCCESS,
                (memory.instruction_memory.getD (4 * i) 0 <<< 24)
                ||| (memory.instruction_memory.getD (4 * i + 1) 0 <<< 16)
                ||| (memory.instruction_memory.getD (4 * i + 2) 0 <<< 8)
                ||| memory.instruction_memory.getD (4 * i + 3) 0)
            else (MEMORY_OUT_OF_BOUNDS, 0)) := by
  refine ⟨by decide, by decide, ?_, ?_⟩
  · intro i _
    have h : (i + 16384) * 4 % 65536 = i * 4 % 65536 := by omega
    simp only [memory_read_instruction, h]
  · intro hinit i hi
    have h : i * 4 % 65536 = 4 * i := by omega
    by_cases hs : 4 * i + 3 < memory.instruction_size
    · have hb : ¬ (memory.instruction_size ≤ 4 * i + 3) := by omega
      simp [memory_read_instruction, check_memory_initialized, hinit, h, hs, hb]
    · have hb : memory.instruction_size ≤ 4 * i + 3 := by omega
      simp [memory_read_instruction, check_memory_initialized, hinit, h, hs, hb]

/-- C24, as stated, fails when the instruction memory is not a whole number
of words: with 6 bytes of instruction memory and `IP = 4`, so `i = 1` and
`i * 4 = 4 < 6`, the cycle halts without fetching. -/
theorem fetch_halt_counterexample :
    (odd_size_cpu 4).IP / 4 * 4 < (odd_size_cpu 4).memory.instruction_size
    ∧ emulator_fetch_execute_cycle masking_host (odd_size_cpu 4)
        = (EMULATOR_HALT, { odd_size_cpu 4 with running := false }) := by
  decide

/-- C24, amended. With `i = IP / 4`, the cycle halts without fetching exactly
when `i >= instruction_size / 4`, that is when the whole word does not fit:
`i * 4 + 3 >= instruction_size`. It then returns Halt and changes only the
running flag, and `emulator_run` reports success with the same state.
Otherwise, on initialised memory with a 16-bit IP, the word at index `i` is
fetched with success and the cycle is the execution of that word. -/
theorem fetch_halt_condition (host : Host) (cpu : CPU) (fuel : Nat)
    (hinit : cpu.memory.initialized = true) (hip : cpu.IP < 65536) :
    (cpu.memory.instruction_size / 4 ≤ cpu.IP / 4
      ↔ cpu.memory.instruction_size ≤ cpu.IP / 4 * 4 + 3)
    ∧ (cpu.memory.instruction_size ≤ cpu.IP / 4 * 4 + 3 →
        emulator_fetch_execute_cycle host cpu = (EMULATOR_HALT, { cpu with running := false })
        ∧ emulator_run host (fuel + 1) cpu
            = some (EMULATOR_SUCCESS, { cpu with running := false }))
    ∧ (cpu.IP / 4 * 4 + 3 < cpu.memory.instruction_size →
        memory_read_instruction cpu.memory (cpu.IP / 4)
          = (MEMORY_SUCCESS,
              (cpu.memory.instruction_memory.getD (cpu.IP / 4 * 4) 0 <<< 24)
              ||| (cpu.memory.instruction_memory.getD (cpu.IP / 4 * 4 + 1) 0 <<< 16)
              ||| (cpu.memory.instruction_memory.getD (cpu.IP / 4 * 4 + 2) 0 <<< 8)
              ||| cpu.memory.instruction_memory.getD (cpu.IP / 4 * 4 + 3) 0)
        ∧ emulator_fetch_execute_cycle host cpu
          = emulator_decode_instruction host cpu
              (memory_read_instruction cpu.memory (cpu.IP / 4)).2) := by
  refine ⟨by omega, ?_, ?_⟩
  · intro h
    have h4 : cpu.memory.instruction_size / 4 ≤ cpu.IP / 4 := by omega
    have hc : emulator_fetch_execute_cycle host cpu
        = (EMULATOR_HALT, { cpu with running := false }) := by
      simp [emulator_fetch_execute_cycle, h4]
    refine ⟨hc, ?_⟩
    have hc2 : emulator_fetch_execute_cycle host { cpu with running := true }
        = (EMULATOR_HALT, { cpu with running := false }) := by
      simp [emulator_fetch_execute_cycle, h4]
    simp [emulator_run, run_loop, hc2]
  · intro h
    have h4 : ¬ (cpu.memory.instruction_size / 4 ≤ cpu.IP / 4) := by omega
    have hm : cpu.IP / 4 * 4 % 65536 = cpu.IP / 4 * 4 := by omega
    have hb : ¬ (cpu.memory.instruction_size ≤ cpu.IP / 4 * 4 + 3) := by omega
    have hr : memory_read_instruction cpu.memory (cpu.IP / 4)
        = (MEMORY_SUCCESS,
              (cpu.memory.instruction_memory.getD (cpu.IP / 4 * 4) 0 <<< 24)
              ||| (cpu.memory.instruction_memory.getD (cpu.IP / 4 * 4 + 1) 0 <<< 16)
              ||| (cpu.memory.instruction_memory.getD (cpu.IP / 4 * 4 + 2) 0 <<< 8)
              ||| cpu.memory.instruction_memory.getD (cpu.IP / 4 * 4 + 3) 0) := by
      simp [memory_read_instruction, check_memory_initialized, hinit, hm, hb]
    refine ⟨hr, ?_⟩
    simp [emulator_fetch_execute_cycle, h4, hr]

theorem fetch_halt_condition_witness :
    ((odd_size_cpu 4).memory.initialized = true ∧ (odd_size_cpu 4).IP < 65536)
    ∧ ((odd_size_cpu 0).memory.initialized = true ∧ (odd_size_cpu 0).IP < 65536)
    ∧ emulator_run masking_host (0 + 1) (odd_size_cpu 4)
        = some (EMULATOR_SUCCESS, { odd_size_cpu 4 with running := false })
    ∧ emulator_fetch_execute_cycle masking_host (odd_size_cpu 0)
        = emulator_decode_instruction masking_host (odd_size_cpu 0)
            (memory_read_instruction (odd_size_cpu 0).memory ((odd_size_cpu 0).IP / 4)).2 :=
  ⟨⟨rfl, by decide⟩, ⟨rfl, by decide⟩,
    ((fetch_halt_condition masking_host (odd_size_cpu 4) 0 rfl (by decide)).2.1
      (by decide)).2,
    ((fetch_halt_condition masking_host (odd_size_cpu 0) 0 rfl (by decide)).2.2
      (by decide)).2⟩

/-! ## Lemmas: digit strings -/

theorem digit_value_isdigit (c : Char) (h : isdigit c = true) :
    digit_value c = some (c.toNat - '0'.toNat) := by
  rcases isdigit_cases c h with h | h | h | h | h | h | h | h | h | h <;> subst h <;> rfl

theorem strtol_digits_decimal (ds : List Char) (h : ∀ c ∈ ds, isdigit c = true) :
    ∀ acc : Nat, strtol_digits 10 ds acc
      = (ds.foldl (fun acc c => acc * 10 + (c.toNat - '0'.toNat)) acc, []) := by
  induction ds with
  | nil => intro acc; rfl
  | cons c cs ih =>
    intro acc
    have hc := h c (List.mem_cons_self _ _)
    have hlt : c.toNat - '0'.toNat < 10 := by
      rcases isdigit_cases c hc with h | h | h | h | h | h | h | h | h | h <;> subst h <;> decide
    rw [strtol_digits, digit_value_isdigit c hc]
    simp only [hlt, if_true, List.foldl_cons]
    exact ih (fun x hx => h x (List.mem_cons_of_mem _ hx)) _

theorem strtol_decimal_digits (ds : List Char) (hne : ds ≠ [])
    (h : ∀ c ∈ ds, isdigit c = true) :
    strtol ds 10 = (min LONG_MAX (decimal_value ds : Int), []) := by
  cases ds with
  | nil => exact absurd rfl hne
  | cons c cs =>
    rw [strtol_decimal c cs (h c (List.mem_cons_self _ _)), strtol_digits_decimal _ h 0]
    have : (0 : Int) ≤ (decimal_value (c :: cs) : Int) := Int.ofNat_nonneg _
    simp only [decimal_value, LONG_MAX, LONG_MIN] at this ⊢
    congr 1
    omega

/-- C25. A Register token whose lexeme is `R` followed by one or more decimal
digits (leading zeros allowed) is accepted by `parse_register` exactly when
the decimal value of the digits is at most 15; the value is then stored as
the register number and the register-valid flag is set, the rest of the
operand being kept. Every other value, and every token whose type is not
Register, gives InvalidRegister and leaves the operand as it was. -/
theorem register_range (ds : List Char) (ln pos : Nat) (operand : Operand) (hne : ds ≠ [])
    (hdig : ∀ c ∈ ds, isdigit c = true) :
    parse_register ⟨TOKEN_REGISTER, 'R' :: ds, ln, pos⟩ operand
        = (if decimal_value ds ≤ 15 then
            (PARSER_SUCCESS,
              { operand with reg_num := decimal_value ds, is_reg_valid := true })
          else (PARSER_ERROR_INVALID_REGISTER, operand))
    ∧ ((parse_register ⟨TOKEN_REGISTER, 'R' :: ds, ln, pos⟩ operand).1 = PARSER_SUCCESS
        ↔ decimal_value ds ≤ 15)
    ∧ ∀ (ty : TokenType) (value : List Char), ty ≠ TOKEN_REGISTER →
        parse_register ⟨ty, value, ln, pos⟩ operand
          = (PARSER_ERROR_INVALID_REGISTER, operand) := by
  have hlen : ¬ (ds.length + 1 < 2) := by
    cases ds with
    | nil => exact absurd rfl hne
    | cons c cs => simp
  have hs := strtol_decimal_digits ds hne hdig
  have key : parse_register ⟨TOKEN_REGISTER, 'R' :: ds, ln, pos⟩ operand
        = (if decimal_value ds ≤ 15 then
            (PARSER_SUCCESS,
              { operand with reg_num := decimal_value ds, is_reg_valid := true })
          else (PARSER_ERROR_INVALID_REGISTER, operand)) := by
    by_cases hv : decimal_value ds ≤ 15
    · have h1 : min LONG_MAX (decimal_value ds : Int) = (decimal_value ds : Int) := by
        simp only [LONG_MAX]; omega
      have h2 : ¬ ((decimal_value ds : Int) < 0) := by omega
      have h3 : ¬ ((decimal_value ds : Int) > 15) := by omega
      simp [parse_register, hs, h1, hv, hlen]
    · have h3 : min LONG_MAX (decimal_value ds : Int) > 15 := by
        simp only [LONG_MAX]; omega
      simp [parse_register, hs, hv, hlen, h3]
  refine ⟨key, ?_, ?_⟩
  · rw [key]
    by_cases hv : decimal_value ds ≤ 15 <;> simp [hv]
  · intro ty value hty
    simp [parse_register, hty]

theorem register_range_witness :
    (['0', '0', '7'] ≠ [] ∧ ∀ c ∈ ['0', '0', '7'], isdigit c = true)
    ∧ parse_register ⟨TOKEN_REGISTER, ['R', '0', '0', '7'], 1, 0⟩ Operand.zero
        = (PARSER_SUCCESS, register_operand 7)
    ∧ parse_register ⟨TOKEN_REGISTER, ['R', '1', '6'], 1, 0⟩ Operand.zero
        = (PARSER_ERROR_INVALID_REGISTER, Operand.zero) :=
  ⟨⟨by decide, by decide⟩,
    (register_range ['0', '0', '7'] 1 0 Operand.zero (by decide) (by decide)).1,
    (register_range ['1', '6'] 1 0 Operand.zero (by decide) (by decide)).1⟩

theorem xdigit_code (n : Nat) (h : n < 128) :
    isxdigit (Char.ofNat n) = true →
      isspace (Char.ofNat n) = false ∧ Char.ofNat n ≠ '-' ∧ Char.ofNat n ≠ '+'
      ∧ Char.ofNat n ≠ 'x' ∧ Char.ofNat n ≠ 'X'
      ∧ digit_value (Char.ofNat n) = some (hex_digit_value (Char.ofNat n))
      ∧ hex_digit_value (Char.ofNat n) < 16 := by
  interval_cases n <;> decide

theorem xdigit_facts (c : Char) (h : isxdigit c = true) :
    isspace c = false ∧ c ≠ '-' ∧ c ≠ '+' ∧ c ≠ 'x' ∧ c ≠ 'X'
      ∧ digit_value c = some (hex_digit_value c) ∧ hex_digit_value c < 16 := by
  have h2 : c = Char.ofNat c.toNat := (Char.ofNat_toNat c).symm
  have h1 : c.toNat < 128 := by
    simp only [isxdigit, isdigit, Bool.or_eq_true, Bool.and_eq_true, decide_eq_true_eq] at h
    have e1 : ∀ d : Char, c ≤ d → c.toNat ≤ d.toNat := fun d h => h
    rcases h with (h | h) | h
    · exact Nat.lt_of_le_of_lt (e1 _ h.2) (by decide)
    · exact Nat.lt_of_le_of_lt (e1 _ h.2) (by decide)
    · exact Nat.lt_of_le_of_lt (e1 _ h.2) (by decide)
  rw [h2] at h ⊢
  exact xdigit_code _ h1 h

theorem strtol_digits_hex (ds : List Char) (h : ∀ c ∈ ds, isxdigit c = true) :
    ∀ acc : Nat, strtol_digits 16 ds acc
      = (ds.foldl (fun acc c => acc * 16 + hex_digit_value c) acc, []) := by
  induction ds with
  | nil => intro acc; rfl
  | cons c cs ih =>
    intro acc
    obtain ⟨-, -, -, -, -, hd, hlt⟩ := xdigit_facts c (h c (List.mem_cons_self _ _))
    rw [strtol_digits, hd]
    simp only [hlt, if_true, List.foldl_cons]
    exact ih (fun x hx => h x (List.mem_cons_of_mem _ hx)) _

theorem strtol_unsigned_hex (c : Char) (cs : List Char) (hm : c ≠ '-') (hp : c ≠ '+')
    (hs : isspace c = false) (hbase : is_base_digit 16 c = true)
    (hx : ∀ x ∈ cs.head?, x ≠ 'x' ∧ x ≠ 'X') :
    strtol (c :: cs) 16
      = (max LONG_MIN (min LONG_MAX ((strtol_digits 16 (c :: cs) 0).1 : Int)),
          (strtol_digits 16 (c :: cs) 0).2) := by
  have hdrop : (c :: cs).dropWhile isspace = c :: cs := by simp [List.dropWhile, hs]
  unfold strtol
  simp only [hdrop]
  rcases cs with _ | ⟨x, _ | ⟨y, r⟩⟩
  · simp [hm, hp, hbase]
  · simp [hm, hp, hbase]
  · have h1 := hx x (by simp)
    simp [hm, hp, hbase, h1.1, h1.2]

theorem strtol_hex_digits (ds : List Char) (hne : ds ≠ [])
    (h : ∀ c ∈ ds, isxdigit c = true) :
    strtol ds 16 = (min LONG_MAX (hex_value ds : Int), []) := by
  cases ds with
  | nil => exact absurd rfl hne
  | cons c cs =>
    obtain ⟨hs, hm, hp, -, -, hd, hlt⟩ := xdigit_facts c (h c (List.mem_cons_self _ _))
    have hbase : is_base_digit 16 c = true := by simp [is_base_digit, hd, hlt]
    have hx : ∀ x ∈ cs.head?, x ≠ 'x' ∧ x ≠ 'X' := by
      intro x hx
      have hmem : x ∈ c :: cs := List.mem_cons_of_mem _ (List.mem_of_mem_head? hx)
      obtain ⟨-, -, -, h1, h2, -, -⟩ := xdigit_facts x (h x hmem)
      exact ⟨h1, h2⟩
    rw [strtol_unsigned_hex c cs hm hp hs hbase hx, strtol_digits_hex (c :: cs) h 0]
    have hnn : (0 : Int) ≤ (hex_value (c :: cs) : Int) := Int.ofNat_nonneg _
    simp only [hex_value, LONG_MAX, LONG_MIN] at hnn ⊢
    congr 1
    omega

theorem strtol_negative (c : Char) (cs : List Char) (h : isdigit c = true) :
    strtol ('-' :: c :: cs) 10
      = (max LONG_MIN (min LONG_MAX (-((strtol_digits 10 (c :: cs) 0).1 : Int))),
          (strtol_digits 10 (c :: cs) 0).2) := by
  rcases isdigit_cases c h with h | h | h | h | h | h | h | h | h | h <;> subst h <;> rfl

theorem strtol_signed (negative : Bool) (ds : List Char) (hne : ds ≠ [])
    (h : ∀ c ∈ ds, isdigit c = true) :
    strtol (signed_literal negative ds) 10
      = (max LONG_MIN (min LONG_MAX (signed_value negative ds)), []) := by
  cases negative with
  | false =>
    rw [show signed_literal false ds = ds from rfl, strtol_decimal_digits ds hne h]
    have hnn : (0 : Int) ≤ (decimal_value ds : Int) := Int.ofNat_nonneg _
    simp only [signed_value, LONG_MAX, LONG_MIN, Bool.false_eq_true, if_false]
    congr 1
    omega
  | true =>
    cases ds with
    | nil => exact absurd rfl hne
    | cons c cs =>
      rw [show signed_literal true (c :: cs) = '-' :: c :: cs from rfl,
        strtol_negative c cs (h c (List.mem_cons_self _ _)), strtol_digits_decimal _ h 0]
      rfl

theorem signed_literal_take (negative : Bool) (ds : List Char)
    (h : ∀ c ∈ ds, isdigit c = true) :
    (signed_literal negative ds).take 2 ≠ ['0', 'x'] := by
  cases negative with
  | true => simp [signed_literal]
  | false =>
    match ds, h with
    | [], _ => simp [signed_literal]
    | [a], _ => simp [signed_literal]
    | a :: b :: r, h =>
      have hb : isdigit b = true := h b (by simp)
      have : b ≠ 'x' := by rintro rfl; exact absurd hb (by decide)
      simp [signed_literal, this]

/-- A decimal literal with an optional `-` is accepted exactly when its value
lies in `[-32768, 65535]`; its low 16 bits are stored. -/
theorem parse_immediate_signed (negative : Bool) (ds : List Char) (ln pos : Nat)
    (operand : Operand) (hne : ds ≠ []) (h : ∀ c ∈ ds, isdigit c = true) :
    parse_immediate ⟨TOKEN_IMMEDIATE, signed_literal negative ds, ln, pos⟩ operand
      = (if -32768 ≤ signed_value negative ds ∧ signed_value negative ds ≤ 65535 then
          (PARSER_SUCCESS,
            { operand with
              immediate := (signed_value negative ds % 65536).toNat,
              is_immediate_valid := true })
        else (PARSER_ERROR_INVALID_IMMEDIATE, operand)) := by
  have hs := strtol_signed negative ds hne h
  have ht := signed_literal_take negative ds h
  generalize signed_value negative ds = v at hs
  by_cases hv : -32768 ≤ v ∧ v ≤ 65535
  · have h1 : max LONG_MIN (min LONG_MAX v) = v := by
      simp only [LONG_MAX, LONG_MIN]; omega
    have h2 : ¬ (v < -32768 ∨ v > 65535) := by omega
    rw [h1] at hs
    simp only [parse_immediate, ht, hs, if_false, hv, h2]
    simp
  · have h2 : max LONG_MIN (min LONG_MAX v) < -32768 ∨ max LONG_MIN (min LONG_MAX v) > 65535 := by
      simp only [LONG_MAX, LONG_MIN]; omega
    simp only [parse_immediate, ht, hs, if_false, hv, h2]
    simp

/-- A hexadecimal literal `0x` + digits is accepted exactly when its value is
at most 65535; the value is stored. -/
theorem parse_immediate_hex (ds : List Char) (ln pos : Nat) (operand : Operand)
    (hne : ds ≠ []) (h : ∀ c ∈ ds, isxdigit c = true) :
    parse_immediate ⟨TOKEN_IMMEDIATE, '0' :: 'x' :: ds, ln, pos⟩ operand
      = (if hex_value ds ≤ 65535 then
          (PARSER_SUCCESS,
            { operand with immediate := hex_value ds, is_immediate_valid := true })
        else (PARSER_ERROR_INVALID_IMMEDIATE, operand)) := by
  have hs := strtol_hex_digits ds hne h
  have ht : ('0' :: 'x' :: ds).take 2 = ['0', 'x'] := rfl
  have hd : ('0' :: 'x' :: ds).drop 2 = ds := rfl
  by_cases hv : hex_value ds ≤ 65535
  · have h1 : min LONG_MAX (hex_value ds : Int) = (hex_value ds : Int) := by
      simp only [LONG_MAX]; omega
    have h2 : ¬ ((hex_value ds : Int) < -32768 ∨ (hex_value ds : Int) > 65535) := by omega
    have h3 : ((hex_value ds : Int) % 65536).toNat = hex_value ds := by omega
    rw [h1] at hs
    simp only [parse_immediate, ht, hd, hs, if_true, hv, h2, h3]
    simp
  · have h2 : min LONG_MAX (hex_value ds : Int) < -32768
        ∨ min LONG_MAX (hex_value ds : Int) > 65535 := by
      simp only [LONG_MAX]; omega
    simp only [parse_immediate, ht, hd, hs, if_true, hv, h2]
    simp

/-- C26 fails on the code for characters after a hexadecimal number: the token `0x0x1F`,
in which the characters `x1F` follow the number `0x0`, is not rejected: the
text after the first `0x` goes to `strtol` with base 16, which accepts a `0x`
prefix of its own, and the token is accepted with the value 31. In the same
way `0x-5` is accepted and stored as 0xFFFB, and `0x` alone as 0. For proper
literals the function is as claimed: a decimal literal with an optional `-`
and a `0x` literal of hexadecimal digits are accepted exactly when the value
lies in `[-32768, 65535]`, and the value modulo 2^16 is stored. -/
theorem hex_prefix_accepted_twice :
    classify_token "0x0x1F".toList = (TOKEN_IMMEDIATE, "0x0x1F".toList)
    ∧ parse_immediate ⟨TOKEN_IMMEDIATE, "0x0x1F".toList, 1, 0⟩ Operand.zero
        = (PARSER_SUCCESS, immediate_operand 31)
    ∧ parse_immediate ⟨TOKEN_IMMEDIATE, "0x-5".toList, 1, 0⟩ Operand.zero
        = (PARSER_SUCCESS, immediate_operand 0xFFFB)
    ∧ parse_immediate ⟨TOKEN_IMMEDIATE, "0x".toList, 1, 0⟩ Operand.zero
        = (PARSER_SUCCESS, immediate_operand 0)
    ∧ parse_immediate ⟨TOKEN_IMMEDIATE, "0x1G".toList, 1, 0⟩ Operand.zero
        = (PARSER_ERROR_INVALID_IMMEDIATE, Operand.zero)
    ∧ parse_immediate ⟨TOKEN_IMMEDIATE, "12ab".toList, 1, 0⟩ Operand.zero
        = (PARSER_ERROR_INVALID_IMMEDIATE, Operand.zero)
    ∧ parse_immediate ⟨TOKEN_IMMEDIATE, "-1".toList, 1, 0⟩ Operand.zero
        = (PARSER_SUCCESS, immediate_operand 0xFFFF)
    ∧ parse_immediate ⟨TOKEN_IMMEDIATE, "-32768".toList, 1, 0⟩ Operand.zero
        = (PARSER_SUCCESS, immediate_operand 0x8000)
    ∧ (∀ (negative : Bool) (ds : List Char) (ln pos : Nat) (operand : Operand),
        ds ≠ [] → (∀ c ∈ ds, isdigit c = true) →
        parse_immediate ⟨TOKEN_IMMEDIATE, signed_literal negative ds, ln, pos⟩ operand
          = (if -32768 ≤ signed_value negative ds ∧ signed_value negative ds ≤ 65535 then
              (PARSER_SUCCESS,
                { operand with
                  immediate := (signed_value negative ds % 65536).toNat,
                  is_immediate_valid := true })
            else (PARSER_ERROR_INVALID_IMMEDIATE, operand)))
    ∧ (∀ (ds : List Char) (ln pos : Nat) (operand : Operand),
        ds ≠ [] → (∀ c ∈ ds, isxdigit c = true) →
        parse_immediate ⟨TOKEN_IMMEDIATE, '0' :: 'x' :: ds, ln, pos⟩ operand
          = (if hex_value ds ≤ 65535 then
              (PARSER_SUCCESS,
                { operand with immediate := hex_value ds, is_immediate_valid := true })
            else (PARSER_ERROR_INVALID_IMMEDIATE, operand))) := by
  refine ⟨by decide, by decide, by decide, by decide, by decide, by decide, by decide,
    by decide, ?_, ?_⟩
  · intro negative ds ln pos operand hne h
    exact parse_immediate_signed negative ds ln pos operand hne h
  · intro ds ln pos operand hne h
    exact parse_immediate_hex ds ln pos operand hne h

/-! ## Lemmas: the searches of `parse_memory_access` -/

theorem find_token_none (tokens : TokenizationResult) (ty : TokenType) :
    ∀ (n lo hi : Nat), hi - lo = n →
      (∀ j, lo ≤ j → j < hi → (tokens.at j).type ≠ ty) →
      find_token tokens ty lo hi = none := by
  intro n
  induction n with
  | zero =>
    intro lo hi hn _
    simp [find_token, hn]
  | succ n ih =>
    intro lo hi hn h
    have h1 := ih (lo + 1) hi (by omega) (fun j hj1 hj2 => h j (by omega) hj2)
    have h0 := h lo (Nat.le_refl _) (by omega)
    simp only [find_token] at h1 ⊢
    rw [hn, List.range', List.find?_cons]
    have e : hi - (lo + 1) = n := by omega
    rw [e] at h1
    simp [h0, h1]

theorem find_token_first (tokens : TokenizationResult) (ty : TokenType) :
    ∀ (n lo hi i : Nat), i - lo = n → lo ≤ i → i < hi → (tokens.at i).type = ty →
      (∀ j, lo ≤ j → j < i → (tokens.at j).type ≠ ty) →
      find_token tokens ty lo hi = some i := by
  intro n
  induction n with
  | zero =>
    intro lo hi i hn hlo hhi hty _
    have e : i = lo := by omega
    subst e
    obtain ⟨m, hm⟩ : ∃ m, hi - i = m + 1 := ⟨hi - i - 1, by omega⟩
    simp [find_token, hm, List.range', hty]
  | succ n ih =>
    intro lo hi i hn hlo hhi hty h
    have h1 := ih (lo + 1) hi i (by omega) (by omega) hhi hty
      (fun j hj1 hj2 => h j (by omega) hj2)
    have h0 := h lo (Nat.le_refl _) (by omega)
    obtain ⟨m, hm⟩ : ∃ m, hi - lo = m + 1 := ⟨hi - lo - 1, by omega⟩
    simp only [find_token] at h1 ⊢
    rw [hm, List.range', List.find?_cons]
    have e : hi - (lo + 1) = m := by omega
    rw [e] at h1
    simp [h0, h1]

theorem at_append_right (pre rest : List Token) (k : Nat) :
    (TokenizationResult.mk (pre ++ rest)).at (pre.length + k) = rest.getD k Token.zero := by
  simp [TokenizationResult.at, List.getD_eq_getElem?_getD, List.getElem?_append_right]

theorem getD_mem (l : List Token) (k : Nat) (h : k < l.length) : l.getD k Token.zero ∈ l := by
  rw [List.getD_eq_getElem?_getD, List.getElem?_eq_getElem h]
  exact List.getElem_mem h

theorem memory_access_pair (tokens : TokenizationResult) (i1 i2 next_idx token_idx : Nat)
    (operand : Operand) :
    memory_access_registers tokens i1 i2 next_idx token_idx operand
      = register_pair (tokens.at i1) (tokens.at i2) token_idx next_idx operand := rfl

theorem find_token_some_eq (tokens : TokenizationResult) (ty : TokenType) (lo hi i : Nat)
    (hlo : lo ≤ i) (hhi : i < hi) (hty : (tokens.at i).type = ty)
    (h : ∀ j, lo ≤ j → j < i → (tokens.at j).type ≠ ty) :
    find_token tokens ty lo hi = some i :=
  find_token_first tokens ty (i - lo) lo hi i rfl hlo hhi hty h

theorem find_token_none_eq (tokens : TokenizationResult) (ty : TokenType) (lo hi : Nat)
    (h : ∀ j, lo ≤ j → j < hi → (tokens.at j).type ≠ ty) :
    find_token tokens ty lo hi = none :=
  find_token_none tokens ty (hi - lo) lo hi rfl h

/-- The two fixed patterns of `parse_memory_access` are instances of its
third, searching branch: in every case the function is that branch. -/
theorem parse_memory_access_search (tokens : TokenizationResult) (token_idx : Nat)
    (operand : Operand) (hlt : token_idx < tokens.token_count)
    (hlb : (tokens.at token_idx).type = TOKEN_LBRACKET) :
    (find_token tokens TOKEN_RBRACKET (token_idx + 1) tokens.token_count = none →
      parse_memory_access tokens token_idx operand
        = (PARSER_ERROR_INVALID_MEM_ACCESS, token_idx, operand))
    ∧ (∀ rb, find_token tokens TOKEN_RBRACKET (token_idx + 1) tokens.token_count = some rb →
        (find_token tokens TOKEN_REGISTER (token_idx + 1) rb = none →
          parse_memory_access tokens token_idx operand
            = (PARSER_ERROR_INVALID_MEM_ACCESS, token_idx, operand))
        ∧ (∀ r1, find_token tokens TOKEN_REGISTER (token_idx + 1) rb = some r1 →
            (find_token tokens TOKEN_REGISTER (r1 + 1) rb = none →
              parse_memory_access tokens token_idx operand
                = (PARSER_ERROR_INVALID_MEM_ACCESS, token_idx, operand))
            ∧ (∀ r2, find_token tokens TOKEN_REGISTER (r1 + 1) rb = some r2 →
                parse_memory_access tokens token_idx operand
                  = register_pair (tokens.at r1) (tokens.at r2) token_idx (rb + 1)
                      operand))) := by
  by_cases c1 : token_idx + 4 < tokens.token_count
      ∧ (tokens.at token_idx).type = TOKEN_LBRACKET
      ∧ (tokens.at (token_idx + 1)).type = TOKEN_REGISTER
      ∧ (tokens.at (token_idx + 2)).type = TOKEN_COMMA
      ∧ (tokens.at (token_idx + 3)).type = TOKEN_REGISTER
      ∧ (tokens.at (token_idx + 4)).type = TOKEN_RBRACKET
  · obtain ⟨h4, -, t1, t2, t3, t4⟩ := c1
    have hrb : find_token tokens TOKEN_RBRACKET (token_idx + 1) tokens.token_count
        = some (token_idx + 4) := by
      apply find_token_some_eq _ _ _ _ _ (by omega) h4 t4
      intro j hj1 hj2
      have : j = token_idx + 1 ∨ j = token_idx + 2 ∨ j = token_idx + 3 := by omega
      rcases this with h | h | h <;> subst h <;> simp [t1, t2, t3]
    have hr1 : find_token tokens TOKEN_REGISTER (token_idx + 1) (token_idx + 4)
        = some (token_idx + 1) :=
      find_token_some_eq _ _ _ _ _ (by omega) (by omega) t1 (fun j _ _ => by omega)
    have hr2 : find_token tokens TOKEN_REGISTER (token_idx + 1 + 1) (token_idx + 4)
        = some (token_idx + 3) := by
      apply find_token_some_eq _ _ _ _ _ (by omega) (by omega) t3
      intro j hj1 hj2
      have : j = token_idx + 2 := by omega
      subst this
      simp [t2]
    have hv : parse_memory_access tokens token_idx operand
        = register_pair (tokens.at (token_idx + 1)) (tokens.at (token_idx + 3)) token_idx
            (token_idx + 4 + 1) operand := by
      simp [parse_memory_access, h4, hlb, t1, t2, t3, t4, memory_access_pair]
    refine ⟨fun h => (by rw [hrb] at h; cases h), ?_⟩
    intro rb h
    rw [hrb] at h
    cases h
    refine ⟨fun h => (by rw [hr1] at h; cases h), ?_⟩
    intro r1 h
    rw [hr1] at h
    cases h
    refine ⟨fun h => (by rw [hr2] at h; cases h), ?_⟩
    intro r2 h
    rw [hr2] at h
    cases h
    exact hv
  · by_cases c2 : token_idx + 3 < tokens.token_count
        ∧ (tokens.at token_idx).type = TOKEN_LBRACKET
        ∧ (tokens.at (token_idx + 1)).type = TOKEN_REGISTER
        ∧ (tokens.at (token_idx + 2)).type = TOKEN_REGISTER
        ∧ (tokens.at (token_idx + 3)).type = TOKEN_RBRACKET
    · obtain ⟨h3, -, t1, t2, t3⟩ := c2
      have hrb : find_token tokens TOKEN_RBRACKET (token_idx + 1) tokens.token_count
          = some (token_idx + 3) := by
        apply find_token_some_eq _ _ _ _ _ (by omega) h3 t3
        intro j hj1 hj2
        have : j = token_idx + 1 ∨ j = token_idx + 2 := by omega
        rcases this with h | h <;> subst h <;> simp [t1, t2]
      have hr1 : find_token tokens TOKEN_REGISTER (token_idx + 1) (token_idx + 3)
          = some (token_idx + 1) :=
        find_token_some_eq _ _ _ _ _ (by omega) (by omega) t1 (fun j _ _ => by omega)
      have hr2 : find_token tokens TOKEN_REGISTER (token_idx + 1 + 1) (token_idx + 3)
          = some (token_idx + 2) :=
        find_token_some_eq _ _ _ _ _ (by omega) (by omega) t2 (fun j _ _ => by omega)
      have hv : parse_memory_access tokens token_idx operand
          = register_pair (tokens.at (token_idx + 1)) (tokens.at (token_idx + 2)) token_idx
              (token_idx + 3 + 1) operand := by
        simp [parse_memory_access, h3, hlb, t1, t2, t3, memory_access_pair]
      refine ⟨fun h => (by rw [hrb] at h; cases h), ?_⟩
      intro rb h
      rw [hrb] at h
      cases h
      refine ⟨fun h => (by rw [hr1] at h; cases h), ?_⟩
      intro r1 h
      rw [hr1] at h
      cases h
      refine ⟨fun h => (by rw [hr2] at h; cases h), ?_⟩
      intro r2 h
      rw [hr2] at h
      cases h
      exact hv
    · refine ⟨fun h => ?_, fun rb hb => ⟨fun h => ?_, fun r1 h1 => ⟨fun h => ?_, fun r2 h2 => ?_⟩⟩⟩
      all_goals
        simp only [parse_memory_access]
        rw [if_neg c1, if_neg c2, if_pos ⟨hlt, hlb⟩]
      · simp only [h]
      · simp only [hb, h]
      · simp only [hb, h1, h]
      · simp only [hb, h1, h2, memory_access_pair]

theorem at_split (l a b : List Token) (t : Token) (h : l = a ++ t :: b) :
    (TokenizationResult.mk l).at a.length = t := by
  subst h
  have := at_append_right a (t :: b) 0
  simpa using this

theorem at_segment (l a seg b : List Token) (j : Nat) (h : l = a ++ (seg ++ b))
    (h1 : a.length ≤ j) (h2 : j < a.length + seg.length) :
    (TokenizationResult.mk l).at j ∈ seg := by
  subst h
  obtain ⟨k, rfl⟩ : ∃ k, j = a.length + k := ⟨j - a.length, by omega⟩
  rw [at_append_right, List.getD_append _ _ _ _ (by omega)]
  exact getD_mem seg k (by omega)

theorem registers_of_nil (mid : List Token) (h : registers_of mid = []) :
    ∀ t ∈ mid, t.type ≠ TOKEN_REGISTER := by
  intro t ht
  have := List.filter_eq_nil_iff.mp h t ht
  simpa using this

theorem registers_of_cons (mid rest : List Token) (t1 : Token)
    (h : registers_of mid = t1 :: rest) :
    ∃ m1 m2, mid = m1 ++ t1 :: m2 ∧ (∀ x ∈ m1, x.type ≠ TOKEN_REGISTER)
      ∧ t1.type = TOKEN_REGISTER ∧ registers_of m2 = rest := by
  obtain ⟨m1, m2, h1, h2, h3, h4⟩ := List.filter_eq_cons_iff.mp h
  exact ⟨m1, m2, h1, fun x hx => by simpa using h2 x hx, by simpa using h3, h4⟩

/-- The function `parse_memory_access` at a `[` whose next `]` follows the
tokens `mid`: only the Register tokens of `mid` count. -/
theorem parse_memory_access_bracket (tokens : TokenizationResult)
    (pre mid post : List Token) (lb rb : Token) (operand : Operand)
    (htok : tokens.tokens = pre ++ lb :: (mid ++ rb :: post))
    (hlb : lb.type = TOKEN_LBRACKET) (hrb : rb.type = TOKEN_RBRACKET)
    (hmid : ∀ t ∈ mid, t.type ≠ TOKEN_RBRACKET) :
    parse_memory_access tokens pre.length operand
      = bracket_result mid pre.length (pre.length + mid.length + 2) operand := by
  obtain ⟨l⟩ := tokens
  simp only at htok
  have hcount : (TokenizationResult.mk l).token_count
      = pre.length + 1 + mid.length + 1 + post.length := by
    simp [TokenizationResult.token_count, htok]; omega
  have hat0 : (TokenizationResult.mk l).at pre.length = lb := at_split l pre _ lb htok
  have hatmid : ∀ j, pre.length + 1 ≤ j → j < pre.length + 1 + mid.length →
      (TokenizationResult.mk l).at j ∈ mid := by
    intro j h1 h2
    have := at_segment l (pre ++ [lb]) mid (rb :: post) j (by simp [htok])
      (by simp; omega) (by simp; omega)
    exact this
  have hatrb : (TokenizationResult.mk l).at (pre.length + 1 + mid.length) = rb := by
    have := at_split l (pre ++ lb :: mid) post rb (by simp [htok])
    have e : (pre ++ lb :: mid).length = pre.length + 1 + mid.length := by simp; omega
    rw [e] at this
    exact this
  have hs := parse_memory_access_search (TokenizationResult.mk l) pre.length operand
    (by rw [hcount]; omega) (by rw [hat0]; exact hlb)
  have hfrb : find_token (TokenizationResult.mk l) TOKEN_RBRACKET (pre.length + 1)
      (TokenizationResult.mk l).token_count = some (pre.length + 1 + mid.length) :=
    find_token_some_eq _ _ _ _ _ (by omega) (by rw [hcount]; omega) (by rw [hatrb]; exact hrb)
      (fun j h1 h2 => hmid _ (hatmid j h1 h2))
  obtain ⟨hs0, hs1⟩ := hs.2 _ hfrb
  cases hreg : registers_of mid with
  | nil =>
    have hno := registers_of_nil mid hreg
    have hf : find_token (TokenizationResult.mk l) TOKEN_REGISTER (pre.length + 1)
        (pre.length + 1 + mid.length) = none :=
      find_token_none_eq _ _ _ _ (fun j h1 h2 => hno _ (hatmid j h1 h2))
    rw [hs0 hf]
    simp only [bracket_result, hreg]
  | cons t1 rest =>
    obtain ⟨m1, m2, hm, hm1, ht1, hrest⟩ := registers_of_cons mid rest t1 hreg
    have hlen : mid.length = m1.length + 1 + m2.length := by
      rw [hm]; simp; omega
    have hat1 : (TokenizationResult.mk l).at (pre.length + 1 + m1.length) = t1 := by
      have := at_split l (pre ++ lb :: m1) (m2 ++ rb :: post) t1 (by simp [htok, hm])
      have e : (pre ++ lb :: m1).length = pre.length + 1 + m1.length := by simp; omega
      rw [e] at this
      exact this
    have hatm1 : ∀ j, pre.length + 1 ≤ j → j < pre.length + 1 + m1.length →
        (TokenizationResult.mk l).at j ∈ m1 := by
      intro j h1 h2
      exact at_segment l (pre ++ [lb]) m1 (t1 :: (m2 ++ rb :: post)) j (by simp [htok, hm])
        (by simp; omega) (by simp; omega)
    have hatm2 : ∀ j, pre.length + 1 + m1.length + 1 ≤ j →
        j < pre.length + 1 + m1.length + 1 + m2.length →
        (TokenizationResult.mk l).at j ∈ m2 := by
      intro j h1 h2
      exact at_segment l (pre ++ lb :: (m1 ++ [t1])) m2 (rb :: post) j (by simp [htok, hm])
        (by simp; omega) (by simp; omega)
    have hf1 : find_token (TokenizationResult.mk l) TOKEN_REGISTER (pre.length + 1)
        (pre.length + 1 + mid.length) = some (pre.length + 1 + m1.length) :=
      find_token_some_eq _ _ _ _ _ (by omega) (by omega) (by rw [hat1]; exact ht1)
        (fun j h1 h2 => hm1 _ (hatm1 j h1 h2))
    obtain ⟨hs2, hs3⟩ := hs1 _ hf1
    cases hreg2 : registers_of m2 with
    | nil =>
      have hno := registers_of_nil m2 hreg2
      have hf : find_token (TokenizationResult.mk l) TOKEN_REGISTER
          (pre.length + 1 + m1.length + 1) (pre.length + 1 + mid.length) = none :=
        find_token_none_eq _ _ _ _ (fun j h1 h2 => hno _ (hatm2 j h1 (by omega)))
      rw [hs2 hf]
      rw [hreg2] at hrest
      simp only [bracket_result, hreg, ← hrest]
    | cons t2 rest2 =>
      obtain ⟨m3, m4, hm', hm3, ht2, -⟩ := registers_of_cons m2 rest2 t2 hreg2
      have hlen2 : m2.length = m3.length + 1 + m4.length := by
        rw [hm']; simp; omega
      have hat2 : (TokenizationResult.mk l).at (pre.length + 1 + m1.length + 1 + m3.length)
          = t2 := by
        have := at_split l (pre ++ lb :: (m1 ++ t1 :: m3)) (m4 ++ rb :: post) t2
          (by simp [htok, hm, hm'])
        have e : (pre ++ lb :: (m1 ++ t1 :: m3)).length
            = pre.length + 1 + m1.length + 1 + m3.length := by simp; omega
        rw [e] at this
        exact this
      have hatm3 : ∀ j, pre.length + 1 + m1.length + 1 ≤ j →
          j < pre.length + 1 + m1.length + 1 + m3.length →
          (TokenizationResult.mk l).at j ∈ m3 := by
        intro j h1 h2
        exact at_segment l (pre ++ lb :: (m1 ++ [t1])) m3 (t2 :: (m4 ++ rb :: post)) j
          (by simp [htok, hm, hm']) (by simp; omega) (by simp; omega)
      have hf2 : find_token (TokenizationResult.mk l) TOKEN_REGISTER
          (pre.length + 1 + m1.length + 1) (pre.length + 1 + mid.length)
          = some (pre.length + 1 + m1.length + 1 + m3.length) :=
        find_token_some_eq _ _ _ _ _ (by omega) (by omega) (by rw [hat2]; exact ht2)
          (fun j h1 h2 => hm3 _ (hatm3 j h1 h2))
      rw [hs3 _ hf2, hat1, hat2]
      rw [hreg2] at hrest
      have e : pre.length + 1 + mid.length + 1 = pre.length + mid.length + 2 := by omega
      simp only [bracket_result, hreg, ← hrest, e]

theorem parse_memory_access_unclosed (tokens : TokenizationResult)
    (pre rest : List Token) (lb : Token) (operand : Operand)
    (htok : tokens.tokens = pre ++ lb :: rest) (hlb : lb.type = TOKEN_LBRACKET)
    (hrest : ∀ t ∈ rest, t.type ≠ TOKEN_RBRACKET) :
    parse_memory_access tokens pre.length operand
      = (PARSER_ERROR_INVALID_MEM_ACCESS, pre.length, operand) := by
  obtain ⟨l⟩ := tokens
  simp only at htok
  have hcount : (TokenizationResult.mk l).token_count = pre.length + 1 + rest.length := by
    simp [TokenizationResult.token_count, htok]; omega
  have hat0 : (TokenizationResult.mk l).at pre.length = lb := at_split l pre _ lb htok
  have hs := parse_memory_access_search (TokenizationResult.mk l) pre.length operand
    (by rw [hcount]; omega) (by rw [hat0]; exact hlb)
  apply hs.1
  apply find_token_none_eq
  intro j h1 h2
  apply hrest
  exact at_segment l (pre ++ [lb]) rest [] j (by simp [htok]) (by simp; omega)
    (by rw [hcount] at h2; simp; omega)

theorem parse_memory_access_other (tokens : TokenizationResult) (token_idx : Nat)
    (operand : Operand) (h : (tokens.at token_idx).type ≠ TOKEN_LBRACKET) :
    parse_memory_access tokens token_idx operand
      = (PARSER_ERROR_INVALID_MEM_ACCESS, token_idx, operand) := by
  simp [parse_memory_access, h]

theorem register_pair_success (t1 t2 : Token) (token_idx next_idx a b : Nat)
    (operand : Operand)
    (h1 : parse_register t1 Operand.zero = (PARSER_SUCCESS, register_operand a))
    (h2 : parse_register t2 Operand.zero = (PARSER_SUCCESS, register_operand b)) :
    register_pair t1 t2 token_idx next_idx operand
      = (PARSER_SUCCESS, next_idx, memory_operand operand a b) := by
  simp [register_pair, h1, h2, register_operand, memory_operand]

/-- C27, as stated, fails: tokens other than two registers and a comma
between the brackets do not make `parse_memory_access` fail. The lines
`[R1 5 R2]`, `[R1 foo R2]` and `[R1, R2, R3]` are all accepted as the memory
access of `R1` and `R2`, the cursor going past `]`. -/
theorem memory_access_counterexample :
    parse_memory_access (tokenize_line "[R1 5 R2]".toList 1) 0 Operand.zero
      = (PARSER_SUCCESS, 5, memory_operand Operand.zero 1 2)
    ∧ parse_memory_access (tokenize_line "[R1 foo R2]".toList 1) 0 Operand.zero
      = (PARSER_SUCCESS, 5, memory_operand Operand.zero 1 2)
    ∧ parse_memory_access (tokenize_line "[R1, R2, R3]".toList 1) 0 Operand.zero
      = (PARSER_SUCCESS, 7, memory_operand Operand.zero 1 2) := by
  decide

/-- C27, amended. At a `[` whose next `]` follows the tokens `mid`,
`parse_memory_access` looks only at the Register tokens of `mid`: when the
first two of them are `Ra` and `Rb` with `a`, `b` in 0..15 it succeeds with
the operand (reg = a, immediate = b, memory-access flag set) and the cursor
just past `]`, whatever other tokens stand between the brackets; a register
above 15 among the two gives InvalidRegister; with fewer than two Register
tokens in `mid`, or without any `]`, it fails with InvalidMemAccess and
leaves cursor and operand as they were. -/
theorem memory_access_registers_only (pre mid post : List Token) (lb rb : Token)
    (operand : Operand) (hlb : lb.type = TOKEN_LBRACKET) (hrb : rb.type = TOKEN_RBRACKET)
    (hmid : ∀ t ∈ mid, t.type ≠ TOKEN_RBRACKET) :
    parse_memory_access ⟨pre ++ lb :: (mid ++ rb :: post)⟩ pre.length operand
        = bracket_result mid pre.length (pre.length + mid.length + 2) operand
    ∧ (∀ (t1 t2 : Token) (rest : List Token) (a b : Nat),
        registers_of mid = t1 :: t2 :: rest →
        parse_register t1 Operand.zero = (PARSER_SUCCESS, register_operand a) →
        parse_register t2 Operand.zero = (PARSER_SUCCESS, register_operand b) →
        parse_memory_access ⟨pre ++ lb :: (mid ++ rb :: post)⟩ pre.length operand
          = (PARSER_SUCCESS, pre.length + mid.length + 2, memory_operand operand a b))
    ∧ (∀ (t1 t2 : Token) (rest : List Token),
        registers_of mid = t1 :: t2 :: rest →
        (parse_register t1 Operand.zero).1 ≠ PARSER_SUCCESS
          ∨ (parse_register t2 Operand.zero).1 ≠ PARSER_SUCCESS →
        parse_memory_access ⟨pre ++ lb :: (mid ++ rb :: post)⟩ pre.length operand
          = (PARSER_ERROR_INVALID_REGISTER, pre.length, operand))
    ∧ ((registers_of mid).length < 2 →
        parse_memory_access ⟨pre ++ lb :: (mid ++ rb :: post)⟩ pre.length operand
          = (PARSER_ERROR_INVALID_MEM_ACCESS, pre.length, operand))
    ∧ parse_memory_access ⟨pre ++ lb :: mid⟩ pre.length operand
        = (PARSER_ERROR_INVALID_MEM_ACCESS, pre.length, operand) := by
  have key := parse_memory_access_bracket ⟨pre ++ lb :: (mid ++ rb :: post)⟩ pre mid post lb rb
    operand rfl hlb hrb hmid
  refine ⟨key, ?_, ?_, ?_, ?_⟩
  · intro t1 t2 rest a b hreg h1 h2
    rw [key]
    simp only [bracket_result, hreg]
    exact register_pair_success t1 t2 _ _ a b operand h1 h2
  · intro t1 t2 rest hreg h
    rw [key]
    simp only [bracket_result, hreg]
    have e : ∀ t : Token, (parse_register t Operand.zero).1 ≠ PARSER_SUCCESS →
        (parse_register t Operand.zero).1 = PARSER_ERROR_INVALID_REGISTER := by
      intro t
      simp only [parse_register]
      split_ifs <;> simp
    by_cases c1 : (parse_register t1 Operand.zero).1 ≠ PARSER_SUCCESS
    · simp [register_pair, c1, e t1 c1]
    · rcases h with h | h
      · exact absurd h c1
      · simp [register_pair, c1, h, e t2 h]
  · intro hlen
    rw [key]
    match hreg : registers_of mid, hlen with
    | [], _ => simp only [bracket_result, hreg]
    | [t], _ => simp only [bracket_result, hreg]
    | _ :: _ :: _, h => exact absurd h (by simp)
  · exact parse_memory_access_unclosed ⟨pre ++ lb :: mid⟩ pre mid lb operand rfl hlb hmid

theorem memory_access_registers_only_witness :
    ((Token.mk TOKEN_LBRACKET ['['] 1 0).type = TOKEN_LBRACKET
      ∧ (Token.mk TOKEN_RBRACKET [']'] 1 8).type = TOKEN_RBRACKET
      ∧ ∀ t ∈ [register_token 1 1 1, immediate_token 5 1 4, register_token 2 1 6],
          t.type ≠ TOKEN_RBRACKET)
    ∧ parse_memory_access
        ⟨[] ++ Token.mk TOKEN_LBRACKET ['['] 1 0
          :: ([register_token 1 1 1, immediate_token 5 1 4, register_token 2 1 6]
              ++ Token.mk TOKEN_RBRACKET [']'] 1 8 :: [])⟩
        ([] : List Token).length Operand.zero
      = (PARSER_SUCCESS, 5, memory_operand Operand.zero 1 2) :=
  ⟨⟨rfl, rfl, by decide⟩,
    (memory_access_registers_only [] [register_token 1 1 1, immediate_token 5 1 4,
        register_token 2 1 6] [] (Token.mk TOKEN_LBRACKET ['['] 1 0)
      (Token.mk TOKEN_RBRACKET [']'] 1 8) Operand.zero rfl rfl (by decide)).2.1
      (register_token 1 1 1) (register_token 2 1 6) [] 1 2 rfl rfl rfl⟩

/-! ## Lemmas: the error codes of the parser -/

theorem parse_operands_succ (tokens : TokenizationResult) (opcode format max_operands : Nat)
    (todo i token_idx : Nat) (instr : Instruction) :
    parse_operands tokens opcode format max_operands (todo + 1) i token_idx instr
      = if (operand_step tokens format max_operands i token_idx instr).1 ≠ PARSER_SUCCESS then
          (if i = 0 ∧ (opcode = OPC_NOP ∨ opcode = OPC_READY) then
            (PARSER_SUCCESS, (operand_step tokens format max_operands i token_idx instr).2.1,
              (operand_step tokens format max_operands i token_idx instr).2.2)
          else
            ((operand_step tokens format max_operands i token_idx instr).1,
              (operand_step tokens format max_operands i token_idx instr).2.1,
              (operand_step tokens format max_operands i token_idx instr).2.2))
        else
          parse_operands tokens opcode format max_operands todo (i + 1)
            (operand_step tokens format max_operands i token_idx instr).2.1
            { (operand_step tokens format max_operands i token_idx instr).2.2 with
              operand_count :=
                (operand_step tokens format max_operands i token_idx instr).2.2.operand_count
                  + 1 } := rfl

theorem parse_register_code (t : Token) (operand : Operand) :
    (parse_register t operand).1 = PARSER_SUCCESS
      ∨ (parse_register t operand).1 = PARSER_ERROR_INVALID_REGISTER := by
  simp only [parse_register]
  split_ifs <;> simp

theorem parse_immediate_code (t : Token) (operand : Operand) :
    (parse_immediate t operand).1 = PARSER_SUCCESS
      ∨ (parse_immediate t operand).1 = PARSER_ERROR_INVALID_IMMEDIATE := by
  simp only [parse_immediate]
  split_ifs <;> simp

theorem register_pair_code (t1 t2 : Token) (token_idx next_idx : Nat) (operand : Operand) :
    (register_pair t1 t2 token_idx next_idx operand).1 = PARSER_SUCCESS
      ∨ (register_pair t1 t2 token_idx next_idx operand).1 = PARSER_ERROR_INVALID_REGISTER := by
  simp only [register_pair]
  split_ifs with h1 h2
  · rcases parse_register_code t1 Operand.zero with h | h
    · exact absurd h h1
    · exact Or.inr h
  · rcases parse_register_code t2 Operand.zero with h | h
    · exact absurd h h2
    · exact Or.inr h
  · exact Or.inl rfl

theorem parse_memory_access_code (tokens : TokenizationResult) (token_idx : Nat)
    (operand : Operand) :
    (parse_memory_access tokens token_idx operand).1 = PARSER_SUCCESS
      ∨ (parse_memory_access tokens token_idx operand).1 = PARSER_ERROR_INVALID_REGISTER
      ∨ (parse_memory_access tokens token_idx operand).1 = PARSER_ERROR_INVALID_MEM_ACCESS := by
  have hp := fun t1 t2 n => register_pair_code t1 t2 token_idx n operand
  by_cases hlb : token_idx < tokens.token_count ∧ (tokens.at token_idx).type = TOKEN_LBRACKET
  · obtain ⟨h0, h1⟩ := parse_memory_access_search tokens token_idx operand hlb.1 hlb.2
    cases hrb : find_token tokens TOKEN_RBRACKET (token_idx + 1) tokens.token_count with
    | none => rw [h0 hrb]; simp
    | some rb =>
      obtain ⟨h2, h3⟩ := h1 rb hrb
      cases hr1 : find_token tokens TOKEN_REGISTER (token_idx + 1) rb with
      | none => rw [h2 hr1]; simp
      | some r1 =>
        obtain ⟨h4, h5⟩ := h3 r1 hr1
        cases hr2 : find_token tokens TOKEN_REGISTER (r1 + 1) rb with
        | none => rw [h4 hr2]; simp
        | some r2 =>
          rw [h5 r2 hr2]
          rcases hp (tokens.at r1) (tokens.at r2) (rb + 1) with h | h
          · exact Or.inl h
          · exact Or.inr (Or.inl h)
  · have e : parse_memory_access tokens token_idx operand
        = (PARSER_ERROR_INVALID_MEM_ACCESS, token_idx, operand) := by
      simp only [parse_memory_access]
      rw [if_neg (fun h => hlb ⟨by omega, h.2.1⟩), if_neg (fun h => hlb ⟨by omega, h.2.1⟩),
        if_neg hlb]
    rw [e]; simp

theorem parse_operand_code (tokens : TokenizationResult) (token_idx : Nat) (operand : Operand) :
    (parse_operand tokens token_idx operand).1 = PARSER_SUCCESS
      ∨ (parse_operand tokens token_idx operand).1 = PARSER_ERROR_INVALID_OPERAND
      ∨ (parse_operand tokens token_idx operand).1 = PARSER_ERROR_INVALID_REGISTER
      ∨ (parse_operand tokens token_idx operand).1 = PARSER_ERROR_INVALID_IMMEDIATE := by
  have hm := parse_memory_access_code tokens token_idx Operand.zero
  simp only [parse_operand]
  split_ifs <;> simp_all

theorem operand_step_code (tokens : TokenizationResult) (format max_operands i token_idx : Nat)
    (instr : Instruction) :
    (operand_step tokens format max_operands i token_idx instr).1 = PARSER_SUCCESS
      ∨ (operand_step tokens format max_operands i token_idx instr).1
          = PARSER_ERROR_INVALID_OPERAND
      ∨ (operand_step tokens format max_operands i token_idx instr).1
          = PARSER_ERROR_INVALID_REGISTER
      ∨ (operand_step tokens format max_operands i token_idx instr).1
          = PARSER_ERROR_INVALID_IMMEDIATE := by
  have hp := parse_operand_code tokens token_idx (instr.operand i)
  have hi := parse_immediate_code (tokens.at token_idx)
    ((set_operand instr i Operand.zero).operand i)
  simp only [operand_step]
  split_ifs <;> simp_all

theorem parse_operands_code (tokens : TokenizationResult) (opcode format max_operands : Nat) :
    ∀ (todo i token_idx : Nat) (instr : Instruction),
      (parse_operands tokens opcode format max_operands todo i token_idx instr).1
          = PARSER_SUCCESS
      ∨ (parse_operands tokens opcode format max_operands todo i token_idx instr).1
          = PARSER_ERROR_INVALID_OPERAND
      ∨ (parse_operands tokens opcode format max_operands todo i token_idx instr).1
          = PARSER_ERROR_INVALID_REGISTER
      ∨ (parse_operands tokens opcode format max_operands todo i token_idx instr).1
          = PARSER_ERROR_INVALID_IMMEDIATE := by
  intro todo
  induction todo with
  | zero => intro i token_idx instr; exact Or.inl rfl
  | succ todo ih =>
    intro i token_idx instr
    rw [parse_operands_succ]
    have hs := operand_step_code tokens format max_operands i token_idx instr
    split_ifs with h1 h2
    · exact Or.inl rfl
    · exact hs
    · exact ih _ _ _

/-- The codes that `parse_instruction` can return: neither TooManyOperands
nor TooFewOperands is among them. -/
theorem parse_instruction_code (result : ParseResult) (tokens : TokenizationResult)
    (token_idx addr : Nat) :
    (parse_instruction result tokens token_idx addr).1 = PARSER_SUCCESS
      ∨ (parse_instruction result tokens token_idx addr).1 = PARSER_ERROR_INVALID_INSTRUCTION
      ∨ (parse_instruction result tokens token_idx addr).1 = PARSER_ERROR_INVALID_OPERAND
      ∨ (parse_instruction result tokens token_idx addr).1 = PARSER_ERROR_INVALID_REGISTER
      ∨ (parse_instruction result tokens token_idx addr).1 = PARSER_ERROR_INVALID_IMMEDIATE
      ∨ (parse_instruction result tokens token_idx addr).1 = PARSER_ERROR_INVALID_FORMAT := by
  simp only [parse_instruction]
  split_ifs with h1 h2 h3 h4 h5 h6
  · simp
  · simp only [PRINT_ERROR_IF]
    split_ifs <;> simp
  · simp
  · simp
  · simp
  · rcases parse_operands_code tokens (get_opcode_from_mnemonic (tokens.at token_idx).value)
      (get_format_from_opcode (get_opcode_from_mnemonic (tokens.at token_idx).value))
      (max_operands_of (get_opcode_from_mnemonic (tokens.at token_idx).value)
        (get_format_from_opcode (get_opcode_from_mnemonic (tokens.at token_idx).value)))
      (max_operands_of (get_opcode_from_mnemonic (tokens.at token_idx).value)
        (get_format_from_opcode (get_opcode_from_mnemonic (tokens.at token_idx).value)))
      0 (token_idx + 1)
      ⟨get_opcode_from_mnemonic (tokens.at token_idx).value,
        get_format_from_opcode (get_opcode_from_mnemonic (tokens.at token_idx).value), [],
        addr, 0, 0⟩ with h | h | h | h
    · exact absurd h h6
    · simp [h]
    · simp [h]
    · simp [h]
  · simp

/-- C28 fails on the code: `parse_instruction` never counts the operands of a line. It
returns neither TooManyOperands nor TooFewOperands on any input. Tokens after
the expected operands are not looked at, so `add R0, R1, R2, R3` and `nop R1`
are accepted (and the first assembles to the word of `add R0, R1, R2`); a
line with too few operands fails with the code of the operand that is
missing: InvalidOperand for `add R0, R1`, InvalidImmediate for `set_const`. -/
theorem operand_count_unchecked (result : ParseResult) (tokens : TokenizationResult)
    (token_idx addr : Nat) :
    (parse_instruction result tokens token_idx addr).1 ≠ PARSER_ERROR_TOO_MANY_OPERANDS
    ∧ (parse_instruction result tokens token_idx addr).1 ≠ PARSER_ERROR_TOO_FEW_OPERANDS
    ∧ parse_instruction ParseResult.zero (tokenize_line "add R0, R1, R2, R3".toList 1) 0 0
        = (PARSER_SUCCESS,
            ⟨[⟨OPC_ADD, FORMAT_F1, [register_operand 0, register_operand 1, register_operand 2],
                0, 0, 3⟩], []⟩, 6)
    ∧ (tokenize_line "add R0, R1, R2, R3".toList 1).token_count = 8
    ∧ assemble_file ["add R0, R1, R2, R3".toList] = (ASSEMBLER_SUCCESS, some [1, 0, 1, 2])
    ∧ parse_instruction ParseResult.zero (tokenize_line "nop R1".toList 1) 0 0
        = (PARSER_SUCCESS, ⟨[⟨OPC_NOP, FORMAT_F1, [], 0, 0, 0⟩], []⟩, 1)
    ∧ (parse_instruction ParseResult.zero (tokenize_line "add R0, R1".toList 1) 0 0).1
        = PARSER_ERROR_INVALID_OPERAND
    ∧ (parse_instruction ParseResult.zero (tokenize_line "bnz 8".toList 1) 0 0).1
        = PARSER_ERROR_INVALID_OPERAND
    ∧ (parse_instruction ParseResult.zero (tokenize_line "set_const".toList 1) 0 0).1
        = PARSER_ERROR_INVALID_IMMEDIATE := by
  refine ⟨?_, ?_, by decide, by decide, by decide, by decide, by decide, by decide, by decide⟩
  · rcases parse_instruction_code result tokens token_idx addr with h | h | h | h | h | h <;>
      rw [h] <;> decide
  · rcases parse_instruction_code result tokens token_idx addr with h | h | h | h | h | h <;>
      rw [h] <;> decide

/-- C29 fails on the code: the operands of a three-register instruction are not required
to be registers. The line `add 5, R1, R2` is accepted, with an immediate as
its first operand, and assembles to the word of `add R0, R1, R2`; so is a
label name in a register position; and the same holds for each of the twelve
three-register mnemonics. -/
theorem immediate_in_register_position :
    parse_instruction ParseResult.zero (tokenize_line "add 5, R1, R2".toList 1) 0 0
      = (PARSER_SUCCESS,
          ⟨[⟨OPC_ADD, FORMAT_F1, [immediate_operand 5, register_operand 1, register_operand 2],
              0, 0, 3⟩], []⟩, 6)
    ∧ assemble_file ["add 5, R1, R2".toList] = (ASSEMBLER_SUCCESS, some [1, 0, 1, 2])
    ∧ assemble_file ["add 5, R1, R2".toList] = assemble_file ["add R0, R1, R2".toList]
    ∧ parse_instruction ParseResult.zero (tokenize_line "st R1, loop, 7".toList 1) 0 0
      = (PARSER_SUCCESS,
          ⟨[⟨OPC_ST, FORMAT_F3,
              [register_operand 1, label_operand "loop".toList, immediate_operand 7],
              0, 0, 3⟩], []⟩, 6)
    ∧ ∀ p ∈ three_register_mnemonics,
        (parse_instruction ParseResult.zero
          (tokenize_line (three_operand_line p.1 "5".toList "R1".toList "R2".toList) 1) 0 0).1
          = PARSER_SUCCESS
        ∧ assemble_file [three_operand_line p.1 "5".toList "R1".toList "R2".toList]
          = (ASSEMBLER_SUCCESS, some [p.2, 0, 1, 2]) := by
  refine ⟨by decide, by decide!, by decide!, by decide, ?_⟩
  decide!

/-! ## Lemmas: a line and the same line without commas -/

theorem drop_eq_cons (l : List Token) (j : Nat) (a : Token) (r : List Token)
    (h : l.drop j = a :: r) :
    j < l.length ∧ (TokenizationResult.mk l).at j = a ∧ l.drop (j + 1) = r := by
  have hlt : j < l.length := by
    by_contra hc
    rw [List.drop_eq_nil_of_le (by omega)] at h
    cases h
  rw [List.drop_eq_getElem_cons hlt] at h
  injection h with h1 h2
  refine ⟨hlt, ?_, h2⟩
  simp [TokenizationResult.at, List.getD_eq_getElem?_getD, List.getElem?_eq_getElem hlt, h1]

theorem at_of_lt (l : List Token) (j : Nat) (h : j < l.length) :
    l.drop j = (TokenizationResult.mk l).at j :: l.drop (j + 1) := by
  rw [List.drop_eq_getElem_cons h]
  simp [TokenizationResult.at, List.getD_eq_getElem?_getD, List.getElem?_eq_getElem h]

theorem at_of_ge (l : List Token) (j : Nat) (h : l.length ≤ j) :
    (TokenizationResult.mk l).at j = Token.zero := by
  simp [TokenizationResult.at, List.getD_eq_getElem?_getD, List.getElem?_eq_none h]

theorem same_place_at (l1 l2 : List Token) (j1 j2 : Nat) (h : same_place l1 l2 j1 j2)
    (hlt : j1 < l1.length) (hty : ((TokenizationResult.mk l1).at j1).type ≠ TOKEN_COMMA) :
    j2 < l2.length ∧ (TokenizationResult.mk l2).at j2 = (TokenizationResult.mk l1).at j1
      ∧ same_place l1 l2 (j1 + 1) (j2 + 1) := by
  unfold same_place at h
  rw [at_of_lt l1 j1 hlt] at h
  have e : remove_commas ((TokenizationResult.mk l1).at j1 :: l1.drop (j1 + 1))
      = (TokenizationResult.mk l1).at j1 :: remove_commas (l1.drop (j1 + 1)) := by
    simp [remove_commas, hty]
  rw [e] at h
  exact drop_eq_cons l2 j2 _ _ h

theorem same_place_comma (l1 l2 : List Token) (j1 j2 : Nat) (h : same_place l1 l2 j1 j2)
    (hlt : j1 < l1.length) (hty : ((TokenizationResult.mk l1).at j1).type = TOKEN_COMMA) :
    same_place l1 l2 (j1 + 1) j2 := by
  unfold same_place at h ⊢
  rw [at_of_lt l1 j1 hlt] at h
  have e : remove_commas ((TokenizationResult.mk l1).at j1 :: l1.drop (j1 + 1))
      = remove_commas (l1.drop (j1 + 1)) := by
    simp [remove_commas, hty]
  rw [e] at h
  exact h

theorem comma_free_at (l : List Token) (k : Nat) :
    ((TokenizationResult.mk (remove_commas l)).at k).type ≠ TOKEN_COMMA := by
  by_cases h : k < (remove_commas l).length
  · have hm : (TokenizationResult.mk (remove_commas l)).at k ∈ remove_commas l :=
      getD_mem _ _ h
    have := (List.mem_filter.mp hm).2
    simpa using this
  · rw [at_of_ge _ _ (by omega)]
    decide

theorem skip_comma_free (l : List Token) (k : Nat) :
    skip_comma (TokenizationResult.mk (remove_commas l)) k = k := by
  simp [skip_comma, comma_free_at]

theorem skip_comma_place (l1 l2 : List Token) (j1 j2 : Nat) (h : same_place l1 l2 j1 j2) :
    same_place l1 l2 (skip_comma (TokenizationResult.mk l1) j1) j2 := by
  unfold skip_comma
  split_ifs with hc
  · exact same_place_comma l1 l2 j1 j2 h hc.1 hc.2
  · exact h

theorem same_place_start (l : List Token) (j : Nat) :
    same_place l (remove_commas l) j (remove_commas (l.take j)).length := by
  unfold same_place
  have e : remove_commas l = remove_commas (l.take j) ++ remove_commas (l.drop j) := by
    rw [remove_commas, remove_commas, remove_commas, ← List.filter_append,
      List.take_append_drop]
  rw [e, List.drop_left]

theorem parse_operand_token (tokens : TokenizationResult) (j : Nat) (operand : Operand)
    (hlt : j < tokens.token_count) (hty : (tokens.at j).type ≠ TOKEN_LBRACKET) :
    parse_operand tokens j operand
      = ((token_operand (tokens.at j)).1,
          if (token_operand (tokens.at j)).1 = PARSER_SUCCESS then j + 1 else j,
          (token_operand (tokens.at j)).2) := by
  have hge : ¬ (j ≥ tokens.token_count) := by omega
  simp only [parse_operand, token_operand, if_neg hge, if_neg hty]
  split_ifs <;> simp_all

theorem token_operand_comma (t : Token) (h : t.type = TOKEN_COMMA) :
    (token_operand t).1 ≠ PARSER_SUCCESS := by
  simp [token_operand, parse_register, parse_immediate, h]

theorem split_first_bracket (rest : List Token) :
    (∀ t ∈ rest, t.type ≠ TOKEN_RBRACKET)
    ∨ ∃ mid rb post, rest = mid ++ rb :: post ∧ rb.type = TOKEN_RBRACKET
        ∧ ∀ t ∈ mid, t.type ≠ TOKEN_RBRACKET := by
  induction rest with
  | nil => exact Or.inl (by simp)
  | cons a r ih =>
    by_cases ha : a.type = TOKEN_RBRACKET
    · exact Or.inr ⟨[], a, r, rfl, ha, by simp⟩
    · rcases ih with h | ⟨mid, rb, post, h1, h2, h3⟩
      · left
        intro t ht
        rcases List.mem_cons.mp ht with h' | h'
        · rw [h']; exact ha
        · exact h t h'
      · right
        refine ⟨a :: mid, rb, post, by rw [h1]; rfl, h2, ?_⟩
        intro t ht
        rcases List.mem_cons.mp ht with h' | h'
        · rw [h']; exact ha
        · exact h3 t h'

theorem take_drop_split (l : List Token) (j : Nat) (s : List Token) (a : Token)
    (h : l.drop j = a :: s) : l = l.take j ++ a :: s ∧ (l.take j).length = j := by
  have hlt := (drop_eq_cons l j a s h).1
  refine ⟨?_, ?_⟩
  · rw [← h, List.take_append_drop]
  · rw [List.length_take]; omega

theorem parse_memory_access_suffix (l : List Token) (j : Nat) (mid post : List Token)
    (lb rb : Token) (operand : Operand) (h : l.drop j = lb :: (mid ++ rb :: post))
    (hlb : lb.type = TOKEN_LBRACKET) (hrb : rb.type = TOKEN_RBRACKET)
    (hmid : ∀ t ∈ mid, t.type ≠ TOKEN_RBRACKET) :
    parse_memory_access (TokenizationResult.mk l) j operand
      = bracket_result mid j (j + mid.length + 2) operand := by
  obtain ⟨h1, h2⟩ := take_drop_split l j _ lb h
  have := parse_memory_access_bracket (TokenizationResult.mk l) (l.take j) mid post lb rb
    operand h1 hlb hrb hmid
  rw [h2] at this
  exact this

theorem parse_memory_access_open (l : List Token) (j : Nat) (rest : List Token)
    (lb : Token) (operand : Operand) (h : l.drop j = lb :: rest)
    (hlb : lb.type = TOKEN_LBRACKET) (hrest : ∀ t ∈ rest, t.type ≠ TOKEN_RBRACKET) :
    parse_memory_access (TokenizationResult.mk l) j operand
      = (PARSER_ERROR_INVALID_MEM_ACCESS, j, operand) := by
  obtain ⟨h1, h2⟩ := take_drop_split l j _ lb h
  have := parse_memory_access_unclosed (TokenizationResult.mk l) (l.take j) rest lb
    operand h1 hlb hrest
  rw [h2] at this
  exact this

theorem registers_remove_commas (mid : List Token) :
    registers_of (remove_commas mid) = registers_of mid := by
  simp only [registers_of, remove_commas, List.filter_filter]
  congr 1
  funext t
  by_cases h : t.type = TOKEN_REGISTER <;> simp [h]

theorem bracket_result_success (mid : List Token) (j n : Nat) (operand : Operand)
    (h : (bracket_result mid j n operand).1 = PARSER_SUCCESS) (j2 n2 : Nat) :
    bracket_result (remove_commas mid) j2 n2 operand
      = (PARSER_SUCCESS, n2, (bracket_result mid j n operand).2.2)
    ∧ (bracket_result mid j n operand).2.1 = n := by
  simp only [bracket_result, registers_remove_commas] at h ⊢
  match hreg : registers_of mid with
  | [] => rw [hreg] at h; simp at h
  | [t] => rw [hreg] at h; simp at h
  | t1 :: t2 :: r =>
    rw [hreg] at h
    simp only [register_pair] at h ⊢
    split_ifs at h ⊢ with c1 c2
    · simp_all
    · simp_all
    · simp

theorem remove_commas_append (a b : List Token) :
    remove_commas (a ++ b) = remove_commas a ++ remove_commas b := by
  simp [remove_commas]

theorem remove_commas_cons (a : Token) (b : List Token) (h : a.type ≠ TOKEN_COMMA) :
    remove_commas (a :: b) = a :: remove_commas b := by
  simp [remove_commas, h]

theorem remove_commas_brackets (mid : List Token)
    (hmid : ∀ t ∈ mid, t.type ≠ TOKEN_RBRACKET) :
    ∀ t ∈ remove_commas mid, t.type ≠ TOKEN_RBRACKET :=
  fun t ht => hmid t (List.mem_filter.mp ht).1

/-- An operand that is accepted in a line is accepted, with the same value,
at the same place of the line without commas. -/
theorem parse_operand_commas (l1 : List Token) (j1 j2 : Nat) (operand : Operand)
    (hp : same_place l1 (remove_commas l1) j1 j2)
    (hs : (parse_operand (TokenizationResult.mk l1) j1 operand).1 = PARSER_SUCCESS) :
    ∃ k2, parse_operand (TokenizationResult.mk (remove_commas l1)) j2 operand
        = (PARSER_SUCCESS, k2, (parse_operand (TokenizationResult.mk l1) j1 operand).2.2)
      ∧ same_place l1 (remove_commas l1)
          (parse_operand (TokenizationResult.mk l1) j1 operand).2.1 k2 := by
  have hlt : j1 < l1.length := by
    by_contra hc
    have : j1 ≥ (TokenizationResult.mk l1).token_count := by
      simp only [TokenizationResult.token_count]; omega
    simp [parse_operand, this] at hs
  have hlt' : j1 < (TokenizationResult.mk l1).token_count := hlt
  by_cases hlb : ((TokenizationResult.mk l1).at j1).type = TOKEN_LBRACKET
  · have hnc : ((TokenizationResult.mk l1).at j1).type ≠ TOKEN_COMMA := by rw [hlb]; decide
    obtain ⟨hlt2, hat2, hp1⟩ := same_place_at l1 _ j1 j2 hp hlt hnc
    have hlt2' : j2 < (TokenizationResult.mk (remove_commas l1)).token_count := hlt2
    have hlb2 : ((TokenizationResult.mk (remove_commas l1)).at j2).type = TOKEN_LBRACKET := by
      rw [hat2]; exact hlb
    have e1 : parse_operand (TokenizationResult.mk l1) j1 operand
        = (if (parse_memory_access (TokenizationResult.mk l1) j1 Operand.zero).1
              = PARSER_SUCCESS then
            parse_memory_access (TokenizationResult.mk l1) j1 Operand.zero
          else if (parse_memory_access (TokenizationResult.mk l1) j1 Operand.zero).1
              ≠ PARSER_ERROR_INVALID_MEM_ACCESS then
            ((parse_memory_access (TokenizationResult.mk l1) j1 Operand.zero).1,
              (parse_memory_access (TokenizationResult.mk l1) j1 Operand.zero).2.1,
              (parse_memory_access (TokenizationResult.mk l1) j1 Operand.zero).2.2)
          else (PARSER_ERROR_INVALID_OPERAND,
              (parse_memory_access (TokenizationResult.mk l1) j1 Operand.zero).2.1,
              (parse_memory_access (TokenizationResult.mk l1) j1 Operand.zero).2.2)) := by
      simp only [parse_operand, if_neg (Nat.not_le.mpr hlt'), if_pos hlb]
    have e2 : parse_operand (TokenizationResult.mk (remove_commas l1)) j2 operand
        = (if (parse_memory_access (TokenizationResult.mk (remove_commas l1)) j2
                Operand.zero).1 = PARSER_SUCCESS then
            parse_memory_access (TokenizationResult.mk (remove_commas l1)) j2 Operand.zero
          else if (parse_memory_access (TokenizationResult.mk (remove_commas l1)) j2
              Operand.zero).1 ≠ PARSER_ERROR_INVALID_MEM_ACCESS then
            ((parse_memory_access (TokenizationResult.mk (remove_commas l1)) j2
                Operand.zero).1,
              (parse_memory_access (TokenizationResult.mk (remove_commas l1)) j2
                Operand.zero).2.1,
              (parse_memory_access (TokenizationResult.mk (remove_commas l1)) j2
                Operand.zero).2.2)
          else (PARSER_ERROR_INVALID_OPERAND,
              (parse_memory_access (TokenizationResult.mk (remove_commas l1)) j2
                Operand.zero).2.1,
              (parse_memory_access (TokenizationResult.mk (remove_commas l1)) j2
                Operand.zero).2.2)) := by
      simp only [parse_operand, if_neg (Nat.not_le.mpr hlt2'), if_pos hlb2]
    have hd1 := at_of_lt l1 j1 hlt
    have hd2 := at_of_lt (remove_commas l1) j2 hlt2
    rw [hat2] at hd2
    unfold same_place at hp1
    rcases split_first_bracket (l1.drop (j1 + 1)) with hno | ⟨mid, rb, post, hsplit, hrb, hmid⟩
    · have hf := parse_memory_access_open l1 j1 _ _ Operand.zero hd1 hlb hno
      rw [e1, hf] at hs
      simp at hs
    · have hrbc : rb.type ≠ TOKEN_COMMA := by rw [hrb]; decide
      rw [hsplit] at hd1
      rw [hp1, hsplit, remove_commas_append, remove_commas_cons rb post hrbc] at hd2
      have m1 := parse_memory_access_suffix l1 j1 mid post _ rb Operand.zero hd1 hlb hrb hmid
      have m2 := parse_memory_access_suffix (remove_commas l1) j2 (remove_commas mid)
        (remove_commas post) _ rb Operand.zero hd2 hlb hrb (remove_commas_brackets mid hmid)
      have hs1 : (bracket_result mid j1 (j1 + mid.length + 2) Operand.zero).1
          = PARSER_SUCCESS := by
        rw [e1, m1] at hs
        by_contra hc
        rw [if_neg hc] at hs
        split_ifs at hs with c2
        exact hc hs
      obtain ⟨b1, b2⟩ := bracket_result_success mid j1 (j1 + mid.length + 2) Operand.zero hs1
        j2 (j2 + (remove_commas mid).length + 2)
      refine ⟨j2 + (remove_commas mid).length + 2, ?_, ?_⟩
      · rw [e2, m2, b1, e1, m1, if_pos hs1]
        simp
      · rw [e1, m1, if_pos hs1, b2]
        unfold same_place
        have d1 : l1.drop (j1 + mid.length + 2) = post := by
          have : j1 + mid.length + 2 = (j1 + 1) + (mid.length + 1) := by omega
          rw [this, ← List.drop_drop, hsplit]
          have e : mid ++ rb :: post = (mid ++ [rb]) ++ post := by simp
          rw [e]
          have e' : mid.length + 1 = (mid ++ [rb]).length := by simp
          rw [e', List.drop_left]
        have d2 : (remove_commas l1).drop (j2 + (remove_commas mid).length + 2)
            = remove_commas post := by
          have : j2 + (remove_commas mid).length + 2
              = (j2 + 1) + ((remove_commas mid).length + 1) := by omega
          rw [this, ← List.drop_drop, hp1, hsplit, remove_commas_append,
            remove_commas_cons rb post hrbc]
          have e : remove_commas mid ++ rb :: remove_commas post
              = (remove_commas mid ++ [rb]) ++ remove_commas post := by simp
          rw [e]
          have e' : (remove_commas mid).length + 1 = (remove_commas mid ++ [rb]).length := by
            simp
          rw [e', List.drop_left]
        rw [d1, d2]
  · have t1 := parse_operand_token (TokenizationResult.mk l1) j1 operand hlt' hlb
    have hs' : (token_operand ((TokenizationResult.mk l1).at j1)).1 = PARSER_SUCCESS := by
      rw [t1] at hs; exact hs
    have hnc : ((TokenizationResult.mk l1).at j1).type ≠ TOKEN_COMMA :=
      fun hc => token_operand_comma _ hc hs'
    obtain ⟨hlt2, hat2, hp1⟩ := same_place_at l1 _ j1 j2 hp hlt hnc
    have t2 := parse_operand_token (TokenizationResult.mk (remove_commas l1)) j2 operand hlt2
      (by rw [hat2]; exact hlb)
    refine ⟨j2 + 1, ?_, ?_⟩
    · rw [t2, hat2, t1]
      simp [hs']
    · rw [t1]
      simp only [hs', if_true]
      exact hp1

theorem operand_step_first (tokens : TokenizationResult) (format max_operands i j : Nat)
    (instr : Instruction) (h : format = FORMAT_F2 ∧ i = 0) :
    operand_step tokens format max_operands i j instr
      = if (tokens.at j).type ≠ TOKEN_IMMEDIATE ∧ (tokens.at j).type ≠ TOKEN_IDENTIFIER then
          (PARSER_ERROR_INVALID_IMMEDIATE, j, set_operand instr i Operand.zero)
        else if (parse_immediate (tokens.at j)
            ((set_operand instr i Operand.zero).operand i)).1 = PARSER_SUCCESS then
          (PARSER_SUCCESS, skip_comma tokens (j + 1),
            set_operand (set_operand instr i Operand.zero) i
              (parse_immediate (tokens.at j) ((set_operand instr i Operand.zero).operand i)).2)
        else
          ((parse_immediate (tokens.at j) ((set_operand instr i Operand.zero).operand i)).1, j,
            set_operand (set_operand instr i Operand.zero) i
              (parse_immediate (tokens.at j)
                ((set_operand instr i Operand.zero).operand i)).2) := by
  simp only [operand_step, if_pos h, skip_comma]
  split_ifs <;> simp_all

theorem operand_step_other (tokens : TokenizationResult) (format max_operands i j : Nat)
    (instr : Instruction) (h : ¬ (format = FORMAT_F2 ∧ i = 0)) :
    operand_step tokens format max_operands i j instr
      = if (parse_operand tokens j (instr.operand i)).1 = PARSER_SUCCESS then
          (PARSER_SUCCESS,
            if i < max_operands - 1 then
              skip_comma tokens (parse_operand tokens j (instr.operand i)).2.1
            else (parse_operand tokens j (instr.operand i)).2.1,
            set_operand instr i (parse_operand tokens j (instr.operand i)).2.2)
        else
          ((parse_operand tokens j (instr.operand i)).1,
            (parse_operand tokens j (instr.operand i)).2.1,
            set_operand instr i (parse_operand tokens j (instr.operand i)).2.2) := by
  simp only [operand_step, if_neg h, skip_comma]
  split_ifs <;> simp_all

/-- One iteration of the operand loop that succeeds in a line succeeds, with
the same instruction, at the same place of the line without commas. -/
theorem operand_step_commas (l1 : List Token) (format max_operands i j1 j2 : Nat)
    (instr : Instruction) (hp : same_place l1 (remove_commas l1) j1 j2)
    (hs : (operand_step (TokenizationResult.mk l1) format max_operands i j1 instr).1
      = PARSER_SUCCESS) :
    ∃ k2, operand_step (TokenizationResult.mk (remove_commas l1)) format max_operands i j2 instr
        = (PARSER_SUCCESS, k2,
            (operand_step (TokenizationResult.mk l1) format max_operands i j1 instr).2.2)
      ∧ same_place l1 (remove_commas l1)
          (operand_step (TokenizationResult.mk l1) format max_operands i j1 instr).2.1 k2 := by
  by_cases hf : format = FORMAT_F2 ∧ i = 0
  · rw [operand_step_first _ _ _ _ _ _ hf] at hs ⊢
    rw [operand_step_first _ _ _ _ _ _ hf]
    by_cases hty : ((TokenizationResult.mk l1).at j1).type ≠ TOKEN_IMMEDIATE
        ∧ ((TokenizationResult.mk l1).at j1).type ≠ TOKEN_IDENTIFIER
    · rw [if_pos hty] at hs
      simp at hs
    · rw [if_neg hty] at hs ⊢
      have hty' : ((TokenizationResult.mk l1).at j1).type = TOKEN_IMMEDIATE
          ∨ ((TokenizationResult.mk l1).at j1).type = TOKEN_IDENTIFIER := by
        by_contra hc
        exact hty ⟨fun h => hc (Or.inl h), fun h => hc (Or.inr h)⟩
      have hlt : j1 < l1.length := by
        by_contra hc
        rw [at_of_ge l1 j1 (by omega)] at hty'
        rcases hty' with h | h <;> cases h
      have hnc : ((TokenizationResult.mk l1).at j1).type ≠ TOKEN_COMMA := by
        rcases hty' with h | h <;> rw [h] <;> decide
      obtain ⟨-, hat2, hp1⟩ := same_place_at l1 _ j1 j2 hp hlt hnc
      by_cases him : (parse_immediate ((TokenizationResult.mk l1).at j1)
          ((set_operand instr i Operand.zero).operand i)).1 = PARSER_SUCCESS
      · rw [if_pos him]
        refine ⟨j2 + 1, ?_, ?_⟩
        · rw [hat2, if_neg hty, if_pos him, skip_comma_free]
        · exact skip_comma_place l1 _ (j1 + 1) (j2 + 1) hp1
      · rw [if_neg him] at hs
        exact absurd hs him
  · rw [operand_step_other _ _ _ _ _ _ hf] at hs ⊢
    rw [operand_step_other _ _ _ _ _ _ hf]
    by_cases hpo : (parse_operand (TokenizationResult.mk l1) j1 (instr.operand i)).1
        = PARSER_SUCCESS
    · obtain ⟨k2, hk, hpk⟩ := parse_operand_commas l1 j1 j2 (instr.operand i) hp hpo
      rw [if_pos hpo, hk]
      refine ⟨k2, ?_, ?_⟩
      · simp only [if_true, skip_comma_free, ite_self]
      · by_cases hi : i < max_operands - 1
        · simp only [if_pos hi]
          exact skip_comma_place l1 _ _ k2 hpk
        · simp only [if_neg hi]
          exact hpk
    · rw [if_neg hpo] at hs
      exact absurd hs hpo

/-- The operand loop of an instruction other than `nop` and `ready`: when it
succeeds in a line it succeeds, with the same instruction, in the line without
commas. -/
theorem parse_operands_commas (l1 : List Token) (opcode format max_operands : Nat)
    (hop : ¬ (opcode = OPC_NOP ∨ opcode = OPC_READY)) :
    ∀ (todo i j1 j2 : Nat) (instr : Instruction),
      same_place l1 (remove_commas l1) j1 j2 →
      (parse_operands (TokenizationResult.mk l1) opcode format max_operands todo i j1 instr).1
        = PARSER_SUCCESS →
      (parse_operands (TokenizationResult.mk (remove_commas l1)) opcode format max_operands
          todo i j2 instr).1 = PARSER_SUCCESS
      ∧ (parse_operands (TokenizationResult.mk (remove_commas l1)) opcode format max_operands
          todo i j2 instr).2.2
        = (parse_operands (TokenizationResult.mk l1) opcode format max_operands todo i j1
            instr).2.2 := by
  intro todo
  induction todo with
  | zero =>
    intro i j1 j2 instr _ _
    exact ⟨rfl, rfl⟩
  | succ todo ih =>
    intro i j1 j2 instr hp hs
    rw [parse_operands_succ] at hs ⊢
    rw [parse_operands_succ]
    by_cases hst : (operand_step (TokenizationResult.mk l1) format max_operands i j1 instr).1
        = PARSER_SUCCESS
    · obtain ⟨k2, hk, hpk⟩ := operand_step_commas l1 format max_operands i j1 j2 instr hp hst
      have hn : ¬ ((operand_step (TokenizationResult.mk l1) format max_operands i j1 instr).1
          ≠ PARSER_SUCCESS) := fun h => h hst
      rw [if_neg hn] at hs ⊢
      rw [hk]
      simp only [ne_eq, not_true_eq_false, if_false]
      exact ih _ _ _ _ hpk hs
    · have hn : (operand_step (TokenizationResult.mk l1) format max_operands i j1 instr).1
          ≠ PARSER_SUCCESS := hst
      rw [if_pos hn, if_neg (fun h => hop h.2)] at hs
      exact absurd hs hst

theorem parse_instruction_operands (result : ParseResult) (tokens : TokenizationResult)
    (token_idx addr opcode format : Nat) (h1 : token_idx < tokens.token_count)
    (h2 : result.instruction_count < MAX_INSTRUCTION_COUNT)
    (h3 : (tokens.at token_idx).type = TOKEN_INSTRUCTION)
    (ho : get_opcode_from_mnemonic (tokens.at token_idx).value = opcode) (h4 : opcode ≠ 0xFF)
    (hf : get_format_from_opcode opcode = format) (h5 : format ≠ 0xFF) :
    parse_instruction result tokens token_idx addr
      = if (parse_operands tokens opcode format (max_operands_of opcode format)
            (max_operands_of opcode format) 0 (token_idx + 1)
            ⟨opcode, format, [], addr, 0, 0⟩).1 ≠ PARSER_SUCCESS then
          ((parse_operands tokens opcode format (max_operands_of opcode format)
              (max_operands_of opcode format) 0 (token_idx + 1)
              ⟨opcode, format, [], addr, 0, 0⟩).1, result,
            (parse_operands tokens opcode format (max_operands_of opcode format)
              (max_operands_of opcode format) 0 (token_idx + 1)
              ⟨opcode, format, [], addr, 0, 0⟩).2.1)
        else
          (PARSER_SUCCESS,
            { result with
              instructions := result.instructions ++
                [(parse_operands tokens opcode format (max_operands_of opcode format)
                  (max_operands_of opcode format) 0 (token_idx + 1)
                  ⟨opcode, format, [], addr, 0, 0⟩).2.2] },
            (parse_operands tokens opcode format (max_operands_of opcode format)
              (max_operands_of opcode format) 0 (token_idx + 1)
              ⟨opcode, format, [], addr, 0, 0⟩).2.1) := by
  have c1 : ¬ (token_idx ≥ tokens.token_count) := by omega
  have c2 : ¬ (PRINT_ERROR_IF (decide (result.instruction_count ≥ MAX_INSTRUCTION_COUNT))
      ≠ PARSER_SUCCESS) := by
    have : ¬ (result.instruction_count ≥ MAX_INSTRUCTION_COUNT) := by omega
    simp [PRINT_ERROR_IF, this]
  have c3 : ¬ ((tokens.at token_idx).type ≠ TOKEN_INSTRUCTION) := fun h => h h3
  subst ho
  subst hf
  simp only [parse_instruction]
  rw [if_neg c1, if_neg c2, if_neg c3, if_neg h4, if_neg h5]

theorem parse_instruction_accepts (result : ParseResult) (tokens : TokenizationResult)
    (token_idx addr : Nat)
    (h : (parse_instruction result tokens token_idx addr).1 = PARSER_SUCCESS) :
    token_idx < tokens.token_count
    ∧ result.instruction_count < MAX_INSTRUCTION_COUNT
    ∧ (tokens.at token_idx).type = TOKEN_INSTRUCTION
    ∧ get_opcode_from_mnemonic (tokens.at token_idx).value ≠ 0xFF
    ∧ get_format_from_opcode (get_opcode_from_mnemonic (tokens.at token_idx).value) ≠ 0xFF := by
  simp only [parse_instruction] at h
  split_ifs at h with c1 c2 c3 c4 c5 c6
  · exact absurd h c2
  · exact absurd h c6
  · refine ⟨by omega, ?_, by simpa using c3, c4, c5⟩
    by_contra hc
    apply c2
    have : result.instruction_count ≥ MAX_INSTRUCTION_COUNT := by omega
    simp [PRINT_ERROR_IF, this]

/-- C30. Commas are optional. When `parse_instruction` accepts a token line
at a cursor, it also accepts the line without its Comma tokens at the same
place (the cursor moved back by the commas before it), and appends the same
instruction: the same opcode, format, operand count, operands and address,
hence the same machine word. For example `add R0 R1 R2` parses as
`add R0, R1, R2`, `set_const 5 R1` as `set_const 5, R1`, and `[R1 R2]` as
`[R1,R2]`. -/
theorem commas_optional (result : ParseResult) (tokens : TokenizationResult)
    (token_idx addr : Nat)
    (h : (parse_instruction result tokens token_idx addr).1 = PARSER_SUCCESS) :
    (parse_instruction result ⟨remove_commas tokens.tokens⟩
        (remove_commas (tokens.tokens.take token_idx)).length addr).1 = PARSER_SUCCESS
    ∧ (parse_instruction result ⟨remove_commas tokens.tokens⟩
        (remove_commas (tokens.tokens.take token_idx)).length addr).2.1
      = (parse_instruction result tokens token_idx addr).2.1
    ∧ (parse_instruction ParseResult.zero (tokenize_line "add R0 R1 R2".toList 1) 0 0).2.1
      = (parse_instruction ParseResult.zero (tokenize_line "add R0, R1, R2".toList 1) 0 0).2.1
    ∧ (parse_instruction ParseResult.zero (tokenize_line "set_const 5 R1".toList 1) 0 0).2.1
      = (parse_instruction ParseResult.zero (tokenize_line "set_const 5, R1".toList 1) 0 0).2.1
    ∧ (parse_operand (tokenize_line "[R1 R2]".toList 1) 0 Operand.zero).2.2
      = (parse_operand (tokenize_line "[R1,R2]".toList 1) 0 Operand.zero).2.2
    ∧ (parse_instruction ParseResult.zero (tokenize_line "add R0 R1 R2".toList 1) 0 0).1
      = PARSER_SUCCESS
    ∧ (parse_instruction ParseResult.zero (tokenize_line "set_const 5 R1".toList 1) 0 0).1
      = PARSER_SUCCESS
    ∧ (parse_operand (tokenize_line "[R1 R2]".toList 1) 0 Operand.zero).1 = PARSER_SUCCESS := by
  obtain ⟨l1⟩ := tokens
  obtain ⟨h1, h2, h3, h4, h5⟩ := parse_instruction_accepts result _ token_idx addr h
  have hp := same_place_start l1 token_idx
  obtain ⟨g1, g2, g3⟩ := same_place_at l1 _ token_idx _ hp h1 (by rw [h3]; decide)
  have e1 := parse_instruction_operands result (TokenizationResult.mk l1) token_idx addr _ _
    h1 h2 h3 rfl h4 rfl h5
  have e2 := parse_instruction_operands result (TokenizationResult.mk (remove_commas l1))
    (remove_commas (l1.take token_idx)).length addr _ _ g1 h2 (by rw [g2]; exact h3)
    (by rw [g2]) h4 rfl h5
  generalize get_opcode_from_mnemonic ((TokenizationResult.mk l1).at token_idx).value
    = opcode at e1 e2
  generalize get_format_from_opcode opcode = format at e1 e2
  have key : (parse_operands (TokenizationResult.mk l1) opcode format
      (max_operands_of opcode format) (max_operands_of opcode format) 0 (token_idx + 1)
      ⟨opcode, format, [], addr, 0, 0⟩).1 = PARSER_SUCCESS := by
    by_contra hc
    rw [e1, if_pos hc] at h
    exact hc h
  have sim : (parse_operands (TokenizationResult.mk (remove_commas l1)) opcode format
        (max_operands_of opcode format) (max_operands_of opcode format) 0
        ((remove_commas (l1.take token_idx)).length + 1)
        ⟨opcode, format, [], addr, 0, 0⟩).1 = PARSER_SUCCESS
      ∧ (parse_operands (TokenizationResult.mk (remove_commas l1)) opcode format
        (max_operands_of opcode format) (max_operands_of opcode format) 0
        ((remove_commas (l1.take token_idx)).length + 1)
        ⟨opcode, format, [], addr, 0, 0⟩).2.2
      = (parse_operands (TokenizationResult.mk l1) opcode format
        (max_operands_of opcode format) (max_operands_of opcode format) 0 (token_idx + 1)
        ⟨opcode, format, [], addr, 0, 0⟩).2.2 := by
    by_cases hop : opcode = OPC_NOP ∨ opcode = OPC_READY
    · have hm : max_operands_of opcode format = 0 := by simp [max_operands_of, hop]
      rw [hm]
      exact ⟨rfl, rfl⟩
    · exact parse_operands_commas l1 opcode format (max_operands_of opcode format)
        hop (max_operands_of opcode format) 0 (token_idx + 1)
        ((remove_commas (l1.take token_idx)).length + 1) ⟨opcode, format, [], addr, 0, 0⟩ g3 key
  refine ⟨?_, ?_, by decide, by decide, by decide, by decide, by decide, by decide⟩
  · simp only []
    rw [e2, if_neg (fun hn => hn sim.1)]
  · simp only []
    rw [e2, e1, if_neg (fun hn => hn sim.1), if_neg (fun hn => hn key), sim.2]

theorem commas_optional_witness :
    (parse_instruction ParseResult.zero (tokenize_line "st [R1,R2], R3, R4".toList 1) 0 0).1
      = PARSER_SUCCESS
    ∧ (parse_instruction ParseResult.zero
        ⟨remove_commas (tokenize_line "st [R1,R2], R3, R4".toList 1).tokens⟩
        (remove_commas ((tokenize_line "st [R1,R2], R3, R4".toList 1).tokens.take 0)).length
        0).2.1
      = (parse_instruction ParseResult.zero (tokenize_line "st [R1,R2], R3, R4".toList 1)
          0 0).2.1 :=
  ⟨by decide,
    (commas_optional ParseResult.zero (tokenize_line "st [R1,R2], R3, R4".toList 1) 0 0
      (by decide)).2.1⟩

/-! ## Lemmas: capacity limits and labels -/

theorem add_label_code (result : ParseResult) (name : List Char) (address : Nat) :
    (add_label result name address).1 = PARSER_SUCCESS
      ∨ (add_label result name address).1 = PARSER_ERROR_INVALID_INSTRUCTION
      ∨ (add_label result name address).1 = PARSER_ERROR_LABEL_ALREADY_DEF := by
  simp only [add_label, PRINT_ERROR_IF]
  split_ifs <;> simp

/-- C31 fails on the code: neither capacity limit reports its own error kind.
Both checks hand the truth value of the comparison to `PRINT_ERROR_IF`, which
returns it as the error code, so `add_label` on a table of 256 labels and
`parse_instruction` on a result of 1024 instructions return code 1,
InvalidInstruction; TooManyLabels and TooManyInstructions are returned on no
input. The result is left unchanged, as claimed. -/
theorem capacity_error_code (result : ParseResult) (name : List Char) (address : Nat)
    (tokens : TokenizationResult) (token_idx addr : Nat) :
    (result.label_count ≥ MAX_LABELS →
      add_label result name address = (PARSER_ERROR_INVALID_INSTRUCTION, result))
    ∧ (result.instruction_count ≥ MAX_INSTRUCTION_COUNT → token_idx < tokens.token_count →
      parse_instruction result tokens token_idx addr
        = (PARSER_ERROR_INVALID_INSTRUCTION, result, token_idx))
    ∧ (add_label result name address).1 ≠ PARSER_ERROR_TOO_MANY_LABELS
    ∧ (parse_instruction result tokens token_idx addr).1 ≠ PARSER_ERROR_TOO_MANY_INSTR
    ∧ (label_table 256).label_count = 256
    ∧ add_label (label_table 256) "end".toList 8
        = (PARSER_ERROR_INVALID_INSTRUCTION, label_table 256)
    ∧ full_instructions.instruction_count = 1024
    ∧ parse_instruction full_instructions (tokenize_line "nop".toList 1) 0 4096
        = (PARSER_ERROR_INVALID_INSTRUCTION, full_instructions, 0) := by
  have hcount : (label_table 256).label_count = 256 := by
    simp [label_table, ParseResult.label_count]
  have hfull : full_instructions.instruction_count = 1024 :=
    List.length_replicate _ _
  have hinstr : ∀ (r : ParseResult) (t : TokenizationResult) (i a : Nat),
      r.instruction_count ≥ MAX_INSTRUCTION_COUNT → i < t.token_count →
      parse_instruction r t i a = (PARSER_ERROR_INVALID_INSTRUCTION, r, i) := by
    intro r t i a h1 h2
    have c1 : ¬ (i ≥ t.token_count) := by omega
    simp [parse_instruction, c1, PRINT_ERROR_IF, h1]
  refine ⟨fun h => add_label_full result name address h, hinstr result tokens token_idx addr,
    ?_, ?_, hcount, add_label_full _ _ _ (by rw [hcount]), hfull,
    hinstr _ _ _ _ (by rw [hfull]) (by decide)⟩
  · rcases add_label_code result name address with h | h | h <;> rw [h] <;> decide
  · rcases parse_instruction_code result tokens token_idx addr with h | h | h | h | h | h <;>
      rw [h] <;> decide

theorem get_label_address_absent (result : ParseResult) (name : List Char)
    (h : ∀ l ∈ result.labels, l.name ≠ name) : get_label_address result name = 0xFFFF := by
  have : result.labels.find? (fun l => l.name == name) = none := by
    rw [List.find?_eq_none]
    intro l hl
    simpa using h l hl
  simp [get_label_address, this]

theorem find_label (labels : List Label) (l : Label) (hmem : l ∈ labels)
    (hnd : (labels.map (fun x => x.name)).Nodup) :
    labels.find? (fun x => x.name == l.name) = some l := by
  induction labels with
  | nil => cases hmem
  | cons a rest ih =>
    rw [List.map_cons, List.nodup_cons] at hnd
    rcases List.mem_cons.mp hmem with h | h
    · subst h
      simp [List.find?_cons]
    · have hne : a.name ≠ l.name := by
        intro e
        apply hnd.1
        rw [e]
        exact List.mem_map_of_mem (fun x => x.name) h
      have hb : (a.name == l.name) = false := by simpa using hne
      rw [List.find?_cons, hb]
      exact ih h hnd.2

theorem get_label_address_present (result : ParseResult) (l : Label) (hmem : l ∈ result.labels)
    (hnd : (result.labels.map (fun x => x.name)).Nodup) :
    get_label_address result l.name = l.address := by
  simp [get_label_address, find_label result.labels l hmem hnd]

theorem get_label_address_first (result : ParseResult) (name : List Char)
    (h : ∃ l ∈ result.labels, l.name = name) :
    ∃ l ∈ result.labels, l.name = name ∧ get_label_address result name = l.address := by
  cases hf : result.labels.find? (fun l => l.name == name) with
  | none =>
    obtain ⟨l, hl, hn⟩ := h
    have := List.find?_eq_none.mp hf l hl
    simp [hn] at this
  | some l =>
    refine ⟨l, List.mem_of_find?_eq_some hf, ?_, ?_⟩
    · have := List.find?_some hf
      simpa using this
    · simp [get_label_address, hf]

theorem generate_label_branch (opcode : Nat) (name : List Char) (s : Nat) (labels : ParseResult)
    (ho : opcode < 256) (hs : s < 256) (hl : ∀ l ∈ labels.labels, l.address < 65536) :
    generate_machine_code (label_branch opcode name s) labels
      = word_of_bytes opcode s (get_label_address labels name >>> 8)
          (get_label_address labels name &&& 0xFF) := by
  simp only [generate_machine_code, label_branch, Instruction.operand, register_operand,
    label_operand, Operand.zero, List.getD_cons_zero, List.getD_cons_succ, word_of_bytes]
  simp only [FORMAT_F4, FORMAT_F1, FORMAT_F2, FORMAT_F3]
  norm_num
  have ht := get_label_address_lt labels name hl
  generalize get_label_address labels name = t at ht ⊢
  have h1 : t >>> 8 < 256 := by rw [Nat.shiftRight_eq_div_pow]; norm_num; omega
  have h2 : t &&& 0xFF < 256 := by rw [and_255]; omega
  have := pack_word opcode s (t >>> 8) (t &&& 0xFF) hs h1 h2
  rw [← opcode_shift opcode ho] at this
  exact this

theorem generate_set_const_label (name : List Char) (d : Nat) (labels : ParseResult)
    (hd : d < 256) :
    generate_machine_code (set_const_label name d) labels = word_of_bytes 0x0C 0 0 d := by
  have := pack_word 0x0C 0 0 d (by decide) (by decide) hd
  simpa [generate_machine_code, set_const_label, Instruction.operand, register_operand,
    label_operand, Operand.zero, word_of_bytes] using this

/-- C32. The function `get_label_address` returns 0xFFFF for every name that
no entry of the label table has, and the recorded address of every entry of
a table without repeated names (as `add_label` builds it). An F4 instruction
whose target operand is a label is encoded with the bytes
`opcode, s, t >> 8, t & 0xFF`, where `t` is the result of that lookup: the
target bytes are FF FF for a missing label and the address of a label that is
present. So `bnz missing, R1` assembles to `0E 01 FF FF`, and after `nop`
the line `L: bnz L, R1` to `0E 01 00 04`. -/
theorem label_resolution (labels : ParseResult) (name : List Char) (opcode s : Nat)
    (ho : opcode < 256) (hs : s < 256) (hl : ∀ l ∈ labels.labels, l.address < 65536) :
    ((∀ l ∈ labels.labels, l.name ≠ name) → get_label_address labels name = 0xFFFF)
    ∧ ((∃ l ∈ labels.labels, l.name = name) →
        ∃ l ∈ labels.labels, l.name = name ∧ get_label_address labels name = l.address)
    ∧ ((labels.labels.map (fun x => x.name)).Nodup →
        ∀ l ∈ labels.labels, get_label_address labels l.name = l.address)
    ∧ generate_machine_code (label_branch opcode name s) labels
        = word_of_bytes opcode s (get_label_address labels name >>> 8)
            (get_label_address labels name &&& 0xFF)
    ∧ ((∀ l ∈ labels.labels, l.name ≠ name) →
        generate_machine_code (label_branch opcode name s) labels
          = word_of_bytes opcode s 0xFF 0xFF)
    ∧ ((labels.labels.map (fun x => x.name)).Nodup →
        ∀ l ∈ labels.labels,
          generate_machine_code (label_branch opcode l.name s) labels
            = word_of_bytes opcode s (l.address >>> 8) (l.address &&& 0xFF))
    ∧ parse_instruction ParseResult.zero (tokenize_line "bnz missing, R1".toList 1) 0 0
        = (PARSER_SUCCESS, ⟨[label_branch OPC_BNZ "missing".toList 1], []⟩, 4)
    ∧ assemble_file ["bnz missing, R1".toList] = (ASSEMBLER_SUCCESS, some [0x0E, 1, 0xFF, 0xFF])
    ∧ assemble_file ["nop".toList, "L: bnz L, R1".toList]
        = (ASSEMBLER_SUCCESS, some [0, 0, 0, 0, 0x0E, 1, 0, 4]) := by
  refine ⟨get_label_address_absent labels name, get_label_address_first labels name,
    fun hnd l hm => get_label_address_present labels l hm hnd,
    generate_label_branch opcode name s labels ho hs hl, ?_, ?_, by decide, by decide!,
    by decide!⟩
  · intro h
    rw [generate_label_branch opcode name s labels ho hs hl,
      get_label_address_absent labels name h]
    rfl
  · intro hnd l hm
    rw [generate_label_branch opcode l.name s labels ho hs hl,
      get_label_address_present labels l hm hnd]

theorem label_resolution_witness :
    ((0x0E : Nat) < 256 ∧ (3 : Nat) < 256
      ∧ ∀ l ∈ (ParseResult.mk [] [⟨"loop".toList, 8⟩, ⟨"end".toList, 0x1234⟩]).labels,
          l.address < 65536)
    ∧ generate_machine_code (label_branch 0x0E "end".toList 3)
        ⟨[], [⟨"loop".toList, 8⟩, ⟨"end".toList, 0x1234⟩]⟩
      = word_of_bytes 0x0E 3 0x12 0x34
    ∧ generate_machine_code (label_branch 0x0E "exit".toList 3)
        ⟨[], [⟨"loop".toList, 8⟩, ⟨"end".toList, 0x1234⟩]⟩
      = word_of_bytes 0x0E 3 0xFF 0xFF :=
  ⟨⟨by decide, by decide, by decide⟩,
    (label_resolution ⟨[], [⟨"loop".toList, 8⟩, ⟨"end".toList, 0x1234⟩]⟩ "end".toList 0x0E 3
      (by decide) (by decide) (by decide)).2.2.2.2.2.1 (by decide) ⟨"end".toList, 0x1234⟩
      (by decide),
    (label_resolution ⟨[], [⟨"loop".toList, 8⟩, ⟨"end".toList, 0x1234⟩]⟩ "exit".toList 0x0E 3
      (by decide) (by decide) (by decide)).2.2.2.2.1 (by decide)⟩

/-- C40 fails on the code: a label used as the immediate of `set_const` is
never resolved. The parser accepts `set_const L, Rd` and keeps `L` as the
label of the first operand, but for format F2 `generate_machine_code` encodes
the field `immediate` of that operand, which is 0: for every label table the
word has the bytes `0x0C, 0, 0, d`. In the source `nop`, `L: nop`,
`set_const L, R1` the label `L` has address 4 and the third word is
`0C 00 00 01`, not `0C 00 04 01`, while `bnz L, R1` in its place is encoded
with the target 4. -/
theorem set_const_label_unresolved (labels : ParseResult) (name : List Char) (d : Nat) :
    (d < 256 →
      generate_machine_code (set_const_label name d) labels = word_of_bytes 0x0C 0 0 d)
    ∧ parse_instruction ParseResult.zero (tokenize_line "set_const L, R1".toList 1) 0 0
        = (PARSER_SUCCESS, ⟨[set_const_label "L".toList 1], []⟩, 4)
    ∧ get_label_address
        (parse_file ["nop".toList, "L: nop".toList, "set_const L, R1".toList]) "L".toList = 4
    ∧ assemble_file ["nop".toList, "L: nop".toList, "set_const L, R1".toList]
        = (ASSEMBLER_SUCCESS, some [0, 0, 0, 0, 0, 0, 0, 0, 0x0C, 0, 0, 1])
    ∧ assemble_file ["nop".toList, "L: nop".toList, "bnz L, R1".toList]
        = (ASSEMBLER_SUCCESS, some [0, 0, 0, 0, 0, 0, 0, 0, 0x0E, 1, 0, 4]) := by
  exact ⟨generate_set_const_label name d labels, by decide, by decide!, by decide!, by decide!⟩

/-! ## Lemmas: failing instructions -/

theorem memory_write_word_failure (memory : Memory) (address value : Nat)
    (h : (memory_write_word memory address value).1 ≠ MEMORY_SUCCESS) :
    (memory_write_word memory address value).2 = memory := by
  simp only [memory_write_word] at h ⊢
  split_ifs at h ⊢
  · rfl
  · rfl
  · exact absurd rfl h

theorem done_or_unchanged_ite (cpu : CPU) (c : Prop) [Decidable c] (x y : Nat × CPU)
    (hx : c → done_or_unchanged cpu x) (hy : ¬ c → done_or_unchanged cpu y) :
    done_or_unchanged cpu (if c then x else y) := by
  by_cases h : c
  · rw [if_pos h]; exact hx h
  · rw [if_neg h]; exact hy h

theorem execute_opcode_atomic (host : Host) (cpu : CPU) (opcode a b c : Nat) :
    done_or_unchanged cpu (execute_opcode host cpu opcode a b c) := by
  have hw := memory_write_word_failure cpu.memory ((cpu.reg b + cpu.reg c) % 65536) (cpu.reg a)
  unfold execute_opcode
  repeat' refine done_or_unchanged_ite cpu _ _ _ (fun _ => ?_) (fun _ => ?_)
  all_goals first
    | exact Or.inl (Or.inl rfl)
    | exact Or.inl (Or.inr rfl)
    | exact Or.inr rfl
    | exact Or.inr (by simp only [hw (by assumption)])

theorem decode_atomic (host : Host) (cpu : CPU) (instruction : Nat) :
    done_or_unchanged cpu (emulator_decode_instruction host cpu instruction) := by
  unfold emulator_decode_instruction
  refine done_or_unchanged_ite cpu _ _ _ (fun _ => Or.inr rfl) (fun _ => ?_)
  refine done_or_unchanged_ite cpu _ _ _ (fun _ => Or.inr rfl) (fun _ => ?_)
  refine done_or_unchanged_ite cpu _ _ _ (fun _ => Or.inr rfl) (fun _ => ?_)
  refine done_or_unchanged_ite cpu _ _ _ (fun _ => Or.inr rfl) (fun _ => ?_)
  refine done_or_unchanged_ite cpu _ _ _ (fun _ => Or.inr rfl) (fun _ => ?_)
  exact execute_opcode_atomic host cpu _ _ _ _

/-- C37. Errors are atomic in the executor: for every CPU state and every
instruction word, when `emulator_decode_instruction` returns
InvalidInstruction, InvalidRegister, DivisionByZero or MemoryError, the CPU it
leaves is the CPU it was given: registers, IP, running flag and memory are
unchanged. -/
theorem errors_are_atomic (host : Host) (cpu : CPU) (instruction : Nat)
    (h : (emulator_decode_instruction host cpu instruction).1 = EMULATOR_INVALID_INSTRUCTION
      ∨ (emulator_decode_instruction host cpu instruction).1 = EMULATOR_INVALID_REGISTER
      ∨ (emulator_decode_instruction host cpu instruction).1 = EMULATOR_DIVISION_BY_ZERO
      ∨ (emulator_decode_instruction host cpu instruction).1 = EMULATOR_MEMORY_ERROR) :
    (emulator_decode_instruction host cpu instruction).2 = cpu := by
  rcases decode_atomic host cpu instruction with (h0 | h0) | h0
  · rw [h0] at h
    exact absurd h (by decide)
  · rw [h0] at h
    exact absurd h (by decide)
  · exact h0

theorem errors_are_atomic_witness :
    ((emulator_decode_instruction masking_host
          (small_cpu 4 [7, 0, 3, 0, 0, 0, 0, 0, 0, 0, 0, 0, 0, 0, 0, 0] [])
          (word_of_bytes OPC_DIV 0 1 2)).1 = EMULATOR_INVALID_INSTRUCTION
      ∨ (emulator_decode_instruction masking_host
          (small_cpu 4 [7, 0, 3, 0, 0, 0, 0, 0, 0, 0, 0, 0, 0, 0, 0, 0] [])
          (word_of_bytes OPC_DIV 0 1 2)).1 = EMULATOR_INVALID_REGISTER
      ∨ (emulator_decode_instruction masking_host
          (small_cpu 4 [7, 0, 3, 0, 0, 0, 0, 0, 0, 0, 0, 0, 0, 0, 0, 0] [])
          (word_of_bytes OPC_DIV 0 1 2)).1 = EMULATOR_DIVISION_BY_ZERO
      ∨ (emulator_decode_instruction masking_host
          (small_cpu 4 [7, 0, 3, 0, 0, 0, 0, 0, 0, 0, 0, 0, 0, 0, 0, 0] [])
          (word_of_bytes OPC_DIV 0 1 2)).1 = EMULATOR_MEMORY_ERROR)
    ∧ (emulator_decode_instruction masking_host
          (small_cpu 4 [7, 0, 3, 0, 0, 0, 0, 0, 0, 0, 0, 0, 0, 0, 0, 0] [])
          (word_of_bytes OPC_DIV 0 1 2)).2
        = small_cpu 4 [7, 0, 3, 0, 0, 0, 0, 0, 0, 0, 0, 0, 0, 0, 0, 0] [] :=
  ⟨by decide,
    errors_are_atomic masking_host
      (small_cpu 4 [7, 0, 3, 0, 0, 0, 0, 0, 0, 0, 0, 0, 0, 0, 0, 0] [])
      (word_of_bytes OPC_DIV 0 1 2) (by decide)⟩

/-! ## Lemmas: alignment of the program counter -/

theorem aligned_after_ite (cpu : CPU) (c : Prop) [Decidable c] (x y : Nat × CPU)
    (hx : c → aligned_after cpu x) (hy : ¬ c → aligned_after cpu y) :
    aligned_after cpu (if c then x else y) := by
  by_cases h : c
  · rw [if_pos h]; exact hx h
  · rw [if_neg h]; exact hy h

theorem memory_write_word_program (memory : Memory) (address value : Nat) :
    (memory_write_word memory address value).2.instruction_memory = memory.instruction_memory
    ∧ (memory_write_word memory address value).2.instruction_size = memory.instruction_size
    ∧ (memory_write_word memory address value).2.initialized = memory.initialized := by
  simp only [memory_write_word]
  split_ifs <;> exact ⟨rfl, rfl, rfl⟩

theorem aligned_next (cpu after : CPU) (hip : cpu.IP % 4 = 0) (h : after.IP = cpu.IP)
    (hp : same_program cpu after) : aligned_after cpu (next_instruction after) := by
  refine ⟨?_, hp⟩
  show (after.IP + 4) % 65536 % 4 = 0
  omega

/-- A store into one of the sixteen registers leaves `IP` and the program. -/
theorem set_reg_program (host : Host) (cpu : CPU) (i v : Nat) (h : i < NUM_REGISTERS) :
    (cpu.set_reg host i v).IP = cpu.IP ∧ same_program cpu (cpu.set_reg host i v) := by
  rw [set_reg_lt host cpu i v h]
  exact ⟨rfl, rfl, rfl, rfl⟩

theorem mul_store_program (host : Host) (cpu : CPU) (c x y : Nat) (h : c < NUM_REGISTERS) :
    ((cpu.set_reg host c x).set_reg host (if c = 15 then 0 else c + 1) y).IP = cpu.IP
    ∧ same_program cpu ((cpu.set_reg host c x).set_reg host (if c = 15 then 0 else c + 1) y) := by
  have hn : (if c = 15 then 0 else c + 1) < NUM_REGISTERS := by
    simp only [NUM_REGISTERS] at h ⊢
    split_ifs <;> omega
  rw [set_reg_lt host _ _ _ hn, set_reg_lt host cpu c x h]
  exact ⟨rfl, rfl, rfl, rfl⟩

theorem execute_opcode_aligned (host : Host) (cpu : CPU) (opcode a b c : Nat)
    (hip : cpu.IP % 4 = 0)
    (hbnz : opcode = OPC_BNZ → (((b <<< 8) % 65536) ||| c) % 4 = 0)
    (hdst : opcode ≤ OPC_SET_CONST → c < NUM_REGISTERS) :
    aligned_after cpu (execute_opcode host cpu opcode a b c) := by
  have hw := memory_write_word_program cpu.memory ((cpu.reg b + cpu.reg c) % 65536) (cpu.reg a)
  have hsame : same_program cpu cpu := ⟨rfl, rfl, rfl⟩
  have hreg : (opcode = OPC_ADD ∨ opcode = OPC_SUB ∨ opcode = OPC_MUL ∨ opcode = OPC_DIV
      ∨ opcode = OPC_CMPGE ∨ opcode = OPC_RSHFT ∨ opcode = OPC_LSHFT ∨ opcode = OPC_AND
      ∨ opcode = OPC_OR ∨ opcode = OPC_XOR ∨ opcode = OPC_LD ∨ opcode = OPC_SET_CONST) →
      c < NUM_REGISTERS := by
    intro h
    apply hdst
    simp only [OPC_ADD, OPC_SUB, OPC_MUL, OPC_DIV, OPC_CMPGE, OPC_RSHFT, OPC_LSHFT, OPC_AND,
      OPC_OR, OPC_XOR, OPC_LD, OPC_SET_CONST] at h ⊢
    omega
  unfold execute_opcode
  repeat' refine aligned_after_ite cpu _ _ _ (fun _ => ?_) (fun _ => ?_)
  all_goals first
    | exact aligned_next cpu _ hip rfl ⟨rfl, rfl, rfl⟩
    | exact ⟨hip, hsame⟩
    | exact aligned_next cpu _ hip rfl hw
    | exact ⟨hip, hw⟩
    | exact ⟨hbnz (by assumption), hsame⟩
    | exact ⟨rfl, hsame⟩
    | exact aligned_next cpu _ hip
        (set_reg_program host cpu _ _ (hreg (by simp only [*, true_or, or_true]))).1
        (set_reg_program host cpu _ _ (hreg (by simp only [*, true_or, or_true]))).2
    | exact aligned_next cpu _ hip
        (mul_store_program host cpu _ _ _ (hreg (by simp only [*, true_or, or_true]))).1
        (mul_store_program host cpu _ _ _ (hreg (by simp only [*, true_or, or_true]))).2

theorem decode_aligned (host : Host) (cpu : CPU) (w : Nat) (hip : cpu.IP % 4 = 0)
    (hbnz : (w >>> 24) &&& 0xFF = OPC_BNZ → bnz_target w % 4 = 0)
    (hdst : (w >>> 24) &&& 0xFF = OPC_LD ∨ (w >>> 24) &&& 0xFF = OPC_SET_CONST →
      w &&& 0xFF < NUM_REGISTERS) :
    aligned_after cpu (emulator_decode_instruction host cpu w) := by
  have hsame : aligned_after cpu (EMULATOR_INVALID_REGISTER, cpu) := ⟨hip, rfl, rfl, rfl⟩
  unfold emulator_decode_instruction
  refine aligned_after_ite cpu _ _ _ (fun _ => hsame) (fun _ => ?_)
  refine aligned_after_ite cpu _ _ _ (fun _ => hsame) (fun _ => ?_)
  refine aligned_after_ite cpu _ _ _ (fun _ => hsame) (fun h3 => ?_)
  refine aligned_after_ite cpu _ _ _ (fun _ => hsame) (fun _ => ?_)
  refine aligned_after_ite cpu _ _ _ (fun _ => hsame) (fun _ => ?_)
  refine execute_opcode_aligned host cpu _ _ _ _ hip hbnz (fun hle => ?_)
  by_cases hx : (w >>> 24) &&& 0xFF ≤ OPC_XOR
  · by_contra hc
    exact h3 ⟨hx, Nat.le_of_not_lt hc⟩
  · apply hdst
    simp only [OPC_XOR, OPC_LD, OPC_SET_CONST] at hx hle ⊢
    omega

theorem cycle_aligned (host : Host) (cpu : CPU) (hip : cpu.IP % 4 = 0)
    (hbnz : bnz_targets_aligned cpu.memory) (hdst : destinations_in_range cpu.memory) :
    aligned_after cpu (emulator_fetch_execute_cycle host cpu) := by
  unfold emulator_fetch_execute_cycle
  refine aligned_after_ite cpu _ _ _ (fun _ => ⟨hip, rfl, rfl, rfl⟩) (fun hlt => ?_)
  refine aligned_after_ite cpu _ _ _ (fun _ => ⟨hip, rfl, rfl, rfl⟩) (fun _ => ?_)
  exact decode_aligned host cpu _ hip (hbnz _ (by simpa using hlt))
    (hdst _ (by simpa using hlt))

theorem read_instruction_program (m1 m2 : Memory)
    (h : m2.instruction_memory = m1.instruction_memory ∧ m2.instruction_size = m1.instruction_size
      ∧ m2.initialized = m1.initialized) (i : Nat) :
    memory_read_instruction m2 i = memory_read_instruction m1 i := by
  simp only [memory_read_instruction, check_memory_initialized, h.1, h.2.1, h.2.2]

theorem aligned_same_program (cpu after : CPU) (h : same_program cpu after)
    (hbnz : bnz_targets_aligned cpu.memory) : bnz_targets_aligned after.memory := by
  intro i hi
  rw [read_instruction_program cpu.memory after.memory h i]
  exact hbnz i (by rw [← h.2.1]; exact hi)

theorem destinations_same_program (cpu after : CPU) (h : same_program cpu after)
    (hdst : destinations_in_range cpu.memory) : destinations_in_range after.memory := by
  intro i hi
  rw [read_instruction_program cpu.memory after.memory h i]
  exact hdst i (by rw [← h.2.1]; exact hi)

theorem same_program_trans (a b c : CPU) (h1 : same_program a b) (h2 : same_program b c) :
    same_program a c :=
  ⟨h2.1.trans h1.1, h2.2.1.trans h1.2.1, h2.2.2.trans h1.2.2⟩

theorem cycles_aligned (host : Host) :
    ∀ (n : Nat) (cpu : CPU), cpu.IP % 4 = 0 → bnz_targets_aligned cpu.memory →
      destinations_in_range cpu.memory →
      (cycles host n cpu).IP % 4 = 0 ∧ same_program cpu (cycles host n cpu) := by
  intro n
  induction n with
  | zero => intro cpu hip _ _; exact ⟨hip, rfl, rfl, rfl⟩
  | succ n ih =>
    intro cpu hip hbnz hdst
    obtain ⟨h1, h2⟩ := cycle_aligned host cpu hip hbnz hdst
    obtain ⟨h3, h4⟩ := ih _ h1 (aligned_same_program cpu _ h2 hbnz)
      (destinations_same_program cpu _ h2 hdst)
    exact ⟨h3, same_program_trans _ _ _ h2 h4⟩

theorem run_loop_aligned (host : Host) :
    ∀ (fuel : Nat) (cpu : CPU) (r : Nat × CPU), cpu.IP % 4 = 0 →
      bnz_targets_aligned cpu.memory → destinations_in_range cpu.memory →
      run_loop host fuel cpu = some r →
      r.2.IP % 4 = 0 ∧ same_program cpu r.2 := by
  intro fuel
  induction fuel with
  | zero => intro cpu r _ _ _ h; cases h
  | succ fuel ih =>
    intro cpu r hip hbnz hdst h
    obtain ⟨h1, h2⟩ := cycle_aligned host cpu hip hbnz hdst
    simp only [run_loop] at h
    split_ifs at h with c1 c2 c3
    · cases h; exact ⟨h1, h2⟩
    · cases h; exact ⟨h1, h2⟩
    · obtain ⟨h3, h4⟩ := ih _ r h1 (aligned_same_program cpu _ h2 hbnz)
        (destinations_same_program cpu _ h2 hdst) h
      exact ⟨h3, same_program_trans _ _ _ h2 h4⟩
    · cases h; exact ⟨hip, rfl, rfl, rfl⟩

/-- The SET_CONST word with a destination byte of 16 or more is executed: it
returns success, advances `IP` and leaves in `memory` and `running` what the
store past the registers leaves there. -/
theorem decode_stray_set_const (host : Host) (cpu : CPU) (a b d : Nat) (ha : a < 256)
    (hb : b < 256) (hd : 16 ≤ d) (hd2 : d < 256) :
    emulator_decode_instruction host cpu (word_of_bytes OPC_SET_CONST a b d)
      = (EMULATOR_SUCCESS,
          { cpu with
            IP := (cpu.IP + 4) % 65536,
            memory :=
              (host.store_past_registers cpu d ((((a <<< 8) % 65536) ||| b) % 65536)).1,
            running :=
              (host.store_past_registers cpu d ((((a <<< 8) % 65536) ||| b) % 65536)).2 }) := by
  rw [decode_word_of_bytes host cpu OPC_SET_CONST a b d (by decide) ha hb hd2]
  have e : ¬ (d < 16) := by omega
  simp [execute_opcode, CPU.set_reg, next_instruction, e, OPC_SET_CONST, OPC_XOR, OPC_LD,
    OPC_ST, OPC_BNZ, OPC_READY, NUM_REGISTERS, INSTRUCTION_SIZE]

/-- C39 fails on the code: alignment of `IP` and the stored program are not
invariant under the two stated conditions, because LD and SET_CONST store to
`RF[d]` without checking `d`. The SET_CONST word `0C a b d` with `d` of 16 or
more returns success and leaves in `memory` and `running` what the store past
the registers leaves there. On a host where `RF[19]` overlays the pointer to
the instruction memory, the program `0C 00 01 00`, `0C 00 00 13` (aligned
`IP`, no BNZ word) continues at another place after two cycles, and a BNZ word
with target 2 found there leaves `IP = 2` after the third. When in addition
every LD and SET_CONST word of the instruction memory has a destination below
16, the invariant holds on every host: after one cycle, after any number of
cycles and after `emulator_run`, `IP` is a multiple of 4 and the program is
the same, so the three conditions hold again. The step from `IP = 65532`
wraps to 0. -/
theorem ip_alignment_unchecked_store (host : Host) (cpu : CPU) (hip : cpu.IP % 4 = 0)
    (hbnz : bnz_targets_aligned cpu.memory) :
    (destinations_in_range cpu.memory →
      (emulator_fetch_execute_cycle host cpu).2.IP % 4 = 0
      ∧ (emulator_fetch_execute_cycle host cpu).2.memory.instruction_memory
          = cpu.memory.instruction_memory
      ∧ bnz_targets_aligned (emulator_fetch_execute_cycle host cpu).2.memory
      ∧ destinations_in_range (emulator_fetch_execute_cycle host cpu).2.memory
      ∧ (∀ n, (cycles host n cpu).IP % 4 = 0
          ∧ (cycles host n cpu).memory.instruction_memory = cpu.memory.instruction_memory)
      ∧ (∀ fuel r, emulator_run host fuel cpu = some r →
          r.2.IP % 4 = 0 ∧ r.2.memory.instruction_memory = cpu.memory.instruction_memory))
    ∧ (∀ a b d, a < 256 → b < 256 → 16 ≤ d → d < 256 →
        emulator_decode_instruction host cpu (word_of_bytes OPC_SET_CONST a b d)
          = (EMULATOR_SUCCESS,
              { cpu with
                IP := (cpu.IP + 4) % 65536,
                memory :=
                  (host.store_past_registers cpu d ((((a <<< 8) % 65536) ||| b) % 65536)).1,
                running :=
                  (host.store_past_registers cpu d
                    ((((a <<< 8) % 65536) ||| b) % 65536)).2 }))
    ∧ (emulator_decode_instruction host { cpu with IP := 65532 }
        (word_of_bytes OPC_NOP 0 0 0)).2.IP = 0
    ∧ ((small_cpu 0 (List.replicate 16 0) [0x0C, 0, 1, 0, 0x0C, 0, 0, 19]).IP % 4 = 0
      ∧ bnz_targets_aligned
          (small_cpu 0 (List.replicate 16 0) [0x0C, 0, 1, 0, 0x0C, 0, 0, 19]).memory
      ∧ ¬ destinations_in_range
          (small_cpu 0 (List.replicate 16 0) [0x0C, 0, 1, 0, 0x0C, 0, 0, 19]).memory
      ∧ (cycles (relocating_host [0, 0, 0, 0, 0, 0, 0, 0, 0x0E, 0, 0, 2, 0, 0, 0, 0]) 2
          (small_cpu 0 (List.replicate 16 0)
            [0x0C, 0, 1, 0, 0x0C, 0, 0, 19])).memory.instruction_memory
        = [0, 0, 0, 0, 0, 0, 0, 0, 0x0E, 0, 0, 2, 0, 0, 0, 0]
      ∧ (cycles (relocating_host [0, 0, 0, 0, 0, 0, 0, 0, 0x0E, 0, 0, 2, 0, 0, 0, 0]) 2
          (small_cpu 0 (List.replicate 16 0) [0x0C, 0, 1, 0, 0x0C, 0, 0, 19])).IP = 8
      ∧ (cycles (relocating_host [0, 0, 0, 0, 0, 0, 0, 0, 0x0E, 0, 0, 2, 0, 0, 0, 0]) 3
          (small_cpu 0 (List.replicate 16 0) [0x0C, 0, 1, 0, 0x0C, 0, 0, 19])).IP = 2) := by
  refine ⟨fun hdst => ?_, fun a b d ha hb hd hd2 => decode_stray_set_const host cpu a b d ha hb
    hd hd2, ?_, by decide, by decide, by decide, by decide, by decide, by decide⟩
  · obtain ⟨h1, h2⟩ := cycle_aligned host cpu hip hbnz hdst
    refine ⟨h1, h2.1, aligned_same_program cpu _ h2 hbnz,
      destinations_same_program cpu _ h2 hdst, ?_, ?_⟩
    · intro n
      obtain ⟨h3, h4⟩ := cycles_aligned host n cpu hip hbnz hdst
      exact ⟨h3, h4.1⟩
    · intro fuel r h
      obtain ⟨h3, h4⟩ :=
        run_loop_aligned host fuel { cpu with running := true } r hip hbnz hdst h
      exact ⟨h3, h4.1⟩
  · rw [decode_word_of_bytes host _ OPC_NOP 0 0 0 (by decide) (by decide) (by decide)
      (by decide)]
    simp [execute_opcode, next_instruction, INSTRUCTION_SIZE]

theorem ip_alignment_unchecked_store_witness :
    ((small_cpu 0 (List.replicate 16 0) [0x0C, 0, 8, 1, 0x0E, 1, 0, 8, 0x0F, 0, 0, 0]).IP % 4 = 0
      ∧ bnz_targets_aligned
        (small_cpu 0 (List.replicate 16 0) [0x0C, 0, 8, 1, 0x0E, 1, 0, 8, 0x0F, 0, 0, 0]).memory
      ∧ destinations_in_range
        (small_cpu 0 (List.replicate 16 0) [0x0C, 0, 8, 1, 0x0E, 1, 0, 8, 0x0F, 0, 0, 0]).memory)
    ∧ (cycles masking_host 2
        (small_cpu 0 (List.replicate 16 0) [0x0C, 0, 8, 1, 0x0E, 1, 0, 8, 0x0F, 0, 0, 0])).IP = 8
    ∧ (cycles masking_host 2
        (small_cpu 0 (List.replicate 16 0)
          [0x0C, 0, 8, 1, 0x0E, 1, 0, 8, 0x0F, 0, 0, 0])).IP % 4 = 0 :=
  ⟨⟨by decide, by decide, by decide⟩, by decide,
    (((ip_alignment_unchecked_store masking_host
      (small_cpu 0 (List.replicate 16 0) [0x0C, 0, 8, 1, 0x0E, 1, 0, 8, 0x0F, 0, 0, 0])
      (by decide) (by decide)).1 (by decide)).2.2.2.2.1 2).1⟩

/-! ## Lemmas: lexemes and tokens -/

theorem tokenize_line_lexemes (line : List Char) (ln : Nat) :
    tokenize_line line ln = ⟨make_tokens ln (lexemes line) MAX_TOKENS 0⟩ := rfl

theorem make_tokens_length (ln : Nat) :
    ∀ (ws : List (List Char)) (room pos : Nat),
      (make_tokens ln ws room pos).length = min ws.length room := by
  intro ws
  induction ws with
  | nil => intro room pos; simp [make_tokens]
  | cons w rest ih =>
    intro room pos
    cases room with
    | zero => simp [make_tokens]
    | succ room =>
      simp only [make_tokens, List.length_cons, ih]
      omega

theorem make_tokens_map (ln : Nat) :
    ∀ (ws : List (List Char)) (room pos : Nat),
      (make_tokens ln ws room pos).map (fun t => (t.type, t.value))
        = (ws.take room).map
            (fun w => ((classify_token w).1, (classify_token w).2.take (MAX_TOKEN_LENGTH - 1))) := by
  intro ws
  induction ws with
  | nil => intro room pos; simp [make_tokens]
  | cons w rest ih =>
    intro room pos
    cases room with
    | zero => simp [make_tokens]
    | succ room =>
      simp only [make_tokens, List.map_cons, List.take_succ_cons, ih]

theorem make_tokens_line (ln : Nat) :
    ∀ (ws : List (List Char)) (room pos : Nat),
      ∀ t ∈ make_tokens ln ws room pos, t.line_number = ln := by
  intro ws
  induction ws with
  | nil => intro room pos t ht; simp [make_tokens] at ht
  | cons w rest ih =>
    intro room pos t ht
    cases room with
    | zero => simp [make_tokens] at ht
    | succ room =>
      simp only [make_tokens, List.mem_cons] at ht
      rcases ht with rfl | ht
      · rfl
      · exact ih _ _ t ht

/-- C35. For every line, `tokenize_line` returns at most 32 tokens: the
token count is the smaller of 32 and the number of lexemes of the line, the
tokens are made of the first lexemes in their order (type and stored text of
each, on the given line number), lexemes after the 32nd are dropped without
an error, and no slot from index 32 on is written. A line of 40 lexemes gives
32 tokens. -/
theorem token_limit (line : List Char) (ln : Nat) :
    (tokenize_line line ln).token_count = min (lexemes line).length MAX_TOKENS
    ∧ (tokenize_line line ln).token_count ≤ 32
    ∧ (tokenize_line line ln).tokens.map (fun t => (t.type, t.value))
        = ((lexemes line).take MAX_TOKENS).map
            (fun w => ((classify_token w).1, (classify_token w).2.take (MAX_TOKEN_LENGTH - 1)))
    ∧ (∀ t ∈ (tokenize_line line ln).tokens, t.line_number = ln)
    ∧ (∀ i, 32 ≤ i → (tokenize_line line ln).at i = Token.zero)
    ∧ (lexemes (List.replicate 40 ['a', ' ']).flatten).length = 40
    ∧ (tokenize_line (List.replicate 40 ['a', ' ']).flatten 1).token_count = 32
    ∧ (lexemes ((List.range 40).map (fun i => Nat.toDigits 10 i ++ [' '])).flatten).length = 40
    ∧ (tokenize_line ((List.range 40).map (fun i => Nat.toDigits 10 i ++ [' '])).flatten
          1).tokens.map (fun t => t.value)
        = (List.range 32).map (fun i => Nat.toDigits 10 i) := by
  have hlen : (tokenize_line line ln).token_count = min (lexemes line).length MAX_TOKENS := by
    rw [tokenize_line_lexemes]
    exact make_tokens_length ln _ _ _
  refine ⟨hlen, ?_, ?_, ?_, ?_, by decide!, by decide!, by decide!, by decide!⟩
  · rw [hlen]; exact Nat.min_le_right _ _
  · rw [tokenize_line_lexemes]
    exact make_tokens_map ln _ _ _
  · rw [tokenize_line_lexemes]
    exact make_tokens_line ln _ _ _
  · intro i hi
    have : (tokenize_line line ln).tokens.length ≤ 32 := by
      have := hlen
      simp only [TokenizationResult.token_count] at this
      rw [this]; exact Nat.min_le_right _ _
    simp [TokenizationResult.at, List.getD_eq_getElem?_getD,
      List.getElem?_eq_none (Nat.le_trans this hi)]

theorem mnemonic_names :
    ["nop", "add", "sub", "mul", "div", "cmpge", "rshft", "lshft", "and", "or", "xor", "ld",
      "set_const", "st", "bnz", "ready"].map String.toList = mnemonics.map Prod.fst := by
  decide

theorem is_mnemonic_iff (w : List Char) :
    is_mnemonic w = true ↔ ∃ p ∈ mnemonics, p.1 = w := by
  have h1 : is_mnemonic w = true
      ↔ w ∈ ["nop", "add", "sub", "mul", "div", "cmpge", "rshft", "lshft", "and", "or", "xor",
          "ld", "set_const", "st", "bnz", "ready"].map String.toList := by
    unfold is_mnemonic
    rw [List.any_eq_true]
    constructor
    · rintro ⟨s, hs, he⟩
      exact List.mem_map.mpr ⟨s, hs, by simpa using he⟩
    · intro h
      obtain ⟨s, hs, he⟩ := List.mem_map.mp h
      exact ⟨s, hs, by simpa using he⟩
  rw [h1, mnemonic_names, List.mem_map]

theorem opcode_iff (w : List Char) :
    get_opcode_from_mnemonic w ≠ 0xFF ↔ ∃ p ∈ mnemonics, p.1 = w := by
  have hall : ∀ p ∈ mnemonics, p.2 ≠ 0xFF := by decide
  simp only [get_opcode_from_mnemonic]
  cases hf : mnemonics.find? (fun p => p.1 == w) with
  | none =>
    simp only [ne_eq, not_true_eq_false, false_iff, not_exists, not_and]
    intro p hp
    have := List.find?_eq_none.mp hf p hp
    simpa using this
  | some p =>
    have hm := List.mem_of_find?_eq_some hf
    have hw : p.1 = w := by
      have := List.find?_some hf
      simpa using this
    simp only [ne_eq, hall p hm, not_false_eq_true, true_iff]
    exact ⟨p, hm, hw⟩

theorem opcode_is_mnemonic (w : List Char) :
    get_opcode_from_mnemonic w ≠ 0xFF ↔ is_mnemonic w = true := by
  rw [opcode_iff, is_mnemonic_iff]

theorem no_mnemonic_upper (t : List Char) : is_mnemonic ('R' :: t) = false := by
  rw [← Bool.not_eq_true, is_mnemonic_iff]
  rintro ⟨p, hp, hw⟩
  have hall : ∀ p ∈ mnemonics, p.1.head? ≠ some 'R' := by decide
  apply hall p hp
  rw [hw]
  rfl

theorem register_lexeme_iff (w : List Char) (h : w.getLast? ≠ some ':') :
    (w.head? = some 'R' ∧ isdigit (w.getD 1 '\x00') = true)
      → (is_register_lexeme w = (w.drop 1).all isdigit) := by
  intro hA
  match w, hA with
  | [], hA => simp at hA
  | [c], hA =>
    have h0 : isdigit '\x00' = false := by decide
    simp [h0] at hA
  | c :: d :: ds, hA =>
    have hc : c = 'R' := by simpa using hA.1
    subst hc
    rfl

theorem register_lexeme_not (w : List Char)
    (hA : ¬ (w.head? = some 'R' ∧ isdigit (w.getD 1 '\x00') = true)) :
    is_register_lexeme w = false := by
  match w, hA with
  | [], _ => rfl
  | [c], _ => simp [is_register_lexeme]
  | c :: d :: ds, hA =>
    by_cases hc : c = 'R'
    · subst hc
      have hd : isdigit d = false := by
        by_contra hd
        exact hA ⟨rfl, by simpa using hd⟩
      simp [is_register_lexeme, hd]
    · unfold is_register_lexeme
      split
      · rename_i heq
        simp at heq
        exact absurd heq.1 hc
      · rfl

theorem immediate_lexeme_iff (w : List Char) :
    (isdigit (w.getD 0 '\x00') = true
      ∨ (w.head? = some '-' ∧ isdigit (w.getD 1 '\x00') = true)
      ∨ (w.head? = some '0' ∧ w.getD 1 '\x00' = 'x')) ↔ is_immediate_lexeme w = true := by
  match w with
  | [] => simp [is_immediate_lexeme]; decide
  | [c] =>
    have h1 : isdigit '\x00' = false := by decide
    simp [is_immediate_lexeme, h1]
  | c :: d :: ds =>
    simp [is_immediate_lexeme, or_assoc]

/-- The classification of `tokenize_line` is the classification by the rules
of the lexer. -/
theorem classify_token_kind (w : List Char) :
    classify_token w = (lexeme_kind w, lexeme_value w) := by
  by_cases hl : w.getLast? = some ':'
  · simp [classify_token, lexeme_kind, lexeme_value, hl]
  · by_cases hA : w.head? = some 'R' ∧ isdigit (w.getD 1 '\x00') = true
    · have hr := register_lexeme_iff w hl hA
      obtain ⟨t, ht⟩ : ∃ t, w = 'R' :: t := by
        match w, hA with
        | c :: t, hA => exact ⟨t, by have := hA.1; simp at this; rw [this]⟩
      by_cases hall : (w.drop 1).all isdigit = true
      · simp only [classify_token, lexeme_kind, lexeme_value, if_neg hl, if_pos hA, hr, hall,
          if_true]
      · have himm : is_immediate_lexeme w = false := by
          subst ht
          match t with
          | [] => rfl
          | d :: ds => simp [is_immediate_lexeme]; decide
        have hm : is_mnemonic w = false := by rw [ht]; exact no_mnemonic_upper t
        have hlen : w.length ≠ 1 := by
          intro h1
          subst ht
          match t, h1 with
          | [], _ =>
            have h0 : isdigit '\x00' = false := by decide
            simp [h0] at hA
        have hp : w ≠ ['['] ∧ w ≠ [']'] ∧ w ≠ [','] := by
          rw [ht]; exact ⟨by simp, by simp, by simp⟩
        simp only [classify_token, lexeme_kind, lexeme_value, if_neg hl, if_pos hA, hr, hall,
          himm, hm, hp.1, hp.2.1, hp.2.2, if_false]
        simp
    · have hr := register_lexeme_not w hA
      by_cases hB : isdigit (w.getD 0 '\x00') = true
          ∨ (w.head? = some '-' ∧ isdigit (w.getD 1 '\x00') = true)
          ∨ (w.head? = some '0' ∧ w.getD 1 '\x00' = 'x')
      · have hi := (immediate_lexeme_iff w).mp hB
        simp only [classify_token, lexeme_kind, lexeme_value, if_neg hl, if_neg hA, if_pos hB,
          hr, hi, if_true]
        simp
      · have hi : is_immediate_lexeme w = false := by
          rw [← Bool.not_eq_true]
          exact fun h => hB ((immediate_lexeme_iff w).mpr h)
        by_cases hM : get_opcode_from_mnemonic w ≠ 0xFF
        · have hm := (opcode_is_mnemonic w).mp hM
          simp only [classify_token, lexeme_kind, lexeme_value, if_neg hl, if_neg hA, if_neg hB,
            if_pos hM, hr, hi, hm, if_true]
          simp
        · have hm : is_mnemonic w = false := by
            rw [← Bool.not_eq_true]
            exact fun h => hM ((opcode_is_mnemonic w).mpr h)
          simp only [classify_token, lexeme_kind, lexeme_value, if_neg hl, if_neg hA, if_neg hB,
            if_neg hM, hr, hi, hm]
          by_cases hlen : w.length = 1
          · simp only [if_pos hlen]
            split_ifs <;> simp_all
          · have hp : w ≠ ['['] ∧ w ≠ [']'] ∧ w ≠ [','] := by
              refine ⟨?_, ?_, ?_⟩ <;> (intro e; rw [e] at hlen; exact hlen rfl)
            simp [if_neg hlen, hp.1, hp.2.1, hp.2.2]

/-- C33. Every lexeme gets the type of the first matching rule, in this
order: ending in `:` gives Label (stored without the colon); `R` followed
only by one or more decimal digits gives Register; a first character that is
a decimal digit, or `-` and a digit, or `0x` at the start gives Immediate;
one of the lowercase mnemonics gives Instruction; a single `[`, `]` or `,`
gives LBracket, RBracket or Comma; everything else, such as `ADD`, `R1a` and
`end`, gives Identifier. The tokens of a line have these types, lexeme by
lexeme. -/
theorem lexeme_classification (w : List Char) (line : List Char) (ln : Nat) :
    classify_token w = (lexeme_kind w, lexeme_value w)
    ∧ (tokenize_line line ln).tokens.map (fun t => (t.type, t.value))
        = ((lexemes line).take MAX_TOKENS).map
            (fun w => (lexeme_kind w, (lexeme_value w).take (MAX_TOKEN_LENGTH - 1)))
    ∧ (lexeme_kind "ADD".toList = TOKEN_IDENTIFIER ∧ lexeme_kind "R1a".toList = TOKEN_IDENTIFIER
        ∧ lexeme_kind "end".toList = TOKEN_IDENTIFIER ∧ lexeme_kind "R12".toList = TOKEN_REGISTER
        ∧ lexeme_kind "R1:".toList = TOKEN_LABEL ∧ lexeme_kind "-5".toList = TOKEN_IMMEDIATE
        ∧ lexeme_kind "0x1F".toList = TOKEN_IMMEDIATE ∧ lexeme_kind "add".toList = TOKEN_INSTRUCTION
        ∧ lexeme_kind "-".toList = TOKEN_IDENTIFIER)
    ∧ (tokenize_line "loop: ADD R1a end R12 -5 0x1F add [ , ]".toList 1).tokens.map
          (fun t => (t.type, String.mk t.value))
        = [(TOKEN_LABEL, "loop"), (TOKEN_IDENTIFIER, "ADD"), (TOKEN_IDENTIFIER, "R1a"),
            (TOKEN_IDENTIFIER, "end"), (TOKEN_REGISTER, "R12"), (TOKEN_IMMEDIATE, "-5"),
            (TOKEN_IMMEDIATE, "0x1F"), (TOKEN_INSTRUCTION, "add"), (TOKEN_LBRACKET, "["),
            (TOKEN_COMMA, ","), (TOKEN_RBRACKET, "]")] := by
  refine ⟨classify_token_kind w, ?_, by decide, by decide!⟩
  rw [tokenize_line_lexemes, make_tokens_map]
  apply List.map_congr_left
  intro x _
  rw [classify_token_kind]

/-! ## Lemmas: punctuation and `strtok` -/

theorem separate_punctuation_punct (prev : Option Char) (c : Char) (rest : List Char)
    (h : is_punctuation c = true) :
    separate_punctuation prev (c :: rest)
      = space_before prev ++ c :: (space_after rest ++ separate_punctuation (some c) rest) := by
  cases prev <;> cases rest <;> simp [separate_punctuation, h, space_before, space_after]

theorem strtok_delimiter (d : Char) (text cur : List Char) (h : is_delimiter d = true) :
    strtok_all (d :: text) cur = flush cur ++ strtok_all text [] := by
  simp only [strtok_all, h, if_true, flush]
  split_ifs <;> rfl

theorem strtok_character (c : Char) (text cur : List Char) (h : is_delimiter c = false) :
    strtok_all (c :: text) cur = strtok_all text (c :: cur) := by
  simp [strtok_all, h]

theorem space_delimiter (c : Char) (h : is_space_or_tab c = true) : is_delimiter c = true := by
  by_contra hc
  have := not_space_of_not_delimiter c (by simpa using hc)
  rw [this] at h
  cases h

theorem punctuation_facts (c : Char) (h : is_punctuation c = true) :
    is_delimiter c = false ∧ is_space_or_tab c = false := by
  simp only [is_punctuation, Bool.or_eq_true, beq_iff_eq] at h
  rcases h with (h | h) | h <;> subst h <;> exact ⟨by decide, by decide⟩

theorem space_not_punctuation (c : Char) (h : is_space_or_tab c = true) :
    is_punctuation c = false := by
  simp only [is_space_or_tab, Bool.or_eq_true, beq_iff_eq] at h
  rcases h with h | h <;> subst h <;> decide

theorem strtok_space_before (prev : Option Char) (text cur : List Char)
    (h : space_before prev = [] → cur = []) :
    strtok_all (space_before prev ++ text) cur = flush cur ++ strtok_all text [] := by
  by_cases he : space_before prev = []
  · rw [he, h he]; rfl
  · have : space_before prev = [' '] := by
      unfold space_before at he ⊢
      split at he
      · split_ifs at he ⊢ with hp
        · rfl
        · exact absurd rfl he
      · exact absurd rfl he
    rw [this]
    exact strtok_delimiter ' ' text cur (by decide)

/-- The lexemes of the processed buffer are the lexemes of the text with a
space on both sides of every punctuation character. -/
theorem strtok_separate :
    ∀ (text : List Char) (prev : Option Char) (cur : List Char),
      (∀ p, prev = some p → is_space_or_tab p = true → cur = []) → (prev = none → cur = []) →
      strtok_all (separate_punctuation prev text) cur = strtok_all (spaced text) cur := by
  intro text
  induction text with
  | nil => intro prev cur _ _; rfl
  | cons c rest ih =>
    intro prev cur h1 h2
    by_cases hc : is_punctuation c = true
    · obtain ⟨hd, hs⟩ := punctuation_facts c hc
      have hbefore : space_before prev = [] → cur = [] := by
        intro he
        cases prev with
        | none => exact h2 rfl
        | some p =>
          apply h1 p rfl
          by_contra hp
          simp [space_before, hp] at he
      have hih := ih (some c) [c] (fun p hp hsp => by
        cases hp
        rw [hs] at hsp
        cases hsp) (fun h => by cases h)
      have hih0 := ih (some c) [] (fun _ _ _ => rfl) (fun _ => rfl)
      have hleft : strtok_all (space_after rest ++ separate_punctuation (some c) rest) [c]
          = [c] :: strtok_all (spaced rest) [] := by
        cases rest with
        | nil => rfl
        | cons n r =>
          by_cases hn : is_space_or_tab n = true
          · have e : space_after (n :: r) = [] := by simp [space_after, hn]
            rw [e, List.nil_append, hih]
            have hnp := space_not_punctuation n hn
            have hsp : spaced (n :: r) = n :: spaced r := by simp [spaced, hnp]
            rw [hsp, strtok_delimiter n _ _ (space_delimiter n hn),
              strtok_delimiter n _ _ (space_delimiter n hn)]
            rfl
          · have e : space_after (n :: r) = [' '] := by simp [space_after, hn]
            rw [e, List.singleton_append, strtok_delimiter ' ' _ _ (by decide), hih0]
            rfl
      have hsp : spaced (c :: rest) = ' ' :: c :: ' ' :: spaced rest := by simp [spaced, hc]
      rw [separate_punctuation_punct prev c rest hc, strtok_space_before prev _ cur hbefore,
        strtok_character c _ _ hd, hleft, hsp, strtok_delimiter ' ' _ _ (by decide),
        strtok_character c _ _ hd, strtok_delimiter ' ' _ _ (by decide)]
      rfl
    · have hc' : is_punctuation c = false := by simpa using hc
      have hsp : spaced (c :: rest) = c :: spaced rest := by simp [spaced, hc']
      rw [separate_punctuation_cons prev c rest hc', hsp]
      by_cases hd : is_delimiter c = true
      · rw [strtok_delimiter c _ _ hd, strtok_delimiter c _ _ hd,
          ih (some c) [] (fun _ _ _ => rfl) (fun _ => rfl)]
      · have hd' : is_delimiter c = false := by simpa using hd
        rw [strtok_character c _ _ hd', strtok_character c _ _ hd']
        apply ih
        · intro p hp hsp
          cases hp
          rw [space_delimiter c hsp] at hd'
          cases hd'
        · intro h; cases h

theorem spaced_append (a b : List Char) : spaced (a ++ b) = spaced a ++ spaced b := by
  induction a with
  | nil => rfl
  | cons c r ih =>
    by_cases hc : is_punctuation c = true
    · simp [spaced, hc, ih]
    · simp [spaced, hc, ih]

theorem strtok_append (d : Char) (hd : is_delimiter d = true) :
    ∀ (a b cur : List Char),
      strtok_all (a ++ d :: b) cur = strtok_all a cur ++ strtok_all b [] := by
  intro a
  induction a with
  | nil =>
    intro b cur
    rw [List.nil_append, strtok_delimiter d b cur hd]
    rfl
  | cons c r ih =>
    intro b cur
    by_cases hc : is_delimiter c = true
    · rw [List.cons_append, strtok_delimiter c _ _ hc, strtok_delimiter c _ _ hc, ih,
        List.append_assoc]
    · have hc' : is_delimiter c = false := by simpa using hc
      rw [List.cons_append, strtok_character c _ _ hc', strtok_character c _ _ hc', ih]

/-- A punctuation character is a lexeme of its own between the lexemes of the
text before it and those of the text after it. -/
theorem strtok_punctuation (a b : List Char) (c : Char) (hc : is_punctuation c = true) :
    strtok_all (spaced (a ++ c :: b)) []
      = strtok_all (spaced a) [] ++ [c] :: strtok_all (spaced b) [] := by
  obtain ⟨hd, -⟩ := punctuation_facts c hc
  have hsp : spaced (c :: b) = ' ' :: c :: ' ' :: spaced b := by simp [spaced, hc]
  rw [spaced_append, hsp, strtok_append ' ' (by decide), strtok_character c _ _ hd,
    strtok_delimiter ' ' _ _ (by decide)]
  rfl

/-- C34. Every `[`, `]` and `,` of the text that `tokenize_line` reads (the
first 255 characters up to the first `;`) is a lexeme of its own, whatever
stands next to it: the lexemes of the line are those of the text with a space
on both sides of every such character; around each of them stand the lexemes
of the text before it and of the text after it; and the lexeme is classified
as LBracket, RBracket or Comma. So `[R1,R2]` gives the five tokens `[`, `R1`,
`,`, `R2`, `]`, as `[ R1 , R2 ]` does. -/
theorem punctuation_tokens (line : List Char) (ln : Nat) :
    lexemes line = strtok_all (spaced (code_part line)) []
    ∧ (tokenize_line line ln).tokens
        = make_tokens ln (strtok_all (spaced (code_part line)) []) MAX_TOKENS 0
    ∧ (∀ (a b : List Char) (c : Char), is_punctuation c = true → code_part line = a ++ c :: b →
        lexemes line
          = strtok_all (separate_punctuation none a) [] ++ [c]
              :: strtok_all (separate_punctuation none b) [])
    ∧ (classify_token ['['] = (TOKEN_LBRACKET, ['['])
        ∧ classify_token [']'] = (TOKEN_RBRACKET, [']'])
        ∧ classify_token [','] = (TOKEN_COMMA, [',']))
    ∧ (tokenize_line "[R1,R2]".toList 1).tokens.map (fun t => (t.type, String.mk t.value))
        = [(TOKEN_LBRACKET, "["), (TOKEN_REGISTER, "R1"), (TOKEN_COMMA, ","),
            (TOKEN_REGISTER, "R2"), (TOKEN_RBRACKET, "]")]
    ∧ tokenize_line "[R1,R2]".toList 1 = tokenize_line "[ R1 , R2 ]".toList 1
    ∧ tokenize_line "st R0,[R1,R2]".toList 1 = tokenize_line "st R0 , [ R1 , R2 ]".toList 1 := by
  have h0 : ∀ text, strtok_all (separate_punctuation none text) []
      = strtok_all (spaced text) [] :=
    fun text => strtok_separate text none [] (fun _ _ _ => rfl) (fun _ => rfl)
  have h1 : lexemes line = strtok_all (spaced (code_part line)) [] := h0 _
  refine ⟨h1, ?_, ?_, ⟨by decide, by decide, by decide⟩, by decide!, by decide!, by decide!⟩
  · rw [tokenize_line_lexemes, h1]
  · intro a b c hc hsplit
    rw [h1, hsplit, strtok_punctuation a b c hc, h0 a, h0 b]

/-! ## Lemmas: register numbers that reach the encoder -/

theorem zero_in_range : Operand.zero.in_range := ⟨by decide, by decide⟩

theorem parse_register_in_range (token : Token) (operand : Operand) (h : operand.in_range) :
    (parse_register token operand).2.in_range := by
  simp only [parse_register]
  split_ifs with h1 h2 h3
  · exact h
  · exact h
  · exact h
  · refine ⟨?_, h.2⟩
    show (strtol (token.value.drop 1) 10).1.toNat < 16
    omega

theorem parse_immediate_in_range (token : Token) (operand : Operand) (h : operand.in_range) :
    (parse_immediate token operand).2.in_range := by
  simp only [parse_immediate]
  split_ifs
  all_goals first
    | exact h
    | exact ⟨h.1, by
        show (_ % 65536 : Int).toNat < 65536
        omega⟩

theorem register_pair_in_range (t1 t2 : Token) (j n : Nat) (operand : Operand)
    (h : operand.in_range) : (register_pair t1 t2 j n operand).2.2.in_range := by
  have h1 := (parse_register_in_range t1 Operand.zero zero_in_range).1
  have h2 := (parse_register_in_range t2 Operand.zero zero_in_range).1
  simp only [register_pair]
  split_ifs
  · exact h
  · exact h
  · exact ⟨h1, by show (parse_register t2 Operand.zero).2.reg_num < 65536; omega⟩

theorem parse_memory_access_in_range (tokens : TokenizationResult) (idx : Nat)
    (operand : Operand) (h : operand.in_range) :
    (parse_memory_access tokens idx operand).2.2.in_range := by
  have hp := fun t1 t2 n => register_pair_in_range t1 t2 idx n operand h
  simp only [parse_memory_access, memory_access_pair]
  split_ifs
  · exact hp _ _ _
  · exact hp _ _ _
  · split
    · exact h
    · split
      · exact h
      · split
        · exact h
        · exact hp _ _ _
  · exact h

theorem parse_operand_in_range (tokens : TokenizationResult) (idx : Nat)
    (operand : Operand) (h : operand.in_range) :
    (parse_operand tokens idx operand).2.2.in_range := by
  have hm := parse_memory_access_in_range tokens idx Operand.zero zero_in_range
  have hr := parse_register_in_range (tokens.at idx) Operand.zero zero_in_range
  have hi := parse_immediate_in_range (tokens.at idx) _ hr
  simp only [parse_operand]
  split_ifs <;> first | exact h | exact hm | exact hr | exact hi

theorem operand_in_range (instr : Instruction) (i : Nat)
    (h : ∀ o ∈ instr.operands, o.in_range) : (instr.operand i).in_range := by
  simp only [Instruction.operand, List.getD_eq_getElem?_getD]
  by_cases hi : i < instr.operands.length
  · rw [List.getElem?_eq_getElem hi]
    exact h _ (List.getElem_mem hi)
  · rw [List.getElem?_eq_none (by omega)]
    exact zero_in_range

theorem set_operand_in_range (instr : Instruction) (i : Nat) (operand : Operand)
    (h : ∀ o ∈ instr.operands, o.in_range) (ho : operand.in_range) :
    ∀ o ∈ (set_operand instr i operand).operands, o.in_range := by
  intro o hm
  simp only [set_operand, List.mem_append, List.mem_singleton] at hm
  rcases hm with hm | rfl
  · exact h o (List.mem_of_mem_take hm)
  · exact ho

theorem operand_step_fields (tokens : TokenizationResult) (format max_operands i j : Nat)
    (instr : Instruction) (h : ∀ o ∈ instr.operands, o.in_range) :
    (operand_step tokens format max_operands i j instr).2.2.opcode = instr.opcode
    ∧ (operand_step tokens format max_operands i j instr).2.2.format = instr.format
    ∧ ∀ o ∈ (operand_step tokens format max_operands i j instr).2.2.operands, o.in_range := by
  have hz := set_operand_in_range instr i Operand.zero h zero_in_range
  have him := set_operand_in_range (set_operand instr i Operand.zero) i _ hz
    (parse_immediate_in_range (tokens.at j)
      ((set_operand instr i Operand.zero).operand i) (operand_in_range _ i hz))
  have hop := set_operand_in_range instr i _ h
    (parse_operand_in_range tokens j (instr.operand i) (operand_in_range _ i h))
  simp only [operand_step]
  split_ifs
  all_goals first
    | exact ⟨rfl, rfl, hz⟩
    | exact ⟨rfl, rfl, him⟩
    | exact ⟨rfl, rfl, hop⟩

theorem parse_operands_fields (tokens : TokenizationResult) (opcode format max_operands : Nat) :
    ∀ (todo i j : Nat) (instr : Instruction), (∀ o ∈ instr.operands, o.in_range) →
      (parse_operands tokens opcode format max_operands todo i j instr).2.2.opcode
          = instr.opcode
      ∧ (parse_operands tokens opcode format max_operands todo i j instr).2.2.format
          = instr.format
      ∧ ∀ o ∈ (parse_operands tokens opcode format max_operands todo i j instr).2.2.operands,
          o.in_range := by
  intro todo
  induction todo with
  | zero => intro i j instr h; exact ⟨rfl, rfl, h⟩
  | succ todo ih =>
    intro i j instr h
    obtain ⟨s1, s2, s3⟩ := operand_step_fields tokens format max_operands i j instr h
    rw [parse_operands_succ]
    split_ifs
    · exact ⟨s1, s2, s3⟩
    · exact ⟨s1, s2, s3⟩
    · obtain ⟨t1, t2, t3⟩ := ih (i + 1)
        (operand_step tokens format max_operands i j instr).2.1
        { (operand_step tokens format max_operands i j instr).2.2 with
          operand_count :=
            (operand_step tokens format max_operands i j instr).2.2.operand_count + 1 } s3
      exact ⟨t1.trans s1, t2.trans s2, t3⟩

theorem opcode_le (w : List Char) (h : get_opcode_from_mnemonic w ≠ 0xFF) :
    get_opcode_from_mnemonic w ≤ 0x0F := by
  have hall : ∀ p ∈ mnemonics, p.2 ≤ 0x0F := by decide
  simp only [get_opcode_from_mnemonic] at h ⊢
  cases hf : mnemonics.find? (fun p => p.1 == w) with
  | none => rw [hf] at h; exact absurd rfl h
  | some p => exact hall p (List.mem_of_find?_eq_some hf)

/-- The instruction that an accepted line appends is encodable. -/
theorem parse_instruction_encodable (result : ParseResult) (tokens : TokenizationResult)
    (token_idx addr : Nat) (h : ∀ i ∈ result.instructions, i.encodable) :
    ∀ i ∈ (parse_instruction result tokens token_idx addr).2.1.instructions, i.encodable := by
  simp only [parse_instruction]
  split_ifs with c1 c2 c3 c4 c5 c6
  all_goals first
    | exact h
    | skip
  intro i hi
  simp only [List.mem_append, List.mem_singleton] at hi
  rcases hi with hi | rfl
  · exact h i hi
  · obtain ⟨t1, t2, t3⟩ := parse_operands_fields tokens
      (get_opcode_from_mnemonic (tokens.at token_idx).value)
      (get_format_from_opcode (get_opcode_from_mnemonic (tokens.at token_idx).value))
      (max_operands_of (get_opcode_from_mnemonic (tokens.at token_idx).value)
        (get_format_from_opcode (get_opcode_from_mnemonic (tokens.at token_idx).value)))
      (max_operands_of (get_opcode_from_mnemonic (tokens.at token_idx).value)
        (get_format_from_opcode (get_opcode_from_mnemonic (tokens.at token_idx).value)))
      0 (token_idx + 1)
      ⟨get_opcode_from_mnemonic (tokens.at token_idx).value,
        get_format_from_opcode (get_opcode_from_mnemonic (tokens.at token_idx).value), [],
        addr, 0, 0⟩ (by intro o ho; simp at ho)
    refine ⟨?_, ?_, t3⟩
    · rw [t1]; exact opcode_le _ c4
    · rw [t1, t2]

theorem second_pass_encodable (lines : List (List Char)) :
    ∀ (ln : Nat) (r : ParseResult) (a : Nat), (∀ i ∈ r.instructions, i.encodable) →
      ∀ i ∈ (second_pass lines ln r a).2.instructions, i.encodable := by
  induction lines with
  | nil => intro ln r a h; exact h
  | cons l ls ih =>
    intro ln r a h
    simp only [second_pass]
    split_ifs
    · exact ih _ _ _ h
    · exact parse_instruction_encodable _ _ _ _ h
    · exact ih _ _ _ (parse_instruction_encodable _ _ _ _ h)
    · exact ih _ _ _ h

theorem generate_all_encodable (r : ParseResult) (h : ∀ i ∈ r.instructions, i.encodable) :
    ∀ i ∈ (generate_machine_code_for_all r).instructions, i.encodable := by
  intro i hi
  simp only [generate_machine_code_for_all, List.mem_map] at hi
  obtain ⟨j, hj, rfl⟩ := hi
  exact h j hj

theorem parse_file_encodable (file : List (List Char)) :
    ∀ i ∈ (parse_file file).instructions, i.encodable := by
  have h1 : ∀ i ∈ (first_pass file 0 ParseResult.zero 0).2.1.instructions, i.encodable := by
    rw [first_pass_instructions]
    intro i hi
    simp [ParseResult.zero] at hi
  have h2 := second_pass_encodable file 0 _ 0 h1
  simp only [parse_file, parse_file_diag]
  split_ifs
  · exact h1
  · exact h2
  · exact generate_all_encodable _ h2

theorem format_of_opcode (o : Nat) (h : o ≤ 0x0F) :
    (get_format_from_opcode o = FORMAT_F1 ∧ o ≤ OPC_LD)
    ∨ (get_format_from_opcode o = FORMAT_F2 ∧ o = OPC_SET_CONST)
    ∨ (get_format_from_opcode o = FORMAT_F3 ∧ o = OPC_ST)
    ∨ (get_format_from_opcode o = FORMAT_F4 ∧ (o = OPC_BNZ ∨ o = OPC_READY)) := by
  interval_cases o <;> decide

theorem word_of_opcode (o : Nat) (h : o < 256) :
    (o <<< 24) % 4294967296 = word_of_bytes o 0 0 0 := by
  rw [opcode_shift o h, Nat.shiftLeft_eq, word_of_bytes]
  norm_num

theorem high_byte_lt (k : Nat) (h : k < 65536) : k >>> 8 < 256 := by
  rw [Nat.shiftRight_eq_div_pow]; norm_num; omega

theorem low_byte_lt (k : Nat) : k &&& 0xFF < 256 := by
  rw [and_255]; omega

/-- The machine word of an encodable instruction: its opcode byte and three
bytes, those that hold registers being less than 16. -/
theorem generate_machine_code_word (instr : Instruction) (labels : ParseResult)
    (he : instr.encodable) (hl : ∀ l ∈ labels.labels, l.address < 65536) :
    ∃ a b c, a < 256 ∧ b < 256 ∧ c < 256
      ∧ generate_machine_code instr labels = word_of_bytes instr.opcode a b c
      ∧ ((instr.format = FORMAT_F1 ∨ instr.format = FORMAT_F3) → a < 16 ∧ b < 16 ∧ c < 16)
      ∧ (instr.format = FORMAT_F2 → c < 16) ∧ (instr.format = FORMAT_F4 → a < 16) := by
  obtain ⟨ho, hf, hr⟩ := he
  have ho' : instr.opcode < 256 := by omega
  have r0 := operand_in_range instr 0 hr
  have r1 := operand_in_range instr 1 hr
  have r2 := operand_in_range instr 2 hr
  have hnone : ∃ a b c, a < 256 ∧ b < 256 ∧ c < 256
      ∧ (instr.opcode <<< 24) % 4294967296 = word_of_bytes instr.opcode a b c
      ∧ ((instr.format = FORMAT_F1 ∨ instr.format = FORMAT_F3) → a < 16 ∧ b < 16 ∧ c < 16)
      ∧ (instr.format = FORMAT_F2 → c < 16) ∧ (instr.format = FORMAT_F4 → a < 16) :=
    ⟨0, 0, 0, by decide, by decide, by decide, word_of_opcode _ ho',
      fun _ => ⟨by decide, by decide, by decide⟩, fun _ => by decide, fun _ => by decide⟩
  have hpack := fun a b c (ha : a < 256) (hb : b < 256) (hc : c < 256) => by
    have := pack_word instr.opcode a b c ha hb hc
    rw [← opcode_shift instr.opcode ho'] at this
    exact this
  simp only [generate_machine_code]
  split_ifs with h1 h2 h3 h4 h5 h6 h7
  · have c1 : (instr.operand 0).reg_num < 256 := Nat.lt_trans r0.1 (by decide)
    have c2 : (instr.operand 1).reg_num < 256 := Nat.lt_trans r1.1 (by decide)
    have c3 : (instr.operand 2).reg_num < 256 := Nat.lt_trans r2.1 (by decide)
    exact ⟨_, _, _, c1, c2, c3, hpack _ _ _ c1 c2 c3, fun _ => ⟨r0.1, r1.1, r2.1⟩,
      fun _ => r2.1, fun _ => r0.1⟩
  · exact hnone
  · have c1 := high_byte_lt _ r0.2
    have c2 := low_byte_lt (instr.operand 0).immediate
    have c3 : (instr.operand 1).reg_num < 256 := Nat.lt_trans r1.1 (by decide)
    exact ⟨_, _, _, c1, c2, c3, hpack _ _ _ c1 c2 c3, fun h => absurd h h1, fun _ => r1.1,
      fun h => by rw [h3] at h; cases h⟩
  · exact hnone
  · have ht := get_label_address_lt labels (instr.operand 0).label hl
    have c1 := high_byte_lt _ ht
    have c2 := low_byte_lt (get_label_address labels (instr.operand 0).label)
    have c3 : (instr.operand 1).reg_num < 256 := Nat.lt_trans r1.1 (by decide)
    exact ⟨_, _, _, c3, c1, c2, hpack _ _ _ c3 c1 c2, fun h => absurd h h1,
      fun h => absurd h h3, fun _ => r1.1⟩
  · have c1 := high_byte_lt _ r0.2
    have c2 := low_byte_lt (instr.operand 0).immediate
    have c3 : (instr.operand 1).reg_num < 256 := Nat.lt_trans r1.1 (by decide)
    exact ⟨_, _, _, c3, c1, c2, hpack _ _ _ c3 c1 c2, fun h => absurd h h1,
      fun h => absurd h h3, fun _ => r1.1⟩
  · exact hnone
  · exfalso
    rcases format_of_opcode instr.opcode ho with h | h | h | h
    · exact h1 (Or.inl (hf.trans h.1))
    · exact h3 (hf.trans h.1)
    · exact h1 (Or.inr (hf.trans h.1))
    · exact h5 (hf.trans h.1)

theorem register_bytes_word (format o a b c : Nat) (ho : o < 256) (ha : a < 256) (hb : b < 256)
    (hc : c < 256) :
    register_bytes format (word_of_bytes o a b c)
      = if format = FORMAT_F1 ∨ format = FORMAT_F3 then [a, b, c]
        else if format = FORMAT_F2 then [c]
        else if format = FORMAT_F4 then [a]
        else [] := by
  have h := word_bytes_sum o a b c ho ha hb hc
  simp only [word_bytes, List.cons.injEq, and_true] at h
  obtain ⟨-, h2, h3, h4⟩ := h
  simp only [register_bytes, word_of_bytes, h2, h3, h4]

/-- C36. For every source, every operand of every instruction in the result
of `parse_file` has a register number in 0..15, and every byte of the machine
word that `generate_machine_code` fills with a register number (all three
operand bytes in formats F1 and F3, the last in F2, the first in F4) is less
than 16, for the label table of the file and for any other. -/
theorem register_numbers_in_range (file : List (List Char)) :
    ∀ instr ∈ (parse_file file).instructions,
      (∀ o ∈ instr.operands, o.reg_num < 16)
      ∧ (∀ b ∈ register_bytes instr.format (generate_machine_code instr (parse_file file)),
          b < 16)
      ∧ ∀ labels : ParseResult, (∀ l ∈ labels.labels, l.address < 65536) →
          ∀ b ∈ register_bytes instr.format (generate_machine_code instr labels), b < 16 := by
  intro instr hi
  have he := parse_file_encodable file instr hi
  have hbytes : ∀ labels : ParseResult, (∀ l ∈ labels.labels, l.address < 65536) →
      ∀ b ∈ register_bytes instr.format (generate_machine_code instr labels), b < 16 := by
    intro labels hl b hb
    obtain ⟨x, y, z, hx, hy, hz, hw, h13, h2, h4⟩ := generate_machine_code_word instr labels he hl
    rw [hw, register_bytes_word _ _ _ _ _ (by have := he.1; omega) hx hy hz] at hb
    split_ifs at hb with c1 c2 c3
    · obtain ⟨g1, g2, g3⟩ := h13 c1
      simp only [List.mem_cons, List.mem_singleton, List.not_mem_nil, or_false] at hb
      rcases hb with rfl | rfl | rfl <;> assumption
    · simp only [List.mem_singleton] at hb
      rw [hb]; exact h2 c2
    · simp only [List.mem_singleton] at hb
      rw [hb]; exact h4 c3
    · cases hb
  exact ⟨fun o ho => (he.2.2 o ho).1, hbytes _ (parse_file_typed file).2, hbytes⟩

theorem register_numbers_in_range_witness :
    (⟨OPC_LD, FORMAT_F1, [register_operand 1, register_operand 2, register_operand 15], 0,
        0x0B01020F, 3⟩ : Instruction) ∈ (parse_file ["ld R1, R2, R15".toList]).instructions
    ∧ ∀ o ∈ [register_operand 1, register_operand 2, register_operand 15], o.reg_num < 16 :=
  ⟨by decide,
    (register_numbers_in_range ["ld R1, R2, R15".toList]
      ⟨OPC_LD, FORMAT_F1, [register_operand 1, register_operand 2, register_operand 15], 0,
        0x0B01020F, 3⟩ (by decide)).1⟩

theorem well_formed_code_ite (c : Prop) [Decidable c] (x y : Nat × CPU)
    (hx : c → well_formed_code x) (hy : ¬ c → well_formed_code y) :
    well_formed_code (if c then x else y) := by
  by_cases h : c
  · rw [if_pos h]; exact hx h
  · rw [if_neg h]; exact hy h

theorem well_formed_code_pair (code : Nat) (cpu : CPU)
    (h1 : code ≠ EMULATOR_INVALID_INSTRUCTION) (h2 : code ≠ EMULATOR_INVALID_REGISTER) :
    well_formed_code (code, cpu) := ⟨h1, h2⟩

theorem execute_opcode_well_formed (host : Host) (cpu : CPU) (opcode a b c : Nat)
    (ho : opcode ≤ 0x0F) : well_formed_code (execute_opcode host cpu opcode a b c) := by
  unfold execute_opcode
  repeat' refine well_formed_code_ite _ _ _ (fun _ => ?_) (fun _ => ?_)
  all_goals first
    | exact well_formed_code_pair _ _ (by decide) (by decide)
    | (exfalso
       simp only [OPC_NOP, OPC_ADD, OPC_SUB, OPC_MUL, OPC_DIV, OPC_CMPGE, OPC_RSHFT, OPC_LSHFT,
         OPC_AND, OPC_OR, OPC_XOR, OPC_LD, OPC_SET_CONST, OPC_ST, OPC_BNZ, OPC_READY] at *
       omega)

/-- A word whose opcode is in the table and whose register bytes are less
than 16 passes the checks of the executor. -/
theorem decode_well_formed (host : Host) (cpu : CPU) (o a b c : Nat) (ho : o ≤ 0x0F)
    (ha : a < 256) (hb : b < 256) (hc : c < 256)
    (h1 : o ≤ OPC_LD ∨ o = OPC_ST → a < 16 ∧ b < 16 ∧ c < 16) (h4 : o = OPC_BNZ → a < 16) :
    well_formed_code (emulator_decode_instruction host cpu (word_of_bytes o a b c)) := by
  rw [decode_word_of_bytes host cpu o a b c (by omega) ha hb hc]
  simp only [NUM_REGISTERS, OPC_LD, OPC_ST, OPC_BNZ, OPC_XOR, OPC_SET_CONST, OPC_READY] at h1 h4 ⊢
  have e1 : ¬ (a ≥ 16 ∧ o ≠ 12 ∧ o ≠ 15) := by
    rintro ⟨g1, g2, g3⟩
    by_cases g : o = 14
    · have := h4 g; omega
    · have := h1 (by omega); omega
  have e2 : ¬ ((o ≤ 11 ∨ o = 13) ∧ b ≥ 16) := by
    rintro ⟨g1, g2⟩
    have := h1 g1; omega
  have e3 : ¬ (o ≤ 10 ∧ c ≥ 16) := by
    rintro ⟨g1, g2⟩
    have := h1 (Or.inl (by omega)); omega
  have e4 : ¬ (o = 14 ∧ a ≥ 16) := by
    rintro ⟨g1, g2⟩
    have := h4 g1; omega
  have e5 : ¬ (o = 13 ∧ c ≥ 16) := by
    rintro ⟨g1, g2⟩
    have := h1 (Or.inr g1); omega
  rw [if_neg e1, if_neg e2, if_neg e3, if_neg e4, if_neg e5]
  exact execute_opcode_well_formed host cpu o a b c ho

theorem parse_instruction_appended (result : ParseResult) (tokens : TokenizationResult)
    (token_idx addr : Nat)
    (h : (parse_instruction result tokens token_idx addr).1 = PARSER_SUCCESS) :
    ∃ instr : Instruction, instr.encodable
      ∧ (parse_instruction result tokens token_idx addr).2.1
        = { result with instructions := result.instructions ++ [instr] } := by
  obtain ⟨h1, h2, h3, h4, h5⟩ := parse_instruction_accepts result tokens token_idx addr h
  have e := parse_instruction_operands result tokens token_idx addr _ _ h1 h2 h3 rfl h4 rfl h5
  obtain ⟨t1, t2, t3⟩ := parse_operands_fields tokens
    (get_opcode_from_mnemonic (tokens.at token_idx).value)
    (get_format_from_opcode (get_opcode_from_mnemonic (tokens.at token_idx).value))
    (max_operands_of (get_opcode_from_mnemonic (tokens.at token_idx).value)
      (get_format_from_opcode (get_opcode_from_mnemonic (tokens.at token_idx).value)))
    (max_operands_of (get_opcode_from_mnemonic (tokens.at token_idx).value)
      (get_format_from_opcode (get_opcode_from_mnemonic (tokens.at token_idx).value)))
    0 (token_idx + 1)
    ⟨get_opcode_from_mnemonic (tokens.at token_idx).value,
      get_format_from_opcode (get_opcode_from_mnemonic (tokens.at token_idx).value), [],
      addr, 0, 0⟩ (by intro o ho; simp at ho)
  rw [e] at h ⊢
  split_ifs at h ⊢ with c
  · exact absurd h c
  · refine ⟨_, ⟨?_, ?_, t3⟩, rfl⟩
    · rw [t1]; exact opcode_le _ h4
    · rw [t1, t2]

/-- C38. Every word that the assembler can emit is well-formed for the
executor. When `parse_instruction` accepts a token line it appends one
instruction; for every label table (with 16-bit addresses) the word that
`generate_machine_code` makes of it has an opcode byte of at most `0x0F`,
and in every CPU state `emulator_decode_instruction` on that word returns
neither InvalidInstruction nor InvalidRegister. -/
theorem emitted_word_well_formed (host : Host) (cpu : CPU) (result labels : ParseResult)
    (tokens : TokenizationResult) (token_idx addr : Nat)
    (h : (parse_instruction result tokens token_idx addr).1 = PARSER_SUCCESS)
    (hl : ∀ l ∈ labels.labels, l.address < 65536) :
    (∃ instr : Instruction,
        (parse_instruction result tokens token_idx addr).2.1.instructions
          = result.instructions ++ [instr])
    ∧ ∀ instr : Instruction,
        (parse_instruction result tokens token_idx addr).2.1.instructions
          = result.instructions ++ [instr] →
        ((generate_machine_code instr labels) >>> 24) &&& 0xFF ≤ 0x0F
        ∧ generate_machine_code instr labels < 4294967296
        ∧ (emulator_decode_instruction host cpu (generate_machine_code instr labels)).1
            ≠ EMULATOR_INVALID_INSTRUCTION
        ∧ (emulator_decode_instruction host cpu (generate_machine_code instr labels)).1
            ≠ EMULATOR_INVALID_REGISTER := by
  obtain ⟨i0, he, hi0⟩ := parse_instruction_appended result tokens token_idx addr h
  have hinstr : (parse_instruction result tokens token_idx addr).2.1.instructions
      = result.instructions ++ [i0] := by rw [hi0]
  refine ⟨⟨i0, hinstr⟩, ?_⟩
  intro instr hq
  have heq : instr = i0 := by
    rw [hinstr] at hq
    have := List.append_cancel_left hq
    simpa using this.symm
  subst heq
  obtain ⟨x, y, z, hx, hy, hz, hw, h13, h2, h4⟩ := generate_machine_code_word instr labels he hl
  have ho := he.1
  have hbytes := word_bytes_sum instr.opcode x y z (by omega) hx hy hz
  simp only [word_bytes, List.cons.injEq, and_true] at hbytes
  have hfmt := format_of_opcode instr.opcode ho
  have hdec := decode_well_formed host cpu instr.opcode x y z ho hx hy hz
    (by
      intro g
      apply h13
      rw [he.2.1]
      rcases hfmt with f | f | f | f
      · exact Or.inl f.1
      · rcases g with g | g
        · rw [f.2] at g; exact absurd g (by decide)
        · rw [f.2] at g; exact absurd g (by decide)
      · exact Or.inr f.1
      · rcases f.2 with f2 | f2 <;> rcases g with g | g <;> rw [f2] at g <;>
          exact absurd g (by decide))
    (by
      intro g
      apply h4
      rw [he.2.1, g]
      rfl)
  rw [hw]
  refine ⟨?_, ?_, hdec.1, hdec.2⟩
  · rw [word_of_bytes, hbytes.1]; exact ho
  · rw [word_of_bytes]; omega

theorem emitted_word_well_formed_witness :
    ((parse_instruction ParseResult.zero (tokenize_line "bnz end, R1".toList 1) 0 0).1
        = PARSER_SUCCESS
      ∧ ∀ l ∈ (ParseResult.mk [] [⟨"end".toList, 0x1234⟩]).labels, l.address < 65536)
    ∧ ∃ instr : Instruction,
        (parse_instruction ParseResult.zero (tokenize_line "bnz end, R1".toList 1)
          0 0).2.1.instructions = ParseResult.zero.instructions ++ [instr] :=
  ⟨⟨by decide, by decide⟩,
    (emitted_word_well_formed masking_host (small_cpu 0 (List.replicate 16 0) [])
      ParseResult.zero ⟨[], [⟨"end".toList, 0x1234⟩]⟩
      (tokenize_line "bnz end, R1".toList 1) 0 0 (by decide) (by decide)).1⟩

end CPUEmu
